import Mathlib

/-!
# ThorVG software rasteriser: mask operators, channel packing and kernel dispatch

A shallow embedding of `src/renderer/sw_engine/tvgSwRaster.cpp`.

* `uint8_t` / `uint32_t` values are natural numbers; every place where the C code
  truncates (a `uint8_t` return value, a `uint32_t` product) is an explicit `% 2^w`.
* Pixel buffers are byte-addressed memories `Nat → Nat`; `buf8[i]` is the byte at `i`
  and `buf32[i]` the little-endian word at bytes `4*i .. 4*i+3`.
* A kernel returns its `bool` together with the surface it leaves behind.
* Going through a null pointer (a null compositor, blender or mask operator) is undefined in C;
  there the model answers false and leaves the surface as it is. The dispatchers reach the
  kernels with the pointers they use set.
* Helpers of headers that are not among the sources are either modelled from the spec (and
  marked so) or, where the spec leaves their arithmetic open, taken as the parameter
  `SwCommon`; fill evaluators are the parameter `FillMethod`, the functions of the fill module
  the parameter `SwFillOps`.
* `float` values are exact rationals. A scaled image kernel returns an `Option`, which is
  `none` when a sample has no value (the division by zero of the down-scaler).
-/

namespace SwRaster

/-! ## Machine integers -/

/-- Conversion of a C `int` value to `uint8_t`. -/
def u8 (n : Int) : Nat := (n % 256).toNat

/-- Conversion of a C integer value to `uint32_t`. -/
def u32 (n : Int) : Nat := (n % 4294967296).toNat

/-- Conversion of a C integer value to `int32_t` (two's complement). -/
def i32 (n : Int) : Int := (n + 2147483648) % 4294967296 - 2147483648

/-- The C expression `~x` for a `uint8_t` operand `x`, converted back to `uint8_t`:
the operand is promoted to `int`, complemented (`-x - 1`) and truncated. -/
def not8 (x : Nat) : Nat := u8 (-(x : Int) - 1)

/-- A counted `for (i = 0; i < n; ++i)` loop threading a state. -/
def forLoop {σ : Type} (n : Nat) (body : Nat → σ → σ) (s : σ) : σ :=
  match n with
  | 0 => s
  | k + 1 => body k (forLoop k body s)

/-! ## Pixel arithmetic (tvgSwCommon.h) -/

/-- Modelled from the spec: `MULTIPLY` of `tvgSwCommon.h`, which is not among the
sources. Multiply of two 8-bit channels, with the upstream rounding rule
`(c * a + 0xff) >> 8`, returned as `uint8_t`. -/
def MULTIPLY (c a : Nat) : Nat := ((c * a + 0xff) >>> 8) % 256

/-! ## Alpha extractors, luma and channel joins -/

/-- Memory seen through a `uint8_t*`: the byte found at each offset from the pointer. -/
abbrev BytePtr := Nat → Nat

/-- The read `*a` through a `uint8_t*`. -/
def deref8 (a : BytePtr) : Nat := a 0 % 256

/-- The read `*(uint32_t*)c` through a `uint8_t*` (little-endian). -/
def deref32 (c : BytePtr) : Nat :=
  c 0 % 256 + (c 1 % 256) * 256 + (c 2 % 256) * 65536 + (c 3 % 256) * 16777216

/-- The bytes of a 32-bit word laid out in memory (little-endian), as a pointer to it. -/
def wordPtr (v : Nat) : BytePtr := fun k => (v >>> (8 * k)) % 256

/-- An alpha extractor `uint8_t (*)(uint8_t*)`. -/
abbrev SwAlpha := BytePtr → Nat

/-- A channel join `uint32_t (*)(uint8_t r, uint8_t g, uint8_t b, uint8_t a)`. -/
abbrev SwJoin := Nat → Nat → Nat → Nat → Nat

/-- A mask operator `uint8_t (*)(uint8_t s, uint8_t d, uint8_t a)`. -/
abbrev SwMask := Nat → Nat → Nat → Nat

def _alpha (a : BytePtr) : Nat := deref8 a

def _ialpha (a : BytePtr) : Nat := not8 (deref8 a)

def _abgrLuma (c : BytePtr) : Nat :=
  let v := deref32 c
  ((((v &&& 0xff) * 54) + (((v >>> 8) &&& 0xff) * 182) + (((v >>> 16) &&& 0xff) * 19)) >>> 8) % 256

def _argbLuma (c : BytePtr) : Nat :=
  let v := deref32 c
  ((((v &&& 0xff) * 19) + (((v >>> 8) &&& 0xff) * 182) + (((v >>> 16) &&& 0xff) * 54)) >>> 8) % 256

def _abgrInvLuma (c : BytePtr) : Nat := not8 (_abgrLuma c)

def _argbInvLuma (c : BytePtr) : Nat := not8 (_argbLuma c)

def _abgrJoin (r g b a : Nat) : Nat := (a <<< 24 ||| b <<< 16 ||| g <<< 8 ||| r) % 4294967296

def _argbJoin (r g b a : Nat) : Nat := (a <<< 24 ||| r <<< 16 ||| g <<< 8 ||| b) % 4294967296

/-! ## Mask operators -/

/-- Modelled from the spec: the enumeration `MaskMethod` of the public header, which is
not among the sources; the order is the one the spec lists and the one
`rasterCompositor` relies on (`Alpha:1, InvAlpha:2, Luma:3, InvLuma:4`). -/
inductive MaskMethod where
  | None | Alpha | InvAlpha | Luma | InvLuma
  | Add | Subtract | Intersect | Difference | Lighten | Darken
  deriving DecidableEq, Repr

/-- The ordinal `(int)method`. -/
def MaskMethod.toInt : MaskMethod → Int
  | .None => 0 | .Alpha => 1 | .InvAlpha => 2 | .Luma => 3 | .InvLuma => 4
  | .Add => 5 | .Subtract => 6 | .Intersect => 7 | .Difference => 8
  | .Lighten => 9 | .Darken => 10

def _opMaskNone (s _d _a : Nat) : Nat := s

def _opMaskAdd (s d a : Nat) : Nat := (s + MULTIPLY d a) % 256

def _opMaskSubtract (s d _a : Nat) : Nat := MULTIPLY s (255 - d)

def _opMaskIntersect (s d _a : Nat) : Nat := MULTIPLY s d

def _opMaskDifference (s d a : Nat) : Nat := (MULTIPLY s (255 - d) + MULTIPLY d a) % 256

def _opMaskLighten (s d _a : Nat) : Nat := if s > d then s else d

def _opMaskDarken (s d _a : Nat) : Nat := if s < d then s else d

def _direct (method : MaskMethod) : Bool :=
  if method = .Subtract ∨ method = .Intersect ∨ method = .Darken then true else false

/-- The selected operator, `none` standing for `nullptr`. -/
def _getMaskOp (method : MaskMethod) : Option SwMask :=
  match method with
  | .Add => some _opMaskAdd
  | .Subtract => some _opMaskSubtract
  | .Difference => some _opMaskDifference
  | .Intersect => some _opMaskIntersect
  | .Lighten => some _opMaskLighten
  | .Darken => some _opMaskDarken
  | _ => none


/-! ## Memory -/

/-- A byte-addressed buffer: the byte stored at each address (taken modulo 256 when read). -/
abbrev Mem := Nat → Nat

/-- The pointer `buf8 + off` into a buffer. -/
def Mem.ptr (m : Mem) (off : Nat) : BytePtr := fun k => m (off + k)

/-- The read `buf8[i]`. -/
def Mem.read8 (m : Mem) (i : Nat) : Nat := deref8 (m.ptr i)

/-- The store `buf8[i] = v` of a value converted to `uint8_t`. -/
def Mem.write8 (m : Mem) (i v : Nat) : Mem := fun k => if k = i then v % 256 else m k

/-- The read `buf32[i]`. -/
def Mem.read32 (m : Mem) (i : Nat) : Nat := deref32 (m.ptr (4 * i))

/-- The store `buf32[i] = v` of a value converted to `uint32_t`. -/
def Mem.write32 (m : Mem) (i v : Nat) : Mem :=
  fun k => if k / 4 = i then (v >>> (8 * (k % 4))) % 256 else m k

/-! ## Data model -/

/-- Modelled from the spec: the enumeration `ColorSpace` of the public header, which is not
among the sources: the two supported 32-bit orderings, their straight-alpha variants, and the
colour spaces `rasterCompositor` does not support. -/
inductive ColorSpace where
  | ABGR8888 | ARGB8888 | ABGR8888S | ARGB8888S | Grayscale8 | Unknown
  deriving DecidableEq, Repr

structure Point where
  x : Int
  y : Int
  deriving DecidableEq, Repr

/-- Modelled from the spec: `RenderRegion` of `tvgRender.h`, which is not among the sources:
an integer bounding box `{min:(x,y), max:(x,y)}`, half-open, of `int32_t` coordinates, with
`w()` and `h()` the differences converted to `uint32_t`. -/
structure RenderRegion where
  min : Point
  max : Point
  deriving DecidableEq, Repr

def RenderRegion.w (r : RenderRegion) : Nat := u32 (r.max.x - r.min.x)

def RenderRegion.h (r : RenderRegion) : Nat := u32 (r.max.y - r.min.y)

/-- A colour `{r, g, b, a}` of `uint8_t` channels. -/
structure RenderColor where
  r : Nat
  g : Nat
  b : Nat
  a : Nat
  deriving DecidableEq, Repr

/-- Modelled from the spec: `SwSpan` of `tvgSwCommon.h`, which is not among the sources:
a run `{x, y, length, coverage ∈ [0,255]}`. -/
structure SwSpan where
  x : Nat
  y : Nat
  len : Nat
  coverage : Nat
  deriving DecidableEq, Repr

/-- Modelled from the spec: `span.fetch(bbox, out x, out len)` of `tvgSwCommon.h`, which
clips a single span to the columns of `bbox`, returning false if the clipped run is empty. -/
def SwSpan.fetch (span : SwSpan) (bbox : RenderRegion) : Bool × Int × Int :=
  let x := Max.max (span.x : Int) bbox.min.x
  let len := Min.min ((span.x : Int) + span.len) bbox.max.x - x
  (decide (len > 0), x, len)

/-- Modelled from the spec: `SwRle` of `tvgSwCommon.h`, which is not among the sources:
a sequence of spans sorted by `y` then `x`. -/
structure SwRle where
  spans : List SwSpan
  deriving DecidableEq, Repr

/-- An Rle with zero spans is invalid. -/
def SwRle.invalid (rle : SwRle) : Bool := rle.spans.isEmpty

/-- Modelled from the spec: `rle.fetch(bbox, &end)` of `tvgSwCommon.h`: the iteration range
over the spans, which advances past the spans wholly above `bbox` and terminates at the first
span wholly below it. -/
def SwRle.fetch (rle : SwRle) (bbox : RenderRegion) : List SwSpan :=
  (rle.spans.dropWhile (fun s => decide ((s.y : Int) < bbox.min.y))).takeWhile
    (fun s => decide ((s.y : Int) < bbox.max.y))

/-- Modelled from the spec: the fill descriptor `SwFill` of `tvgSwCommon.h`, which is not
among the sources; the raster kernels read only its translucency flag and hand the descriptor
to the fill evaluators. -/
structure SwFill where
  translucent : Bool
  deriving DecidableEq, Repr

/-- The fields of `SwImage` the kernels of this file read. -/
structure SwImage where
  buf : Mem
  w : Nat
  h : Nat
  stride : Nat
  ox : Int
  oy : Int
  channelSize : Nat
  rle : Option SwRle
  /-- The scale factor derived from the transform, a `float`, as an exact rational. -/
  scale : Rat := 1

/-- Modelled from the spec: `Matrix` of the public header, which is not among the sources:
a 3×3 affine matrix of `float` entries, held as exact rationals. -/
structure Matrix where
  e11 : Rat
  e12 : Rat
  e13 : Rat
  e21 : Rat
  e22 : Rat
  e23 : Rat
  e31 : Rat
  e32 : Rat
  e33 : Rat
  deriving DecidableEq

/-- A blender `uint32_t (*)(uint32_t s, uint32_t d)`. -/
abbrev SwBlender := Nat → Nat → Nat

structure SwCompositor where
  method : MaskMethod
  image : SwImage
  bbox : RenderRegion

/-- The render target: `buf` is the storage behind the union `buf32` / `buf8`, `blender` and
`compositor` are `none` when the pointer is null. -/
structure SwSurface where
  buf : Mem
  stride : Nat
  w : Nat
  h : Nat
  cs : ColorSpace
  channelSize : Nat
  premultiplied : Bool
  join : SwJoin
  alphas : Fin 4 → SwAlpha
  blender : Option SwBlender
  compositor : Option SwCompositor
  /-- True when the pointer `buf32` is null; only `rasterClear` tests it. -/
  nullBuf : Bool := false

/-- Modelled from the spec: `SwSurface::alpha(method)` of `tvgSwCommon.h`, the lookup in the
alpha-extraction table indexed by mask method (Alpha, InvAlpha, Luma, InvLuma); the kernels
call it under `_matting` only. -/
def SwSurface.alpha (surface : SwSurface) (method : MaskMethod) : SwAlpha :=
  match method with
  | .InvAlpha => surface.alphas 1
  | .Luma => surface.alphas 2
  | .InvLuma => surface.alphas 3
  | _ => surface.alphas 0

/-- Modelled from the spec: `A(c)` of `tvgSwCommon.h`, the alpha byte of a pixel. -/
def A (c : Nat) : Nat := (c >>> 24) % 256

/-- Modelled from the spec: `IA(c)` of `tvgSwCommon.h`, which returns `255 − A(c)`. -/
def IA (c : Nat) : Nat := 255 - A c

/-- Modelled from the spec: the pixel fill `cRasterPixels` of `tvgSwRasterC.h`, which is not
among the sources, for 32-bit cells: `len` cells from `dst + offset` on receive `val`. -/
def cRasterPixels32 (m : Mem) (dst val offset : Nat) (len : Int) : Mem :=
  forLoop len.toNat (fun i m => m.write32 (dst + offset + i) val) m

/-- Modelled from the spec: the pixel fill `cRasterPixels` of `tvgSwRasterC.h`, which is not
among the sources, for 8-bit cells: `len` cells from `dst + offset` on receive `val`. -/
def cRasterPixels8 (m : Mem) (dst val offset : Nat) (len : Int) : Mem :=
  forLoop len.toNat (fun i m => m.write8 (dst + offset + i) val) m

/-- A blender with alpha `uint32_t (*)(uint32_t s, uint32_t d, uint8_t a)`. -/
abbrev SwBlenderA := Nat → Nat → Nat → Nat

/-- The overloads of a fill evaluator (`FillLinear` / `FillRadial`) the gradient kernels
call; `fillLinear` and `fillRadial` are not among the sources, so the kernels take the
evaluator as a parameter, as the template parameter `fillMethod` does. Each receives the buffer
a pointer points into together with the pointer's offset and returns the buffer it leaves. -/
structure FillMethod where
  /-- The overload `(fill, uint8_t* dst, y, x, len, SwMask op, uint8_t a)`. -/
  mask : SwFill → Mem → Nat → Nat → Nat → Nat → SwMask → Nat → Mem
  /-- The overload `(fill, uint8_t* dst, y, x, len, uint8_t* cmp, SwMask op, uint8_t a)`;
  the result is the pair of the `dst` and `cmp` buffers. -/
  maskCmp : SwFill → Mem → Nat → Nat → Nat → Nat → Mem → Nat → SwMask → Nat → Mem × Mem
  /-- The overload `(fill, uint32_t* dst, y, x, len, SwBlenderA op, uint8_t a)`. -/
  blend : SwFill → Mem → Nat → Nat → Nat → Nat → SwBlenderA → Nat → Mem
  /-- The overload `(fill, uint32_t* dst, y, x, len, uint8_t* cmp, SwAlpha alpha,
  uint8_t csize, uint8_t opacity)`; the result is the pair of the `dst` and `cmp` buffers. -/
  matte : SwFill → Mem → Nat → Nat → Nat → Nat → Mem → Nat → SwAlpha → Nat → Nat → Mem × Mem
  /-- The overload `(fill, uint32_t* dst, y, x, len, SwBlenderA op, SwBlender op2,
  uint8_t a)`. -/
  blend2 : SwFill → Mem → Nat → Nat → Nat → Nat → SwBlenderA → SwBlender → Nat → Mem

/-- The helpers of `tvgSwCommon.h`, `tvgSwRasterC.h` and `tvgMath.h` that the kernels call,
that are not among the sources and whose arithmetic the spec leaves open; the kernels take
them as a parameter. -/
structure SwCommon where
  ALPHA_BLEND : Nat → Nat → Nat
  INTERPOLATE : Nat → Nat → Nat → Nat
  INTERPOLATE8 : Nat → Nat → Nat → Nat
  cRasterTranslucentRect : SwSurface → RenderRegion → RenderColor → Bool × SwSurface
  cRasterTranslucentRle : SwSurface → SwRle → RenderRegion → RenderColor → Bool × SwSurface
  /-- The translucent pixel copy `(dst, src, len, opacity)`, on the buffers and offsets of the
  two pointers; the result is the `dst` buffer. -/
  cRasterTranslucentPixels : Mem → Nat → Mem → Nat → Nat → Nat → Mem
  opBlendInterp : SwBlenderA
  opBlendNormal : SwBlenderA
  opBlendPreNormal : SwBlenderA
  opBlendSrcOver : SwBlenderA
  /-- The matrix inversion `inverse(&m, &out)`: `none` when it returns false, else `out`. -/
  inverse : Matrix → Option Matrix

/-! ## Predicates on the compositing state -/

def _blending (surface : SwSurface) : Bool :=
  if surface.blender.isSome then true else false

def _compositing (surface : SwSurface) : Bool :=
  match surface.compositor with
  | none => false
  | some cmp => if cmp.method = MaskMethod.None then false else true

/-- The test `(int)method < (int)MaskMethod::Add` on the attached compositor. The kernels
and predicates that dereference `surface->compositor` or call `surface->blender` are reached
with the pointer set only; on a null pointer the model answers false and leaves the surface
as it is. -/
def _matting (surface : SwSurface) : Bool :=
  match surface.compositor with
  | none => false
  | some cmp => if cmp.method.toInt < MaskMethod.Add.toInt then true else false


/-! ## Mask composition -/

def _compositeMaskImage (surface : SwSurface) (image : SwImage) (bbox : RenderRegion) :
    Bool × SwSurface :=
  let dbuffer := u32 (bbox.min.y * surface.stride + bbox.min.x)
  let sbuffer : Int := u32 ((bbox.min.y + image.oy) * image.stride) + (bbox.min.x + image.ox)
  let buf := forLoop (bbox.max.y - bbox.min.y).toNat (fun y m =>
      forLoop (bbox.max.x - bbox.min.x).toNat (fun x m =>
        let dst := dbuffer + y * surface.stride + x
        let src := (sbuffer + y * image.stride + x).toNat
        m.write8 dst (image.buf.read8 src + MULTIPLY (m.read8 dst) (not8 (image.buf.read8 src))))
        m)
    surface.buf
  (true, { surface with buf := buf })

/-! ## Rect -/

def _rasterCompositeMaskedRect (surface : SwSurface) (bbox : RenderRegion) (maskOp : SwMask)
    (a : Nat) : Bool × SwSurface :=
  match surface.compositor with
  | none => (false, surface)
  | some cmp =>
    let cstride := cmp.image.stride
    let cbuffer := u32 (bbox.min.y * cstride + bbox.min.x)
    let ialpha := 255 - a
    let cbuf := forLoop bbox.h (fun y m =>
        forLoop bbox.w (fun x m =>
          let cmp := cbuffer + y * cstride + x
          m.write8 cmp (maskOp a (m.read8 cmp) ialpha))
          m)
      cmp.image.buf
    let image := { cmp.image with buf := cbuf }
    _compositeMaskImage { surface with compositor := some { cmp with image := image } } image
      cmp.bbox

def _rasterDirectMaskedRect (surface : SwSurface) (bbox : RenderRegion) (maskOp : SwMask)
    (a : Nat) : Bool × SwSurface :=
  match surface.compositor with
  | none => (false, surface)
  | some cmp =>
    let cbuffer := u32 (bbox.min.y * cmp.image.stride + bbox.min.x)
    let dbuffer := u32 (bbox.min.y * surface.stride + bbox.min.x)
    let buf := forLoop bbox.h (fun y m =>
        forLoop bbox.w (fun x m =>
          let cmpi := cbuffer + y * cmp.image.stride + x
          let dst := dbuffer + y * surface.stride + x
          let tmp := maskOp a (cmp.image.buf.read8 cmpi) 0
          m.write8 dst (tmp + MULTIPLY (m.read8 dst) (not8 tmp)))
          m)
      surface.buf
    (true, { surface with buf := buf })

def _rasterMaskedRect (surface : SwSurface) (bbox : RenderRegion) (c : RenderColor) :
    Bool × SwSurface :=
  if surface.channelSize ≠ 1 then (false, surface)
  else
    match surface.compositor with
    | none => (false, surface)
    | some cmp =>
      match _getMaskOp cmp.method with
      | none => (false, surface)
      | some maskOp =>
        if _direct cmp.method then _rasterDirectMaskedRect surface bbox maskOp c.a
        else _rasterCompositeMaskedRect surface bbox maskOp c.a

def _rasterMattedRect (P : SwCommon) (surface : SwSurface) (bbox : RenderRegion)
    (c : RenderColor) : Bool × SwSurface :=
  match surface.compositor with
  | none => (false, surface)
  | some cmp =>
    let csize := cmp.image.channelSize
    let cbuffer := u32 ((bbox.min.y * cmp.image.stride + bbox.min.x) * csize)
    let alpha := surface.alpha cmp.method
    if surface.channelSize = 4 then
      let color := surface.join c.r c.g c.b c.a
      let buffer : Int := u32 (bbox.min.y * surface.stride) + bbox.min.x
      let buf := forLoop bbox.h (fun y m =>
          forLoop bbox.w (fun x m =>
            let dst := (buffer + u32 (y * surface.stride) + x).toNat
            let cmpi := cbuffer + u32 (y * cmp.image.stride * csize) + x * csize
            let tmp := P.ALPHA_BLEND color (alpha (cmp.image.buf.ptr cmpi))
            m.write32 dst (tmp + P.ALPHA_BLEND (m.read32 dst) (IA tmp)))
            m)
        surface.buf
      (true, { surface with buf := buf })
    else if surface.channelSize = 1 then
      let buffer : Int := u32 (bbox.min.y * surface.stride) + bbox.min.x
      let buf := forLoop bbox.h (fun y m =>
          forLoop bbox.w (fun x m =>
            let dst := (buffer + u32 (y * surface.stride) + x).toNat
            let cmpi := cbuffer + u32 (y * cmp.image.stride * csize) + x * csize
            m.write8 dst (P.INTERPOLATE8 c.a (m.read8 dst) (alpha (cmp.image.buf.ptr cmpi))))
            m)
        surface.buf
      (true, { surface with buf := buf })
    else (true, surface)

def _rasterBlendingRect (surface : SwSurface) (bbox : RenderRegion) (c : RenderColor) :
    Bool × SwSurface :=
  if surface.channelSize ≠ 4 then (false, surface)
  else
    match surface.blender with
    | none => (false, surface)
    | some blender =>
      let color := surface.join c.r c.g c.b c.a
      let buffer : Int := u32 (bbox.min.y * surface.stride) + bbox.min.x
      let buf := forLoop bbox.h (fun y m =>
          forLoop bbox.w (fun x m =>
            let dst := (buffer + u32 (y * surface.stride) + x).toNat
            m.write32 dst (blender color (m.read32 dst)))
            m)
        surface.buf
      (true, { surface with buf := buf })

/-- The scalar build: neither `THORVG_AVX_VECTOR_SUPPORT` nor `THORVG_NEON_VECTOR_SUPPORT`. -/
def _rasterTranslucentRect (P : SwCommon) (surface : SwSurface) (bbox : RenderRegion)
    (c : RenderColor) : Bool × SwSurface :=
  P.cRasterTranslucentRect surface bbox c

/-- The scalar build of `rasterGrayscale8(dst, val, offset, len)`. -/
def rasterGrayscale8 (m : Mem) (dst val offset : Nat) (len : Int) : Mem :=
  cRasterPixels8 m dst val offset len

/-- The scalar build of `rasterPixel32(dst, val, offset, len)`. -/
def rasterPixel32 (m : Mem) (dst val offset : Nat) (len : Int) : Mem :=
  cRasterPixels32 m dst val offset len

def _rasterSolidRect (surface : SwSurface) (bbox : RenderRegion) (c : RenderColor) :
    Bool × SwSurface :=
  if surface.channelSize = 4 then
    let color := surface.join c.r c.g c.b 255
    let buffer := u32 (bbox.min.y * surface.stride)
    let buf := forLoop bbox.h (fun y m =>
        rasterPixel32 m (buffer + u32 (y * surface.stride)) color (u32 bbox.min.x) (i32 bbox.w))
      surface.buf
    (true, { surface with buf := buf })
  else if surface.channelSize = 1 then
    let buf := forLoop bbox.h (fun y m =>
        rasterGrayscale8 m 0 255 (u32 ((y + bbox.min.y) * surface.stride + bbox.min.x))
          (i32 bbox.w))
      surface.buf
    (true, { surface with buf := buf })
  else (false, surface)

def _rasterRect (P : SwCommon) (surface : SwSurface) (bbox : RenderRegion) (c : RenderColor) :
    Bool × SwSurface :=
  if _compositing surface then
    if _matting surface then _rasterMattedRect P surface bbox c
    else _rasterMaskedRect surface bbox c
  else if _blending surface then
    _rasterBlendingRect surface bbox c
  else
    if c.a = 255 then _rasterSolidRect surface bbox c
    else _rasterTranslucentRect P surface bbox c


/-! ## Rle -/

def _rasterCompositeMaskedRle (surface : SwSurface) (rle : SwRle) (bbox : RenderRegion)
    (maskOp : SwMask) (a : Nat) : Bool × SwSurface :=
  match surface.compositor with
  | none => (false, surface)
  | some cmp =>
    let cstride := cmp.image.stride
    let cbuf := (rle.fetch bbox).foldl (fun m span =>
        let (ok, x, len) := span.fetch bbox
        if !ok then m
        else
          let cmp := u32 (span.y * cstride + x)
          let src := if span.coverage = 255 then a else MULTIPLY a span.coverage
          let ialpha := 255 - src
          forLoop len.toNat (fun i m => m.write8 (cmp + i) (maskOp src (m.read8 (cmp + i)) ialpha))
            m)
      cmp.image.buf
    let image := { cmp.image with buf := cbuf }
    _compositeMaskImage { surface with compositor := some { cmp with image := image } } image
      cmp.bbox

def _rasterDirectMaskedRle (surface : SwSurface) (rle : SwRle) (bbox : RenderRegion)
    (maskOp : SwMask) (a : Nat) : Bool × SwSurface :=
  match surface.compositor with
  | none => (false, surface)
  | some cmp =>
    let cstride := cmp.image.stride
    let buf := (rle.fetch bbox).foldl (fun m span =>
        let (ok, x, len) := span.fetch bbox
        if !ok then m
        else
          let cmpi := u32 (span.y * cstride + x)
          let dst := u32 (span.y * surface.stride + x)
          let src := if span.coverage = 255 then a else MULTIPLY a span.coverage
          forLoop len.toNat (fun i m =>
            let tmp := maskOp src (cmp.image.buf.read8 (cmpi + i)) 0
            m.write8 (dst + i) (tmp + MULTIPLY (m.read8 (dst + i)) (not8 tmp)))
            m)
      surface.buf
    (true, { surface with buf := buf })

def _rasterMaskedRle (surface : SwSurface) (rle : SwRle) (bbox : RenderRegion)
    (c : RenderColor) : Bool × SwSurface :=
  if surface.channelSize ≠ 1 then (false, surface)
  else
    match surface.compositor with
    | none => (false, surface)
    | some cmp =>
      match _getMaskOp cmp.method with
      | none => (false, surface)
      | some maskOp =>
        if _direct cmp.method then _rasterDirectMaskedRle surface rle bbox maskOp c.a
        else _rasterCompositeMaskedRle surface rle bbox maskOp c.a

def _rasterMattedRle (P : SwCommon) (surface : SwSurface) (rle : SwRle) (bbox : RenderRegion)
    (c : RenderColor) : Bool × SwSurface :=
  match surface.compositor with
  | none => (false, surface)
  | some cmp =>
    let csize := cmp.image.channelSize
    let alpha := surface.alpha cmp.method
    if surface.channelSize = 4 then
      let color := surface.join c.r c.g c.b c.a
      let buf := (rle.fetch bbox).foldl (fun m span =>
          let (ok, x, len) := span.fetch bbox
          if !ok then m
          else
            let dst := u32 (span.y * surface.stride + x)
            let cmpi := u32 ((span.y * cmp.image.stride + x) * csize)
            let src := if span.coverage = 255 then color else P.ALPHA_BLEND color span.coverage
            forLoop len.toNat (fun i m =>
              let tmp := P.ALPHA_BLEND src (alpha (cmp.image.buf.ptr (cmpi + i * csize)))
              m.write32 (dst + i) (tmp + P.ALPHA_BLEND (m.read32 (dst + i)) (IA tmp)))
              m)
        surface.buf
      (true, { surface with buf := buf })
    else if surface.channelSize = 1 then
      let buf := (rle.fetch bbox).foldl (fun m span =>
          let (ok, x, len) := span.fetch bbox
          if !ok then m
          else
            let dst := u32 (span.y * surface.stride + x)
            let cmpi := u32 ((span.y * cmp.image.stride + x) * csize)
            let src := if span.coverage = 255 then c.a else MULTIPLY c.a span.coverage
            forLoop len.toNat (fun i m =>
              m.write8 (dst + i)
                (P.INTERPOLATE8 src (m.read8 (dst + i)) (alpha (cmp.image.buf.ptr (cmpi + i * csize)))))
              m)
        surface.buf
      (true, { surface with buf := buf })
    else (true, surface)

def _rasterBlendingRle (P : SwCommon) (surface : SwSurface) (rle : SwRle) (bbox : RenderRegion)
    (c : RenderColor) : Bool × SwSurface :=
  if surface.channelSize ≠ 4 then (false, surface)
  else
    match surface.blender with
    | none => (false, surface)
    | some blender =>
      let color := surface.join c.r c.g c.b c.a
      let buf := (rle.fetch bbox).foldl (fun m span =>
          let (ok, x, len) := span.fetch bbox
          if !ok then m
          else
            let dst := u32 (span.y * surface.stride + x)
            if span.coverage = 255 then
              forLoop len.toNat (fun i m =>
                m.write32 (dst + i) (blender color (m.read32 (dst + i))))
                m
            else
              forLoop len.toNat (fun i m =>
                m.write32 (dst + i)
                  (P.INTERPOLATE (blender color (m.read32 (dst + i))) (m.read32 (dst + i))
                    span.coverage))
                m)
        surface.buf
      (true, { surface with buf := buf })

/-- The scalar build: neither `THORVG_AVX_VECTOR_SUPPORT` nor `THORVG_NEON_VECTOR_SUPPORT`. -/
def _rasterTranslucentRle (P : SwCommon) (surface : SwSurface) (rle : SwRle)
    (bbox : RenderRegion) (c : RenderColor) : Bool × SwSurface :=
  P.cRasterTranslucentRle surface rle bbox c

def _rasterSolidRle (P : SwCommon) (surface : SwSurface) (rle : SwRle) (bbox : RenderRegion)
    (c : RenderColor) : Bool × SwSurface :=
  if surface.channelSize = 4 then
    let color := surface.join c.r c.g c.b 255
    let buf := (rle.fetch bbox).foldl (fun m span =>
        let (ok, x, len) := span.fetch bbox
        if !ok then m
        else if span.coverage = 255 then
          rasterPixel32 m (u32 (span.y * surface.stride)) color (u32 x) len
        else
          let dst := u32 (span.y * surface.stride + x)
          let src := P.ALPHA_BLEND color span.coverage
          let ialpha := 255 - span.coverage
          forLoop len.toNat (fun i m =>
            m.write32 (dst + i) (src + P.ALPHA_BLEND (m.read32 (dst + i)) ialpha))
            m)
      surface.buf
    (true, { surface with buf := buf })
  else if surface.channelSize = 1 then
    let buf := (rle.fetch bbox).foldl (fun m span =>
        let (ok, x, len) := span.fetch bbox
        if !ok then m
        else if span.coverage = 255 then
          rasterGrayscale8 m 0 span.coverage (u32 (span.y * surface.stride + x)) len
        else
          let dst := u32 (span.y * surface.stride + x)
          let ialpha := 255 - span.coverage
          forLoop len.toNat (fun i m =>
            m.write8 (dst + i) (span.coverage + MULTIPLY (m.read8 (dst + i)) ialpha))
            m)
      surface.buf
    (true, { surface with buf := buf })
  else (true, surface)

/-- The Rle is `none` when the pointer is null. -/
def _rasterRle (P : SwCommon) (surface : SwSurface) (rle : Option SwRle) (bbox : RenderRegion)
    (c : RenderColor) : Bool × SwSurface :=
  match rle with
  | none => (false, surface)
  | some rle =>
    if rle.invalid then (false, surface)
    else if _compositing surface then
      if _matting surface then _rasterMattedRle P surface rle bbox c
      else _rasterMaskedRle surface rle bbox c
    else if _blending surface then
      _rasterBlendingRle P surface rle bbox c
    else
      if c.a = 255 then _rasterSolidRle P surface rle bbox c
      else _rasterTranslucentRle P surface rle bbox c

/-! ## Masked gradients -/

def _rasterCompositeGradientMaskedRect (fillMethod : FillMethod) (surface : SwSurface)
    (bbox : RenderRegion) (fill : SwFill) (maskOp : SwMask) : Bool × SwSurface :=
  match surface.compositor with
  | none => (false, surface)
  | some cmp =>
    let cstride := cmp.image.stride
    let cbuffer := u32 (bbox.min.y * cstride + bbox.min.x)
    let cbuf := forLoop bbox.h (fun y m =>
        fillMethod.mask fill m (cbuffer + y * surface.stride) (u32 (bbox.min.y + y))
          (u32 bbox.min.x) bbox.w maskOp 255)
      cmp.image.buf
    let image := { cmp.image with buf := cbuf }
    _compositeMaskImage { surface with compositor := some { cmp with image := image } } image
      cmp.bbox

def _rasterDirectGradientMaskedRect (fillMethod : FillMethod) (surface : SwSurface)
    (bbox : RenderRegion) (fill : SwFill) (maskOp : SwMask) : Bool × SwSurface :=
  match surface.compositor with
  | none => (false, surface)
  | some cmp =>
    let cstride := cmp.image.stride
    let cbuffer := u32 (bbox.min.y * cstride + bbox.min.x)
    let dbuffer := u32 (bbox.min.y * surface.stride + bbox.min.x)
    let bufs := forLoop bbox.h (fun y (m : Mem × Mem) =>
        fillMethod.maskCmp fill m.1 (dbuffer + y * surface.stride) (u32 (bbox.min.y + y))
          (u32 bbox.min.x) bbox.w m.2 (cbuffer + y * cstride) maskOp 255)
      (surface.buf, cmp.image.buf)
    (true, { surface with
      buf := bufs.1
      compositor := some { cmp with image := { cmp.image with buf := bufs.2 } } })

def _rasterGradientMaskedRect (fillMethod : FillMethod) (surface : SwSurface)
    (bbox : RenderRegion) (fill : SwFill) : Bool × SwSurface :=
  match surface.compositor with
  | none => (false, surface)
  | some cmp =>
    let method := cmp.method
    match _getMaskOp method with
    | none => (false, surface)
    | some maskOp =>
      if _direct method then _rasterDirectGradientMaskedRect fillMethod surface bbox fill maskOp
      else _rasterCompositeGradientMaskedRect fillMethod surface bbox fill maskOp

def _rasterCompositeGradientMaskedRle (fillMethod : FillMethod) (surface : SwSurface)
    (rle : SwRle) (fill : SwFill) (maskOp : SwMask) : Bool × SwSurface :=
  match surface.compositor with
  | none => (false, surface)
  | some cmp =>
    let cstride := cmp.image.stride
    let cbuf := rle.spans.foldl (fun m span =>
        fillMethod.mask fill m (u32 (span.y * cstride + span.x)) span.y span.x span.len maskOp
          span.coverage)
      cmp.image.buf
    let image := { cmp.image with buf := cbuf }
    _compositeMaskImage { surface with compositor := some { cmp with image := image } } image
      cmp.bbox

def _rasterDirectGradientMaskedRle (fillMethod : FillMethod) (surface : SwSurface)
    (rle : SwRle) (fill : SwFill) (maskOp : SwMask) : Bool × SwSurface :=
  match surface.compositor with
  | none => (false, surface)
  | some cmp =>
    let cstride := cmp.image.stride
    let bufs := rle.spans.foldl (fun (m : Mem × Mem) span =>
        fillMethod.maskCmp fill m.1 (u32 (span.y * surface.stride + span.x)) span.y span.x
          span.len m.2 (u32 (span.y * cstride + span.x)) maskOp span.coverage)
      (surface.buf, cmp.image.buf)
    (true, { surface with
      buf := bufs.1
      compositor := some { cmp with image := { cmp.image with buf := bufs.2 } } })

def _rasterGradientMaskedRle (fillMethod : FillMethod) (surface : SwSurface) (rle : SwRle)
    (fill : SwFill) : Bool × SwSurface :=
  match surface.compositor with
  | none => (false, surface)
  | some cmp =>
    let method := cmp.method
    match _getMaskOp method with
    | none => (false, surface)
    | some maskOp =>
      if _direct method then _rasterDirectGradientMaskedRle fillMethod surface rle fill maskOp
      else _rasterCompositeGradientMaskedRle fillMethod surface rle fill maskOp

/-! ## Surface set-up -/

def rasterCompositor (surface : SwSurface) : Bool × SwSurface :=
  let surface := { surface with alphas := Function.update surface.alphas 0 _alpha }
  let surface := { surface with alphas := Function.update surface.alphas 1 _ialpha }
  if surface.cs = ColorSpace.ABGR8888 ∨ surface.cs = ColorSpace.ABGR8888S then
    let surface := { surface with join := _abgrJoin }
    let surface := { surface with alphas := Function.update surface.alphas 2 _abgrLuma }
    let surface := { surface with alphas := Function.update surface.alphas 3 _abgrInvLuma }
    (true, surface)
  else if surface.cs = ColorSpace.ARGB8888 ∨ surface.cs = ColorSpace.ARGB8888S then
    let surface := { surface with join := _argbJoin }
    let surface := { surface with alphas := Function.update surface.alphas 2 _argbLuma }
    let surface := { surface with alphas := Function.update surface.alphas 3 _argbInvLuma }
    (true, surface)
  else
    (false, surface)


/-! ## The scalar build of the absent helpers -/

/-- Modelled from the spec: `ALPHA_BLEND(c, a)` of `tvgSwCommon.h`, which scales all channels
of the premultiplied colour `c` by alpha `a`; the upstream rule scales the two pairs of
channels in parallel by `a + 1` and shifts by 8, in `uint32_t` arithmetic. -/
def ALPHA_BLEND (c a : Nat) : Nat :=
  let a := (a + 1) % 4294967296
  ((((((c >>> 8) &&& 0x00ff00ff) * a) % 4294967296) &&& 0xff00ff00)
    + ((((((c &&& 0x00ff00ff) * a) % 4294967296) >>> 8)) &&& 0x00ff00ff)) % 4294967296

/-- Modelled from the spec: `INTERPOLATE(s, d, a)` of `tvgSwCommon.h`, which blends two
32-bit premultiplied colours along `a ∈ [0,255]`; the upstream rule works on the two pairs of
channels in parallel, in `uint32_t` arithmetic. -/
def INTERPOLATE (s d a : Nat) : Nat :=
  let hi := u32 (u32 (u32 ((((s >>> 8) &&& 0xff00ff : Nat) : Int) - ((d >>> 8) &&& 0xff00ff : Nat)) * a)
      + (d &&& 0xff00ff00 : Nat)) &&& 0xff00ff00
  let lo := u32 ((u32 (u32 (((s &&& 0xff00ff : Nat) : Int) - (d &&& 0xff00ff : Nat)) * a) >>> 8 : Nat)
      + (d &&& 0xff00ff : Nat)) &&& 0xff00ff
  (hi + lo) % 4294967296

/-- Modelled from the spec: `INTERPOLATE8(s, d, a)` of `tvgSwCommon.h`, the 8-bit
interpolation of `s` over `d` along `a`: `MULTIPLY(s, a) + MULTIPLY(d, 255 − a)`, returned as
`uint8_t`. -/
def INTERPOLATE8 (s d a : Nat) : Nat := (MULTIPLY s a + MULTIPLY d (255 - a)) % 256

/-- Modelled from the spec: `cRasterTranslucentRect` of `tvgSwRasterC.h`, which is not among
the sources: for each pixel `dst = src + ALPHA_BLEND(dst, 255 − src.a)`, and on an 8-bit
surface `dst = a + MULTIPLY(dst, 255 − a)`. -/
def cRasterTranslucentRect (surface : SwSurface) (bbox : RenderRegion) (c : RenderColor) :
    Bool × SwSurface :=
  if surface.channelSize = 4 then
    let color := surface.join c.r c.g c.b c.a
    let buffer : Int := u32 (bbox.min.y * surface.stride) + bbox.min.x
    let ialpha := 255 - c.a
    let buf := forLoop bbox.h (fun y m =>
        forLoop bbox.w (fun x m =>
          let dst := (buffer + u32 (y * surface.stride) + x).toNat
          m.write32 dst (color + ALPHA_BLEND (m.read32 dst) ialpha))
          m)
      surface.buf
    (true, { surface with buf := buf })
  else if surface.channelSize = 1 then
    let buffer : Int := u32 (bbox.min.y * surface.stride) + bbox.min.x
    let ialpha := 255 - c.a
    let buf := forLoop bbox.h (fun y m =>
        forLoop bbox.w (fun x m =>
          let dst := (buffer + u32 (y * surface.stride) + x).toNat
          m.write8 dst (c.a + MULTIPLY (m.read8 dst) ialpha))
          m)
      surface.buf
    (true, { surface with buf := buf })
  else (true, surface)

/-- Modelled from the spec: `cRasterTranslucentRle` of `tvgSwRasterC.h`, which is not among
the sources: per span `src = (coverage == 255) ? base : MULTIPLY(base, coverage)` and for each
pixel `dst = src + ALPHA_BLEND(dst, 255 − src.a)`. -/
def cRasterTranslucentRle (surface : SwSurface) (rle : SwRle) (bbox : RenderRegion)
    (c : RenderColor) : Bool × SwSurface :=
  if surface.channelSize = 4 then
    let color := surface.join c.r c.g c.b c.a
    let buf := (rle.fetch bbox).foldl (fun m span =>
        let (ok, x, len) := span.fetch bbox
        if !ok then m
        else
          let dst := u32 (span.y * surface.stride + x)
          let src := if span.coverage = 255 then color else ALPHA_BLEND color span.coverage
          let ialpha := IA src
          forLoop len.toNat (fun i m =>
            m.write32 (dst + i) (src + ALPHA_BLEND (m.read32 (dst + i)) ialpha))
            m)
      surface.buf
    (true, { surface with buf := buf })
  else if surface.channelSize = 1 then
    let buf := (rle.fetch bbox).foldl (fun m span =>
        let (ok, x, len) := span.fetch bbox
        if !ok then m
        else
          let dst := u32 (span.y * surface.stride + x)
          let src := if span.coverage = 255 then c.a else MULTIPLY c.a span.coverage
          let ialpha := 255 - src
          forLoop len.toNat (fun i m =>
            m.write8 (dst + i) (src + MULTIPLY (m.read8 (dst + i)) ialpha))
            m)
      surface.buf
    (true, { surface with buf := buf })
  else (true, surface)

/-- Modelled from the spec: `cRasterTranslucentPixels` of `tvgSwRasterC.h`, which is not among
the sources: `len` pixels of `src`, scaled by `opacity` when it is below 255, are composed over
`dst` as `dst = src + ALPHA_BLEND(dst, 255 − src.a)`. -/
def cRasterTranslucentPixels (dst : Mem) (dsti : Nat) (src : Mem) (srci : Nat) (len : Nat)
    (opacity : Nat) : Mem :=
  forLoop len (fun x m =>
    let tmp := if opacity = 255 then src.read32 (srci + x)
      else ALPHA_BLEND (src.read32 (srci + x)) opacity
    m.write32 (dsti + x) (tmp + ALPHA_BLEND (m.read32 (dsti + x)) (IA tmp)))
    dst

/-- Modelled from the spec: the blender `opBlendInterp` of `tvgSwCommon.h`, the interpolation
of the source over the destination along `a`. -/
def opBlendInterp (s d a : Nat) : Nat := INTERPOLATE s d a

/-- Modelled from the spec: the blender `opBlendNormal` of `tvgSwCommon.h`, the source scaled by
`a` composed over the destination. -/
def opBlendNormal (s d a : Nat) : Nat :=
  let t := ALPHA_BLEND s a
  (t + ALPHA_BLEND d (IA t)) % 4294967296

/-- Modelled from the spec: the blender `opBlendPreNormal` of `tvgSwCommon.h`, the
premultiplied source composed over the destination. -/
def opBlendPreNormal (s d _a : Nat) : Nat := (s + ALPHA_BLEND d (IA s)) % 4294967296

/-- Modelled from the spec: the blender `opBlendSrcOver` of `tvgSwCommon.h`, which replaces the
destination by the source. -/
def opBlendSrcOver (s _d _a : Nat) : Nat := s

/-- Modelled from the spec: `inverse` of `tvgMath.h`, which is not among the sources: a matrix
of determinant zero has no inverse, every other matrix has the adjugate scaled by the inverse
of the determinant. -/
def inverse (m : Matrix) : Option Matrix :=
  let det := m.e11 * (m.e22 * m.e33 - m.e32 * m.e23)
    - m.e21 * (m.e12 * m.e33 - m.e32 * m.e13)
    + m.e31 * (m.e12 * m.e23 - m.e22 * m.e13)
  if det = 0 then none
  else
    let invDet := 1 / det
    some
      { e11 := (m.e22 * m.e33 - m.e32 * m.e23) * invDet
        e12 := (m.e13 * m.e32 - m.e12 * m.e33) * invDet
        e13 := (m.e12 * m.e23 - m.e13 * m.e22) * invDet
        e21 := (m.e23 * m.e31 - m.e21 * m.e33) * invDet
        e22 := (m.e11 * m.e33 - m.e13 * m.e31) * invDet
        e23 := (m.e21 * m.e13 - m.e11 * m.e23) * invDet
        e31 := (m.e21 * m.e32 - m.e31 * m.e22) * invDet
        e32 := (m.e31 * m.e12 - m.e11 * m.e32) * invDet
        e33 := (m.e11 * m.e22 - m.e21 * m.e12) * invDet }

/-- The absent helpers as modelled above, for evaluating the kernels on concrete inputs. -/
def scalarCommon : SwCommon where
  ALPHA_BLEND := ALPHA_BLEND
  INTERPOLATE := INTERPOLATE
  INTERPOLATE8 := INTERPOLATE8
  cRasterTranslucentRect := cRasterTranslucentRect
  cRasterTranslucentRle := cRasterTranslucentRle
  cRasterTranslucentPixels := cRasterTranslucentPixels
  opBlendInterp := opBlendInterp
  opBlendNormal := opBlendNormal
  opBlendPreNormal := opBlendPreNormal
  opBlendSrcOver := opBlendSrcOver
  inverse := inverse

/-! ## Concrete inputs -/

/-- A surface of the given colour space and channel size whose cells are all zero, with no
blender and no compositor, before `rasterCompositor` has run. -/
def blankSurface (w h stride : Nat) (cs : ColorSpace) (channelSize : Nat) : SwSurface where
  buf := fun _ => 0
  stride := stride
  w := w
  h := h
  cs := cs
  channelSize := channelSize
  premultiplied := true
  join := fun _ _ _ _ => 0
  alphas := fun _ _ => 0
  blender := none
  compositor := none

/-- The 16x16 ABGR surface cleared to 0 of the solid-red-rect scenario, set up by
`rasterCompositor`. -/
def surface16 : SwSurface := (rasterCompositor (blankSurface 16 16 16 .ABGR8888 4)).2

/-- An 8-bit 4x4 mask image whose cells are all zero. -/
def maskImage4 : SwImage where
  buf := fun _ => 0
  w := 4
  h := 4
  stride := 4
  ox := 0
  oy := 0
  channelSize := 1
  rle := none

/-- A 4x4 ARGB surface (4-byte channels) with a compositor of the given method attached,
whose mask is `maskImage4` and whose box is the whole surface. -/
def composedSurface4 (method : MaskMethod) : SwSurface :=
  { (rasterCompositor (blankSurface 4 4 4 .ARGB8888 4)).2 with
    compositor := some { method := method, image := maskImage4, bbox := ⟨⟨0, 0⟩, ⟨4, 4⟩⟩ } }

/-! ## Premultiplication -/

/-- Modelled from the spec: `C1(c)` of `tvgSwCommon.h`, the byte of bits 16..23 of a pixel. -/
def C1 (c : Nat) : Nat := (c >>> 16) % 256

/-- Modelled from the spec: `C2(c)` of `tvgSwCommon.h`, the byte of bits 8..15 of a pixel. -/
def C2 (c : Nat) : Nat := (c >>> 8) % 256

/-- Modelled from the spec: `C3(c)` of `tvgSwCommon.h`, the byte of bits 0..7 of a pixel. -/
def C3 (c : Nat) : Nat := c % 256

/-- Modelled from the spec: `JOIN(c0, c1, c2, c3)` of `tvgSwCommon.h`, which packs four bytes
into a 32-bit word, `c0` in the top byte. -/
def JOIN (c0 c1 c2 c3 : Nat) : Nat := (c0 <<< 24 ||| c1 <<< 16 ||| c2 <<< 8 ||| c3) % 4294967296

/-- Modelled from the spec: `PREMULTIPLY(c, a)` of `tvgSwCommon.h`, which pre-scales the colour
channels of `c` by alpha `a` and keeps the alpha byte; the upstream rule scales the channels in
place and shifts by 8, so that each channel `v` becomes `(v * a) >> 8`. -/
def PREMULTIPLY (c a : Nat) : Nat :=
  ((c &&& 0xff000000) + ((((c >>> 8) &&& 0xff) * a) &&& 0xff00)
    + ((((c &&& 0x00ff00ff) * a) >>> 8) &&& 0x00ff00ff)) % 4294967296

def rasterUnpremultiply (data : Nat) : Nat :=
  let a := A data
  if a = 255 ∨ a = 0 then data
  else
    let r := Min.min (C1 data * 255 / a) 255
    let g := Min.min (C2 data * 255 / a) 255
    let b := Min.min (C3 data * 255 / a) 255
    JOIN a r g b

/-- The body of the pixel loop of `rasterPremultiply`: `c = *dst; if (A(c) == 255) continue;
*dst = PREMULTIPLY(c, A(c))`, as the value the cell holds afterwards. -/
def premultiplyPixel (c : Nat) : Nat :=
  if A c = 255 then c else PREMULTIPLY c (A c)

/-- The surface-wide `rasterUnpremultiply(RenderSurface*)`. -/
def rasterUnpremultiplySurface (surface : SwSurface) : SwSurface :=
  if surface.channelSize ≠ 4 then surface
  else
    let buf := forLoop surface.h (fun y m =>
        forLoop surface.w (fun x m =>
          m.write32 (u32 (surface.stride * y) + x)
            (rasterUnpremultiply (m.read32 (u32 (surface.stride * y) + x))))
          m)
      surface.buf
    { surface with buf := buf, premultiplied := false }

/-- The lock `ScopedLock lock(surface->key)` is not modelled. -/
def rasterPremultiply (surface : SwSurface) : SwSurface :=
  if surface.premultiplied ∨ surface.channelSize ≠ 4 then surface
  else
    let buf := forLoop surface.h (fun y m =>
        forLoop surface.w (fun x m =>
          m.write32 (y * surface.stride + x) (premultiplyPixel (m.read32 (y * surface.stride + x))))
          m)
      surface.buf
    { surface with premultiplied := true, buf := buf }

/-! ## Shapes -/

/-- The fields of `SwShape` the raster entry points read; a null `rle`, `strokeRle` or `fill`
is `none`. -/
structure SwShape where
  rle : Option SwRle
  strokeRle : Option SwRle
  fill : Option SwFill
  fastTrack : Bool

/-- The entry point `rasterShape`; the colour is passed by reference and premultiplied in
place, so the result carries the colour the caller is left with. -/
def rasterShape (P : SwCommon) (surface : SwSurface) (shape : SwShape) (bbox : RenderRegion)
    (c : RenderColor) : (Bool × SwSurface) × RenderColor :=
  let c :=
    if c.a < 255 then
      let c := { c with r := MULTIPLY c.r c.a }
      let c := { c with g := MULTIPLY c.g c.a }
      { c with b := MULTIPLY c.b c.a }
    else c
  if shape.fastTrack then (_rasterRect P surface bbox c, c)
  else (_rasterRle P surface shape.rle bbox c, c)

/-- The entry point `rasterStroke`; the colour is passed by reference and premultiplied in
place, so the result carries the colour the caller is left with. -/
def rasterStroke (P : SwCommon) (surface : SwSurface) (shape : SwShape) (bbox : RenderRegion)
    (c : RenderColor) : (Bool × SwSurface) × RenderColor :=
  let c :=
    if c.a < 255 then
      let c := { c with r := MULTIPLY c.r c.a }
      let c := { c with g := MULTIPLY c.g c.a }
      { c with b := MULTIPLY c.b c.a }
    else c
  (_rasterRle P surface shape.strokeRle bbox c, c)

/-- An 8-bit 4x4 surface whose cells all hold 50, with a compositor of the given method
attached whose 8-bit 4x4 mask holds 100 in every cell and whose box is the whole surface. -/
def maskedSurface4 (method : MaskMethod) : SwSurface :=
  { (rasterCompositor (blankSurface 4 4 4 .Grayscale8 1)).2 with
    buf := fun _ => 50
    compositor := some { method := method, image := { maskImage4 with buf := fun _ => 100 },
                         bbox := ⟨⟨0, 0⟩, ⟨4, 4⟩⟩ } }

/-! ## Gradients -/

def _rasterGradientMattedRect (fillMethod : FillMethod) (surface : SwSurface)
    (bbox : RenderRegion) (fill : SwFill) : Bool × SwSurface :=
  match surface.compositor with
  | none => (false, surface)
  | some cmp =>
    let buffer : Int := u32 (bbox.min.y * surface.stride) + bbox.min.x
    let csize := cmp.image.channelSize
    let cbuffer := u32 ((bbox.min.y * cmp.image.stride + bbox.min.x) * csize)
    let alpha := surface.alpha cmp.method
    let bufs := forLoop bbox.h (fun y (m : Mem × Mem) =>
        fillMethod.matte fill m.1 (buffer + y * surface.stride).toNat (u32 (bbox.min.y + y))
          (u32 bbox.min.x) bbox.w m.2 (cbuffer + y * u32 (surface.stride * csize)) alpha csize
          255)
      (surface.buf, cmp.image.buf)
    (true, { surface with
      buf := bufs.1
      compositor := some { cmp with image := { cmp.image with buf := bufs.2 } } })

def _rasterBlendingGradientRect (P : SwCommon) (fillMethod : FillMethod) (surface : SwSurface)
    (bbox : RenderRegion) (fill : SwFill) : Bool × SwSurface :=
  match surface.blender with
  | none => (false, surface)
  | some blender =>
    let buffer : Int := u32 (bbox.min.y * surface.stride) + bbox.min.x
    if fill.translucent then
      let buf := forLoop bbox.h (fun y m =>
          fillMethod.blend2 fill m (buffer + u32 (y * surface.stride)).toNat
            (u32 (bbox.min.y + y)) (u32 bbox.min.x) bbox.w P.opBlendPreNormal blender 255)
        surface.buf
      (true, { surface with buf := buf })
    else
      let buf := forLoop bbox.h (fun y m =>
          fillMethod.blend2 fill m (buffer + u32 (y * surface.stride)).toNat
            (u32 (bbox.min.y + y)) (u32 bbox.min.x) bbox.w P.opBlendSrcOver blender 255)
        surface.buf
      (true, { surface with buf := buf })

def _rasterTranslucentGradientRect (P : SwCommon) (fillMethod : FillMethod)
    (surface : SwSurface) (bbox : RenderRegion) (fill : SwFill) : Bool × SwSurface :=
  if surface.channelSize = 4 then
    let buffer : Int := u32 (bbox.min.y * surface.stride) + bbox.min.x
    let buf := forLoop bbox.h (fun y m =>
        fillMethod.blend fill m (buffer + y * surface.stride).toNat (u32 (bbox.min.y + y))
          (u32 bbox.min.x) bbox.w P.opBlendPreNormal 255)
      surface.buf
    (true, { surface with buf := buf })
  else if surface.channelSize = 1 then
    let buffer : Int := u32 (bbox.min.y * surface.stride) + bbox.min.x
    let buf := forLoop bbox.h (fun y m =>
        fillMethod.mask fill m (buffer + y * surface.stride).toNat (u32 (bbox.min.y + y))
          (u32 bbox.min.x) bbox.w _opMaskAdd 255)
      surface.buf
    (true, { surface with buf := buf })
  else (true, surface)

def _rasterSolidGradientRect (P : SwCommon) (fillMethod : FillMethod) (surface : SwSurface)
    (bbox : RenderRegion) (fill : SwFill) : Bool × SwSurface :=
  if surface.channelSize = 4 then
    let buffer : Int := u32 (bbox.min.y * surface.stride) + bbox.min.x
    let buf := forLoop bbox.h (fun y m =>
        fillMethod.blend fill m (buffer + y * surface.stride).toNat (u32 (bbox.min.y + y))
          (u32 bbox.min.x) bbox.w P.opBlendSrcOver 255)
      surface.buf
    (true, { surface with buf := buf })
  else if surface.channelSize = 1 then
    let buffer : Int := u32 (bbox.min.y * surface.stride) + bbox.min.x
    let buf := forLoop bbox.h (fun y m =>
        fillMethod.mask fill m (buffer + y * surface.stride).toNat (u32 (bbox.min.y + y))
          (u32 bbox.min.x) bbox.w _opMaskNone 255)
      surface.buf
    (true, { surface with buf := buf })
  else (true, surface)

/-- The dispatcher of the rectangle gradient kernels, for the evaluator `FillLinear`. On the
last branch the source calls `_rasterSolidGradientRect` without returning its result and falls
through to `return false`. -/
def _rasterLinearGradientRect (P : SwCommon) (fillLinear : FillMethod) (surface : SwSurface)
    (bbox : RenderRegion) (fill : SwFill) : Bool × SwSurface :=
  if _compositing surface then
    if _matting surface then _rasterGradientMattedRect fillLinear surface bbox fill
    else _rasterGradientMaskedRect fillLinear surface bbox fill
  else if _blending surface then
    _rasterBlendingGradientRect P fillLinear surface bbox fill
  else
    if fill.translucent then _rasterTranslucentGradientRect P fillLinear surface bbox fill
    else (false, (_rasterSolidGradientRect P fillLinear surface bbox fill).2)

/-- The dispatcher of the rectangle gradient kernels, for the evaluator `FillRadial`. On the
last branch the source calls `_rasterSolidGradientRect` without returning its result and falls
through to `return false`. -/
def _rasterRadialGradientRect (P : SwCommon) (fillRadial : FillMethod) (surface : SwSurface)
    (bbox : RenderRegion) (fill : SwFill) : Bool × SwSurface :=
  if _compositing surface then
    if _matting surface then _rasterGradientMattedRect fillRadial surface bbox fill
    else _rasterGradientMaskedRect fillRadial surface bbox fill
  else if _blending surface then
    _rasterBlendingGradientRect P fillRadial surface bbox fill
  else
    if fill.translucent then _rasterTranslucentGradientRect P fillRadial surface bbox fill
    else (false, (_rasterSolidGradientRect P fillRadial surface bbox fill).2)

def _rasterGradientMattedRle (fillMethod : FillMethod) (surface : SwSurface) (rle : SwRle)
    (fill : SwFill) : Bool × SwSurface :=
  match surface.compositor with
  | none => (false, surface)
  | some cmp =>
    let csize := cmp.image.channelSize
    let alpha := surface.alpha cmp.method
    let bufs := rle.spans.foldl (fun (m : Mem × Mem) span =>
        fillMethod.matte fill m.1 (u32 (span.y * surface.stride + span.x)) span.y span.x
          span.len m.2 (u32 ((span.y * cmp.image.stride + span.x) * csize)) alpha csize
          span.coverage)
      (surface.buf, cmp.image.buf)
    (true, { surface with
      buf := bufs.1
      compositor := some { cmp with image := { cmp.image with buf := bufs.2 } } })

def _rasterBlendingGradientRle (P : SwCommon) (fillMethod : FillMethod) (surface : SwSurface)
    (rle : SwRle) (fill : SwFill) : Bool × SwSurface :=
  match surface.blender with
  | none => (false, surface)
  | some blender =>
    let buf := rle.spans.foldl (fun m span =>
        fillMethod.blend2 fill m (u32 (span.y * surface.stride + span.x)) span.y span.x
          span.len P.opBlendPreNormal blender span.coverage)
      surface.buf
    (true, { surface with buf := buf })

def _rasterTranslucentGradientRle (P : SwCommon) (fillMethod : FillMethod)
    (surface : SwSurface) (rle : SwRle) (fill : SwFill) : Bool × SwSurface :=
  if surface.channelSize = 4 then
    let buf := rle.spans.foldl (fun m span =>
        let dst := u32 (span.y * surface.stride + span.x)
        if span.coverage = 255 then
          fillMethod.blend fill m dst span.y span.x span.len P.opBlendPreNormal 255
        else fillMethod.blend fill m dst span.y span.x span.len P.opBlendNormal span.coverage)
      surface.buf
    (true, { surface with buf := buf })
  else if surface.channelSize = 1 then
    let buf := rle.spans.foldl (fun m span =>
        fillMethod.mask fill m (u32 (span.y * surface.stride + span.x)) span.y span.x span.len
          _opMaskAdd span.coverage)
      surface.buf
    (true, { surface with buf := buf })
  else (true, surface)

def _rasterSolidGradientRle (P : SwCommon) (fillMethod : FillMethod) (surface : SwSurface)
    (rle : SwRle) (fill : SwFill) : Bool × SwSurface :=
  if surface.channelSize = 4 then
    let buf := rle.spans.foldl (fun m span =>
        let dst := u32 (span.y * surface.stride + span.x)
        if span.coverage = 255 then
          fillMethod.blend fill m dst span.y span.x span.len P.opBlendSrcOver 255
        else fillMethod.blend fill m dst span.y span.x span.len P.opBlendInterp span.coverage)
      surface.buf
    (true, { surface with buf := buf })
  else if surface.channelSize = 1 then
    let buf := rle.spans.foldl (fun m span =>
        let dst := u32 (span.y * surface.stride + span.x)
        if span.coverage = 255 then
          fillMethod.mask fill m dst span.y span.x span.len _opMaskNone 255
        else fillMethod.mask fill m dst span.y span.x span.len _opMaskAdd span.coverage)
      surface.buf
    (true, { surface with buf := buf })
  else (true, surface)

def _rasterLinearGradientRle (P : SwCommon) (fillLinear : FillMethod) (surface : SwSurface)
    (rle : SwRle) (fill : SwFill) : Bool × SwSurface :=
  if _compositing surface then
    if _matting surface then _rasterGradientMattedRle fillLinear surface rle fill
    else _rasterGradientMaskedRle fillLinear surface rle fill
  else if _blending surface then
    _rasterBlendingGradientRle P fillLinear surface rle fill
  else
    if fill.translucent then _rasterTranslucentGradientRle P fillLinear surface rle fill
    else _rasterSolidGradientRle P fillLinear surface rle fill

def _rasterRadialGradientRle (P : SwCommon) (fillRadial : FillMethod) (surface : SwSurface)
    (rle : SwRle) (fill : SwFill) : Bool × SwSurface :=
  if _compositing surface then
    if _matting surface then _rasterGradientMattedRle fillRadial surface rle fill
    else _rasterGradientMaskedRle fillRadial surface rle fill
  else if _blending surface then
    _rasterBlendingGradientRle P fillRadial surface rle fill
  else
    if fill.translucent then _rasterTranslucentGradientRle P fillRadial surface rle fill
    else _rasterSolidGradientRle P fillRadial surface rle fill

/-- Modelled from the spec: the enumeration `Type` of the public header, which is not among
the sources; a gradient is linear or radial. -/
inductive FillType where
  | Undefined | LinearGradient | RadialGradient
  deriving DecidableEq, Repr

/-- Modelled from the spec: the gradient specification `Fill` of the public header, which is
not among the sources; `rasterGradientShape` reads its type and hands it to
`fillFetchSolid`. -/
structure Fill where
  type : FillType
  deriving DecidableEq, Repr

/-- The functions of `tvgSwFill.cpp`, which is not among the sources, that
`rasterGradientShape` calls: the test for a gradient that degenerates to a single colour, and
the two fill evaluators. -/
structure SwFillOps where
  fillFetchSolid : SwFill → Fill → Option RenderColor
  fillLinear : FillMethod
  fillRadial : FillMethod

def rasterGradientShape (P : SwCommon) (G : SwFillOps) (surface : SwSurface) (shape : SwShape)
    (bbox : RenderRegion) (fdata : Fill) (opacity : Nat) : Bool × SwSurface :=
  match shape.fill with
  | none => (false, surface)
  | some fill =>
    match G.fillFetchSolid fill fdata with
    | some color =>
      let a := MULTIPLY color.a opacity
      let c : RenderColor := ⟨color.r, color.g, color.b, a⟩
      if a > 0 then (rasterShape P surface shape bbox c).1 else (true, surface)
    | none =>
      let type := fdata.type
      if shape.fastTrack then
        if type = FillType.LinearGradient then
          _rasterLinearGradientRect P G.fillLinear surface bbox fill
        else if type = FillType.RadialGradient then
          _rasterRadialGradientRect P G.fillRadial surface bbox fill
        else (false, surface)
      else
        match shape.rle with
        | none => (false, surface)
        | some rle =>
          if !rle.invalid then
            if type = FillType.LinearGradient then
              _rasterLinearGradientRle P G.fillLinear surface rle fill
            else if type = FillType.RadialGradient then
              _rasterRadialGradientRle P G.fillRadial surface rle fill
            else (false, surface)
          else (false, surface)

/-- Modelled from the spec: a fill evaluator for the concrete inputs of this file, standing for
`fillLinear` / `fillRadial`, which are not among the sources: the gradient that evaluates to
the pixel `color` at every point. Each overload writes `len` cells from `dst` on, combined as
the colour kernel of the same compositing context combines its colour. -/
def flatFill (color : Nat) : FillMethod where
  mask := fun _ m dst _ _ len op a =>
    forLoop len (fun i m =>
      let src := MULTIPLY (A color) a
      m.write8 (dst + i) (op src (m.read8 (dst + i)) (255 - src))) m
  maskCmp := fun _ m dst _ _ len c cmp op a =>
    (forLoop len (fun i m =>
      let src := MULTIPLY (A color) a
      let tmp := op src (c.read8 (cmp + i)) 0
      m.write8 (dst + i) (tmp + MULTIPLY (m.read8 (dst + i)) (not8 tmp))) m, c)
  blend := fun _ m dst _ _ len op a =>
    forLoop len (fun i m => m.write32 (dst + i) (op color (m.read32 (dst + i)) a)) m
  matte := fun _ m dst _ _ len c cmp alpha csize opacity =>
    (forLoop len (fun i m =>
      m.write32 (dst + i) (opBlendNormal color (m.read32 (dst + i))
        (MULTIPLY (alpha (c.ptr (cmp + i * csize))) opacity))) m, c)
  blend2 := fun _ m dst _ _ len op op2 a =>
    forLoop len (fun i m =>
      m.write32 (dst + i) (op (op2 color (m.read32 (dst + i))) (m.read32 (dst + i)) a)) m

/-- The fill functions with `flatFill color` for both evaluators and a gradient that is never
fetched as a solid colour. -/
def flatFillOps (color : Nat) : SwFillOps where
  fillFetchSolid := fun _ _ => none
  fillLinear := flatFill color
  fillRadial := flatFill color

/-- A fastTrack shape with an opaque gradient fill and no Rle. -/
def rectShape : SwShape := ⟨none, none, some ⟨false⟩, true⟩

/-- A shape that is not fastTrack, with an opaque gradient fill and the Rle of one span of
four cells on row 0, from column 0 on, of full coverage. -/
def spanShape : SwShape := ⟨some ⟨[⟨0, 0, 4, 255⟩]⟩, none, some ⟨false⟩, false⟩

/-! ## Image samplers -/

/-- The conversion of a `float`, held as an exact rational, to an integer type: the fraction
is discarded (truncation toward zero). -/
def truncI (q : Rat) : Int := if 0 ≤ q then Rat.floor q else -Rat.floor (-q)

/-- The C library `nearbyint` in the default rounding mode: the nearest integer, a tie going
to the even one. -/
def nearbyint (q : Rat) : Int :=
  let f := Rat.floor q
  let r := q - f
  if r < 1 / 2 then f
  else if 1 / 2 < r then f + 1
  else if f % 2 = 0 then f else f + 1

def DOWN_SCALE_TOLERANCE : Rat := 1 / 2

/-- The quotient `0.5f / scale` is that of the rationals, which is 0 for `scale = 0`. -/
def _sampleSize (scale : Rat) : Nat :=
  let sampleSize := u32 (truncI (1 / 2 / scale))
  if sampleSize = 0 then 1 else sampleSize

def _interpUpScaler (P : SwCommon) (img : Mem) (_stride w h : Nat) (sx sy : Rat)
    (_miny _maxy _n : Int) : Nat :=
  let rx := (truncI sx).toNat
  let ry := (truncI sy).toNat
  let rx2 := if rx + 1 ≥ w then u32 ((w : Int) - 1) else rx + 1
  let ry2 := if ry + 1 ≥ h then u32 ((h : Int) - 1) else ry + 1
  let dx := if sx > 0 then u8 (truncI ((sx - rx) * 255)) else 0
  let dy := if sy > 0 then u8 (truncI ((sy - ry) * 255)) else 0
  let c1 := img.read32 (rx + ry * w)
  let c2 := img.read32 (rx2 + ry * w)
  let c3 := img.read32 (rx + ry2 * w)
  let c4 := img.read32 (rx2 + ry2 * w)
  P.INTERPOLATE (P.INTERPOLATE c4 c3 dx) (P.INTERPOLATE c2 c1 dx) dy

/-- The number of passes of a loop `for (v = lo; v < hi; v += inc)` with `inc > 0`. -/
def steps (lo hi inc : Int) : Nat := ((hi - lo + inc - 1) / inc).toNat

/-- The mean kernel. The result is `none` when the source gives no value: the loops do not
end for a step `inc ≤ 0`, and the division by the count `n` of visited cells fails for
`n = 0`. -/
def _interpDownScaler (img : Mem) (stride w _h : Nat) (sx _sy : Rat) (miny maxy n : Int) :
    Option Nat :=
  let minx := i32 (truncI sx - n)
  let minx := if minx < 0 then 0 else minx
  let maxx := i32 (truncI sx + n)
  let maxx := if maxx ≥ i32 w then i32 w else maxx
  let inc := i32 (Int.tdiv n 2 + 1)
  if inc ≤ 0 then none
  else
    let src : Int := minx + u32 (miny * stride)
    let ny := steps miny maxy inc
    let nx := steps minx maxx inc
    let c := forLoop ny (fun j (c : Nat × Nat × Nat × Nat) =>
        forLoop nx (fun i (c : Nat × Nat × Nat × Nat) =>
          let p := img.read32 (src + j * u32 (stride * inc) + i * inc).toNat
          (c.1 + A p, c.2.1 + C1 p, c.2.2.1 + C2 p, c.2.2.2 + C3 p))
          c)
      (0, 0, 0, 0)
    let n := ny * nx
    if n = 0 then none
    else
      some (((c.1 / n) <<< 24 ||| (c.2.1 / n) <<< 16 ||| (c.2.2.1 / n) <<< 8 ||| c.2.2.2 / n)
        % 4294967296)

/-- The call through the function pointer `scaleMethod`, which is `_interpDownScaler` when
`image.scale < DOWN_SCALE_TOLERANCE` (`down`) and `_interpUpScaler` otherwise. -/
def scaleMethod (P : SwCommon) (down : Bool) (img : Mem) (stride w h : Nat) (sx sy : Rat)
    (miny maxy n : Int) : Option Nat :=
  if down then _interpDownScaler img stride w h sx sy miny maxy n
  else some (_interpUpScaler P img stride w h sx sy miny maxy n)

/-- The macro `SCALED_IMAGE_RANGE_Y(y)`: `none` when it leaves the pass by `continue`, else
`sy` and the rows `miny`, `maxy`, which stay 0 unless the down-scaler is the method. -/
def SCALED_IMAGE_RANGE_Y (itransform : Matrix) (image : SwImage) (down : Bool)
    (sampleSize : Nat) (y : Int) : Option (Rat × Int × Int) :=
  let sy := y * itransform.e22 + itransform.e23 - 49 / 100
  if sy ≤ -(1 / 2) ∨ u32 (truncI (sy + 1 / 2)) ≥ image.h then none
  else if down then
    let my := i32 (nearbyint sy)
    let miny := i32 (my - i32 sampleSize)
    let miny := if miny < 0 then 0 else miny
    let maxy := i32 (my + i32 sampleSize)
    let maxy := if maxy ≥ i32 image.h then i32 image.h else maxy
    some (sy, miny, maxy)
  else some (sy, 0, 0)

/-- The macro `SCALED_IMAGE_RANGE_X`: `none` when it leaves the pass by `continue`, else
`sx`. -/
def SCALED_IMAGE_RANGE_X (itransform : Matrix) (image : SwImage) (x : Int) : Option Rat :=
  let sx := x * itransform.e11 + itransform.e13 - 49 / 100
  if sx ≤ -(1 / 2) ∨ u32 (truncI (sx + 1 / 2)) ≥ image.w then none
  else some sx

/-- The scalar build of `rasterTranslucentPixel32(dst, src, len, opacity)`. -/
def rasterTranslucentPixel32 (P : SwCommon) (dst : Mem) (dsti : Nat) (src : Mem) (srci : Nat)
    (len opacity : Nat) : Mem :=
  P.cRasterTranslucentPixels dst dsti src srci len opacity

/-! ## Images

The scaled kernels give `none` when a sample has no value (see `_interpDownScaler`). A kernel
reached with a null `compositor`, `blender` or `image.rle` answers false and leaves the surface
as it is. -/

def _rasterScaledMaskedRleImage (surface : SwSurface) (_image : SwImage) (_itransform : Matrix)
    (_bbox : RenderRegion) (_opacity : Nat) : Option (Bool × SwSurface) :=
  some (false, surface)

def _rasterScaledMattedRleImage (P : SwCommon) (surface : SwSurface) (image : SwImage)
    (itransform : Matrix) (_bbox : RenderRegion) (opacity : Nat) : Option (Bool × SwSurface) :=
  match surface.compositor, image.rle with
  | some cmp, some rle =>
    let csize := cmp.image.channelSize
    let alpha := surface.alpha cmp.method
    let down := decide (image.scale < DOWN_SCALE_TOLERANCE)
    let sampleSize := _sampleSize image.scale
    let buf := rle.spans.foldl (fun (om : Option Mem) span =>
        om.bind fun m =>
          match SCALED_IMAGE_RANGE_Y itransform image down sampleSize span.y with
          | none => some m
          | some (sy, miny, maxy) =>
            let dst := u32 (span.y * surface.stride + span.x)
            let cmpi := u32 ((span.y * cmp.image.stride + span.x) * csize)
            let a := MULTIPLY span.coverage opacity
            forLoop span.len (fun i (om : Option Mem) =>
              om.bind fun m =>
                match SCALED_IMAGE_RANGE_X itransform image (u32 (span.x + i)) with
                | none => some m
                | some sx =>
                  (scaleMethod P down image.buf image.stride image.w image.h sx sy miny maxy
                    (i32 sampleSize)).map fun src =>
                    let c := cmp.image.buf.ptr (cmpi + i * csize)
                    let src := P.ALPHA_BLEND src
                      (if a = 255 then alpha c else MULTIPLY (alpha c) a)
                    m.write32 (dst + i) (src + P.ALPHA_BLEND (m.read32 (dst + i)) (IA src)))
              (some m))
      (some surface.buf)
    buf.map fun m => (true, { surface with buf := m })
  | _, _ => some (false, surface)

def _rasterScaledBlendingRleImage (P : SwCommon) (surface : SwSurface) (image : SwImage)
    (itransform : Matrix) (_bbox : RenderRegion) (opacity : Nat) : Option (Bool × SwSurface) :=
  match surface.blender, image.rle with
  | some blender, some rle =>
    let down := decide (image.scale < DOWN_SCALE_TOLERANCE)
    let sampleSize := _sampleSize image.scale
    let buf := rle.spans.foldl (fun (om : Option Mem) span =>
        om.bind fun m =>
          match SCALED_IMAGE_RANGE_Y itransform image down sampleSize span.y with
          | none => some m
          | some (sy, miny, maxy) =>
            let dst := u32 (span.y * surface.stride + span.x)
            let alpha := MULTIPLY span.coverage opacity
            forLoop span.len (fun i (om : Option Mem) =>
              om.bind fun m =>
                match SCALED_IMAGE_RANGE_X itransform image (u32 (span.x + i)) with
                | none => some m
                | some sx =>
                  (scaleMethod P down image.buf image.stride image.w image.h sx sy miny maxy
                    (i32 sampleSize)).map fun src =>
                    let d := m.read32 (dst + i)
                    if alpha = 255 then
                      m.write32 (dst + i)
                        (P.INTERPOLATE (blender (rasterUnpremultiply src) d) d (A src))
                    else
                      m.write32 (dst + i)
                        (P.INTERPOLATE (blender (rasterUnpremultiply src) d) d
                          (MULTIPLY alpha (A src))))
              (some m))
      (some surface.buf)
    buf.map fun m => (true, { surface with buf := m })
  | _, _ => some (false, surface)

def _rasterScaledRleImage (P : SwCommon) (surface : SwSurface) (image : SwImage)
    (itransform : Matrix) (_bbox : RenderRegion) (opacity : Nat) : Option (Bool × SwSurface) :=
  match image.rle with
  | none => some (false, surface)
  | some rle =>
    let down := decide (image.scale < DOWN_SCALE_TOLERANCE)
    let sampleSize := _sampleSize image.scale
    let buf := rle.spans.foldl (fun (om : Option Mem) span =>
        om.bind fun m =>
          match SCALED_IMAGE_RANGE_Y itransform image down sampleSize span.y with
          | none => some m
          | some (sy, miny, maxy) =>
            let dst := u32 (span.y * surface.stride + span.x)
            let alpha := MULTIPLY span.coverage opacity
            forLoop span.len (fun i (om : Option Mem) =>
              om.bind fun m =>
                match SCALED_IMAGE_RANGE_X itransform image (u32 (span.x + i)) with
                | none => some m
                | some sx =>
                  (scaleMethod P down image.buf image.stride image.w image.h sx sy miny maxy
                    (i32 sampleSize)).map fun src =>
                    let src := if alpha < 255 then P.ALPHA_BLEND src alpha else src
                    m.write32 (dst + i) (src + P.ALPHA_BLEND (m.read32 (dst + i)) (IA src)))
              (some m))
      (some surface.buf)
    buf.map fun m => (true, { surface with buf := m })

def _rasterDirectMattedRleImage (P : SwCommon) (surface : SwSurface) (image : SwImage)
    (bbox : RenderRegion) (opacity : Nat) : Bool × SwSurface :=
  match surface.compositor, image.rle with
  | some cmp, some rle =>
    let csize := cmp.image.channelSize
    let alpha := surface.alpha cmp.method
    let buf := (rle.fetch bbox).foldl (fun m span =>
        let (ok, x, len) := span.fetch bbox
        if !ok then m
        else
          let dst := u32 (span.y * surface.stride + x)
          let cmpi := u32 ((span.y * cmp.image.stride + x) * csize)
          let img : Int := u32 ((span.y + image.oy) * image.stride) + (x + image.ox)
          let a := MULTIPLY span.coverage opacity
          forLoop len.toNat (fun i m =>
            let c := cmp.image.buf.ptr (cmpi + i * csize)
            let tmp :=
              if a = 255 then P.ALPHA_BLEND (image.buf.read32 (img + i).toNat) (alpha c)
              else P.ALPHA_BLEND (image.buf.read32 (img + i).toNat) (MULTIPLY a (alpha c))
            m.write32 (dst + i) (tmp + P.ALPHA_BLEND (m.read32 (dst + i)) (IA tmp)))
            m)
      surface.buf
    (true, { surface with buf := buf })
  | _, _ => (false, surface)

def _rasterDirectBlendingRleImage (P : SwCommon) (surface : SwSurface) (image : SwImage)
    (bbox : RenderRegion) (opacity : Nat) : Bool × SwSurface :=
  match surface.blender, image.rle with
  | some blender, some rle =>
    let buf := (rle.fetch bbox).foldl (fun m span =>
        let (ok, x, len) := span.fetch bbox
        if !ok then m
        else
          let dst := u32 (span.y * surface.stride + x)
          let src : Int := u32 ((span.y + image.oy) * image.stride) + (x + image.ox)
          let alpha := MULTIPLY span.coverage opacity
          forLoop len.toNat (fun i m =>
            let s := image.buf.read32 (src + i).toNat
            let d := m.read32 (dst + i)
            if alpha = 255 then m.write32 (dst + i) (blender (rasterUnpremultiply s) d)
            else
              m.write32 (dst + i)
                (P.INTERPOLATE (blender (rasterUnpremultiply s) d) d (MULTIPLY alpha (A s))))
            m)
      surface.buf
    (true, { surface with buf := buf })
  | _, _ => (false, surface)

def _rasterDirectRleImage (P : SwCommon) (surface : SwSurface) (image : SwImage)
    (bbox : RenderRegion) (opacity : Nat) : Bool × SwSurface :=
  match image.rle with
  | none => (false, surface)
  | some rle =>
    let buf := (rle.fetch bbox).foldl (fun m span =>
        let (ok, x, len) := span.fetch bbox
        if !ok then m
        else
          let dst := u32 (span.y * surface.stride + x)
          let img : Int := u32 ((span.y + image.oy) * image.stride) + (x + image.ox)
          let alpha := MULTIPLY span.coverage opacity
          rasterTranslucentPixel32 P m dst image.buf img.toNat (u32 len) alpha)
      surface.buf
    (true, { surface with buf := buf })

def _rasterDirectMaskedRleImage (surface : SwSurface) (_image : SwImage)
    (_bbox : RenderRegion) (_opacity : Nat) : Bool × SwSurface :=
  (false, surface)

def _rasterScaledMaskedImage (surface : SwSurface) (_image : SwImage) (_itransform : Matrix)
    (_bbox : RenderRegion) (_opacity : Nat) : Option (Bool × SwSurface) :=
  some (false, surface)

/-- The rows of `dbuffer` and `cbuffer` advance at the end of the loop body, which a row left
by `continue` does not reach: the state carries the number of rows that were not skipped. -/
def _rasterScaledMattedImage (P : SwCommon) (surface : SwSurface) (image : SwImage)
    (itransform : Matrix) (bbox : RenderRegion) (opacity : Nat) : Option (Bool × SwSurface) :=
  if surface.channelSize = 1 then some (false, surface)
  else
    match surface.compositor with
    | none => some (false, surface)
    | some cmp =>
      let dbuffer := u32 (bbox.min.y * surface.stride + bbox.min.x)
      let csize := cmp.image.channelSize
      let cbuffer := u32 ((bbox.min.y * cmp.image.stride + bbox.min.x) * csize)
      let alpha := surface.alpha cmp.method
      let down := decide (image.scale < DOWN_SCALE_TOLERANCE)
      let sampleSize := _sampleSize image.scale
      let st := forLoop (bbox.max.y - bbox.min.y).toNat (fun k (st : Option (Mem × Nat)) =>
          st.bind fun (m, rows) =>
            match SCALED_IMAGE_RANGE_Y itransform image down sampleSize (bbox.min.y + k) with
            | none => some (m, rows)
            | some (sy, miny, maxy) =>
              (forLoop (bbox.max.x - bbox.min.x).toNat (fun i (om : Option Mem) =>
                om.bind fun m =>
                  match SCALED_IMAGE_RANGE_X itransform image (bbox.min.x + i) with
                  | none => some m
                  | some sx =>
                    (scaleMethod P down image.buf image.stride image.w image.h sx sy miny
                      maxy (i32 sampleSize)).map fun src =>
                      let dst := dbuffer + rows * surface.stride + i
                      let c := cmp.image.buf.ptr
                        (cbuffer + rows * u32 (cmp.image.stride * csize) + i * csize)
                      let tmp := P.ALPHA_BLEND src
                        (if opacity = 255 then alpha c else MULTIPLY opacity (alpha c))
                      m.write32 dst (tmp + P.ALPHA_BLEND (m.read32 dst) (IA tmp)))
                (some m)).map fun m => (m, rows + 1))
        (some (surface.buf, 0))
      st.map fun st => (true, { surface with buf := st.1 })

def _rasterScaledBlendingImage (P : SwCommon) (surface : SwSurface) (image : SwImage)
    (itransform : Matrix) (bbox : RenderRegion) (opacity : Nat) : Option (Bool × SwSurface) :=
  if surface.channelSize = 1 then some (false, surface)
  else
    match surface.blender with
    | none => some (false, surface)
    | some blender =>
      let dbuffer := u32 (bbox.min.y * surface.stride + bbox.min.x)
      let down := decide (image.scale < DOWN_SCALE_TOLERANCE)
      let sampleSize := _sampleSize image.scale
      let buf := forLoop (bbox.max.y - bbox.min.y).toNat (fun k (om : Option Mem) =>
          om.bind fun m =>
            match SCALED_IMAGE_RANGE_Y itransform image down sampleSize (bbox.min.y + k) with
            | none => some m
            | some (sy, miny, maxy) =>
              forLoop (bbox.max.x - bbox.min.x).toNat (fun i (om : Option Mem) =>
                om.bind fun m =>
                  match SCALED_IMAGE_RANGE_X itransform image (bbox.min.x + i) with
                  | none => some m
                  | some sx =>
                    (scaleMethod P down image.buf image.stride image.w image.h sx sy miny
                      maxy (i32 sampleSize)).map fun src =>
                      let dst := dbuffer + k * surface.stride + i
                      let d := m.read32 dst
                      m.write32 dst
                        (P.INTERPOLATE (blender (rasterUnpremultiply src) d) d
                          (MULTIPLY opacity (A src))))
                (some m))
        (some surface.buf)
      buf.map fun m => (true, { surface with buf := m })

def _rasterScaledImage (P : SwCommon) (surface : SwSurface) (image : SwImage)
    (itransform : Matrix) (bbox : RenderRegion) (opacity : Nat) : Option (Bool × SwSurface) :=
  let down := decide (image.scale < DOWN_SCALE_TOLERANCE)
  let sampleSize := _sampleSize image.scale
  if surface.channelSize = 4 then
    let buffer := u32 (bbox.min.y * surface.stride + bbox.min.x)
    let buf := forLoop (bbox.max.y - bbox.min.y).toNat (fun k (om : Option Mem) =>
        om.bind fun m =>
          match SCALED_IMAGE_RANGE_Y itransform image down sampleSize (bbox.min.y + k) with
          | none => some m
          | some (sy, miny, maxy) =>
            forLoop (bbox.max.x - bbox.min.x).toNat (fun i (om : Option Mem) =>
              om.bind fun m =>
                match SCALED_IMAGE_RANGE_X itransform image (bbox.min.x + i) with
                | none => some m
                | some sx =>
                  (scaleMethod P down image.buf image.stride image.w image.h sx sy miny maxy
                    (i32 sampleSize)).map fun src =>
                    let dst := buffer + k * surface.stride + i
                    let src := if opacity < 255 then P.ALPHA_BLEND src opacity else src
                    m.write32 dst (src + P.ALPHA_BLEND (m.read32 dst) (IA src)))
              (some m))
      (some surface.buf)
    buf.map fun m => (true, { surface with buf := m })
  else if surface.channelSize = 1 then
    let buffer := u32 (bbox.min.y * surface.stride + bbox.min.x)
    let buf := forLoop (bbox.max.y - bbox.min.y).toNat (fun k (om : Option Mem) =>
        om.bind fun m =>
          match SCALED_IMAGE_RANGE_Y itransform image down sampleSize (bbox.min.y + k) with
          | none => some m
          | some (sy, miny, maxy) =>
            forLoop (bbox.max.x - bbox.min.x).toNat (fun i (om : Option Mem) =>
              om.bind fun m =>
                match SCALED_IMAGE_RANGE_X itransform image (bbox.min.x + i) with
                | none => some m
                | some sx =>
                  (scaleMethod P down image.buf image.stride image.w image.h sx sy miny maxy
                    (i32 sampleSize)).map fun src =>
                    m.write8 (buffer + k * surface.stride + i) (MULTIPLY (A src) opacity))
              (some m))
      (some surface.buf)
    buf.map fun m => (true, { surface with buf := m })
  else some (true, surface)

def _rasterDirectMaskedImage (surface : SwSurface) (_image : SwImage) (_bbox : RenderRegion)
    (_w _h : Int) (_opacity : Nat) : Bool × SwSurface :=
  (false, surface)

def _rasterDirectMattedImage (P : SwCommon) (surface : SwSurface) (image : SwImage)
    (bbox : RenderRegion) (w h : Int) (opacity : Nat) : Bool × SwSurface :=
  match surface.compositor with
  | none => (false, surface)
  | some cmp =>
    let csize := cmp.image.channelSize
    let alpha := surface.alpha cmp.method
    let sbuffer : Int :=
      u32 ((bbox.min.y + image.oy) * image.stride) + (bbox.min.x + image.ox)
    let cbuffer := u32 ((bbox.min.y * cmp.image.stride + bbox.min.x) * csize)
    if surface.channelSize = 4 then
      let dbuffer : Int := u32 (bbox.min.y * surface.stride) + bbox.min.x
      let buf := forLoop h.toNat (fun y m =>
          forLoop w.toNat (fun x m =>
            let dst := (dbuffer + y * surface.stride + x).toNat
            let src := image.buf.read32 (sbuffer + y * image.stride + x).toNat
            let c := cmp.image.buf.ptr (cbuffer + y * u32 (cmp.image.stride * csize) + x * csize)
            let tmp :=
              if opacity = 255 then P.ALPHA_BLEND src (alpha c)
              else P.ALPHA_BLEND src (MULTIPLY opacity (alpha c))
            m.write32 dst (tmp + P.ALPHA_BLEND (m.read32 dst) (IA tmp)))
            m)
        surface.buf
      (true, { surface with buf := buf })
    else if surface.channelSize = 1 then
      let dbuffer : Int := u32 (bbox.min.y * surface.stride) + bbox.min.x
      let buf := forLoop h.toNat (fun y m =>
          forLoop w.toNat (fun x m =>
            let dst := (dbuffer + y * surface.stride + x).toNat
            let src := image.buf.read32 (sbuffer + y * image.stride + x).toNat
            let c := cmp.image.buf.ptr (cbuffer + y * u32 (cmp.image.stride * csize) + x * csize)
            let tmp :=
              if opacity = 255 then MULTIPLY (A src) (alpha c)
              else MULTIPLY (A src) (MULTIPLY opacity (alpha c))
            m.write8 dst (tmp + MULTIPLY (m.read8 dst) (255 - tmp)))
            m)
        surface.buf
      (true, { surface with buf := buf })
    else (true, surface)

def _rasterDirectBlendingImage (P : SwCommon) (surface : SwSurface) (image : SwImage)
    (bbox : RenderRegion) (w h : Int) (opacity : Nat) : Bool × SwSurface :=
  if surface.channelSize = 1 then (false, surface)
  else
    match surface.blender with
    | none => (false, surface)
    | some blender =>
      let dbuffer := u32 (bbox.min.y * surface.stride + bbox.min.x)
      let sbuffer : Int :=
        u32 ((bbox.min.y + image.oy) * image.stride) + (bbox.min.x + image.ox)
      let buf := forLoop h.toNat (fun y m =>
          forLoop w.toNat (fun x m =>
            let dst := dbuffer + y * surface.stride + x
            let src := image.buf.read32 (sbuffer + y * image.stride + x).toNat
            let d := m.read32 dst
            if opacity = 255 then
              m.write32 dst (P.INTERPOLATE (blender (rasterUnpremultiply src) d) d (A src))
            else
              m.write32 dst
                (P.INTERPOLATE (blender (rasterUnpremultiply src) d) d
                  (MULTIPLY opacity (A src))))
            m)
        surface.buf
      (true, { surface with buf := buf })

def _rasterDirectImage (P : SwCommon) (surface : SwSurface) (image : SwImage)
    (bbox : RenderRegion) (w h : Int) (opacity : Nat) : Bool × SwSurface :=
  let sbuffer : Int := u32 ((bbox.min.y + image.oy) * image.stride) + (bbox.min.x + image.ox)
  if surface.channelSize = 4 then
    let dbuffer := u32 (bbox.min.y * surface.stride + bbox.min.x)
    let buf := forLoop h.toNat (fun y m =>
        rasterTranslucentPixel32 P m (dbuffer + y * surface.stride) image.buf
          (sbuffer + y * image.stride).toNat (u32 w) opacity)
      surface.buf
    (true, { surface with buf := buf })
  else if surface.channelSize = 1 then
    let dbuffer := u32 (bbox.min.y * surface.stride + bbox.min.x)
    let buf := forLoop h.toNat (fun y m =>
        forLoop w.toNat (fun x m =>
          let dst := dbuffer + y * surface.stride + x
          let src := image.buf.read32 (sbuffer + y * image.stride + x).toNat
          if opacity = 255 then m.write8 dst (src + MULTIPLY (m.read8 dst) (IA src))
          else m.write8 dst (P.INTERPOLATE8 (A src) (m.read8 dst) opacity))
          m)
      surface.buf
    (true, { surface with buf := buf })
  else (true, surface)

def _rasterDirectMattedBlendingImage (P : SwCommon) (surface : SwSurface) (image : SwImage)
    (bbox : RenderRegion) (w h : Int) (opacity : Nat) : Bool × SwSurface :=
  if surface.channelSize = 1 then (false, surface)
  else
    match surface.compositor, surface.blender with
    | some cmp, some blender =>
      let csize := cmp.image.channelSize
      let alpha := surface.alpha cmp.method
      let sbuffer : Int :=
        u32 ((bbox.min.y + image.oy) * image.stride) + (bbox.min.x + image.ox)
      let cbuffer := u32 ((bbox.min.y * cmp.image.stride + bbox.min.x) * csize)
      let dbuffer : Int := u32 (bbox.min.y * surface.stride) + bbox.min.x
      let buf := forLoop h.toNat (fun y m =>
          forLoop w.toNat (fun x m =>
            let dst := (dbuffer + y * surface.stride + x).toNat
            let src := image.buf.read32 (sbuffer + y * image.stride + x).toNat
            let c := cmp.image.buf.ptr (cbuffer + y * u32 (cmp.image.stride * csize) + x * csize)
            let d := m.read32 dst
            if opacity = 255 then
              m.write32 dst (P.INTERPOLATE (blender src d) d (MULTIPLY (A src) (alpha c)))
            else
              m.write32 dst
                (P.INTERPOLATE (blender src d) d
                  (MULTIPLY (MULTIPLY (A src) (alpha c)) opacity)))
            m)
        surface.buf
      (true, { surface with buf := buf })
    | _, _ => (false, surface)

def rasterScaledImage (P : SwCommon) (surface : SwSurface) (image : SwImage)
    (transform : Matrix) (bbox : RenderRegion) (opacity : Nat) : Option (Bool × SwSurface) :=
  match P.inverse transform with
  | none => some (true, surface)
  | some itransform =>
    if _compositing surface then
      if _matting surface then _rasterScaledMattedImage P surface image itransform bbox opacity
      else _rasterScaledMaskedImage surface image itransform bbox opacity
    else if _blending surface then
      _rasterScaledBlendingImage P surface image itransform bbox opacity
    else
      _rasterScaledImage P surface image itransform bbox opacity

def rasterDirectImage (P : SwCommon) (surface : SwSurface) (image : SwImage)
    (bbox : RenderRegion) (opacity : Nat) : Bool × SwSurface :=
  let w := Min.min (i32 (bbox.max.x - bbox.min.x)) (i32 (i32 image.w - (bbox.min.x + image.ox)))
  let h := Min.min (i32 (bbox.max.y - bbox.min.y)) (i32 (i32 image.h - (bbox.min.y + image.oy)))
  if _compositing surface then
    if _matting surface then
      if _blending surface then _rasterDirectMattedBlendingImage P surface image bbox w h opacity
      else _rasterDirectMattedImage P surface image bbox w h opacity
    else _rasterDirectMaskedImage surface image bbox w h opacity
  else if _blending surface then
    _rasterDirectBlendingImage P surface image bbox w h opacity
  else
    _rasterDirectImage P surface image bbox w h opacity

def rasterScaledRleImage (P : SwCommon) (surface : SwSurface) (image : SwImage)
    (transform : Matrix) (bbox : RenderRegion) (opacity : Nat) : Option (Bool × SwSurface) :=
  if surface.channelSize = 1 then some (false, surface)
  else
    match P.inverse transform with
    | none => some (true, surface)
    | some itransform =>
      if _compositing surface then
        if _matting surface then
          _rasterScaledMattedRleImage P surface image itransform bbox opacity
        else _rasterScaledMaskedRleImage surface image itransform bbox opacity
      else if _blending surface then
        _rasterScaledBlendingRleImage P surface image itransform bbox opacity
      else
        _rasterScaledRleImage P surface image itransform bbox opacity

def rasterDirectRleImage (P : SwCommon) (surface : SwSurface) (image : SwImage)
    (bbox : RenderRegion) (opacity : Nat) : Bool × SwSurface :=
  if surface.channelSize = 1 then (false, surface)
  else
    if _compositing surface then
      if _matting surface then _rasterDirectMattedRleImage P surface image bbox opacity
      else _rasterDirectMaskedRleImage surface image bbox opacity
    else if _blending surface then
      _rasterDirectBlendingRleImage P surface image bbox opacity
    else
      _rasterDirectRleImage P surface image bbox opacity

/-- The identity transform. -/
def identityMatrix : Matrix := ⟨1, 0, 0, 0, 1, 0, 0, 0, 1⟩

/-- The zero matrix, which has no inverse. -/
def zeroMatrix : Matrix := ⟨0, 0, 0, 0, 0, 0, 0, 0, 0⟩

/-- A 32-bit 4x4 image whose pixels are all 0x80808080, with the Rle of one span that covers
row 0. -/
def sourceImage4 : SwImage where
  buf := fun _ => 0x80
  w := 4
  h := 4
  stride := 4
  ox := 0
  oy := 0
  channelSize := 4
  rle := some ⟨[⟨0, 0, 4, 255⟩]⟩

/-! ## The kernels as the specification words them -/

/-- The direct branch of the masked rect as the specification words it: for each cell of the
region, `tmp = maskOp(a, *cmp, 255 − a)` and `dst = tmp + MULTIPLY(dst, 255 − tmp)`. -/
def specDirectMaskedRect (surface : SwSurface) (bbox : RenderRegion) (maskOp : SwMask)
    (a : Nat) : Bool × SwSurface :=
  match surface.compositor with
  | none => (false, surface)
  | some cmp =>
    let cbuffer := u32 (bbox.min.y * cmp.image.stride + bbox.min.x)
    let dbuffer := u32 (bbox.min.y * surface.stride + bbox.min.x)
    let buf := forLoop bbox.h (fun y m =>
        forLoop bbox.w (fun x m =>
          let cmpi := cbuffer + y * cmp.image.stride + x
          let dst := dbuffer + y * surface.stride + x
          let tmp := maskOp a (cmp.image.buf.read8 cmpi) (255 - a)
          m.write8 dst (tmp + MULTIPLY (m.read8 dst) (255 - tmp)))
          m)
      surface.buf
    (true, { surface with buf := buf })

/-- The composite masked Rle kernel without the fast path of full coverage: the source of every
span is `MULTIPLY(a, coverage)`. -/
def plainCompositeMaskedRle (surface : SwSurface) (rle : SwRle) (bbox : RenderRegion)
    (maskOp : SwMask) (a : Nat) : Bool × SwSurface :=
  match surface.compositor with
  | none => (false, surface)
  | some cmp =>
    let cstride := cmp.image.stride
    let cbuf := (rle.fetch bbox).foldl (fun m span =>
        let (ok, x, len) := span.fetch bbox
        if !ok then m
        else
          let cmp := u32 (span.y * cstride + x)
          let src := MULTIPLY a span.coverage
          let ialpha := 255 - src
          forLoop len.toNat (fun i m => m.write8 (cmp + i) (maskOp src (m.read8 (cmp + i)) ialpha))
            m)
      cmp.image.buf
    let image := { cmp.image with buf := cbuf }
    _compositeMaskImage { surface with compositor := some { cmp with image := image } } image
      cmp.bbox

/-- The direct masked Rle kernel without the fast path of full coverage. -/
def plainDirectMaskedRle (surface : SwSurface) (rle : SwRle) (bbox : RenderRegion)
    (maskOp : SwMask) (a : Nat) : Bool × SwSurface :=
  match surface.compositor with
  | none => (false, surface)
  | some cmp =>
    let cstride := cmp.image.stride
    let buf := (rle.fetch bbox).foldl (fun m span =>
        let (ok, x, len) := span.fetch bbox
        if !ok then m
        else
          let cmpi := u32 (span.y * cstride + x)
          let dst := u32 (span.y * surface.stride + x)
          let src := MULTIPLY a span.coverage
          forLoop len.toNat (fun i m =>
            let tmp := maskOp src (cmp.image.buf.read8 (cmpi + i)) 0
            m.write8 (dst + i) (tmp + MULTIPLY (m.read8 (dst + i)) (not8 tmp)))
            m)
      surface.buf
    (true, { surface with buf := buf })

/-- The matted Rle kernel without the fast path of full coverage: the source of every span is
`ALPHA_BLEND(color, coverage)` on a 32-bit surface and `MULTIPLY(c.a, coverage)` on an 8-bit
one. -/
def plainMattedRle (P : SwCommon) (surface : SwSurface) (rle : SwRle) (bbox : RenderRegion)
    (c : RenderColor) : Bool × SwSurface :=
  match surface.compositor with
  | none => (false, surface)
  | some cmp =>
    let csize := cmp.image.channelSize
    let alpha := surface.alpha cmp.method
    if surface.channelSize = 4 then
      let color := surface.join c.r c.g c.b c.a
      let buf := (rle.fetch bbox).foldl (fun m span =>
          let (ok, x, len) := span.fetch bbox
          if !ok then m
          else
            let dst := u32 (span.y * surface.stride + x)
            let cmpi := u32 ((span.y * cmp.image.stride + x) * csize)
            let src := P.ALPHA_BLEND color span.coverage
            forLoop len.toNat (fun i m =>
              let tmp := P.ALPHA_BLEND src (alpha (cmp.image.buf.ptr (cmpi + i * csize)))
              m.write32 (dst + i) (tmp + P.ALPHA_BLEND (m.read32 (dst + i)) (IA tmp)))
              m)
        surface.buf
      (true, { surface with buf := buf })
    else if surface.channelSize = 1 then
      let buf := (rle.fetch bbox).foldl (fun m span =>
          let (ok, x, len) := span.fetch bbox
          if !ok then m
          else
            let dst := u32 (span.y * surface.stride + x)
            let cmpi := u32 ((span.y * cmp.image.stride + x) * csize)
            let src := MULTIPLY c.a span.coverage
            forLoop len.toNat (fun i m =>
              m.write8 (dst + i)
                (P.INTERPOLATE8 src (m.read8 (dst + i)) (alpha (cmp.image.buf.ptr (cmpi + i * csize)))))
              m)
        surface.buf
      (true, { surface with buf := buf })
    else (true, surface)

/-- The 2x2 source `{0xFF000000, 0xFFFF0000, 0xFF00FF00, 0xFF0000FF}`, row by row. -/
def quadImage : Mem :=
  Mem.write32 (Mem.write32 (Mem.write32 (Mem.write32 (fun _ => 0) 0 0xFF000000) 1 0xFFFF0000)
    2 0xFF00FF00) 3 0xFF0000FF

/-- The step `inc` of the window of `_interpDownScaler`. -/
def downInc (n : Int) : Int := i32 (Int.tdiv n 2 + 1)

/-- The first column `minx` of the window of `_interpDownScaler`. -/
def downMinx (sx : Rat) (n : Int) : Int :=
  if i32 (truncI sx - n) < 0 then 0 else i32 (truncI sx - n)

/-- The column bound `maxx` of the window of `_interpDownScaler`. -/
def downMaxx (w : Nat) (sx : Rat) (n : Int) : Int :=
  if i32 (truncI sx + n) ≥ i32 w then i32 w else i32 (truncI sx + n)

/-- The number of rows `_interpDownScaler` visits. -/
def downRows (miny maxy n : Int) : Nat := steps miny maxy (downInc n)

/-- The number of columns `_interpDownScaler` visits in each row. -/
def downCols (w : Nat) (sx : Rat) (n : Int) : Nat :=
  steps (downMinx sx n) (downMaxx w sx n) (downInc n)

/-- The cell of the image `_interpDownScaler` reads in pass `i` of the column loop within pass
`j` of the row loop. -/
def downSample (stride : Nat) (sx : Rat) (miny n : Int) (j i : Nat) : Nat :=
  ((downMinx sx n + u32 (miny * stride) : Int) + j * u32 (stride * downInc n)
    + i * downInc n).toNat

/-- A 4x4 image whose pixels are all `0xFF808080`. -/
def grayImage : Mem :=
  forLoop 16 (fun i m => m.write32 i 0xFF808080) (fun _ => 0)

/-! ## Surface utilities -/

/-- The surface pointer is `none` when null. The arguments are `uint32_t` values; the offsets
are `uint32_t` sums and products, and the lengths are handed over as `int32_t`. -/
def rasterClear (surface : Option SwSurface) (x y w h : Nat) : Bool × Option SwSurface :=
  match surface with
  | none => (false, none)
  | some surface =>
    if surface.nullBuf = true ∨ surface.stride = 0 ∨ surface.w = 0 ∨ surface.h = 0 then
      (false, some surface)
    else if surface.channelSize = 4 then
      let val := 0
      if w = surface.stride then
        (true, some { surface with
          buf := rasterPixel32 surface.buf 0 val (u32 (surface.stride * y)) (i32 (w * h)) })
      else
        let buf := forLoop h (fun i m =>
            rasterPixel32 m 0 val (u32 (surface.stride * y + x + surface.stride * i)) (i32 w))
          surface.buf
        (true, some { surface with buf := buf })
    else if surface.channelSize = 1 then
      if w = surface.stride then
        (true, some { surface with
          buf := rasterGrayscale8 surface.buf 0 0 (u32 (surface.stride * y)) (i32 (w * h)) })
      else
        let buf := forLoop h (fun i m =>
            rasterGrayscale8 m 0 0 (u32 (surface.stride * y + x + surface.stride * i)) (i32 w))
          surface.buf
        (true, some { surface with buf := buf })
    else (true, some surface)

/-- The function `f` on buffers sets the bytes at the addresses of `S` to zero and keeps every
other byte. -/
def Clears (S : Nat → Prop) (f : Mem → Mem) : Prop :=
  ∀ m k, (S k → f m k = 0) ∧ (¬ S k → f m k = m k)

/-- The 16x16 ABGR surface with every byte of the buffer set to `0xAB`. -/
def inkSurface16 : SwSurface := { surface16 with buf := fun _ => 0xAB }

/-- The function `f` on buffers, seen through the cell reader `rd`, replaces the content `v`
of every cell `c` of `S` by `F c v` and keeps every other cell. -/
def Maps (rd : Mem → Nat → Nat) (S : Nat → Prop) (F : Nat → Nat → Nat) (f : Mem → Mem) : Prop :=
  ∀ m c, (S c → rd (f m) c = F c (rd m c)) ∧ (¬ S c → rd (f m) c = rd m c)

/-- The pixel with its second and fourth byte (bits 16..23 and 0..7) exchanged. -/
def swapRB (c : Nat) : Nat :=
  (c &&& 0xff000000) + ((c &&& 0x00ff0000) >>> 16) + (c &&& 0x0000ff00)
    + ((c &&& 0x000000ff) <<< 16)

/-- Modelled from the spec: `cRasterABGRtoARGB` of `tvgSwRasterC.h`, which is not among the
sources: the in-place swap of the R and B channels of every pixel of the `w` × `h` surface;
it returns true. -/
def cRasterABGRtoARGB (surface : SwSurface) : Bool × SwSurface :=
  let buf := forLoop surface.h (fun y m =>
      forLoop surface.w (fun x m =>
        m.write32 (y * surface.stride + x) (swapRB (m.read32 (y * surface.stride + x))))
        m)
    surface.buf
  (true, { surface with buf := buf })

/-- Modelled from the spec: `cRasterARGBtoABGR` of `tvgSwRasterC.h`, which is not among the
sources: the same swap as `cRasterABGRtoARGB`. -/
def cRasterARGBtoABGR (surface : SwSurface) : Bool × SwSurface :=
  cRasterABGRtoARGB surface

/-- The conversion on the surface the `RenderSurface*` points to; the lock on `surface->key`
has no counterpart in the sequential model. -/
def rasterConvertCS (surface : SwSurface) (to' : ColorSpace) : Bool × SwSurface :=
  if surface.cs = to' then (true, surface)
  else
    let from' := surface.cs
    if (from' = ColorSpace.ABGR8888 ∨ from' = ColorSpace.ABGR8888S)
        ∧ (to' = ColorSpace.ARGB8888 ∨ to' = ColorSpace.ARGB8888S) then
      cRasterABGRtoARGB { surface with cs := to' }
    else if (from' = ColorSpace.ARGB8888 ∨ from' = ColorSpace.ARGB8888S)
        ∧ (to' = ColorSpace.ABGR8888 ∨ to' = ColorSpace.ABGR8888S) then
      cRasterARGBtoABGR { surface with cs := to' }
    else (false, surface)

/-- The 16x16 ABGR surface whose pixels are all `0x11223344`. -/
def pixelSurface16 : SwSurface :=
  { surface16 with buf := fun k => if k % 4 = 0 then 0x44 else if k % 4 = 1 then 0x33
      else if k % 4 = 2 then 0x22 else 0x11 }

/-- The 8-bit 4x4 surface cleared to 0, with an Add compositor whose mask `maskImage4` is
cleared to 0 and whose box is the whole surface. -/
def clearedMaskedSurface4 : SwSurface :=
  { (rasterCompositor (blankSurface 4 4 4 .Grayscale8 1)).2 with
    compositor := some { method := .Add, image := maskImage4, bbox := ⟨⟨0, 0⟩, ⟨4, 4⟩⟩ } }

/-- The block-tiled transpose. `src` and `dst` are the buffers of 32-bit cells the two pointers
point into, and the result is the `dst` buffer. The walking pointers `p` and `q` are offsets
carried through the two inner loops as the source moves them; the `int32_t` products are those
of the integers (signed overflow is undefined in C). The loop over the blocks of columns, which
the source marks `omp parallel for`, runs in order. -/
def rasterXYFlip (src dst : Mem) (stride w h : Int) (bbox : RenderRegion) (flipped : Bool) :
    Mem :=
  let BLOCK : Int := 8
  let src0 : Int :=
    if flipped then bbox.min.x * stride + bbox.min.y else bbox.min.y * stride + bbox.min.x
  let dst0 : Int :=
    if flipped then bbox.min.y * stride + bbox.min.x else bbox.min.x * stride + bbox.min.y
  forLoop (steps 0 w BLOCK) (fun i m =>
      let x : Int := i * BLOCK
      let bx := Min.min w (x + BLOCK) - x
      let in' := src0 + x
      let out := dst0 + x * stride
      forLoop (steps 0 h BLOCK) (fun j m =>
          let y : Int := j * BLOCK
          let p := in' + y * stride
          let q := out + y
          let by' := Min.min h (y + BLOCK) - y
          (forLoop bx.toNat (fun _ (st : Mem × Int × Int) =>
              let st := forLoop by'.toNat (fun _ (st : Mem × Int × Int) =>
                  (st.1.write32 st.2.2.toNat (src.read32 st.2.1.toNat), st.2.1 + stride,
                    st.2.2 + 1))
                st
              (st.1, st.2.1 + (1 - by' * stride), st.2.2 + (stride - by')))
            (m, p, q)).1)
        m)
    dst

/-- The transpose as the specification words it, cell by cell: with `flipped = false`, for
every `i < w` and `j < h`, `dst[(bbox.min.x + i) * stride + bbox.min.y + j]` receives
`src[(bbox.min.y + j) * stride + bbox.min.x + i]`; with `flipped = true`,
`dst[(bbox.min.y + i) * stride + bbox.min.x + j]` receives
`src[(bbox.min.x + j) * stride + bbox.min.y + i]`. -/
def naiveXYFlip (src dst : Mem) (stride w h : Int) (bbox : RenderRegion) (flipped : Bool) :
    Mem :=
  forLoop w.toNat (fun i m =>
      forLoop h.toNat (fun j m =>
          if flipped then
            m.write32 ((bbox.min.y + i) * stride + bbox.min.x + j).toNat
              (src.read32 ((bbox.min.x + j) * stride + bbox.min.y + i).toNat)
          else
            m.write32 ((bbox.min.x + i) * stride + bbox.min.y + j).toNat
              (src.read32 ((bbox.min.y + j) * stride + bbox.min.x + i).toNat))
        m)
    dst

/-- A source buffer whose cells all differ within a 16-column window: byte `k` holds
`k % 251`. -/
def rampImage : Mem := fun k => k % 251

/-! ## Sample coordinates of the scaled kernels -/

/-- The sample column `sx` that `SCALED_IMAGE_RANGE_X` computes for the column `x`. -/
def scaledSx (itransform : Matrix) (x : Int) : Rat :=
  x * itransform.e11 + itransform.e13 - 49 / 100

/-- The sample row `sy` that `SCALED_IMAGE_RANGE_Y` computes for the row `y`. -/
def scaledSy (itransform : Matrix) (y : Int) : Rat :=
  y * itransform.e22 + itransform.e23 - 49 / 100

/-- The specification's words for a sample coordinate `v` out of the range of an image side
of `n` cells: `v ≤ -0.5` or `v ≥ n - 0.5`. -/
def outOfRange (v : Rat) (n : Nat) : Prop := v ≤ -(1 / 2) ∨ (n : Rat) - 1 / 2 ≤ v

/-- The 4x4 ARGB surface cleared to 0 with an Alpha matte attached whose 8-bit 4x4 image is
opaque (every cell 255). -/
def mattedSurface4 : SwSurface :=
  { composedSurface4 .Alpha with
    compositor := some { method := .Alpha, image := { maskImage4 with buf := fun _ => 0xFF },
                         bbox := ⟨⟨0, 0⟩, ⟨4, 4⟩⟩ } }

/-- The inverse transform of a shift by one row down: the target row `y` samples the source
row `y - 1`. -/
def rowShiftMatrix : Matrix := ⟨1, 0, 0, 0, 1, -1, 0, 0, 1⟩

/-! ## The WebGPU compositor (`src/renderer/wg_engine/tvgWgCompositor.cpp`) -/

/-- The fields of `WgCompositor` that `shrinkRenderRegion` reads: the size of the render
target, two `uint32_t` members. -/
structure WgCompositor where
  width : Nat
  height : Nat

/-- The method `WgCompositor::shrinkRenderRegion`: `std::max` and `std::min` on `int32_t`
values, the members converted by `(int32_t)`. -/
def WgCompositor.shrinkRenderRegion (self : WgCompositor) (rect : RenderRegion) :
    RenderRegion :=
  ⟨⟨Max.max 0 (Min.min (i32 self.width) rect.min.x),
    Max.max 0 (Min.min (i32 self.height) rect.min.y)⟩,
   ⟨Max.max 0 (Min.min (i32 self.width) rect.max.x),
    Max.max 0 (Min.min (i32 self.height) rect.max.y)⟩⟩

/-- The offset into the compositor buffer that `_rasterCompositeGradientMaskedRect` hands to
the fill evaluator for row `y`: `cbuffer` after `y` passes of `cbuffer += surface->stride`. -/
def compositeGradientCmp (surface : SwSurface) (cmp : SwCompositor) (bbox : RenderRegion)
    (y : Nat) : Nat :=
  u32 (bbox.min.y * cmp.image.stride + bbox.min.x) + y * surface.stride

/-- The offset into the compositor buffer that `_rasterGradientMattedRect` hands to the fill
evaluator for row `y`: `cbuffer` after `y` passes of `cbuffer += surface->stride * csize`. -/
def mattedGradientCmp (surface : SwSurface) (cmp : SwCompositor) (bbox : RenderRegion)
    (y : Nat) : Nat :=
  u32 ((bbox.min.y * cmp.image.stride + bbox.min.x) * cmp.image.channelSize)
    + y * u32 (surface.stride * cmp.image.channelSize)

/-- The specification's words for the position of a row of the region in the compositor
buffer: row `bbox.min.y + y`, column `bbox.min.x`, in cells of `csize` bytes. -/
def compositorRowCmp (cmp : SwCompositor) (bbox : RenderRegion) (y csize : Nat) : Nat :=
  u32 (((bbox.min.y + y) * cmp.image.stride + bbox.min.x) * csize)

/-- An 8-bit mask image of 8 columns and 4 rows, stride 8, whose cells are all zero. -/
def wideMaskImage : SwImage where
  buf := fun _ => 0
  w := 8
  h := 4
  stride := 8
  ox := 0
  oy := 0
  channelSize := 1
  rle := none

/-- The 8-bit 4x4 surface cleared to 0 (stride 4) with an Add compositor whose mask is
`wideMaskImage` (stride 8). -/
def wideMaskedSurface4 : SwSurface :=
  { (rasterCompositor (blankSurface 4 4 4 .Grayscale8 1)).2 with
    compositor := some { method := .Add, image := wideMaskImage, bbox := ⟨⟨0, 0⟩, ⟨4, 4⟩⟩ } }

/-- The 4x4 ARGB surface cleared to 0 (stride 4) with an Alpha matte of stride 8 whose row 1
is opaque (255) and whose other rows are 0. -/
def wideMattedSurface4 : SwSurface :=
  { (rasterCompositor (blankSurface 4 4 4 .ARGB8888 4)).2 with
    compositor := some { method := .Alpha,
                         image := { wideMaskImage with
                                    buf := fun k => if k / 8 = 1 then 0xFF else 0 },
                         bbox := ⟨⟨0, 0⟩, ⟨4, 4⟩⟩ } }

/-! ## Indices of the up-scaler -/

/-- The index `rx = (size_t)(sx)` of `_interpUpScaler` (and `ry` for `sy`). -/
def upIndex (sx : Rat) : Nat := (truncI sx).toNat

/-- The neighbour index `rx2` of `_interpUpScaler` for a side of `w` cells (and `ry2` for
`h`): `rx + 1`, replaced by `w - 1` when it is not below `w`. -/
def upIndex2 (w : Nat) (sx : Rat) : Nat :=
  if upIndex sx + 1 ≥ w then u32 ((w : Int) - 1) else upIndex sx + 1

/-! ## The rows of the down-scaler window -/

/-- The first row `miny` that `SCALED_IMAGE_RANGE_Y` computes for the down-scaler:
`my - sampleSize` with `my = (int32_t)nearbyint(sy)`, raised to 0. -/
def rangeMiny (sy : Rat) (sampleSize : Nat) : Int :=
  if i32 (i32 (nearbyint sy) - i32 sampleSize) < 0 then 0
  else i32 (i32 (nearbyint sy) - i32 sampleSize)

/-- The row bound `maxy` that `SCALED_IMAGE_RANGE_Y` computes for the down-scaler:
`my + sampleSize`, replaced by `image.h` when it is not below it. -/
def rangeMaxy (h : Nat) (sy : Rat) (sampleSize : Nat) : Int :=
  if i32 (i32 (nearbyint sy) + i32 sampleSize) ≥ i32 h then i32 h
  else i32 (i32 (nearbyint sy) + i32 sampleSize)

/-! ## Helper lemmas -/

theorem and_ff (x : Nat) : x &&& 0xff = x % 256 := Nat.and_pow_two_sub_one_eq_mod x 8

theorem shr8 (x : Nat) : x >>> 8 = x / 256 := Nat.shiftRight_eq_div_pow x 8

theorem shr16 (x : Nat) : x >>> 16 = x / 65536 := Nat.shiftRight_eq_div_pow x 16

theorem shr24 (x : Nat) : x >>> 24 = x / 16777216 := Nat.shiftRight_eq_div_pow x 24

theorem not8_eq (x : Nat) (hx : x ≤ 255) : not8 x = 255 - x := by
  unfold not8 u8
  omega

theorem MULTIPLY_eq (c a : Nat) : MULTIPLY c a = (c * a + 255) / 256 % 256 := by
  simp only [MULTIPLY, shr8]

theorem MULTIPLY_255_right (c : Nat) (hc : c ≤ 255) : MULTIPLY c 255 = c := by
  have h : (c * 255 + 255) / 256 = c := Nat.div_eq_of_lt_le (by omega) (by omega)
  rw [MULTIPLY_eq, h]
  omega

theorem MULTIPLY_255_left (c : Nat) (hc : c ≤ 255) : MULTIPLY 255 c = c := by
  rw [MULTIPLY_eq, Nat.mul_comm, ← MULTIPLY_eq]
  exact MULTIPLY_255_right c hc

/-- Four bytes joined with shifts and ors are the base-256 number with those digits. -/
theorem join_eq_sum (x3 x2 x1 x0 : Nat) (h2 : x2 ≤ 255) (h1 : x1 ≤ 255)
    (h0 : x0 ≤ 255) :
    x3 <<< 24 ||| x2 <<< 16 ||| x1 <<< 8 ||| x0
      = x3 * 16777216 + x2 * 65536 + x1 * 256 + x0 := by
  have e1 : x3 <<< 24 ||| x2 <<< 16 = 2 ^ 16 * (x3 * 256 + x2) := by
    have := @Nat.mul_add_lt_is_or 24 (x2 * 65536) (by omega) x3
    rw [Nat.shiftLeft_eq, Nat.shiftLeft_eq]
    have e : x3 * 2 ^ 24 = 2 ^ 24 * x3 := Nat.mul_comm _ _
    rw [e, show x2 * 2 ^ 16 = x2 * 65536 by norm_num, ← this]
    omega
  have e2 : 2 ^ 16 * (x3 * 256 + x2) ||| x1 <<< 8 = 2 ^ 8 * (x3 * 65536 + x2 * 256 + x1) := by
    have := @Nat.mul_add_lt_is_or 16 (x1 * 256) (by omega) (x3 * 256 + x2)
    rw [Nat.shiftLeft_eq, show x1 * 2 ^ 8 = x1 * 256 by norm_num, ← this]
    omega
  have e3 : 2 ^ 8 * (x3 * 65536 + x2 * 256 + x1) ||| x0
      = 2 ^ 8 * (x3 * 65536 + x2 * 256 + x1) + x0 :=
    (@Nat.mul_add_lt_is_or 8 x0 (by omega) _).symm
  rw [e1, e2, e3]
  omega

/-- The four base-256 digits of a 32-bit number are recovered by division and remainder. -/
theorem bytes4 (x3 x2 x1 x0 : Nat) (h3 : x3 ≤ 255) (h2 : x2 ≤ 255) (h1 : x1 ≤ 255)
    (h0 : x0 ≤ 255) :
    (x3 * 16777216 + x2 * 65536 + x1 * 256 + x0) % 256 = x0
    ∧ (x3 * 16777216 + x2 * 65536 + x1 * 256 + x0) / 256 % 256 = x1
    ∧ (x3 * 16777216 + x2 * 65536 + x1 * 256 + x0) / 65536 % 256 = x2
    ∧ (x3 * 16777216 + x2 * 65536 + x1 * 256 + x0) / 16777216 % 256 = x3 := by
  have d1 : (x3 * 16777216 + x2 * 65536 + x1 * 256 + x0) / 256
      = x3 * 65536 + x2 * 256 + x1 := by omega
  have d2 : (x3 * 16777216 + x2 * 65536 + x1 * 256 + x0) / 65536 = x3 * 256 + x2 := by omega
  have d3 : (x3 * 16777216 + x2 * 65536 + x1 * 256 + x0) / 16777216 = x3 := by omega
  rw [d1, d2, d3]
  refine ⟨by omega, by omega, by omega, by omega⟩

theorem abgrJoin_eq_sum (r g b a : Nat) (hr : r ≤ 255) (hg : g ≤ 255) (hb : b ≤ 255)
    (ha : a ≤ 255) : _abgrJoin r g b a = a * 16777216 + b * 65536 + g * 256 + r := by
  unfold _abgrJoin
  rw [join_eq_sum a b g r hb hg hr]
  omega

theorem abgrJoin_bytes (r g b a : Nat) (hr : r ≤ 255) (hg : g ≤ 255) (hb : b ≤ 255)
    (ha : a ≤ 255) :
    (_abgrJoin r g b a) &&& 0xff = r
    ∧ ((_abgrJoin r g b a) >>> 8) &&& 0xff = g
    ∧ ((_abgrJoin r g b a) >>> 16) &&& 0xff = b
    ∧ ((_abgrJoin r g b a) >>> 24) &&& 0xff = a := by
  simp only [and_ff, shr8, shr16, shr24, abgrJoin_eq_sum r g b a hr hg hb ha]
  exact bytes4 a b g r ha hb hg hr

theorem abgrJoin_injective (r g b a r2 g2 b2 a2 : Nat) (hr : r ≤ 255) (hg : g ≤ 255)
    (hb : b ≤ 255) (ha : a ≤ 255) (hr2 : r2 ≤ 255) (hg2 : g2 ≤ 255) (hb2 : b2 ≤ 255)
    (ha2 : a2 ≤ 255) (h : _abgrJoin r g b a = _abgrJoin r2 g2 b2 a2) :
    r = r2 ∧ g = g2 ∧ b = b2 ∧ a = a2 := by
  obtain ⟨p0, p1, p2, p3⟩ := abgrJoin_bytes r g b a hr hg hb ha
  obtain ⟨q0, q1, q2, q3⟩ := abgrJoin_bytes r2 g2 b2 a2 hr2 hg2 hb2 ha2
  rw [h] at p0 p1 p2 p3
  exact ⟨p0.symm.trans q0, p1.symm.trans q1, p2.symm.trans q2, p3.symm.trans q3⟩

theorem deref32_lt (c : BytePtr) : deref32 c < 4294967296 := by
  unfold deref32
  omega

theorem deref32_wordPtr (v : Nat) (hv : v < 4294967296) : deref32 (wordPtr v) = v := by
  simp only [deref32, wordPtr, Nat.shiftRight_eq_div_pow]
  norm_num
  omega

/-- The weighted sum of three bytes with weights 54, 182 and 19, shifted by 8, is a byte. -/
theorem luma_fits (x y z : Nat) (hx : x ≤ 255) (hy : y ≤ 255) (hz : z ≤ 255) :
    (x * 54 + y * 182 + z * 19) >>> 8 ≤ 254 := by
  rw [shr8]
  omega

theorem u32_natCast (n : Nat) (h : n < 4294967296) : u32 (n : Int) = n := by
  unfold u32
  omega

theorem i32_natCast (n : Nat) (h : n < 2147483648) : i32 (n : Int) = n := by
  unfold i32
  omega

theorem read8_write8_same (m : Mem) (i v : Nat) : (m.write8 i v).read8 i = v % 256 := by
  simp [Mem.read8, Mem.write8, Mem.ptr, deref8]

theorem read8_write8_ne (m : Mem) (i j v : Nat) (h : j ≠ i) :
    (m.write8 i v).read8 j = m.read8 j := by
  simp [Mem.read8, Mem.write8, Mem.ptr, deref8, h]

theorem read32_write32_same (m : Mem) (i v : Nat) :
    (m.write32 i v).read32 i = v % 4294967296 := by
  have h0 : (4 * i + 0) / 4 = i := by omega
  have h1 : (4 * i + 1) / 4 = i := by omega
  have h2 : (4 * i + 2) / 4 = i := by omega
  have h3 : (4 * i + 3) / 4 = i := by omega
  have k0 : (4 * i + 0) % 4 = 0 := by omega
  have k1 : (4 * i + 1) % 4 = 1 := by omega
  have k2 : (4 * i + 2) % 4 = 2 := by omega
  have k3 : (4 * i + 3) % 4 = 3 := by omega
  simp only [Mem.read32, Mem.write32, Mem.ptr, deref32, h0, h1, h2, h3, k0, k1, k2, k3,
    if_true, Nat.shiftRight_eq_div_pow, Nat.mod_mod]
  norm_num
  omega

theorem read32_write32_ne (m : Mem) (i j v : Nat) (h : j ≠ i) :
    (m.write32 i v).read32 j = m.read32 j := by
  have h0 : (4 * j + 0) / 4 ≠ i := by omega
  have h1 : (4 * j + 1) / 4 ≠ i := by omega
  have h2 : (4 * j + 2) / 4 ≠ i := by omega
  have h3 : (4 * j + 3) / 4 ≠ i := by omega
  simp only [Mem.read32, Mem.write32, Mem.ptr, deref32, h0, h1, h2, h3, if_false]

/-- Reading a 32-bit cell after a pixel fill: the filled run holds the value, the rest is kept. -/
theorem read32_fill (m : Mem) (start val n j : Nat) :
    (forLoop n (fun i m => m.write32 (start + i) val) m).read32 j
      = if start ≤ j ∧ j < start + n then val % 4294967296 else m.read32 j := by
  induction n with
  | zero =>
    have : ¬ (start ≤ j ∧ j < start + 0) := by omega
    simp only [forLoop, this, if_false]
  | succ k ih =>
    simp only [forLoop]
    by_cases hj : j = start + k
    · subst hj
      rw [read32_write32_same]
      have : start ≤ start + k ∧ start + k < start + (k + 1) := by omega
      simp only [this, and_self, if_true]
    · rw [read32_write32_ne _ _ _ _ hj, ih]
      by_cases h1 : start ≤ j ∧ j < start + k
      · have h2 : start ≤ j ∧ j < start + (k + 1) := by omega
        simp only [h1, h2, and_self, if_true]
      · have h2 : ¬ (start ≤ j ∧ j < start + (k + 1)) := by omega
        simp only [h1, h2, if_false]

/-- Reading an 8-bit cell after a pixel fill. -/
theorem read8_fill (m : Mem) (start val n j : Nat) :
    (forLoop n (fun i m => m.write8 (start + i) val) m).read8 j
      = if start ≤ j ∧ j < start + n then val % 256 else m.read8 j := by
  induction n with
  | zero =>
    have : ¬ (start ≤ j ∧ j < start + 0) := by omega
    simp only [forLoop, this, if_false]
  | succ k ih =>
    simp only [forLoop]
    by_cases hj : j = start + k
    · subst hj
      rw [read8_write8_same]
      have : start ≤ start + k ∧ start + k < start + (k + 1) := by omega
      simp only [this, and_self, if_true]
    · rw [read8_write8_ne _ _ _ _ hj, ih]
      by_cases h1 : start ≤ j ∧ j < start + k
      · have h2 : start ≤ j ∧ j < start + (k + 1) := by omega
        simp only [h1, h2, and_self, if_true]
      · have h2 : ¬ (start ≤ j ∧ j < start + (k + 1)) := by omega
        simp only [h1, h2, if_false]

/-- A cell `Y * S + X` with `X < S` lies in the run `[a * S + lo, a * S + hi)` of row `a`
(with `hi ≤ S`) exactly when `Y = a` and `lo ≤ X < hi`. -/
theorem cell_in_row (S a lo hi X Y : Nat) (hX : X < S) (hhi : hi ≤ S) :
    (a * S + lo ≤ Y * S + X ∧ Y * S + X < a * S + hi) ↔ (Y = a ∧ lo ≤ X ∧ X < hi) := by
  constructor
  · rintro ⟨h1, h2⟩
    have hY : Y = a := by
      rcases Nat.lt_trichotomy Y a with h | h | h
      · have := Nat.mul_le_mul_right S (Nat.succ_le_of_lt h)
        rw [Nat.succ_mul] at this
        omega
      · exact h
      · have := Nat.mul_le_mul_right S (Nat.succ_le_of_lt h)
        rw [Nat.succ_mul] at this
        omega
    subst hY
    omega
  · rintro ⟨rfl, h1, h2⟩
    omega

/-- Reading a 32-bit cell after filling the run `[lo, hi)` of each of the rows
`r0, …, r0 + n - 1` of a buffer of stride `S`. -/
theorem read32_rows (m : Mem) (S r0 lo hi val n X Y : Nat) (hX : X < S) (hlo : lo ≤ hi)
    (hhi : hi ≤ S) :
    (forLoop n (fun y m => forLoop (hi - lo) (fun i m => m.write32 ((r0 + y) * S + lo + i) val) m)
        m).read32 (Y * S + X)
      = if (r0 ≤ Y ∧ Y < r0 + n) ∧ lo ≤ X ∧ X < hi then val % 4294967296
        else m.read32 (Y * S + X) := by
  induction n with
  | zero =>
    have : ¬ ((r0 ≤ Y ∧ Y < r0 + 0) ∧ lo ≤ X ∧ X < hi) := by omega
    simp only [forLoop, this, if_false]
  | succ k ih =>
    simp only [forLoop]
    rw [read32_fill, ih]
    have e : (r0 + k) * S + lo + (hi - lo) = (r0 + k) * S + hi := by omega
    rw [e]
    have hc := cell_in_row S (r0 + k) lo hi X Y hX hhi
    by_cases h1 : Y = r0 + k ∧ lo ≤ X ∧ X < hi
    · have h2 : (r0 ≤ Y ∧ Y < r0 + (k + 1)) ∧ lo ≤ X ∧ X < hi := by omega
      rw [if_pos (hc.mpr h1), if_pos h2]
    · rw [if_neg (fun h => h1 (hc.mp h))]
      by_cases h3 : (r0 ≤ Y ∧ Y < r0 + k) ∧ lo ≤ X ∧ X < hi
      · have h2 : (r0 ≤ Y ∧ Y < r0 + (k + 1)) ∧ lo ≤ X ∧ X < hi := by omega
        rw [if_pos h3, if_pos h2]
      · have h2 : ¬ ((r0 ≤ Y ∧ Y < r0 + (k + 1)) ∧ lo ≤ X ∧ X < hi) := by omega
        rw [if_neg h3, if_neg h2]

/-- Reading an 8-bit cell after filling the run `[lo, hi)` of each of the rows
`r0, …, r0 + n - 1` of a buffer of stride `S`. -/
theorem read8_rows (m : Mem) (S r0 lo hi val n X Y : Nat) (hX : X < S) (hlo : lo ≤ hi)
    (hhi : hi ≤ S) :
    (forLoop n (fun y m => forLoop (hi - lo) (fun i m => m.write8 ((r0 + y) * S + lo + i) val) m)
        m).read8 (Y * S + X)
      = if (r0 ≤ Y ∧ Y < r0 + n) ∧ lo ≤ X ∧ X < hi then val % 256
        else m.read8 (Y * S + X) := by
  induction n with
  | zero =>
    have : ¬ ((r0 ≤ Y ∧ Y < r0 + 0) ∧ lo ≤ X ∧ X < hi) := by omega
    simp only [forLoop, this, if_false]
  | succ k ih =>
    simp only [forLoop]
    rw [read8_fill, ih]
    have e : (r0 + k) * S + lo + (hi - lo) = (r0 + k) * S + hi := by omega
    rw [e]
    have hc := cell_in_row S (r0 + k) lo hi X Y hX hhi
    by_cases h1 : Y = r0 + k ∧ lo ≤ X ∧ X < hi
    · have h2 : (r0 ≤ Y ∧ Y < r0 + (k + 1)) ∧ lo ≤ X ∧ X < hi := by omega
      rw [if_pos (hc.mpr h1), if_pos h2]
    · rw [if_neg (fun h => h1 (hc.mp h))]
      by_cases h3 : (r0 ≤ Y ∧ Y < r0 + k) ∧ lo ≤ X ∧ X < hi
      · have h2 : (r0 ≤ Y ∧ Y < r0 + (k + 1)) ∧ lo ≤ X ∧ X < hi := by omega
        rw [if_pos h3, if_pos h2]
      · have h2 : ¬ ((r0 ≤ Y ∧ Y < r0 + (k + 1)) ∧ lo ≤ X ∧ X < hi) := by omega
        rw [if_neg h3, if_neg h2]

/-- Two counted loops whose bodies agree on the iterations they run compute the same state. -/
theorem forLoop_congr {σ : Type} (n : Nat) (f g : Nat → σ → σ) (s : σ)
    (h : ∀ i, i < n → ∀ t, f i t = g i t) : forLoop n f s = forLoop n g s := by
  induction n with
  | zero => rfl
  | succ k ih =>
    simp only [forLoop]
    rw [ih (fun i hi t => h i (Nat.lt_succ_of_lt hi) t), h k (Nat.lt_succ_self k)]

theorem compositing_of_none (s : SwSurface) (h : s.compositor = none) :
    _compositing s = false := by
  unfold _compositing
  rw [h]

theorem blending_of_none (s : SwSurface) (h : s.blender = none) : _blending s = false := by
  unfold _blending
  rw [h]
  rfl

theorem compositing_of_some (s : SwSurface) (cmp : SwCompositor) (h : s.compositor = some cmp) :
    _compositing s = decide (cmp.method ≠ MaskMethod.None) := by
  unfold _compositing
  rw [h]
  by_cases hm : cmp.method = MaskMethod.None <;> simp [hm]

theorem matting_of_some (s : SwSurface) (cmp : SwCompositor) (h : s.compositor = some cmp) :
    _matting s = decide (cmp.method.toInt < 5) := by
  unfold _matting
  rw [h]
  by_cases hm : cmp.method.toInt < 5 <;> simp [hm, MaskMethod.toInt]

theorem rasterRect_eq_solid (P : SwCommon) (s : SwSurface) (bbox : RenderRegion)
    (c : RenderColor) (hcmp : s.compositor = none) (hbl : s.blender = none) (ha : c.a = 255) :
    _rasterRect P s bbox c = _rasterSolidRect s bbox c := by
  unfold _rasterRect
  rw [compositing_of_none s hcmp, blending_of_none s hbl]
  simp [ha]

/-- The 32-bit rows of `_rasterSolidRect` on a region inside the surface are plain fills of the
runs `[minx, maxx)` of the rows `miny, …, maxy - 1`. -/
theorem solidRect32_buf (s : SwSurface) (minx miny maxx maxy : Nat) (c : RenderColor)
    (h4 : s.channelSize = 4) (hx1 : minx ≤ maxx) (hx2 : maxx ≤ s.stride) (hy1 : miny ≤ maxy)
    (hy2 : maxy ≤ s.h) (hS : 0 < s.stride) (hsz : s.stride * s.h < 2147483648) :
    (_rasterSolidRect s ⟨⟨minx, miny⟩, ⟨maxx, maxy⟩⟩ c).2.buf
      = forLoop (maxy - miny) (fun y m =>
          forLoop (maxx - minx)
            (fun i m => m.write32 ((miny + y) * s.stride + minx + i) (s.join c.r c.g c.b 255)) m)
          s.buf := by
  have hh : s.h ≤ s.stride * s.h := Nat.le_mul_of_pos_left _ hS
  have eh : RenderRegion.h ⟨⟨minx, miny⟩, ⟨maxx, maxy⟩⟩ = maxy - miny := by
    show u32 ((maxy : Int) - miny) = maxy - miny
    unfold u32
    omega
  simp only [_rasterSolidRect, h4, if_true, eh]
  apply forLoop_congr
  intro y hy m
  have hpos : 0 < s.h := by omega
  have hSle : s.stride ≤ s.stride * s.h := Nat.le_mul_of_pos_right _ hpos
  have hrow : (miny + y) * s.stride ≤ s.stride * s.h := by
    rw [Nat.mul_comm s.stride s.h]
    exact Nat.mul_le_mul_right _ (by omega)
  have hrow1 : miny * s.stride + y * s.stride = (miny + y) * s.stride := (Nat.add_mul _ _ _).symm
  have ew : i32 (RenderRegion.w ⟨⟨minx, miny⟩, ⟨maxx, maxy⟩⟩) = ((maxx - minx : Nat) : Int) := by
    show i32 (u32 ((maxx : Int) - minx) : Nat) = _
    unfold i32 u32
    omega
  have e1 : u32 ((miny : Int) * (s.stride : Int)) = miny * s.stride := by
    have : (miny : Int) * (s.stride : Int) = ((miny * s.stride : Nat) : Int) := by push_cast; rfl
    rw [this, u32_natCast _ (by omega)]
  have e2 : u32 ((y : Int) * (s.stride : Int)) = y * s.stride := by
    have : (y : Int) * (s.stride : Int) = ((y * s.stride : Nat) : Int) := by push_cast; rfl
    rw [this, u32_natCast _ (by omega)]
  have e3 : u32 (minx : Int) = minx := u32_natCast _ (by omega)
  simp only [rasterPixel32, cRasterPixels32, ew, e1, e2, e3, Int.toNat_ofNat, hrow1]

/-- The 8-bit rows of `_rasterSolidRect` on a region inside the surface are plain fills of the
runs `[minx, maxx)` of the rows `miny, …, maxy - 1` with 255. -/
theorem solidRect8_buf (s : SwSurface) (minx miny maxx maxy : Nat) (c : RenderColor)
    (h1 : s.channelSize = 1) (hx1 : minx ≤ maxx) (hx2 : maxx ≤ s.stride) (hy1 : miny ≤ maxy)
    (hy2 : maxy ≤ s.h) (hS : 0 < s.stride) (hsz : s.stride * s.h < 2147483648) :
    (_rasterSolidRect s ⟨⟨minx, miny⟩, ⟨maxx, maxy⟩⟩ c).2.buf
      = forLoop (maxy - miny) (fun y m =>
          forLoop (maxx - minx) (fun i m => m.write8 ((miny + y) * s.stride + minx + i) 255) m)
          s.buf := by
  have hh : s.h ≤ s.stride * s.h := Nat.le_mul_of_pos_left _ hS
  have eh : RenderRegion.h ⟨⟨minx, miny⟩, ⟨maxx, maxy⟩⟩ = maxy - miny := by
    show u32 ((maxy : Int) - miny) = maxy - miny
    unfold u32
    omega
  have h14 : ¬ ((1 : Nat) = 4) := by decide
  simp only [_rasterSolidRect, h1, h14, if_true, if_false, eh]
  apply forLoop_congr
  intro y hy m
  have hpos : 0 < s.h := by omega
  have hSle : s.stride ≤ s.stride * s.h := Nat.le_mul_of_pos_right _ hpos
  have hrow : (miny + y) * s.stride ≤ s.stride * s.h - s.stride := by
    have h1 : (miny + y + 1) * s.stride ≤ s.h * s.stride :=
      Nat.mul_le_mul_right _ (by omega)
    rw [Nat.succ_mul, Nat.mul_comm s.h] at h1
    omega
  have ew : i32 (RenderRegion.w ⟨⟨minx, miny⟩, ⟨maxx, maxy⟩⟩) = ((maxx - minx : Nat) : Int) := by
    show i32 (u32 ((maxx : Int) - minx) : Nat) = _
    unfold i32 u32
    omega
  have e1 : u32 (((y : Int) + (miny : Int)) * (s.stride : Int) + (minx : Int))
      = (miny + y) * s.stride + minx := by
    have : ((y : Int) + (miny : Int)) * (s.stride : Int) + (minx : Int)
        = (((miny + y) * s.stride + minx : Nat) : Int) := by push_cast; ring
    rw [this, u32_natCast _ (by omega)]
  simp only [rasterGrayscale8, cRasterPixels8, ew, e1, Int.toNat_ofNat, Nat.zero_add]

/-- The solid-colour masked rect kernel refuses a surface whose channel size is not 1: it
returns false and hands the surface back, compositor included, untouched. -/
theorem rasterMaskedRect_refuses (s : SwSurface) (bbox : RenderRegion) (c : RenderColor)
    (h : s.channelSize ≠ 1) : _rasterMaskedRect s bbox c = (false, s) := by
  simp [_rasterMaskedRect, h]

/-- The solid-colour masked Rle kernel refuses a surface whose channel size is not 1. -/
theorem rasterMaskedRle_refuses (s : SwSurface) (rle : SwRle) (bbox : RenderRegion)
    (c : RenderColor) (h : s.channelSize ≠ 1) : _rasterMaskedRle s rle bbox c = (false, s) := by
  simp [_rasterMaskedRle, h]

/-- The masked gradient kernels have no channel-size guard: with a compositor of a masking
method attached they return true on every surface, whatever its channel size. -/
theorem rasterGradientMasked_true (fillMethod : FillMethod) (s : SwSurface)
    (cmp : SwCompositor) (rle : SwRle) (bbox : RenderRegion) (fill : SwFill)
    (hc : s.compositor = some cmp)
    (hm : cmp.method = .Add ∨ cmp.method = .Subtract ∨ cmp.method = .Intersect
      ∨ cmp.method = .Difference ∨ cmp.method = .Lighten ∨ cmp.method = .Darken) :
    (_rasterGradientMaskedRect fillMethod s bbox fill).1 = true
    ∧ (_rasterGradientMaskedRle fillMethod s rle fill).1 = true := by
  rcases hm with h | h | h | h | h | h <;>
    simp [_rasterGradientMaskedRect, _rasterGradientMaskedRle, hc, h, _getMaskOp, _direct,
      _rasterDirectGradientMaskedRect, _rasterCompositeGradientMaskedRect,
      _rasterDirectGradientMaskedRle, _rasterCompositeGradientMaskedRle, _compositeMaskImage]

/-! ## Mask operator algebra -/

/-- C1: intersecting any incoming alpha `s` with a full mask cell (255) gives `s` back,
whatever the unused third argument is. -/
theorem opMaskIntersect_full (s a : Nat) (hs : s ≤ 255) : _opMaskIntersect s 255 a = s := by
  unfold _opMaskIntersect
  exact MULTIPLY_255_right s hs

/-- Witness of C1 at `s = 200`, `a = 55`. -/
theorem opMaskIntersect_full_witness : (200 ≤ 255) ∧ _opMaskIntersect 200 255 55 = 200 :=
  ⟨by decide, opMaskIntersect_full 200 55 (by decide)⟩

/-- C2 as stated fails: at `d = 0`, `a = 0` the sum `Add(0,d,a) + Subtract(255,d,a)` is 255,
not `d = 0`. -/
theorem opMaskAdd_opMaskSubtract_ne :
    _opMaskAdd 0 0 0 + _opMaskSubtract 255 0 0 = 255
    ∧ _opMaskAdd 0 0 0 + _opMaskSubtract 255 0 0 ≠ 0 := by
  decide

/-- C2 (amended): `Add(0,d,a)` is `MULTIPLY(d,a)` and `Subtract(255,d,a)` is `255 - d`, so the
sum is `MULTIPLY(d,a) + (255 - d)`; with `a = 255` (the `255 - s` of `s = 0`) `Add(0,d,255)` is
`d` and the sum is 255. -/
theorem opMaskAdd_opMaskSubtract_sum (d a : Nat) (hd : d ≤ 255) (_ha : a ≤ 255) :
    _opMaskAdd 0 d a + _opMaskSubtract 255 d a = MULTIPLY d a + (255 - d)
    ∧ _opMaskAdd 0 d 255 = d
    ∧ _opMaskSubtract 255 d a = 255 - d
    ∧ _opMaskAdd 0 d 255 + _opMaskSubtract 255 d a = 255 := by
  have hA : ∀ x, _opMaskAdd 0 d x = MULTIPLY d x := by
    intro x
    simp only [_opMaskAdd, MULTIPLY_eq]
    omega
  have hS : _opMaskSubtract 255 d a = 255 - d := by
    unfold _opMaskSubtract
    exact MULTIPLY_255_left _ (by omega)
  have hM : MULTIPLY d 255 = d := MULTIPLY_255_right d hd
  refine ⟨by rw [hA, hS], by rw [hA, hM], hS, ?_⟩
  rw [hA, hM, hS]
  omega

/-- Witness of the amended C2 at `d = 100`, `a = 7`. -/
theorem opMaskAdd_opMaskSubtract_sum_witness :
    (100 ≤ 255 ∧ 7 ≤ 255)
    ∧ _opMaskAdd 0 100 7 + _opMaskSubtract 255 100 7 = MULTIPLY 100 7 + (255 - 100)
    ∧ _opMaskAdd 0 100 255 = 100
    ∧ _opMaskSubtract 255 100 7 = 255 - 100
    ∧ _opMaskAdd 0 100 255 + _opMaskSubtract 255 100 7 = 255 :=
  ⟨by decide, opMaskAdd_opMaskSubtract_sum 100 7 (by decide) (by decide)⟩

/-- C3: `Darken` is `min` and `Lighten` is `max`; both are commutative in `(s, d)`, idempotent
and independent of the third argument. -/
theorem opMaskDarken_opMaskLighten (s d a : Nat) :
    _opMaskDarken s d a = min s d
    ∧ _opMaskDarken s d a ≤ min s d
    ∧ _opMaskLighten s d a = max s d
    ∧ _opMaskDarken s d a = _opMaskDarken d s a
    ∧ _opMaskLighten s d a = _opMaskLighten d s a
    ∧ _opMaskDarken s s a = s
    ∧ _opMaskLighten s s a = s
    ∧ (∀ a2, _opMaskDarken s d a2 = _opMaskDarken s d a)
    ∧ (∀ a2, _opMaskLighten s d a2 = _opMaskLighten s d a) := by
  have hD : ∀ x y z, _opMaskDarken x y z = min x y := by
    intro x y z
    unfold _opMaskDarken
    split <;> omega
  have hL : ∀ x y z, _opMaskLighten x y z = max x y := by
    intro x y z
    unfold _opMaskLighten
    split <;> omega
  refine ⟨hD s d a, ?_, hL s d a, ?_, ?_, ?_, ?_, ?_, ?_⟩
  · rw [hD]
  · rw [hD, hD, Nat.min_comm]
  · rw [hL, hL, Nat.max_comm]
  · rw [hD]; omega
  · rw [hL]; omega
  · intro a2; rw [hD, hD]
  · intro a2; rw [hL, hL]

/-- C4: `_direct` holds exactly for Subtract, Intersect and Darken, and `_getMaskOp` returns the
operator of the same name for the six masking methods and `nullptr` for the others. -/
theorem direct_getMaskOp :
    (∀ m : MaskMethod, _direct m = true ↔ (m = .Subtract ∨ m = .Intersect ∨ m = .Darken))
    ∧ (∀ m : MaskMethod, _direct m = false ↔
        (m = .None ∨ m = .Alpha ∨ m = .InvAlpha ∨ m = .Luma ∨ m = .InvLuma ∨ m = .Add
          ∨ m = .Difference ∨ m = .Lighten))
    ∧ _getMaskOp .Add = some _opMaskAdd
    ∧ _getMaskOp .Subtract = some _opMaskSubtract
    ∧ _getMaskOp .Intersect = some _opMaskIntersect
    ∧ _getMaskOp .Difference = some _opMaskDifference
    ∧ _getMaskOp .Lighten = some _opMaskLighten
    ∧ _getMaskOp .Darken = some _opMaskDarken
    ∧ _getMaskOp .None = none
    ∧ _getMaskOp .Alpha = none
    ∧ _getMaskOp .InvAlpha = none
    ∧ _getMaskOp .Luma = none
    ∧ _getMaskOp .InvLuma = none := by
  refine ⟨?_, ?_, rfl, rfl, rfl, rfl, rfl, rfl, rfl, rfl, rfl, rfl, rfl⟩
  · intro m; cases m <;> simp [_direct]
  · intro m; cases m <;> simp [_direct]

/-! ## Channel joins and luma -/

/-- C5: the two channel joins pack their bytes without truncation, the four bytes of the word
give the arguments back (so each join is injective), and the ARGB join is the ABGR join with
red and blue exchanged. -/
theorem abgrJoin_argbJoin (r g b a : Nat) (hr : r ≤ 255) (hg : g ≤ 255) (hb : b ≤ 255)
    (ha : a ≤ 255) :
    _abgrJoin r g b a = (a <<< 24 ||| b <<< 16 ||| g <<< 8 ||| r)
    ∧ _argbJoin r g b a = (a <<< 24 ||| r <<< 16 ||| g <<< 8 ||| b)
    ∧ _abgrJoin r g b a < 4294967296
    ∧ _argbJoin r g b a < 4294967296
    ∧ ((_abgrJoin r g b a) &&& 0xff = r
        ∧ ((_abgrJoin r g b a) >>> 8) &&& 0xff = g
        ∧ ((_abgrJoin r g b a) >>> 16) &&& 0xff = b
        ∧ ((_abgrJoin r g b a) >>> 24) &&& 0xff = a)
    ∧ ((_argbJoin r g b a) &&& 0xff = b
        ∧ ((_argbJoin r g b a) >>> 8) &&& 0xff = g
        ∧ ((_argbJoin r g b a) >>> 16) &&& 0xff = r
        ∧ ((_argbJoin r g b a) >>> 24) &&& 0xff = a)
    ∧ (∀ r2 g2 b2 a2 : Nat, r2 ≤ 255 → g2 ≤ 255 → b2 ≤ 255 → a2 ≤ 255 →
        _abgrJoin r g b a = _abgrJoin r2 g2 b2 a2 → r = r2 ∧ g = g2 ∧ b = b2 ∧ a = a2)
    ∧ (∀ r2 g2 b2 a2 : Nat, r2 ≤ 255 → g2 ≤ 255 → b2 ≤ 255 → a2 ≤ 255 →
        _argbJoin r g b a = _argbJoin r2 g2 b2 a2 → r = r2 ∧ g = g2 ∧ b = b2 ∧ a = a2)
    ∧ _argbJoin r g b a = _abgrJoin b g r a := by
  have hsw : ∀ x y z w : Nat, _argbJoin x y z w = _abgrJoin z y x w := fun _ _ _ _ => rfl
  have hab := abgrJoin_eq_sum r g b a hr hg hb ha
  have har := abgrJoin_eq_sum b g r a hb hg hr ha
  obtain ⟨p0, p1, p2, p3⟩ := abgrJoin_bytes r g b a hr hg hb ha
  obtain ⟨q0, q1, q2, q3⟩ := abgrJoin_bytes b g r a hb hg hr ha
  refine ⟨?_, ?_, ?_, ?_, ⟨p0, p1, p2, p3⟩, ⟨?_, ?_, ?_, ?_⟩, ?_, ?_, hsw r g b a⟩
  · rw [hab, join_eq_sum a b g r hb hg hr]
  · rw [hsw, har, join_eq_sum a r g b hr hg hb]
  · omega
  · rw [hsw]; omega
  · rw [hsw]; exact q0
  · rw [hsw]; exact q1
  · rw [hsw]; exact q2
  · rw [hsw]; exact q3
  · intro r2 g2 b2 a2 hr2 hg2 hb2 ha2 h
    exact abgrJoin_injective r g b a r2 g2 b2 a2 hr hg hb ha hr2 hg2 hb2 ha2 h
  · intro r2 g2 b2 a2 hr2 hg2 hb2 ha2 h
    rw [hsw, hsw] at h
    obtain ⟨e1, e2, e3, e4⟩ :=
      abgrJoin_injective b g r a b2 g2 r2 a2 hb hg hr ha hb2 hg2 hr2 ha2 h
    exact ⟨e3, e2, e1, e4⟩

/-- Witness of C5 at the opaque red of the solid-rect scenario, `(255, 0, 0, 255)`. -/
theorem abgrJoin_argbJoin_witness :
    _abgrJoin 255 0 0 255 = 0xFF0000FF ∧ _argbJoin 255 0 0 255 = 0xFFFF0000
    ∧ _argbJoin 255 0 0 255 = _abgrJoin 0 0 255 255 := by
  have h := abgrJoin_argbJoin 255 0 0 255 (by decide) (by decide) (by decide) (by decide)
  refine ⟨?_, ?_, ?_⟩
  · rw [h.1]; decide
  · rw [h.2.1]; decide
  · exact h.2.2.2.2.2.2.2.2

/-- C6: the luma extractors compute `(54*R + 182*G + 19*B) >> 8` on the bytes of the pixel read
through the pointer (R and B exchanged between the two orderings), the value is below 256 before
the conversion to `uint8_t`, the inverse lumas are `255 - luma`, and every 32-bit pixel is the
word read through some pointer. -/
theorem luma_spec (c : BytePtr) :
    _abgrLuma c
        = (54 * (deref32 c &&& 0xff) + 182 * ((deref32 c >>> 8) &&& 0xff)
            + 19 * ((deref32 c >>> 16) &&& 0xff)) >>> 8
    ∧ _argbLuma c
        = (54 * ((deref32 c >>> 16) &&& 0xff) + 182 * ((deref32 c >>> 8) &&& 0xff)
            + 19 * (deref32 c &&& 0xff)) >>> 8
    ∧ (54 * (deref32 c &&& 0xff) + 182 * ((deref32 c >>> 8) &&& 0xff)
            + 19 * ((deref32 c >>> 16) &&& 0xff)) >>> 8 ≤ 255
    ∧ (54 * ((deref32 c >>> 16) &&& 0xff) + 182 * ((deref32 c >>> 8) &&& 0xff)
            + 19 * (deref32 c &&& 0xff)) >>> 8 ≤ 255
    ∧ _abgrInvLuma c = 255 - _abgrLuma c
    ∧ _argbInvLuma c = 255 - _argbLuma c
    ∧ (∀ v : Nat, v < 4294967296 → deref32 (wordPtr v) = v) := by
  have hx : deref32 c &&& 0xff ≤ 255 := by rw [and_ff]; omega
  have hy : (deref32 c >>> 8) &&& 0xff ≤ 255 := by rw [and_ff]; omega
  have hz : (deref32 c >>> 16) &&& 0xff ≤ 255 := by rw [and_ff]; omega
  have f1 := luma_fits _ _ _ hx hy hz
  have f2 := luma_fits _ _ _ hz hy hx
  have e1 : _abgrLuma c
      = ((deref32 c &&& 0xff) * 54 + ((deref32 c >>> 8) &&& 0xff) * 182
          + ((deref32 c >>> 16) &&& 0xff) * 19) >>> 8 := by
    show _ % 256 = _
    exact Nat.mod_eq_of_lt (by omega)
  have e2 : _argbLuma c
      = ((deref32 c &&& 0xff) * 19 + ((deref32 c >>> 8) &&& 0xff) * 182
          + ((deref32 c >>> 16) &&& 0xff) * 54) >>> 8 := by
    show _ % 256 = _
    exact Nat.mod_eq_of_lt (by omega)
  have c1 : 54 * (deref32 c &&& 0xff) + 182 * ((deref32 c >>> 8) &&& 0xff)
        + 19 * ((deref32 c >>> 16) &&& 0xff)
      = (deref32 c &&& 0xff) * 54 + ((deref32 c >>> 8) &&& 0xff) * 182
        + ((deref32 c >>> 16) &&& 0xff) * 19 := by ring
  have c2 : 54 * ((deref32 c >>> 16) &&& 0xff) + 182 * ((deref32 c >>> 8) &&& 0xff)
        + 19 * (deref32 c &&& 0xff)
      = (deref32 c &&& 0xff) * 19 + ((deref32 c >>> 8) &&& 0xff) * 182
        + ((deref32 c >>> 16) &&& 0xff) * 54 := by ring
  have f2b : ((deref32 c &&& 0xff) * 19 + ((deref32 c >>> 8) &&& 0xff) * 182
          + ((deref32 c >>> 16) &&& 0xff) * 54) >>> 8 ≤ 254 := by
    have e : (deref32 c &&& 0xff) * 19 + ((deref32 c >>> 8) &&& 0xff) * 182
          + ((deref32 c >>> 16) &&& 0xff) * 54
        = ((deref32 c >>> 16) &&& 0xff) * 54 + ((deref32 c >>> 8) &&& 0xff) * 182
          + (deref32 c &&& 0xff) * 19 := by ring
    rw [e]; exact f2
  have hA : _abgrLuma c ≤ 255 := by rw [e1]; omega
  have hR : _argbLuma c ≤ 255 := by rw [e2]; omega
  refine ⟨?_, ?_, ?_, ?_, not8_eq _ hA, not8_eq _ hR, deref32_wordPtr⟩
  · rw [c1]; exact e1
  · rw [c2]; exact e2
  · rw [c1]; omega
  · rw [c2]; omega

/-! ## Surface set-up -/

/-- C7: `rasterCompositor` returns true and installs the ABGR (resp. ARGB) join and luma
extractors for the two ABGR (resp. ARGB) colour spaces, returns false for every other colour
space leaving `join`, `alphas[2]` and `alphas[3]` as they were, and in every case sets
`alphas[0] = _alpha` and `alphas[1] = _ialpha` and touches no other field. -/
theorem rasterCompositor_spec (s : SwSurface) :
    ((s.cs = .ABGR8888 ∨ s.cs = .ABGR8888S) →
      (rasterCompositor s).1 = true
      ∧ (rasterCompositor s).2.join = _abgrJoin
      ∧ (rasterCompositor s).2.alphas 2 = _abgrLuma
      ∧ (rasterCompositor s).2.alphas 3 = _abgrInvLuma)
    ∧ ((s.cs = .ARGB8888 ∨ s.cs = .ARGB8888S) →
      (rasterCompositor s).1 = true
      ∧ (rasterCompositor s).2.join = _argbJoin
      ∧ (rasterCompositor s).2.alphas 2 = _argbLuma
      ∧ (rasterCompositor s).2.alphas 3 = _argbInvLuma)
    ∧ ((s.cs ≠ .ABGR8888 ∧ s.cs ≠ .ABGR8888S ∧ s.cs ≠ .ARGB8888 ∧ s.cs ≠ .ARGB8888S) →
      (rasterCompositor s).1 = false
      ∧ (rasterCompositor s).2.join = s.join
      ∧ (rasterCompositor s).2.alphas 2 = s.alphas 2
      ∧ (rasterCompositor s).2.alphas 3 = s.alphas 3)
    ∧ (rasterCompositor s).2.alphas 0 = _alpha
    ∧ (rasterCompositor s).2.alphas 1 = _ialpha
    ∧ (rasterCompositor s).2
        = { s with join := (rasterCompositor s).2.join, alphas := (rasterCompositor s).2.alphas } := by
  have h01 : (0 : Fin 4) ≠ 1 := by decide
  have h02 : (0 : Fin 4) ≠ 2 := by decide
  have h03 : (0 : Fin 4) ≠ 3 := by decide
  have h12 : (1 : Fin 4) ≠ 2 := by decide
  have h13 : (1 : Fin 4) ≠ 3 := by decide
  have h23 : (2 : Fin 4) ≠ 3 := by decide
  refine ⟨?_, ?_, ?_, ?_, ?_, ?_⟩
  · intro h
    simp [rasterCompositor, h, Function.update_noteq h23]
  · intro h
    have hn : ¬ (s.cs = .ABGR8888 ∨ s.cs = .ABGR8888S) := by
      rcases h with h | h <;> simp [h]
    simp [rasterCompositor, h, hn, Function.update_noteq h23]
  · rintro ⟨n1, n2, n3, n4⟩
    simp [rasterCompositor, n1, n2, n3, n4, Function.update_noteq h12.symm,
      Function.update_noteq h02.symm, Function.update_noteq h13.symm,
      Function.update_noteq h03.symm]
  · by_cases hA : s.cs = .ABGR8888 ∨ s.cs = .ABGR8888S <;>
      by_cases hR : s.cs = .ARGB8888 ∨ s.cs = .ARGB8888S <;>
      simp [rasterCompositor, hA, hR, Function.update_noteq h01, Function.update_noteq h02,
        Function.update_noteq h03]
  · by_cases hA : s.cs = .ABGR8888 ∨ s.cs = .ABGR8888S <;>
      by_cases hR : s.cs = .ARGB8888 ∨ s.cs = .ARGB8888S <;>
      simp [rasterCompositor, hA, hR, Function.update_noteq h12, Function.update_noteq h13]
  · by_cases hA : s.cs = .ABGR8888 ∨ s.cs = .ABGR8888S <;>
      by_cases hR : s.cs = .ARGB8888 ∨ s.cs = .ARGB8888S <;>
      simp [rasterCompositor, hA, hR]

/-- Witness of C7: the ABGR set-up of the 16x16 surface, the ARGB set-up of a 4x4 surface and
the refusal of a grayscale surface. -/
theorem rasterCompositor_spec_witness :
    ((rasterCompositor (blankSurface 16 16 16 .ABGR8888 4)).1 = true
      ∧ (rasterCompositor (blankSurface 16 16 16 .ABGR8888 4)).2.join = _abgrJoin
      ∧ (rasterCompositor (blankSurface 16 16 16 .ABGR8888 4)).2.alphas 2 = _abgrLuma
      ∧ (rasterCompositor (blankSurface 16 16 16 .ABGR8888 4)).2.alphas 3 = _abgrInvLuma)
    ∧ ((rasterCompositor (blankSurface 4 4 4 .ARGB8888S 4)).1 = true
      ∧ (rasterCompositor (blankSurface 4 4 4 .ARGB8888S 4)).2.join = _argbJoin
      ∧ (rasterCompositor (blankSurface 4 4 4 .ARGB8888S 4)).2.alphas 2 = _argbLuma
      ∧ (rasterCompositor (blankSurface 4 4 4 .ARGB8888S 4)).2.alphas 3 = _argbInvLuma)
    ∧ ((rasterCompositor (blankSurface 4 4 4 .Grayscale8 1)).1 = false
      ∧ (rasterCompositor (blankSurface 4 4 4 .Grayscale8 1)).2.join
          = (blankSurface 4 4 4 .Grayscale8 1).join
      ∧ (rasterCompositor (blankSurface 4 4 4 .Grayscale8 1)).2.alphas 2
          = (blankSurface 4 4 4 .Grayscale8 1).alphas 2
      ∧ (rasterCompositor (blankSurface 4 4 4 .Grayscale8 1)).2.alphas 3
          = (blankSurface 4 4 4 .Grayscale8 1).alphas 3) :=
  ⟨(rasterCompositor_spec (blankSurface 16 16 16 .ABGR8888 4)).1 (Or.inl rfl),
   (rasterCompositor_spec (blankSurface 4 4 4 .ARGB8888S 4)).2.1 (Or.inr rfl),
   (rasterCompositor_spec (blankSurface 4 4 4 .Grayscale8 1)).2.2.1
     ⟨by decide, by decide, by decide, by decide⟩⟩

/-! ## Solid rectangles -/

/-- C8: on a surface with no compositor and no blender, for an opaque colour and a region inside
the surface, `_rasterRect` returns true, changes nothing but the buffer, and leaves in every
cell `(x, y)` with `x < stride` the joined colour `join(r,g,b,255)` (32-bit surface) or `0xFF`
(8-bit surface) when the cell is inside the region and the previous value when it is outside,
whatever the stride `≥ w` is. The size bound states that the cell offsets fit the 32-bit
index arithmetic of the code. -/
theorem rasterRect_solid (P : SwCommon) (s : SwSurface) (bbox : RenderRegion) (c : RenderColor)
    (hcmp : s.compositor = none) (hbl : s.blender = none) (ha : c.a = 255)
    (hx0 : 0 ≤ bbox.min.x) (hx1 : bbox.min.x ≤ bbox.max.x) (hx2 : bbox.max.x ≤ s.w)
    (hy0 : 0 ≤ bbox.min.y) (hy1 : bbox.min.y ≤ bbox.max.y) (hy2 : bbox.max.y ≤ s.h)
    (hw : s.w ≤ s.stride) (hsz : s.stride * s.h < 2147483648) :
    (s.channelSize = 4 →
      (_rasterRect P s bbox c).1 = true
      ∧ (_rasterRect P s bbox c).2 = { s with buf := (_rasterRect P s bbox c).2.buf }
      ∧ ∀ x y : Nat, x < s.stride →
          (_rasterRect P s bbox c).2.buf.read32 (y * s.stride + x)
            = if (bbox.min.y ≤ y ∧ (y : Int) < bbox.max.y)
                  ∧ bbox.min.x ≤ x ∧ (x : Int) < bbox.max.x
              then s.join c.r c.g c.b 255 % 4294967296
              else s.buf.read32 (y * s.stride + x))
    ∧ (s.channelSize = 1 →
      (_rasterRect P s bbox c).1 = true
      ∧ (_rasterRect P s bbox c).2 = { s with buf := (_rasterRect P s bbox c).2.buf }
      ∧ ∀ x y : Nat, x < s.stride →
          (_rasterRect P s bbox c).2.buf.read8 (y * s.stride + x)
            = if (bbox.min.y ≤ y ∧ (y : Int) < bbox.max.y)
                  ∧ bbox.min.x ≤ x ∧ (x : Int) < bbox.max.x
              then 0xFF
              else s.buf.read8 (y * s.stride + x)) := by
  rw [rasterRect_eq_solid P s bbox c hcmp hbl ha]
  obtain ⟨⟨minx, miny⟩, ⟨maxx, maxy⟩⟩ := bbox
  simp only at hx0 hx1 hx2 hy0 hy1 hy2
  lift minx to ℕ using hx0
  lift miny to ℕ using hy0
  lift maxx to ℕ using (le_trans (Int.natCast_nonneg _) hx1)
  lift maxy to ℕ using (le_trans (Int.natCast_nonneg _) hy1)
  have hx1' : minx ≤ maxx := by exact_mod_cast hx1
  have hy1' : miny ≤ maxy := by exact_mod_cast hy1
  have hx2' : maxx ≤ s.stride := le_trans (by exact_mod_cast hx2) hw
  have hy2' : maxy ≤ s.h := by exact_mod_cast hy2
  refine ⟨fun h4 => ⟨?_, ?_, ?_⟩, fun h1 => ⟨?_, ?_, ?_⟩⟩
  · simp [_rasterSolidRect, h4]
  · simp [_rasterSolidRect, h4]
  · intro x y hx
    rw [solidRect32_buf s minx miny maxx maxy c h4 hx1' hx2' hy1' hy2' (by omega) hsz,
      read32_rows _ _ _ _ _ _ _ _ _ hx hx1' hx2']
    have e : miny + (maxy - miny) = maxy := by omega
    simp only [e]
    congr 1
    simp only [Nat.cast_le, Nat.cast_lt]
  · simp [_rasterSolidRect, h1]
  · simp [_rasterSolidRect, h1]
  · intro x y hx
    rw [solidRect8_buf s minx miny maxx maxy c h1 hx1' hx2' hy1' hy2' (by omega) hsz,
      read8_rows _ _ _ _ _ _ _ _ _ hx hx1' hx2']
    have e : miny + (maxy - miny) = maxy := by omega
    simp only [e]
    congr 1
    simp only [Nat.cast_le, Nat.cast_lt]

/-- Witness of C8: on the 16x16 ABGR surface cleared to 0, the rectangle (4,4)-(12,12) in the
colour (255,0,0,255) leaves `0xFF0000FF` inside the rectangle and 0 elsewhere. -/
theorem rasterRect_solid_witness :
    (_rasterRect scalarCommon surface16 ⟨⟨4, 4⟩, ⟨12, 12⟩⟩ ⟨255, 0, 0, 255⟩).1 = true
    ∧ ∀ x y : Nat, x < 16 →
        (_rasterRect scalarCommon surface16 ⟨⟨4, 4⟩, ⟨12, 12⟩⟩ ⟨255, 0, 0, 255⟩).2.buf.read32
            (y * 16 + x)
          = if (4 ≤ y ∧ y < 12) ∧ 4 ≤ x ∧ x < 12 then 0xFF0000FF else 0 := by
  have h := (rasterRect_solid scalarCommon surface16 ⟨⟨4, 4⟩, ⟨12, 12⟩⟩ ⟨255, 0, 0, 255⟩
    rfl rfl rfl (by decide) (by decide) (by decide) (by decide) (by decide) (by decide)
    (by decide) (by decide)).1 rfl
  refine ⟨h.1, fun x y hx => ?_⟩
  have hj : surface16.join 255 0 0 255 % 4294967296 = 0xFF0000FF := by
    show _abgrJoin 255 0 0 255 % 4294967296 = 0xFF0000FF
    rw [abgrJoin_eq_sum 255 0 0 255 (by decide) (by decide) (by decide) (by decide)]
  have h0 : surface16.buf.read32 (y * 16 + x) = 0 := by
    have hb : surface16.buf = fun _ => 0 := rfl
    simp [hb, Mem.read32, Mem.ptr, deref32]
  have h2 := h.2.2 x y hx
  rw [hj, show surface16.stride = 16 from rfl, h0] at h2
  refine h2.trans (if_congr ?_ rfl rfl)
  show (((4 : Int) ≤ y ∧ (y : Int) < 12) ∧ (4 : Int) ≤ x ∧ (x : Int) < 12) ↔ _
  omega

/-! ## Kernel dispatch -/

/-- C9: `_rasterRect`, and `_rasterRle` on a valid Rle, run the matted kernel when a compositor
with a method in Alpha..InvLuma is attached and the masked kernel when its method is in
Add..Darken, whatever the blender is; with no compositor, or one of method None, they run the
blending kernel when a blender is set, and otherwise the solid kernel for `c.a = 255` and the
translucent kernel for `c.a < 255`. -/
theorem rasterRect_rasterRle_dispatch (P : SwCommon) (s : SwSurface) (rle : SwRle)
    (bbox : RenderRegion) (c : RenderColor) :
    (∀ cmp, s.compositor = some cmp →
      (cmp.method = .Alpha ∨ cmp.method = .InvAlpha ∨ cmp.method = .Luma
        ∨ cmp.method = .InvLuma) →
      _rasterRect P s bbox c = _rasterMattedRect P s bbox c
      ∧ (rle.invalid = false →
          _rasterRle P s (some rle) bbox c = _rasterMattedRle P s rle bbox c))
    ∧ (∀ cmp, s.compositor = some cmp →
      (cmp.method = .Add ∨ cmp.method = .Subtract ∨ cmp.method = .Intersect
        ∨ cmp.method = .Difference ∨ cmp.method = .Lighten ∨ cmp.method = .Darken) →
      _rasterRect P s bbox c = _rasterMaskedRect s bbox c
      ∧ (rle.invalid = false →
          _rasterRle P s (some rle) bbox c = _rasterMaskedRle s rle bbox c))
    ∧ ((s.compositor = none ∨ ∃ cmp, s.compositor = some cmp ∧ cmp.method = .None) →
      (s.blender.isSome = true →
        _rasterRect P s bbox c = _rasterBlendingRect s bbox c
        ∧ (rle.invalid = false →
            _rasterRle P s (some rle) bbox c = _rasterBlendingRle P s rle bbox c))
      ∧ (s.blender = none → c.a = 255 →
        _rasterRect P s bbox c = _rasterSolidRect s bbox c
        ∧ (rle.invalid = false →
            _rasterRle P s (some rle) bbox c = _rasterSolidRle P s rle bbox c))
      ∧ (s.blender = none → c.a < 255 →
        _rasterRect P s bbox c = _rasterTranslucentRect P s bbox c
        ∧ (rle.invalid = false →
            _rasterRle P s (some rle) bbox c = _rasterTranslucentRle P s rle bbox c))) := by
  refine ⟨?_, ?_, ?_⟩
  · intro cmp hc hm
    have h1 : _compositing s = true := by
      rw [compositing_of_some s cmp hc]
      rcases hm with h | h | h | h <;> simp [h]
    have h2 : _matting s = true := by
      rw [matting_of_some s cmp hc]
      rcases hm with h | h | h | h <;> simp [h, MaskMethod.toInt]
    refine ⟨by simp [_rasterRect, h1, h2], fun hv => ?_⟩
    simp [_rasterRle, hv, h1, h2]
  · intro cmp hc hm
    have h1 : _compositing s = true := by
      rw [compositing_of_some s cmp hc]
      rcases hm with h | h | h | h | h | h <;> simp [h]
    have h2 : _matting s = false := by
      rw [matting_of_some s cmp hc]
      rcases hm with h | h | h | h | h | h <;> simp [h, MaskMethod.toInt]
    refine ⟨by simp [_rasterRect, h1, h2], fun hv => ?_⟩
    simp [_rasterRle, hv, h1, h2]
  · intro hn
    have h1 : _compositing s = false := by
      rcases hn with h | ⟨cmp, h, hm⟩
      · exact compositing_of_none s h
      · rw [compositing_of_some s cmp h]
        simp [hm]
    refine ⟨fun hb => ?_, fun hb ha => ?_, fun hb ha => ?_⟩
    · have h3 : _blending s = true := by simp [_blending, hb]
      refine ⟨by simp [_rasterRect, h1, h3], fun hv => ?_⟩
      simp [_rasterRle, hv, h1, h3]
    · have h3 : _blending s = false := blending_of_none s hb
      refine ⟨by simp [_rasterRect, h1, h3, ha], fun hv => ?_⟩
      simp [_rasterRle, hv, h1, h3, ha]
    · have h3 : _blending s = false := blending_of_none s hb
      have ha2 : c.a ≠ 255 := by omega
      refine ⟨by simp [_rasterRect, h1, h3, ha2], fun hv => ?_⟩
      simp [_rasterRle, hv, h1, h3, ha2]

/-- Witness of C9 on 4x4 surfaces: a Luma compositor selects the matted kernels even with a
blender set, an Add compositor the masked kernels, a None compositor with a blender the
blending kernels, and no compositor and no blender the solid kernels for an opaque colour and
the translucent kernels for alpha 128. -/
theorem rasterRect_rasterRle_dispatch_witness :
    (_rasterRect scalarCommon { composedSurface4 .Luma with blender := some (fun s _ => s) }
        ⟨⟨0, 0⟩, ⟨2, 2⟩⟩ ⟨255, 0, 0, 255⟩
      = _rasterMattedRect scalarCommon
          { composedSurface4 .Luma with blender := some (fun s _ => s) }
          ⟨⟨0, 0⟩, ⟨2, 2⟩⟩ ⟨255, 0, 0, 255⟩)
    ∧ (_rasterRle scalarCommon (composedSurface4 .Add) (some ⟨[⟨0, 0, 2, 255⟩]⟩)
        ⟨⟨0, 0⟩, ⟨2, 2⟩⟩ ⟨255, 0, 0, 255⟩
      = _rasterMaskedRle (composedSurface4 .Add) ⟨[⟨0, 0, 2, 255⟩]⟩
          ⟨⟨0, 0⟩, ⟨2, 2⟩⟩ ⟨255, 0, 0, 255⟩)
    ∧ (_rasterRect scalarCommon { composedSurface4 .None with blender := some (fun s _ => s) }
        ⟨⟨0, 0⟩, ⟨2, 2⟩⟩ ⟨255, 0, 0, 255⟩
      = _rasterBlendingRect { composedSurface4 .None with blender := some (fun s _ => s) }
          ⟨⟨0, 0⟩, ⟨2, 2⟩⟩ ⟨255, 0, 0, 255⟩)
    ∧ (_rasterRect scalarCommon surface16 ⟨⟨4, 4⟩, ⟨12, 12⟩⟩ ⟨255, 0, 0, 255⟩
      = _rasterSolidRect surface16 ⟨⟨4, 4⟩, ⟨12, 12⟩⟩ ⟨255, 0, 0, 255⟩)
    ∧ (_rasterRle scalarCommon surface16 (some ⟨[⟨0, 0, 4, 128⟩]⟩) ⟨⟨0, 0⟩, ⟨16, 16⟩⟩
        ⟨0, 0, 0, 128⟩
      = _rasterTranslucentRle scalarCommon surface16 ⟨[⟨0, 0, 4, 128⟩]⟩ ⟨⟨0, 0⟩, ⟨16, 16⟩⟩
          ⟨0, 0, 0, 128⟩) :=
  ⟨((rasterRect_rasterRle_dispatch scalarCommon
        { composedSurface4 .Luma with blender := some (fun s _ => s) } ⟨[]⟩
        ⟨⟨0, 0⟩, ⟨2, 2⟩⟩ ⟨255, 0, 0, 255⟩).1 _ rfl (Or.inr (Or.inr (Or.inl rfl)))).1,
   ((rasterRect_rasterRle_dispatch scalarCommon (composedSurface4 .Add) ⟨[⟨0, 0, 2, 255⟩]⟩
        ⟨⟨0, 0⟩, ⟨2, 2⟩⟩ ⟨255, 0, 0, 255⟩).2.1 _ rfl (Or.inl rfl)).2 rfl,
   (((rasterRect_rasterRle_dispatch scalarCommon
        { composedSurface4 .None with blender := some (fun s _ => s) } ⟨[]⟩
        ⟨⟨0, 0⟩, ⟨2, 2⟩⟩ ⟨255, 0, 0, 255⟩).2.2 (Or.inr ⟨_, rfl, rfl⟩)).1 rfl).1,
   (((rasterRect_rasterRle_dispatch scalarCommon surface16 ⟨[]⟩
        ⟨⟨4, 4⟩, ⟨12, 12⟩⟩ ⟨255, 0, 0, 255⟩).2.2 (Or.inl rfl)).2.1 rfl rfl).1,
   (((rasterRect_rasterRle_dispatch scalarCommon surface16 ⟨[⟨0, 0, 4, 128⟩]⟩
        ⟨⟨0, 0⟩, ⟨16, 16⟩⟩ ⟨0, 0, 0, 128⟩).2.2 (Or.inl rfl)).2.2 rfl (by decide)).2 rfl⟩

/-! ## Channel-size guard of the masked kernels -/

/-- C10 at the failing input: on the 4x4 surface of 4-byte channels with an Add (composite) or a
Subtract (direct) compositor attached, the solid-colour masked kernels return false and leave
the surface as it is, but the masked gradient rect and Rle kernels return true for every fill
evaluator: they run the evaluator instead of refusing. -/
theorem rasterGradientMasked_no_guard (fillMethod : FillMethod) (fill : SwFill) :
    (composedSurface4 .Add).channelSize = 4
    ∧ _rasterMaskedRect (composedSurface4 .Add) ⟨⟨0, 0⟩, ⟨2, 2⟩⟩ ⟨0, 0, 0, 200⟩
        = (false, composedSurface4 .Add)
    ∧ _rasterMaskedRle (composedSurface4 .Add) ⟨[⟨0, 0, 2, 255⟩]⟩ ⟨⟨0, 0⟩, ⟨2, 2⟩⟩
        ⟨0, 0, 0, 200⟩ = (false, composedSurface4 .Add)
    ∧ (_rasterGradientMaskedRect fillMethod (composedSurface4 .Add) ⟨⟨0, 0⟩, ⟨2, 2⟩⟩ fill).1
        = true
    ∧ (_rasterGradientMaskedRect fillMethod (composedSurface4 .Subtract) ⟨⟨0, 0⟩, ⟨2, 2⟩⟩
        fill).1 = true
    ∧ (_rasterGradientMaskedRle fillMethod (composedSurface4 .Add) ⟨[⟨0, 0, 2, 255⟩]⟩ fill).1
        = true
    ∧ (_rasterGradientMaskedRle fillMethod (composedSurface4 .Subtract) ⟨[⟨0, 0, 2, 255⟩]⟩
        fill).1 = true :=
  ⟨rfl,
   rasterMaskedRect_refuses _ _ _ (by decide),
   rasterMaskedRle_refuses _ _ _ _ (by decide),
   (rasterGradientMasked_true fillMethod (composedSurface4 .Add) _ ⟨[]⟩ _ fill rfl
      (Or.inl rfl)).1,
   (rasterGradientMasked_true fillMethod (composedSurface4 .Subtract) _ ⟨[]⟩ _ fill rfl
      (Or.inr (Or.inl rfl))).1,
   (rasterGradientMasked_true fillMethod (composedSurface4 .Add) _ _ ⟨⟨0, 0⟩, ⟨0, 0⟩⟩ fill rfl
      (Or.inl rfl)).2,
   (rasterGradientMasked_true fillMethod (composedSurface4 .Subtract) _ _ ⟨⟨0, 0⟩, ⟨0, 0⟩⟩ fill
      rfl (Or.inr (Or.inl rfl))).2⟩

/-! ## Premultiplication round trip -/

theorem A_eq (c : Nat) : A c = c / 16777216 % 256 := by
  simp only [A, shr24]

theorem C1_eq (c : Nat) : C1 c = c / 65536 % 256 := by
  simp only [C1, shr16]

theorem C2_eq (c : Nat) : C2 c = c / 256 % 256 := by
  simp only [C2, shr8]

theorem JOIN_eq_sum (c0 c1 c2 c3 : Nat) (h0 : c0 ≤ 255) (h1 : c1 ≤ 255) (h2 : c2 ≤ 255)
    (h3 : c3 ≤ 255) : JOIN c0 c1 c2 c3 = c0 * 16777216 + c1 * 65536 + c2 * 256 + c3 := by
  unfold JOIN
  rw [join_eq_sum c0 c1 c2 c3 h1 h2 h3]
  omega

/-- The four bytes of a joined word. -/
theorem JOIN_bytes (c0 c1 c2 c3 : Nat) (h0 : c0 ≤ 255) (h1 : c1 ≤ 255) (h2 : c2 ≤ 255)
    (h3 : c3 ≤ 255) :
    A (JOIN c0 c1 c2 c3) = c0 ∧ C1 (JOIN c0 c1 c2 c3) = c1 ∧ C2 (JOIN c0 c1 c2 c3) = c2
    ∧ C3 (JOIN c0 c1 c2 c3) = c3 := by
  rw [A_eq, C1_eq, C2_eq, C3, JOIN_eq_sum c0 c1 c2 c3 h0 h1 h2 h3]
  obtain ⟨b0, b1, b2, b3⟩ := bytes4 c0 c1 c2 c3 h0 h1 h2 h3
  exact ⟨b3, b2, b1, b0⟩

theorem A_le (c : Nat) : A c ≤ 255 := by
  rw [A_eq]; omega

/-- C19: `rasterUnpremultiply` returns its argument when the alpha byte is 0 or 255; otherwise
the result is the join of the alpha byte with the three colour channels `c` replaced by
`min(c * 255 / A(x), 255)` (integer division by a non-zero alpha), so it is a 32-bit word with
the same alpha byte and clamped channels also when a channel exceeds alpha. -/
theorem rasterUnpremultiply_spec (x : Nat) :
    ((A x = 0 ∨ A x = 255) → rasterUnpremultiply x = x)
    ∧ (A x ≠ 0 → A x ≠ 255 →
        rasterUnpremultiply x
          = JOIN (A x) (min (C1 x * 255 / A x) 255) (min (C2 x * 255 / A x) 255)
              (min (C3 x * 255 / A x) 255)
        ∧ rasterUnpremultiply x < 4294967296
        ∧ A (rasterUnpremultiply x) = A x
        ∧ C1 (rasterUnpremultiply x) = min (C1 x * 255 / A x) 255
        ∧ C2 (rasterUnpremultiply x) = min (C2 x * 255 / A x) 255
        ∧ C3 (rasterUnpremultiply x) = min (C3 x * 255 / A x) 255) := by
  refine ⟨fun h => ?_, fun h0 h255 => ?_⟩
  · unfold rasterUnpremultiply
    rcases h with h | h <;> simp [h]
  · have e : rasterUnpremultiply x
        = JOIN (A x) (min (C1 x * 255 / A x) 255) (min (C2 x * 255 / A x) 255)
            (min (C3 x * 255 / A x) 255) := by
      unfold rasterUnpremultiply
      simp [h0, h255]
    have b := JOIN_bytes (A x) (min (C1 x * 255 / A x) 255) (min (C2 x * 255 / A x) 255)
      (min (C3 x * 255 / A x) 255) (A_le x) (Nat.min_le_right _ _) (Nat.min_le_right _ _)
      (Nat.min_le_right _ _)
    refine ⟨e, ?_, ?_, ?_, ?_, ?_⟩
    · rw [e]; unfold JOIN; omega
    · rw [e]; exact b.1
    · rw [e]; exact b.2.1
    · rw [e]; exact b.2.2.1
    · rw [e]; exact b.2.2.2

/-- Witness of C19: the opaque and the transparent pixel are returned as they are, and
`0x80FF4020` (alpha 128, first channel above alpha) becomes `0x80FF7F3F`. -/
theorem rasterUnpremultiply_spec_witness :
    rasterUnpremultiply 0xFF102030 = 0xFF102030
    ∧ rasterUnpremultiply 0x00102030 = 0x00102030
    ∧ rasterUnpremultiply 0x80FF4020 = JOIN 128 255 127 63
    ∧ JOIN 128 255 127 63 = 0x80FF7F3F :=
  ⟨(rasterUnpremultiply_spec 0xFF102030).1 (Or.inr (by decide)),
   (rasterUnpremultiply_spec 0x00102030).1 (Or.inl (by decide)),
   ((rasterUnpremultiply_spec 0x80FF4020).2 (by decide) (by decide)).1,
   by decide⟩
/-- Masking a number with a run of `n` one-bits starting at bit `k`. -/
theorem and_shifted_mask (hi lo k n : Nat) (hlo : lo < 2 ^ k) :
    (2 ^ k * hi + lo) &&& (2 ^ k * (2 ^ n - 1)) = 2 ^ k * (hi % 2 ^ n) := by
  apply Nat.eq_of_testBit_eq
  intro j
  rw [Nat.testBit_and, Nat.testBit_mul_pow_two_add hi hlo, Nat.testBit_mul_pow_two,
    Nat.testBit_mul_pow_two, Nat.testBit_two_pow_sub_one, Nat.testBit_mod_two_pow]
  by_cases h : j < k
  · have h2 : ¬ (j ≥ k) := by omega
    simp [h, h2]
  · have h2 : j ≥ k := by omega
    simp [h, h2, Bool.and_comm]

theorem and_ff000000 (c : Nat) : c &&& 0xff000000 = (c / 16777216 % 256) * 16777216 := by
  have h := and_shifted_mask (c / 16777216) (c % 16777216) 24 8 (by omega)
  have e : 2 ^ 24 * (c / 16777216) + c % 16777216 = c := by omega
  rw [e] at h
  have m : 2 ^ 24 * (2 ^ 8 - 1) = 0xff000000 := by norm_num
  rw [m] at h
  rw [h]
  omega

theorem and_ff00 (c : Nat) : c &&& 0xff00 = (c / 256 % 256) * 256 := by
  have h := and_shifted_mask (c / 256) (c % 256) 8 8 (by omega)
  have e : 2 ^ 8 * (c / 256) + c % 256 = c := by omega
  rw [e] at h
  have m : 2 ^ 8 * (2 ^ 8 - 1) = 0xff00 := by norm_num
  rw [m] at h
  rw [h]
  omega

theorem and_ff0000 (c : Nat) : c &&& 0xff0000 = (c / 65536 % 256) * 65536 := by
  have h := and_shifted_mask (c / 65536) (c % 65536) 16 8 (by omega)
  have e : 2 ^ 16 * (c / 65536) + c % 65536 = c := by omega
  rw [e] at h
  have m : 2 ^ 16 * (2 ^ 8 - 1) = 0xff0000 := by norm_num
  rw [m] at h
  rw [h]
  omega

theorem and_00ff00ff (c : Nat) :
    c &&& 0x00ff00ff = (c / 65536 % 256) * 65536 + c % 256 := by
  have m : (0x00ff00ff : Nat) = 0xff0000 ||| 0xff := by decide
  rw [m, Nat.and_or_distrib_left, and_ff0000, and_ff]
  have h := @Nat.mul_add_lt_is_or 16 (c % 256) (by omega) (c / 65536 % 256)
  have e : c / 65536 % 256 * 65536 = 2 ^ 16 * (c / 65536 % 256) := by omega
  rw [e, ← h]

theorem rasterRle_invalid (P : SwCommon) (s : SwSurface) (rle : Option SwRle)
    (bbox : RenderRegion) (c : RenderColor)
    (h : rle = none ∨ ∃ r, rle = some r ∧ r.spans = []) :
    _rasterRle P s rle bbox c = (false, s) := by
  rcases h with h | ⟨r, h, hr⟩
  · rw [h]; rfl
  · rw [h]
    simp [_rasterRle, SwRle.invalid, hr]

/-- C14 as stated fails: on the 16x16 surface, `rasterShape` on a non-fastTrack shape whose Rle
is null or has zero spans, and `rasterStroke` on a shape whose stroke Rle is null or has zero
spans, return false, not true. -/
theorem rasterShape_invalid_rle_false :
    (rasterShape scalarCommon surface16 ⟨none, none, none, false⟩ ⟨⟨0, 0⟩, ⟨16, 16⟩⟩
        ⟨255, 0, 0, 255⟩).1.1 = false
    ∧ (rasterShape scalarCommon surface16 ⟨some ⟨[]⟩, none, none, false⟩ ⟨⟨0, 0⟩, ⟨16, 16⟩⟩
        ⟨255, 0, 0, 255⟩).1.1 = false
    ∧ (rasterStroke scalarCommon surface16 ⟨none, none, none, false⟩ ⟨⟨0, 0⟩, ⟨16, 16⟩⟩
        ⟨255, 0, 0, 255⟩).1.1 = false
    ∧ (rasterStroke scalarCommon surface16 ⟨none, some ⟨[]⟩, none, false⟩ ⟨⟨0, 0⟩, ⟨16, 16⟩⟩
        ⟨255, 0, 0, 255⟩).1.1 = false :=
  ⟨rfl, rfl, rfl, rfl⟩

/-- C14 (amended): `rasterShape` on a non-fastTrack shape whose Rle is null or has zero spans,
and `rasterStroke` on a shape whose stroke Rle is null or has zero spans, return false and hand
the surface back as it is, compositor included, for every surface state and colour. -/
theorem rasterShape_rasterStroke_invalid_rle (P : SwCommon) (s : SwSurface) (shape : SwShape)
    (bbox : RenderRegion) (c : RenderColor) :
    (shape.fastTrack = false →
      (shape.rle = none ∨ ∃ r, shape.rle = some r ∧ r.spans = []) →
      (rasterShape P s shape bbox c).1 = (false, s))
    ∧ ((shape.strokeRle = none ∨ ∃ r, shape.strokeRle = some r ∧ r.spans = []) →
      (rasterStroke P s shape bbox c).1 = (false, s)) := by
  refine ⟨fun hf h => ?_, fun h => ?_⟩
  · simp only [rasterShape, hf, Bool.false_eq_true, if_false]
    exact rasterRle_invalid P s _ bbox _ h
  · simp only [rasterStroke]
    exact rasterRle_invalid P s _ bbox _ h

/-- Witness of the amended C14 on the 16x16 surface: a null Rle, and a stroke Rle with zero
spans. -/
theorem rasterShape_rasterStroke_invalid_rle_witness :
    (rasterShape scalarCommon surface16 ⟨none, none, none, false⟩ ⟨⟨0, 0⟩, ⟨16, 16⟩⟩
        ⟨255, 0, 0, 128⟩).1 = (false, surface16)
    ∧ (rasterStroke scalarCommon surface16 ⟨none, some ⟨[]⟩, none, false⟩ ⟨⟨0, 0⟩, ⟨16, 16⟩⟩
        ⟨255, 0, 0, 128⟩).1 = (false, surface16) :=
  ⟨(rasterShape_rasterStroke_invalid_rle scalarCommon surface16 ⟨none, none, none, false⟩
      ⟨⟨0, 0⟩, ⟨16, 16⟩⟩ ⟨255, 0, 0, 128⟩).1 rfl (Or.inl rfl),
   (rasterShape_rasterStroke_invalid_rle scalarCommon surface16 ⟨none, some ⟨[]⟩, none, false⟩
      ⟨⟨0, 0⟩, ⟨16, 16⟩⟩ ⟨255, 0, 0, 128⟩).2 (Or.inr ⟨_, rfl, rfl⟩)⟩

/-! ## Zero-area regions and zero alpha -/

/-- A property of the initial state that every iteration preserves holds after the loop. -/
theorem forLoop_invariant {σ : Type} (Inv : σ → Prop) (n : Nat) (body : Nat → σ → σ) (s : σ)
    (h0 : Inv s) (hstep : ∀ i t, Inv t → Inv (body i t)) : Inv (forLoop n body s) := by
  induction n with
  | zero => exact h0
  | succ k ih => exact hstep k _ ih

/-- A property of the initial state that every step on an element of the list preserves holds
after the fold. -/
theorem foldl_invariant {σ α : Type} (Inv : σ → Prop) (l : List α) (f : σ → α → σ) (s : σ)
    (h0 : Inv s) (hstep : ∀ t x, x ∈ l → Inv t → Inv (f t x)) : Inv (l.foldl f s) := by
  induction l generalizing s with
  | nil => exact h0
  | cons a l ih =>
    simp only [List.foldl_cons]
    exact ih (f s a) (hstep s a (List.mem_cons_self _ _) h0)
      (fun t x hx ht => hstep t x (List.mem_cons_of_mem _ hx) ht)

/-- A nest of two counted loops one of whose counts is zero leaves the state as it is. -/
theorem forLoop2_zero {σ : Type} (h w : Nat) (f : Nat → Nat → σ → σ) (s : σ)
    (hz : w = 0 ∨ h = 0) : forLoop h (fun y m => forLoop w (f y) m) s = s := by
  rcases hz with hz | hz
  · subst hz
    exact forLoop_invariant (fun t => t = s) h _ s rfl (fun _ t ht => ht)
  · subst hz
    rfl

theorem solidRect_zero_area (s : SwSurface) (bbox : RenderRegion) (c : RenderColor)
    (hz : bbox.w = 0 ∨ bbox.h = 0) : (_rasterSolidRect s bbox c).2 = s := by
  have h32 : forLoop bbox.h (fun y m =>
      rasterPixel32 m (u32 (bbox.min.y * s.stride) + u32 (y * s.stride))
        (s.join c.r c.g c.b 255) (u32 bbox.min.x) (i32 bbox.w)) s.buf = s.buf := by
    rcases hz with hz | hz
    · rw [hz]
      exact forLoop_invariant (fun t => t = s.buf) _ _ _ rfl (fun _ t ht => ht)
    · rw [hz]; rfl
  have h8 : forLoop bbox.h (fun y m =>
      rasterGrayscale8 m 0 255 (u32 ((y + bbox.min.y) * s.stride + bbox.min.x)) (i32 bbox.w))
      s.buf = s.buf := by
    rcases hz with hz | hz
    · rw [hz]
      exact forLoop_invariant (fun t => t = s.buf) _ _ _ rfl (fun _ t ht => ht)
    · rw [hz]; rfl
  unfold _rasterSolidRect
  split_ifs
  · simp only [h32]
  · simp only [h8]
  · rfl

theorem mattedRect_zero_area (P : SwCommon) (s : SwSurface) (bbox : RenderRegion)
    (c : RenderColor) (hz : bbox.w = 0 ∨ bbox.h = 0) : (_rasterMattedRect P s bbox c).2 = s := by
  unfold _rasterMattedRect
  cases hc : s.compositor with
  | none => rfl
  | some cmp =>
    simp only
    split_ifs
    · simp only [forLoop2_zero bbox.h bbox.w _ s.buf hz]
      rw [← hc]
    · simp only [forLoop2_zero bbox.h bbox.w _ s.buf hz]
      rw [← hc]
    · rfl

theorem blendingRect_zero_area (s : SwSurface) (bbox : RenderRegion) (c : RenderColor)
    (hz : bbox.w = 0 ∨ bbox.h = 0) : (_rasterBlendingRect s bbox c).2 = s := by
  unfold _rasterBlendingRect
  split_ifs
  · rfl
  · cases hb : s.blender with
    | none => rfl
    | some blender =>
      simp only [forLoop2_zero bbox.h bbox.w _ s.buf hz]
      rw [← hb]

theorem directMaskedRect_zero_area (s : SwSurface) (bbox : RenderRegion) (maskOp : SwMask)
    (a : Nat) (hz : bbox.w = 0 ∨ bbox.h = 0) :
    (_rasterDirectMaskedRect s bbox maskOp a).2 = s := by
  unfold _rasterDirectMaskedRect
  cases hc : s.compositor with
  | none => rfl
  | some cmp =>
    simp only [forLoop2_zero bbox.h bbox.w _ s.buf hz]
    rw [← hc]

theorem compositeMaskedRect_zero_area (s : SwSurface) (cmp : SwCompositor)
    (bbox : RenderRegion) (maskOp : SwMask) (a : Nat) (hc : s.compositor = some cmp)
    (hz : bbox.w = 0 ∨ bbox.h = 0) :
    _rasterCompositeMaskedRect s bbox maskOp a = _compositeMaskImage s cmp.image cmp.bbox := by
  unfold _rasterCompositeMaskedRect
  simp only [hc, forLoop2_zero bbox.h bbox.w _ cmp.image.buf hz]
  rw [← hc]

theorem translucentRect_zero_area (s : SwSurface) (bbox : RenderRegion) (c : RenderColor)
    (hz : bbox.w = 0 ∨ bbox.h = 0) : (cRasterTranslucentRect s bbox c).2 = s := by
  unfold cRasterTranslucentRect
  split_ifs
  · simp only [forLoop2_zero bbox.h bbox.w _ s.buf hz]
  · simp only [forLoop2_zero bbox.h bbox.w _ s.buf hz]
  · rfl
theorem compositeMaskImage_fields (s : SwSurface) (image : SwImage) (bbox : RenderRegion) :
    (_compositeMaskImage s image bbox).1 = true
    ∧ (_compositeMaskImage s image bbox).2
        = { s with buf := (_compositeMaskImage s image bbox).2.buf } :=
  ⟨rfl, rfl⟩

/-- The masked rect kernel on a zero-area region: under a composite method on an 8-bit surface
it is the composition of the untouched mask, otherwise it hands the surface back; it returns
true exactly on an 8-bit surface with a masking method. -/
theorem maskedRect_zero_area (s : SwSurface) (cmp : SwCompositor) (bbox : RenderRegion)
    (c : RenderColor) (hc : s.compositor = some cmp) (hz : bbox.w = 0 ∨ bbox.h = 0) :
    (s.channelSize = 1 →
      (cmp.method = .Add ∨ cmp.method = .Difference ∨ cmp.method = .Lighten) →
      _rasterMaskedRect s bbox c = _compositeMaskImage s cmp.image cmp.bbox)
    ∧ (¬ (s.channelSize = 1
          ∧ (cmp.method = .Add ∨ cmp.method = .Difference ∨ cmp.method = .Lighten)) →
      (_rasterMaskedRect s bbox c).2 = s)
    ∧ ((cmp.method = .Add ∨ cmp.method = .Subtract ∨ cmp.method = .Intersect
          ∨ cmp.method = .Difference ∨ cmp.method = .Lighten ∨ cmp.method = .Darken) →
      (_rasterMaskedRect s bbox c).1 = decide (s.channelSize = 1)) := by
  by_cases h1 : s.channelSize = 1
  · have key : ∀ op, _getMaskOp cmp.method = some op →
        _rasterMaskedRect s bbox c
          = if _direct cmp.method then _rasterDirectMaskedRect s bbox op c.a
            else _rasterCompositeMaskedRect s bbox op c.a := by
      intro op hop
      simp [_rasterMaskedRect, h1, hc, hop]
    have keyN : _getMaskOp cmp.method = none → _rasterMaskedRect s bbox c = (false, s) := by
      intro hop
      simp [_rasterMaskedRect, h1, hc, hop]
    have hd : ∀ op a, (_rasterDirectMaskedRect s bbox op a).1 = true := by
      intro op a
      simp [_rasterDirectMaskedRect, hc]
    refine ⟨fun _ hm => ?_, fun hn => ?_, fun hm => ?_⟩
    · rcases hm with hm | hm | hm
      · rw [key _ (by rw [hm]; rfl), hm]
        exact compositeMaskedRect_zero_area s cmp bbox _ _ hc hz
      · rw [key _ (by rw [hm]; rfl), hm]
        exact compositeMaskedRect_zero_area s cmp bbox _ _ hc hz
      · rw [key _ (by rw [hm]; rfl), hm]
        exact compositeMaskedRect_zero_area s cmp bbox _ _ hc hz
    · cases hm : cmp.method with
      | None => rw [keyN ((congrArg _getMaskOp hm).trans rfl)]
      | Alpha => rw [keyN ((congrArg _getMaskOp hm).trans rfl)]
      | InvAlpha => rw [keyN ((congrArg _getMaskOp hm).trans rfl)]
      | Luma => rw [keyN ((congrArg _getMaskOp hm).trans rfl)]
      | InvLuma => rw [keyN ((congrArg _getMaskOp hm).trans rfl)]
      | Add => exact absurd ⟨h1, Or.inl hm⟩ hn
      | Difference => exact absurd ⟨h1, Or.inr (Or.inl hm)⟩ hn
      | Lighten => exact absurd ⟨h1, Or.inr (Or.inr hm)⟩ hn
      | Subtract =>
        rw [key _ ((congrArg _getMaskOp hm).trans rfl), hm]
        exact directMaskedRect_zero_area s bbox _ _ hz
      | Intersect =>
        rw [key _ ((congrArg _getMaskOp hm).trans rfl), hm]
        exact directMaskedRect_zero_area s bbox _ _ hz
      | Darken =>
        rw [key _ ((congrArg _getMaskOp hm).trans rfl), hm]
        exact directMaskedRect_zero_area s bbox _ _ hz
    · rw [decide_eq_true h1]
      rcases hm with hm | hm | hm | hm | hm | hm
      · rw [key _ (by rw [hm]; rfl), hm,
          compositeMaskedRect_zero_area s cmp bbox _ _ hc hz]; rfl
      · rw [key _ (by rw [hm]; rfl), hm]; exact hd _ _
      · rw [key _ (by rw [hm]; rfl), hm]; exact hd _ _
      · rw [key _ (by rw [hm]; rfl), hm,
          compositeMaskedRect_zero_area s cmp bbox _ _ hc hz]; rfl
      · rw [key _ (by rw [hm]; rfl), hm,
          compositeMaskedRect_zero_area s cmp bbox _ _ hc hz]; rfl
      · rw [key _ (by rw [hm]; rfl), hm]; exact hd _ _
  · have e : _rasterMaskedRect s bbox c = (false, s) := by
      simp [_rasterMaskedRect, h1]
    refine ⟨fun h => absurd h h1, fun _ => by rw [e], fun _ => ?_⟩
    rw [e, decide_eq_false h1]
theorem rasterRect_of_masking (P : SwCommon) (s : SwSurface) (bbox : RenderRegion)
    (c : RenderColor) (h1 : _compositing s = true) (h2 : _matting s = false) :
    _rasterRect P s bbox c = _rasterMaskedRect s bbox c := by
  simp [_rasterRect, h1, h2]

theorem rasterRect_of_matting (P : SwCommon) (s : SwSurface) (bbox : RenderRegion)
    (c : RenderColor) (h1 : _compositing s = true) (h2 : _matting s = true) :
    _rasterRect P s bbox c = _rasterMattedRect P s bbox c := by
  simp [_rasterRect, h1, h2]

theorem rasterRect_not_compositing_zero_area (P : SwCommon) (s : SwSurface)
    (bbox : RenderRegion) (c : RenderColor)
    (hP : P.cRasterTranslucentRect = cRasterTranslucentRect) (hz : bbox.w = 0 ∨ bbox.h = 0)
    (h1 : _compositing s = false) : (_rasterRect P s bbox c).2 = s := by
  unfold _rasterRect
  rw [h1]
  simp only [Bool.false_eq_true, if_false]
  split_ifs
  · exact blendingRect_zero_area s bbox c hz
  · exact solidRect_zero_area s bbox c hz
  · unfold _rasterTranslucentRect
    rw [hP]
    exact translucentRect_zero_area s bbox c hz

theorem masking_method_flags (s : SwSurface) (cmp : SwCompositor) (hc : s.compositor = some cmp)
    (hm : cmp.method = .Add ∨ cmp.method = .Subtract ∨ cmp.method = .Intersect
      ∨ cmp.method = .Difference ∨ cmp.method = .Lighten ∨ cmp.method = .Darken) :
    _compositing s = true ∧ _matting s = false := by
  rw [compositing_of_some s cmp hc, matting_of_some s cmp hc]
  rcases hm with h | h | h | h | h | h <;> simp [h, MaskMethod.toInt]

theorem matting_method_flags (s : SwSurface) (cmp : SwCompositor) (hc : s.compositor = some cmp)
    (hm : cmp.method = .Alpha ∨ cmp.method = .InvAlpha ∨ cmp.method = .Luma
      ∨ cmp.method = .InvLuma) :
    _compositing s = true ∧ _matting s = true := by
  rw [compositing_of_some s cmp hc, matting_of_some s cmp hc]
  rcases hm with h | h | h | h <;> simp [h, MaskMethod.toInt]

/-- Every mask method is None, a matting method or a masking method. -/
theorem maskMethod_cases (m : MaskMethod) :
    m = .None
    ∨ (m = .Alpha ∨ m = .InvAlpha ∨ m = .Luma ∨ m = .InvLuma)
    ∨ (m = .Add ∨ m = .Subtract ∨ m = .Intersect ∨ m = .Difference ∨ m = .Lighten
        ∨ m = .Darken) := by
  cases m <;> simp

/-- C15 as stated fails. On the 16x16 surface with no compositor and no blender, `_rasterRect`
with the zero-width region (4,4)-(4,12) and an opaque colour returns true, not false. On the
8-bit 4x4 surface whose cells hold 50, with an Add compositor whose mask cells hold 100,
`_rasterRect` with the empty region (0,0)-(0,0) returns true and changes the cell 0 of the
surface to `100 + MULTIPLY(50, 155) = 131`. -/
theorem rasterRect_zero_area_true :
    (⟨⟨4, 4⟩, ⟨4, 12⟩⟩ : RenderRegion).w = 0
    ∧ (_rasterRect scalarCommon surface16 ⟨⟨4, 4⟩, ⟨4, 12⟩⟩ ⟨255, 0, 0, 255⟩).1 = true
    ∧ (⟨⟨0, 0⟩, ⟨0, 0⟩⟩ : RenderRegion).w = 0
    ∧ (⟨⟨0, 0⟩, ⟨0, 0⟩⟩ : RenderRegion).h = 0
    ∧ (_rasterRect scalarCommon (maskedSurface4 .Add) ⟨⟨0, 0⟩, ⟨0, 0⟩⟩ ⟨0, 0, 0, 200⟩).1 = true
    ∧ (maskedSurface4 .Add).buf.read8 0 = 50
    ∧ (_rasterRect scalarCommon (maskedSurface4 .Add) ⟨⟨0, 0⟩, ⟨0, 0⟩⟩
        ⟨0, 0, 0, 200⟩).2.buf.read8 0 = 131 := by
  refine ⟨by decide, rfl, by decide, by decide, rfl, by decide, ?_⟩
  decide
/-- C15 (amended): with a zero-area region (`w() = 0` or `h() = 0`) `_rasterRect` runs no
iteration of the region loops. Under a composite masking method (Add, Difference, Lighten) on
an 8-bit surface it is the composition `_compositeMaskImage` of the untouched mask over the
compositor's box; in every other state it hands the surface back as it is. Only the surface
buffer can differ, so the compositor buffer is unchanged. It returns what the selected kernel
returns: true for the solid and translucent kernels on a surface of 4- or 1-byte channels and
for the matted kernel, and the channel-size test of the masked kernel. (The translucent kernel
is the one modelled from the spec.) -/
theorem rasterRect_zero_area (P : SwCommon) (s : SwSurface) (bbox : RenderRegion)
    (c : RenderColor) (hP : P.cRasterTranslucentRect = cRasterTranslucentRect)
    (hz : bbox.w = 0 ∨ bbox.h = 0) :
    (∀ cmp, s.compositor = some cmp → s.channelSize = 1 →
      (cmp.method = .Add ∨ cmp.method = .Difference ∨ cmp.method = .Lighten) →
      _rasterRect P s bbox c = _compositeMaskImage s cmp.image cmp.bbox)
    ∧ ((∀ cmp, s.compositor = some cmp →
          ¬ (s.channelSize = 1
            ∧ (cmp.method = .Add ∨ cmp.method = .Difference ∨ cmp.method = .Lighten))) →
      (_rasterRect P s bbox c).2 = s)
    ∧ (_rasterRect P s bbox c).2 = { s with buf := (_rasterRect P s bbox c).2.buf }
    ∧ (s.compositor = none → s.blender = none → (s.channelSize = 4 ∨ s.channelSize = 1) →
      (_rasterRect P s bbox c).1 = true)
    ∧ (∀ cmp, s.compositor = some cmp →
      (cmp.method = .Alpha ∨ cmp.method = .InvAlpha ∨ cmp.method = .Luma
        ∨ cmp.method = .InvLuma) →
      (_rasterRect P s bbox c).1 = true)
    ∧ (∀ cmp, s.compositor = some cmp →
      (cmp.method = .Add ∨ cmp.method = .Subtract ∨ cmp.method = .Intersect
        ∨ cmp.method = .Difference ∨ cmp.method = .Lighten ∨ cmp.method = .Darken) →
      (_rasterRect P s bbox c).1 = decide (s.channelSize = 1)) := by
  have part1 : ∀ cmp, s.compositor = some cmp → s.channelSize = 1 →
      (cmp.method = .Add ∨ cmp.method = .Difference ∨ cmp.method = .Lighten) →
      _rasterRect P s bbox c = _compositeMaskImage s cmp.image cmp.bbox := by
    intro cmp hc h1 hm
    have hm2 : cmp.method = .Add ∨ cmp.method = .Subtract ∨ cmp.method = .Intersect
        ∨ cmp.method = .Difference ∨ cmp.method = .Lighten ∨ cmp.method = .Darken := by
      rcases hm with h | h | h <;> simp [h]
    obtain ⟨f1, f2⟩ := masking_method_flags s cmp hc hm2
    rw [rasterRect_of_masking P s bbox c f1 f2]
    exact (maskedRect_zero_area s cmp bbox c hc hz).1 h1 hm
  have part2 : (∀ cmp, s.compositor = some cmp →
      ¬ (s.channelSize = 1
        ∧ (cmp.method = .Add ∨ cmp.method = .Difference ∨ cmp.method = .Lighten))) →
      (_rasterRect P s bbox c).2 = s := by
    intro hn
    cases hc : s.compositor with
    | none =>
      exact rasterRect_not_compositing_zero_area P s bbox c hP hz (compositing_of_none s hc)
    | some cmp =>
      rcases maskMethod_cases cmp.method with hm | hm | hm
      · apply rasterRect_not_compositing_zero_area P s bbox c hP hz
        rw [compositing_of_some s cmp hc]
        simp [hm]
      · obtain ⟨f1, f2⟩ := matting_method_flags s cmp hc hm
        rw [rasterRect_of_matting P s bbox c f1 f2]
        exact mattedRect_zero_area P s bbox c hz
      · obtain ⟨f1, f2⟩ := masking_method_flags s cmp hc hm
        rw [rasterRect_of_masking P s bbox c f1 f2]
        exact (maskedRect_zero_area s cmp bbox c hc hz).2.1 (hn cmp hc)
  refine ⟨part1, part2, ?_, ?_, ?_, ?_⟩
  · by_cases hn : ∀ cmp, s.compositor = some cmp →
        ¬ (s.channelSize = 1
          ∧ (cmp.method = .Add ∨ cmp.method = .Difference ∨ cmp.method = .Lighten))
    · rw [part2 hn]
    · push_neg at hn
      obtain ⟨cmp, hc, h1, hm⟩ := hn
      rw [part1 cmp hc h1 hm]
      rfl
  · intro hc hb hs
    have e : _rasterRect P s bbox c
        = if c.a = 255 then _rasterSolidRect s bbox c else _rasterTranslucentRect P s bbox c := by
      simp [_rasterRect, compositing_of_none s hc, blending_of_none s hb]
    rw [e]
    split_ifs
    · rcases hs with hs | hs <;> simp [_rasterSolidRect, hs]
    · unfold _rasterTranslucentRect
      rw [hP]
      unfold cRasterTranslucentRect
      split_ifs <;> rfl
  · intro cmp hc hm
    obtain ⟨f1, f2⟩ := matting_method_flags s cmp hc hm
    rw [rasterRect_of_matting P s bbox c f1 f2]
    unfold _rasterMattedRect
    rw [hc]
    simp only
    split_ifs <;> rfl
  · intro cmp hc hm
    obtain ⟨f1, f2⟩ := masking_method_flags s cmp hc hm
    rw [rasterRect_of_masking P s bbox c f1 f2]
    exact (maskedRect_zero_area s cmp bbox c hc hz).2.2 hm

/-- Witness of the amended C15: the zero-width region on the 16x16 surface leaves the surface
as it is and returns true, and the empty region under the Add compositor of the 8-bit 4x4
surface is the composition of the mask. -/
theorem rasterRect_zero_area_witness :
    (_rasterRect scalarCommon surface16 ⟨⟨4, 4⟩, ⟨4, 12⟩⟩ ⟨255, 0, 0, 255⟩).2 = surface16
    ∧ (_rasterRect scalarCommon surface16 ⟨⟨4, 4⟩, ⟨4, 12⟩⟩ ⟨255, 0, 0, 255⟩).1 = true
    ∧ _rasterRect scalarCommon (maskedSurface4 .Add) ⟨⟨0, 0⟩, ⟨0, 0⟩⟩ ⟨0, 0, 0, 200⟩
        = _compositeMaskImage (maskedSurface4 .Add) { maskImage4 with buf := fun _ => 100 }
            ⟨⟨0, 0⟩, ⟨4, 4⟩⟩ := by
  have h1 := rasterRect_zero_area scalarCommon surface16 ⟨⟨4, 4⟩, ⟨4, 12⟩⟩ ⟨255, 0, 0, 255⟩
    rfl (Or.inl (by decide))
  have h2 := rasterRect_zero_area scalarCommon (maskedSurface4 .Add) ⟨⟨0, 0⟩, ⟨0, 0⟩⟩
    ⟨0, 0, 0, 200⟩ rfl (Or.inl (by decide))
  refine ⟨h1.2.1 (fun cmp hc => ?_), h1.2.2.2.1 rfl rfl (Or.inl rfl), h2.1 _ rfl rfl (Or.inl rfl)⟩
  exact absurd hc (by simp [surface16, rasterCompositor, blankSurface])

theorem read8_le (m : Mem) (i : Nat) : m.read8 i ≤ 255 := by
  unfold Mem.read8 deref8
  omega

theorem read8_lt (m : Mem) (i : Nat) : m.read8 i < 256 := by
  unfold Mem.read8 deref8
  omega

/-- Storing back the byte a cell already holds changes no cell of the buffer. -/
theorem read8_write8_self (m : Mem) (i v j : Nat) (hv : v % 256 = m.read8 i) :
    (m.write8 i v).read8 j = m.read8 j := by
  by_cases h : j = i
  · subst h
    rw [read8_write8_same, hv]
  · exact read8_write8_ne m i j v h

theorem MULTIPLY_zero_left (a : Nat) : MULTIPLY 0 a = 0 := by
  rw [MULTIPLY_eq]; omega

theorem MULTIPLY_zero_right (c : Nat) : MULTIPLY c 0 = 0 := by
  rw [MULTIPLY_eq]; omega

theorem not8_zero : not8 0 = 255 := by decide

/-- The value the direct kernels and the mask composition store for a zero source: the
destination byte itself. -/
theorem compose_zero (d : Nat) (hd : d ≤ 255) : (0 + MULTIPLY d (not8 0)) % 256 = d := by
  rw [not8_zero, MULTIPLY_255_right d hd]
  omega

/-- The direct operators map a zero source to zero. -/
theorem direct_op_zero (method : MaskMethod) (op : SwMask) (d a : Nat)
    (hm : method = .Subtract ∨ method = .Intersect ∨ method = .Darken)
    (hop : _getMaskOp method = some op) : op 0 d a = 0 := by
  rcases hm with h | h | h <;> subst h <;> simp only [_getMaskOp, Option.some.injEq] at hop <;>
    subst hop
  · exact MULTIPLY_zero_left _
  · exact MULTIPLY_zero_left _
  · unfold _opMaskDarken
    split <;> omega

/-- The composite operators map a zero source, with `a = 255 - 0`, to the mask byte. -/
theorem composite_op_zero (method : MaskMethod) (op : SwMask) (d : Nat) (hd : d ≤ 255)
    (hm : method = .Add ∨ method = .Difference ∨ method = .Lighten)
    (hop : _getMaskOp method = some op) : op 0 d 255 = d := by
  rcases hm with h | h | h <;> subst h <;> simp only [_getMaskOp, Option.some.injEq] at hop <;>
    subst hop
  · unfold _opMaskAdd
    rw [MULTIPLY_255_right d hd]
    omega
  · unfold _opMaskDifference
    rw [MULTIPLY_zero_left, MULTIPLY_255_right d hd]
    omega
  · unfold _opMaskLighten
    split <;> omega

theorem mem_fetch (rle : SwRle) (bbox : RenderRegion) (span : SwSpan)
    (h : span ∈ rle.fetch bbox) : span ∈ rle.spans := by
  unfold SwRle.fetch at h
  exact (List.dropWhile_sublist _).subset ((List.takeWhile_sublist _).subset h)

/-- The mask composition reads the surface only through its buffer and stride and the image
only through its bytes, stride and offsets. -/
theorem compositeMaskImage_buf_congr (s s2 : SwSurface) (img img2 : SwImage)
    (bbox : RenderRegion) (hb : s.buf = s2.buf) (hs : s.stride = s2.stride)
    (hi : ∀ i, img.buf.read8 i = img2.buf.read8 i) (hst : img.stride = img2.stride)
    (hox : img.ox = img2.ox) (hoy : img.oy = img2.oy) :
    (_compositeMaskImage s img bbox).2.buf = (_compositeMaskImage s2 img2 bbox).2.buf := by
  have hr : Mem.read8 img.buf = Mem.read8 img2.buf := funext hi
  simp only [_compositeMaskImage, hb, hs, hst, hox, hoy, hr]

/-- Composing a mask whose bytes are all zero changes no byte of the surface. -/
theorem compositeMaskImage_zero_mask (s : SwSurface) (img : SwImage) (bbox : RenderRegion)
    (hz : ∀ i, img.buf.read8 i = 0) (j : Nat) :
    (_compositeMaskImage s img bbox).2.buf.read8 j = s.buf.read8 j := by
  simp only [_compositeMaskImage]
  refine forLoop_invariant (fun m : Mem => m.read8 j = s.buf.read8 j) _ _ _ rfl ?_
  intro y m hm
  refine forLoop_invariant (fun m : Mem => m.read8 j = s.buf.read8 j) _ _ _ hm ?_
  intro x m2 hm2
  simp only [hz]
  rw [read8_write8_self _ _ _ _ (compose_zero _ (read8_le _ _))]
  exact hm2
theorem directMaskedRect_zero_alpha (s : SwSurface) (cmp : SwCompositor) (bbox : RenderRegion)
    (op : SwMask) (hc : s.compositor = some cmp) (hop : ∀ d a, op 0 d a = 0) :
    (_rasterDirectMaskedRect s bbox op 0).1 = true
    ∧ (∀ j, (_rasterDirectMaskedRect s bbox op 0).2.buf.read8 j = s.buf.read8 j)
    ∧ (_rasterDirectMaskedRect s bbox op 0).2.compositor = s.compositor := by
  simp only [_rasterDirectMaskedRect, hc, true_and, and_true]
  intro j
  refine forLoop_invariant (fun m : Mem => m.read8 j = s.buf.read8 j) _ _ _ rfl ?_
  intro y m hm
  refine forLoop_invariant (fun m : Mem => m.read8 j = s.buf.read8 j) _ _ _ hm ?_
  intro x m2 hm2
  simp only [hop]
  rw [read8_write8_self _ _ _ _ (compose_zero _ (read8_le _ _))]
  exact hm2

theorem directMaskedRle_zero_coverage (s : SwSurface) (cmp : SwCompositor) (rle : SwRle)
    (bbox : RenderRegion) (op : SwMask) (a : Nat) (hc : s.compositor = some cmp)
    (hop : ∀ d a, op 0 d a = 0) (hcov : ∀ span ∈ rle.spans, span.coverage = 0) :
    (_rasterDirectMaskedRle s rle bbox op a).1 = true
    ∧ (∀ j, (_rasterDirectMaskedRle s rle bbox op a).2.buf.read8 j = s.buf.read8 j)
    ∧ (_rasterDirectMaskedRle s rle bbox op a).2.compositor = s.compositor := by
  simp only [_rasterDirectMaskedRle, hc, true_and, and_true]
  intro j
  refine foldl_invariant (fun m : Mem => m.read8 j = s.buf.read8 j) _ _ _ rfl ?_
  intro m span hspan hm
  have h0 : span.coverage = 0 := hcov span (mem_fetch rle bbox span hspan)
  have h255 : ¬ (span.coverage = 255) := by omega
  simp only [h0, MULTIPLY_zero_right, show ¬ ((0 : Nat) = 255) by decide, if_false]
  split_ifs
  · exact hm
  · refine forLoop_invariant (fun m : Mem => m.read8 j = s.buf.read8 j) _ _ _ hm ?_
    intro i m2 hm2
    simp only [hop]
    rw [read8_write8_self _ _ _ _ (compose_zero _ (read8_le _ _))]
    exact hm2

theorem compositeMaskedRect_zero_alpha (s : SwSurface) (cmp : SwCompositor)
    (bbox : RenderRegion) (op : SwMask) (hc : s.compositor = some cmp)
    (hop : ∀ d, d ≤ 255 → op 0 d 255 = d) :
    (_rasterCompositeMaskedRect s bbox op 0).1 = true
    ∧ (_rasterCompositeMaskedRect s bbox op 0).2.buf
        = (_compositeMaskImage s cmp.image cmp.bbox).2.buf
    ∧ (∀ cmp2, (_rasterCompositeMaskedRect s bbox op 0).2.compositor = some cmp2 →
        ∀ i, cmp2.image.buf.read8 i = cmp.image.buf.read8 i) := by
  have hmask : ∀ i, (forLoop bbox.h (fun y m =>
      forLoop bbox.w (fun x m =>
        m.write8 (u32 (bbox.min.y * cmp.image.stride + bbox.min.x) + y * cmp.image.stride + x)
          (op 0 (m.read8
            (u32 (bbox.min.y * cmp.image.stride + bbox.min.x) + y * cmp.image.stride + x))
            (255 - 0))) m) cmp.image.buf).read8 i = cmp.image.buf.read8 i := by
    intro i
    refine forLoop_invariant (fun m : Mem => m.read8 i = cmp.image.buf.read8 i) _ _ _ rfl ?_
    intro y m hm
    refine forLoop_invariant (fun m : Mem => m.read8 i = cmp.image.buf.read8 i) _ _ _ hm ?_
    intro x m2 hm2
    rw [read8_write8_self]
    · exact hm2
    · rw [show (255 - 0 : Nat) = 255 from rfl, hop _ (read8_le _ _)]
      exact Nat.mod_eq_of_lt (read8_lt _ _)
  simp only [_rasterCompositeMaskedRect, hc]
  refine ⟨rfl, ?_, ?_⟩
  · exact compositeMaskImage_buf_congr _ _ _ _ _ rfl rfl hmask rfl rfl rfl
  · intro cmp2 h2 i
    simp only [_compositeMaskImage, Option.some.injEq] at h2
    rw [← h2]
    exact hmask i

theorem compositeMaskedRle_zero_coverage (s : SwSurface) (cmp : SwCompositor) (rle : SwRle)
    (bbox : RenderRegion) (op : SwMask) (a : Nat) (hc : s.compositor = some cmp)
    (hop : ∀ d, d ≤ 255 → op 0 d 255 = d) (hcov : ∀ span ∈ rle.spans, span.coverage = 0) :
    (_rasterCompositeMaskedRle s rle bbox op a).1 = true
    ∧ (_rasterCompositeMaskedRle s rle bbox op a).2.buf
        = (_compositeMaskImage s cmp.image cmp.bbox).2.buf
    ∧ (∀ cmp2, (_rasterCompositeMaskedRle s rle bbox op a).2.compositor = some cmp2 →
        ∀ i, cmp2.image.buf.read8 i = cmp.image.buf.read8 i) := by
  have hmask : ∀ i, ((rle.fetch bbox).foldl (fun m span =>
        let (ok, x, len) := span.fetch bbox
        if !ok then m
        else
          let cmpi := u32 (span.y * cmp.image.stride + x)
          let src := if span.coverage = 255 then a else MULTIPLY a span.coverage
          let ialpha := 255 - src
          forLoop len.toNat
            (fun i m => m.write8 (cmpi + i) (op src (m.read8 (cmpi + i)) ialpha)) m)
      cmp.image.buf).read8 i = cmp.image.buf.read8 i := by
    intro i
    refine foldl_invariant (fun m : Mem => m.read8 i = cmp.image.buf.read8 i) _ _ _ rfl ?_
    intro m span hspan hm
    have h0 : span.coverage = 0 := hcov span (mem_fetch rle bbox span hspan)
    simp only [h0, MULTIPLY_zero_right, show ¬ ((0 : Nat) = 255) by decide, if_false]
    split_ifs
    · exact hm
    · refine forLoop_invariant (fun m : Mem => m.read8 i = cmp.image.buf.read8 i) _ _ _ hm ?_
      intro k m2 hm2
      rw [read8_write8_self]
      · exact hm2
      · rw [show (255 - 0 : Nat) = 255 from rfl, hop _ (read8_le _ _)]
        exact Nat.mod_eq_of_lt (read8_lt _ _)
  simp only [_rasterCompositeMaskedRle, hc]
  refine ⟨rfl, ?_, ?_⟩
  · exact compositeMaskImage_buf_congr _ _ _ _ _ rfl rfl hmask rfl rfl rfl
  · intro cmp2 h2 i
    simp only [_compositeMaskImage, Option.some.injEq] at h2
    rw [← h2]
    exact hmask i
/-- C16 as stated fails: on the 8-bit 4x4 surface whose cells hold 50, under the Add compositor
whose mask cells hold 100, `_rasterMaskedRect` with colour alpha 0 and `_rasterMaskedRle` with
a span of coverage 0 change the cell 0 of the surface from 50 to
`100 + MULTIPLY(50, 155) = 131`. -/
theorem rasterMasked_zero_alpha_changes :
    (maskedSurface4 .Add).buf.read8 0 = 50
    ∧ (_rasterMaskedRect (maskedSurface4 .Add) ⟨⟨0, 0⟩, ⟨2, 2⟩⟩ ⟨0, 0, 0, 0⟩).2.buf.read8 0 = 131
    ∧ (_rasterMaskedRle (maskedSurface4 .Add) ⟨[⟨0, 0, 2, 0⟩]⟩ ⟨⟨0, 0⟩, ⟨2, 2⟩⟩
        ⟨0, 0, 0, 255⟩).2.buf.read8 0 = 131 := by
  decide

/-- C16 (amended): on an 8-bit surface, `_rasterMaskedRect` with colour alpha 0 and
`_rasterMaskedRle` on spans of coverage 0 leave every byte of the destination unchanged under
the direct methods (Subtract, Intersect, Darken). Under the composite methods (Add, Difference,
Lighten) they leave every byte of the mask unchanged and the destination is the composition
`_compositeMaskImage` of that mask; it is unchanged when the mask bytes are all zero. -/
theorem rasterMasked_zero_alpha (s : SwSurface) (cmp : SwCompositor) (rle : SwRle)
    (bbox : RenderRegion) (c : RenderColor) (hc : s.compositor = some cmp)
    (h1 : s.channelSize = 1) :
    ((cmp.method = .Subtract ∨ cmp.method = .Intersect ∨ cmp.method = .Darken) →
      (c.a = 0 →
        (_rasterMaskedRect s bbox c).1 = true
        ∧ (∀ j, (_rasterMaskedRect s bbox c).2.buf.read8 j = s.buf.read8 j)
        ∧ (_rasterMaskedRect s bbox c).2.compositor = s.compositor)
      ∧ ((∀ span ∈ rle.spans, span.coverage = 0) →
        (_rasterMaskedRle s rle bbox c).1 = true
        ∧ (∀ j, (_rasterMaskedRle s rle bbox c).2.buf.read8 j = s.buf.read8 j)
        ∧ (_rasterMaskedRle s rle bbox c).2.compositor = s.compositor))
    ∧ ((cmp.method = .Add ∨ cmp.method = .Difference ∨ cmp.method = .Lighten) →
      (c.a = 0 →
        (_rasterMaskedRect s bbox c).1 = true
        ∧ (_rasterMaskedRect s bbox c).2.buf = (_compositeMaskImage s cmp.image cmp.bbox).2.buf
        ∧ (∀ cmp2, (_rasterMaskedRect s bbox c).2.compositor = some cmp2 →
            ∀ i, cmp2.image.buf.read8 i = cmp.image.buf.read8 i))
      ∧ ((∀ span ∈ rle.spans, span.coverage = 0) →
        (_rasterMaskedRle s rle bbox c).1 = true
        ∧ (_rasterMaskedRle s rle bbox c).2.buf
            = (_compositeMaskImage s cmp.image cmp.bbox).2.buf
        ∧ (∀ cmp2, (_rasterMaskedRle s rle bbox c).2.compositor = some cmp2 →
            ∀ i, cmp2.image.buf.read8 i = cmp.image.buf.read8 i))
      ∧ ((∀ i, cmp.image.buf.read8 i = 0) →
        ∀ j, (_compositeMaskImage s cmp.image cmp.bbox).2.buf.read8 j = s.buf.read8 j)) := by
  have keyR : ∀ op, _getMaskOp cmp.method = some op →
      _rasterMaskedRect s bbox c
        = if _direct cmp.method then _rasterDirectMaskedRect s bbox op c.a
          else _rasterCompositeMaskedRect s bbox op c.a := by
    intro op hop
    simp [_rasterMaskedRect, h1, hc, hop]
  have keyL : ∀ op, _getMaskOp cmp.method = some op →
      _rasterMaskedRle s rle bbox c
        = if _direct cmp.method then _rasterDirectMaskedRle s rle bbox op c.a
          else _rasterCompositeMaskedRle s rle bbox op c.a := by
    intro op hop
    simp [_rasterMaskedRle, h1, hc, hop]
  refine ⟨fun hm => ?_, fun hm => ?_⟩
  · obtain ⟨op, hop⟩ : ∃ op, _getMaskOp cmp.method = some op := by
      rcases hm with h | h | h <;> rw [h] <;> exact ⟨_, rfl⟩
    have hd : _direct cmp.method = true := by
      rcases hm with h | h | h <;> rw [h] <;> rfl
    have hz : ∀ d a, op 0 d a = 0 := fun d a => direct_op_zero cmp.method op d a hm hop
    refine ⟨fun ha => ?_, fun hcov => ?_⟩
    · rw [keyR op hop, hd, if_pos rfl, ha]
      exact directMaskedRect_zero_alpha s cmp bbox op hc hz
    · rw [keyL op hop, hd, if_pos rfl]
      exact directMaskedRle_zero_coverage s cmp rle bbox op c.a hc hz hcov
  · obtain ⟨op, hop⟩ : ∃ op, _getMaskOp cmp.method = some op := by
      rcases hm with h | h | h <;> rw [h] <;> exact ⟨_, rfl⟩
    have hd : _direct cmp.method = false := by
      rcases hm with h | h | h <;> rw [h] <;> rfl
    have hz : ∀ d, d ≤ 255 → op 0 d 255 = d :=
      fun d hd => composite_op_zero cmp.method op d hd hm hop
    refine ⟨fun ha => ?_, fun hcov => ?_, fun h0 j => ?_⟩
    · rw [keyR op hop, hd, if_neg (by decide), ha]
      exact compositeMaskedRect_zero_alpha s cmp bbox op hc hz
    · rw [keyL op hop, hd, if_neg (by decide)]
      exact compositeMaskedRle_zero_coverage s cmp rle bbox op c.a hc hz hcov
    · exact compositeMaskImage_zero_mask s cmp.image cmp.bbox h0 j

/-- Witness of the amended C16 on the 8-bit 4x4 surface: under Subtract the destination is
unchanged by a rect of alpha 0 and by a span of coverage 0, and under Add the destination is
the composition of the mask. -/
theorem rasterMasked_zero_alpha_witness :
    (∀ j, (_rasterMaskedRect (maskedSurface4 .Subtract) ⟨⟨0, 0⟩, ⟨2, 2⟩⟩
        ⟨0, 0, 0, 0⟩).2.buf.read8 j = (maskedSurface4 .Subtract).buf.read8 j)
    ∧ (∀ j, (_rasterMaskedRle (maskedSurface4 .Subtract) ⟨[⟨0, 0, 2, 0⟩]⟩ ⟨⟨0, 0⟩, ⟨2, 2⟩⟩
        ⟨0, 0, 0, 255⟩).2.buf.read8 j = (maskedSurface4 .Subtract).buf.read8 j)
    ∧ (_rasterMaskedRect (maskedSurface4 .Add) ⟨⟨0, 0⟩, ⟨2, 2⟩⟩ ⟨0, 0, 0, 0⟩).2.buf
        = (_compositeMaskImage (maskedSurface4 .Add) { maskImage4 with buf := fun _ => 100 }
            ⟨⟨0, 0⟩, ⟨4, 4⟩⟩).2.buf := by
  have hS := (rasterMasked_zero_alpha (maskedSurface4 .Subtract) _ ⟨[⟨0, 0, 2, 0⟩]⟩
    ⟨⟨0, 0⟩, ⟨2, 2⟩⟩ ⟨0, 0, 0, 0⟩ rfl rfl).1 (Or.inl rfl)
  have hL := (rasterMasked_zero_alpha (maskedSurface4 .Subtract) _ ⟨[⟨0, 0, 2, 0⟩]⟩
    ⟨⟨0, 0⟩, ⟨2, 2⟩⟩ ⟨0, 0, 0, 255⟩ rfl rfl).1 (Or.inl rfl)
  have hA := (rasterMasked_zero_alpha (maskedSurface4 .Add) _ ⟨[]⟩
    ⟨⟨0, 0⟩, ⟨2, 2⟩⟩ ⟨0, 0, 0, 0⟩ rfl rfl).2 (Or.inl rfl)
  refine ⟨(hS.1 rfl).2.1, (hL.2 ?_).2.1, (hA.1 rfl).2.1⟩
  intro span hspan
  simp only [List.mem_singleton] at hspan
  rw [hspan]

/-! ## Gradient shapes -/

theorem solidGradientRect_true (P : SwCommon) (F : FillMethod) (s : SwSurface)
    (bbox : RenderRegion) (fill : SwFill) : (_rasterSolidGradientRect P F s bbox fill).1 = true := by
  unfold _rasterSolidGradientRect
  split_ifs <;> rfl

/-- C17: on a surface with neither compositor nor blender, `rasterGradientShape` on a
fastTrack shape whose fill is not translucent and is not fetched as a solid colour returns
FALSE for a linear and for a radial gradient, although it has run `_rasterSolidGradientRect`,
which reports true and on a 32-bit surface has handed every row of the bbox to the fill
evaluator: the dispatchers `_rasterLinearGradientRect` and `_rasterRadialGradientRect` drop the
result of that kernel and fall through to `return false`. -/
theorem rasterGradientShape_fastTrack_false (P : SwCommon) (G : SwFillOps) (s : SwSurface)
    (shape : SwShape) (bbox : RenderRegion) (fdata : Fill) (opacity : Nat) (fill : SwFill)
    (hfill : shape.fill = some fill) (hsolid : G.fillFetchSolid fill fdata = none)
    (hft : shape.fastTrack = true) (hc : s.compositor = none) (hb : s.blender = none)
    (ht : fill.translucent = false) :
    (fdata.type = FillType.LinearGradient →
        rasterGradientShape P G s shape bbox fdata opacity
          = (false, (_rasterSolidGradientRect P G.fillLinear s bbox fill).2))
      ∧ (fdata.type = FillType.RadialGradient →
        rasterGradientShape P G s shape bbox fdata opacity
          = (false, (_rasterSolidGradientRect P G.fillRadial s bbox fill).2))
      ∧ (∀ F : FillMethod, (_rasterSolidGradientRect P F s bbox fill).1 = true)
      ∧ (s.channelSize = 4 → ∀ F : FillMethod,
        (_rasterSolidGradientRect P F s bbox fill).2 =
          { s with buf := forLoop bbox.h (fun y m =>
              F.blend fill m ((u32 (bbox.min.y * s.stride) : Int) + bbox.min.x
                  + y * s.stride).toNat
                (u32 (bbox.min.y + y)) (u32 bbox.min.x) bbox.w P.opBlendSrcOver 255) s.buf }) := by
  refine ⟨?_, ?_, fun F => solidGradientRect_true P F s bbox fill, ?_⟩
  · intro hl
    unfold rasterGradientShape
    rw [hfill]
    simp only [hsolid, hft, hl, if_true]
    unfold _rasterLinearGradientRect
    rw [compositing_of_none s hc, blending_of_none s hb, ht]
    simp
  · intro hr
    unfold rasterGradientShape
    rw [hfill]
    simp only [hsolid, hft, hr, if_true]
    unfold _rasterRadialGradientRect
    rw [compositing_of_none s hc, blending_of_none s hb, ht]
    simp
  · intro h4 F
    unfold _rasterSolidGradientRect
    rw [if_pos h4]

/-- C17 at the 16 × 16 ABGR surface, the bbox (2,2)-(10,10) and a linear gradient of the
one colour 0xff0000ff: the call returns false while the solid gradient kernel reports true,
and cell (2,2) of the surface has received the colour. -/
theorem rasterGradientShape_fastTrack_false_witness :
    rasterGradientShape scalarCommon (flatFillOps 0xff0000ff) surface16 rectShape
          ⟨⟨2, 2⟩, ⟨10, 10⟩⟩ ⟨FillType.LinearGradient⟩ 255
        = (false, (_rasterSolidGradientRect scalarCommon (flatFill 0xff0000ff) surface16
            ⟨⟨2, 2⟩, ⟨10, 10⟩⟩ ⟨false⟩).2)
      ∧ (_rasterSolidGradientRect scalarCommon (flatFill 0xff0000ff) surface16
            ⟨⟨2, 2⟩, ⟨10, 10⟩⟩ ⟨false⟩).1 = true
      ∧ surface16.buf.read32 (2 * 16 + 2) = 0
      ∧ (rasterGradientShape scalarCommon (flatFillOps 0xff0000ff) surface16 rectShape
          ⟨⟨2, 2⟩, ⟨10, 10⟩⟩ ⟨FillType.LinearGradient⟩ 255).2.buf.read32 (2 * 16 + 2)
        = 0xff0000ff :=
  ⟨(rasterGradientShape_fastTrack_false scalarCommon (flatFillOps 0xff0000ff) surface16
      rectShape ⟨⟨2, 2⟩, ⟨10, 10⟩⟩ ⟨FillType.LinearGradient⟩ 255 ⟨false⟩
      rfl rfl rfl rfl rfl rfl).1 rfl,
   (rasterGradientShape_fastTrack_false scalarCommon (flatFillOps 0xff0000ff) surface16
      rectShape ⟨⟨2, 2⟩, ⟨10, 10⟩⟩ ⟨FillType.LinearGradient⟩ 255 ⟨false⟩
      rfl rfl rfl rfl rfl rfl).2.2.1 (flatFill 0xff0000ff),
   by decide, by decide⟩
/-- C18: `rasterGradientShape` on a shape that is not fastTrack does not use the bbox it is
given: when the fill is not fetched as a solid colour the call has the same result for every
two regions, so nothing is clipped to `bbox`; and on a surface with neither compositor nor
blender, for an opaque linear gradient and a valid Rle, a 32-bit surface hands every span to
the fill evaluator whole, from the span's own column on and in the span's own length. -/
theorem rasterGradientShape_rle_ignores_bbox (P : SwCommon) (G : SwFillOps) (s : SwSurface)
    (shape : SwShape) (bbox bbox' : RenderRegion) (fdata : Fill) (opacity : Nat)
    (hft : shape.fastTrack = false)
    (hsolid : ∀ fill, shape.fill = some fill → G.fillFetchSolid fill fdata = none) :
    rasterGradientShape P G s shape bbox fdata opacity
        = rasterGradientShape P G s shape bbox' fdata opacity
      ∧ ∀ (fill : SwFill) (rle : SwRle), shape.fill = some fill → shape.rle = some rle →
        rle.invalid = false → fill.translucent = false → s.compositor = none →
        s.blender = none → s.channelSize = 4 → fdata.type = FillType.LinearGradient →
        rasterGradientShape P G s shape bbox fdata opacity
          = (true, { s with buf := rle.spans.foldl (fun m span =>
              if span.coverage = 255 then
                G.fillLinear.blend fill m (u32 (span.y * s.stride + span.x)) span.y span.x
                  span.len P.opBlendSrcOver 255
              else
                G.fillLinear.blend fill m (u32 (span.y * s.stride + span.x)) span.y span.x
                  span.len P.opBlendInterp span.coverage) s.buf }) := by
  constructor
  · unfold rasterGradientShape
    cases hfill : shape.fill with
    | none => rfl
    | some fill =>
      simp only [hsolid fill hfill, hft]
      rfl
  · intro fill rle hfill hrle hinv ht hc hb h4 hl
    unfold rasterGradientShape
    rw [hfill]
    simp only [hsolid fill hfill, hft, hrle, hinv, hl]
    unfold _rasterLinearGradientRle
    rw [compositing_of_none s hc, blending_of_none s hb, ht]
    unfold _rasterSolidGradientRle
    simp [h4]

/-- C18 at the 16 × 16 ABGR surface and the Rle of one span of four cells from column 0 of row
0: under the region (0,0)-(2,1), two cells wide, the result is that of the region of the whole
surface, and cells 2 and 3 of row 0, outside the region, receive the colour. -/
theorem rasterGradientShape_rle_ignores_bbox_witness :
    rasterGradientShape scalarCommon (flatFillOps 0xff0000ff) surface16 spanShape
          ⟨⟨0, 0⟩, ⟨2, 1⟩⟩ ⟨FillType.LinearGradient⟩ 255
        = rasterGradientShape scalarCommon (flatFillOps 0xff0000ff) surface16 spanShape
          ⟨⟨0, 0⟩, ⟨16, 16⟩⟩ ⟨FillType.LinearGradient⟩ 255
      ∧ (rasterGradientShape scalarCommon (flatFillOps 0xff0000ff) surface16 spanShape
          ⟨⟨0, 0⟩, ⟨2, 1⟩⟩ ⟨FillType.LinearGradient⟩ 255).1 = true
      ∧ surface16.buf.read32 2 = 0 ∧ surface16.buf.read32 3 = 0
      ∧ (rasterGradientShape scalarCommon (flatFillOps 0xff0000ff) surface16 spanShape
          ⟨⟨0, 0⟩, ⟨2, 1⟩⟩ ⟨FillType.LinearGradient⟩ 255).2.buf.read32 2 = 0xff0000ff
      ∧ (rasterGradientShape scalarCommon (flatFillOps 0xff0000ff) surface16 spanShape
          ⟨⟨0, 0⟩, ⟨2, 1⟩⟩ ⟨FillType.LinearGradient⟩ 255).2.buf.read32 3 = 0xff0000ff :=
  ⟨(rasterGradientShape_rle_ignores_bbox scalarCommon (flatFillOps 0xff0000ff) surface16
      spanShape ⟨⟨0, 0⟩, ⟨2, 1⟩⟩ ⟨⟨0, 0⟩, ⟨16, 16⟩⟩ ⟨FillType.LinearGradient⟩ 255 rfl
      (fun _ _ => rfl)).1,
   by decide, by decide, by decide, by decide, by decide⟩

/-! ## Images -/

theorem inverse_identityMatrix : scalarCommon.inverse identityMatrix = some identityMatrix := by
  simp [scalarCommon, inverse, identityMatrix]

theorem inverse_zeroMatrix : scalarCommon.inverse zeroMatrix = none := by
  simp [scalarCommon, inverse, zeroMatrix]

/-- C11: on a surface whose compositor method is one of Add, Subtract, Intersect, Difference,
Lighten, Darken, `rasterDirectImage` and `rasterDirectRleImage` return false, and for every
transform that has an inverse `rasterScaledImage` and `rasterScaledRleImage` return false; each
leaves the surface as it was, the surface buffer and the compositor buffer included. -/
theorem rasterImage_masked_false (P : SwCommon) (s : SwSurface) (image : SwImage)
    (bbox : RenderRegion) (opacity : Nat) (cmp : SwCompositor)
    (hc : s.compositor = some cmp)
    (hm : cmp.method = .Add ∨ cmp.method = .Subtract ∨ cmp.method = .Intersect
      ∨ cmp.method = .Difference ∨ cmp.method = .Lighten ∨ cmp.method = .Darken) :
    rasterDirectImage P s image bbox opacity = (false, s)
      ∧ rasterDirectRleImage P s image bbox opacity = (false, s)
      ∧ (∀ transform itransform : Matrix, P.inverse transform = some itransform →
          rasterScaledImage P s image transform bbox opacity = some (false, s)
          ∧ rasterScaledRleImage P s image transform bbox opacity = some (false, s)) := by
  obtain ⟨h1, h2⟩ := masking_method_flags s cmp hc hm
  refine ⟨?_, ?_, ?_⟩
  · unfold rasterDirectImage
    simp only [h1, h2, if_true, Bool.false_eq_true, if_false]
    rfl
  · unfold rasterDirectRleImage
    simp only [h1, h2, if_true, Bool.false_eq_true, if_false]
    split_ifs <;> rfl
  · intro transform itransform hi
    constructor
    · unfold rasterScaledImage
      simp only [hi, h1, h2, if_true, Bool.false_eq_true, if_false]
      rfl
    · unfold rasterScaledRleImage
      simp only [hi, h1, h2, if_true, Bool.false_eq_true, if_false]
      split_ifs <;> rfl

/-- C11 at the 4x4 32-bit surface with an Add compositor, the 4x4 image and the identity
transform. -/
theorem rasterImage_masked_false_witness :
    rasterDirectImage scalarCommon (composedSurface4 .Add) sourceImage4 ⟨⟨0, 0⟩, ⟨4, 4⟩⟩ 255
        = (false, composedSurface4 .Add)
      ∧ rasterDirectRleImage scalarCommon (composedSurface4 .Add) sourceImage4
          ⟨⟨0, 0⟩, ⟨4, 4⟩⟩ 255 = (false, composedSurface4 .Add)
      ∧ rasterScaledImage scalarCommon (composedSurface4 .Add) sourceImage4 identityMatrix
          ⟨⟨0, 0⟩, ⟨4, 4⟩⟩ 255 = some (false, composedSurface4 .Add)
      ∧ rasterScaledRleImage scalarCommon (composedSurface4 .Add) sourceImage4 identityMatrix
          ⟨⟨0, 0⟩, ⟨4, 4⟩⟩ 255 = some (false, composedSurface4 .Add) :=
  have h := rasterImage_masked_false scalarCommon (composedSurface4 .Add) sourceImage4
    ⟨⟨0, 0⟩, ⟨4, 4⟩⟩ 255 _ rfl (Or.inl rfl)
  ⟨h.1, h.2.1, (h.2.2 identityMatrix identityMatrix inverse_identityMatrix).1,
    (h.2.2 identityMatrix identityMatrix inverse_identityMatrix).2⟩

/-- C12: on an 8-bit surface the scaled matted, scaled blending, direct blending and direct
matted-blending image kernels and the public `rasterScaledRleImage` and `rasterDirectRleImage`
return false and leave the surface as it was, so no cell of it is written. -/
theorem rasterImage_grayscale_false (P : SwCommon) (s : SwSurface) (image : SwImage)
    (transform itransform : Matrix) (bbox : RenderRegion) (w h : Int) (opacity : Nat)
    (h1 : s.channelSize = 1) :
    _rasterScaledMattedImage P s image itransform bbox opacity = some (false, s)
      ∧ _rasterScaledBlendingImage P s image itransform bbox opacity = some (false, s)
      ∧ _rasterDirectBlendingImage P s image bbox w h opacity = (false, s)
      ∧ _rasterDirectMattedBlendingImage P s image bbox w h opacity = (false, s)
      ∧ rasterScaledRleImage P s image transform bbox opacity = some (false, s)
      ∧ rasterDirectRleImage P s image bbox opacity = (false, s) := by
  refine ⟨?_, ?_, ?_, ?_, ?_, ?_⟩
  · unfold _rasterScaledMattedImage
    rw [if_pos h1]
  · unfold _rasterScaledBlendingImage
    rw [if_pos h1]
  · unfold _rasterDirectBlendingImage
    rw [if_pos h1]
  · unfold _rasterDirectMattedBlendingImage
    rw [if_pos h1]
  · unfold rasterScaledRleImage
    rw [if_pos h1]
  · unfold rasterDirectRleImage
    rw [if_pos h1]

/-- C12 at the 8-bit 4x4 surface with an Alpha compositor, the 4x4
image and the identity transform. -/
theorem rasterImage_grayscale_false_witness :
    _rasterScaledMattedImage scalarCommon (maskedSurface4 .Alpha) sourceImage4 identityMatrix
        ⟨⟨0, 0⟩, ⟨4, 4⟩⟩ 255 = some (false, maskedSurface4 .Alpha)
      ∧ _rasterScaledBlendingImage scalarCommon (maskedSurface4 .Alpha) sourceImage4
          identityMatrix ⟨⟨0, 0⟩, ⟨4, 4⟩⟩ 255 = some (false, maskedSurface4 .Alpha)
      ∧ _rasterDirectBlendingImage scalarCommon (maskedSurface4 .Alpha) sourceImage4
          ⟨⟨0, 0⟩, ⟨4, 4⟩⟩ 4 4 255 = (false, maskedSurface4 .Alpha)
      ∧ _rasterDirectMattedBlendingImage scalarCommon (maskedSurface4 .Alpha) sourceImage4
          ⟨⟨0, 0⟩, ⟨4, 4⟩⟩ 4 4 255 = (false, maskedSurface4 .Alpha)
      ∧ rasterScaledRleImage scalarCommon (maskedSurface4 .Alpha) sourceImage4 identityMatrix
          ⟨⟨0, 0⟩, ⟨4, 4⟩⟩ 255 = some (false, maskedSurface4 .Alpha)
      ∧ rasterDirectRleImage scalarCommon (maskedSurface4 .Alpha) sourceImage4
          ⟨⟨0, 0⟩, ⟨4, 4⟩⟩ 255 = (false, maskedSurface4 .Alpha) :=
  rasterImage_grayscale_false scalarCommon (maskedSurface4 .Alpha) sourceImage4 identityMatrix
    identityMatrix ⟨⟨0, 0⟩, ⟨4, 4⟩⟩ 4 4 255 rfl

theorem rasterScaledImage_no_inverse (P : SwCommon) (s : SwSurface) (image : SwImage)
    (transform : Matrix) (bbox : RenderRegion) (opacity : Nat)
    (hi : P.inverse transform = none) :
    rasterScaledImage P s image transform bbox opacity = some (true, s) := by
  unfold rasterScaledImage
  rw [hi]

theorem rasterScaledRleImage_no_inverse (P : SwCommon) (s : SwSurface) (image : SwImage)
    (transform : Matrix) (bbox : RenderRegion) (opacity : Nat)
    (hi : P.inverse transform = none) :
    rasterScaledRleImage P s image transform bbox opacity
      = if s.channelSize = 1 then some (false, s) else some (true, s) := by
  unfold rasterScaledRleImage
  rw [hi]

/-- C13 as stated fails. The zero matrix has no inverse, and on the 16x16 32-bit surface
`rasterScaledImage` and `rasterScaledRleImage` called with it return true, not false. -/
theorem rasterScaledImage_no_inverse_true :
    scalarCommon.inverse zeroMatrix = none
      ∧ (rasterScaledImage scalarCommon surface16 sourceImage4 zeroMatrix ⟨⟨0, 0⟩, ⟨4, 4⟩⟩
          255).map Prod.fst = some true
      ∧ (rasterScaledRleImage scalarCommon surface16 sourceImage4 zeroMatrix ⟨⟨0, 0⟩, ⟨4, 4⟩⟩
          255).map Prod.fst = some true := by
  refine ⟨inverse_zeroMatrix, ?_, ?_⟩
  · rw [rasterScaledImage_no_inverse _ _ _ _ _ _ inverse_zeroMatrix]
    rfl
  · rw [rasterScaledRleImage_no_inverse _ _ _ _ _ _ inverse_zeroMatrix]
    rfl

/-- C13, amended: called with a transform that has no inverse, `rasterScaledImage` returns
TRUE and leaves the surface as it was; `rasterScaledRleImage` does the same on a surface that
is not 8-bit, and on an 8-bit surface it returns false, the surface unchanged, because the test
of the channel size comes first. -/
theorem rasterScaledImage_not_invertible (P : SwCommon) (s : SwSurface) (image : SwImage)
    (transform : Matrix) (bbox : RenderRegion) (opacity : Nat)
    (hi : P.inverse transform = none) :
    rasterScaledImage P s image transform bbox opacity = some (true, s)
      ∧ (s.channelSize ≠ 1 →
          rasterScaledRleImage P s image transform bbox opacity = some (true, s))
      ∧ (s.channelSize = 1 →
          rasterScaledRleImage P s image transform bbox opacity = some (false, s)) := by
  refine ⟨rasterScaledImage_no_inverse P s image transform bbox opacity hi, ?_, ?_⟩
  · intro h
    rw [rasterScaledRleImage_no_inverse P s image transform bbox opacity hi, if_neg h]
  · intro h
    rw [rasterScaledRleImage_no_inverse P s image transform bbox opacity hi, if_pos h]

/-- The amended C13 at the zero matrix: true on the 16x16 32-bit surface for both functions,
false for `rasterScaledRleImage` on the 8-bit 4x4 surface. -/
theorem rasterScaledImage_not_invertible_witness :
    rasterScaledImage scalarCommon surface16 sourceImage4 zeroMatrix ⟨⟨0, 0⟩, ⟨4, 4⟩⟩ 255
        = some (true, surface16)
      ∧ rasterScaledRleImage scalarCommon surface16 sourceImage4 zeroMatrix ⟨⟨0, 0⟩, ⟨4, 4⟩⟩ 255
        = some (true, surface16)
      ∧ rasterScaledRleImage scalarCommon (maskedSurface4 .Alpha) sourceImage4 zeroMatrix
          ⟨⟨0, 0⟩, ⟨4, 4⟩⟩ 255 = some (false, maskedSurface4 .Alpha) :=
  ⟨(rasterScaledImage_not_invertible scalarCommon surface16 sourceImage4 zeroMatrix
      ⟨⟨0, 0⟩, ⟨4, 4⟩⟩ 255 inverse_zeroMatrix).1,
   (rasterScaledImage_not_invertible scalarCommon surface16 sourceImage4 zeroMatrix
      ⟨⟨0, 0⟩, ⟨4, 4⟩⟩ 255 inverse_zeroMatrix).2.1 (by decide),
   (rasterScaledImage_not_invertible scalarCommon (maskedSurface4 .Alpha) sourceImage4
      zeroMatrix ⟨⟨0, 0⟩, ⟨4, 4⟩⟩ 255 inverse_zeroMatrix).2.2 rfl⟩

/-! ## Dispatch of gradient shapes -/

/-- C28: `rasterGradientShape` returns false, the surface untouched, when the shape has no
fill. When `fillFetchSolid` yields a colour it is `rasterShape` on the colour with alpha
`a = MULTIPLY(color.a, opacity)` if `a > 0`, and returns true without touching the surface if
`a = 0`. For a fill that is not solid it is the rect kernel of the gradient type when the shape
is fastTrack; otherwise the Rle kernel of the gradient type when the Rle is present and valid,
and false, the surface untouched, when the Rle is null or invalid; a type that is neither
linear nor radial gives false. -/
theorem rasterGradientShape_dispatch (P : SwCommon) (G : SwFillOps) (s : SwSurface)
    (shape : SwShape) (bbox : RenderRegion) (fdata : Fill) (opacity : Nat) :
    (shape.fill = none → rasterGradientShape P G s shape bbox fdata opacity = (false, s))
    ∧ (∀ fill color, shape.fill = some fill → G.fillFetchSolid fill fdata = some color →
        (0 < MULTIPLY color.a opacity →
          rasterGradientShape P G s shape bbox fdata opacity
            = (rasterShape P s shape bbox
                ⟨color.r, color.g, color.b, MULTIPLY color.a opacity⟩).1)
        ∧ (MULTIPLY color.a opacity = 0 →
          rasterGradientShape P G s shape bbox fdata opacity = (true, s)))
    ∧ (∀ fill, shape.fill = some fill → G.fillFetchSolid fill fdata = none →
        (shape.fastTrack = true →
          (fdata.type = FillType.LinearGradient →
            rasterGradientShape P G s shape bbox fdata opacity
              = _rasterLinearGradientRect P G.fillLinear s bbox fill)
          ∧ (fdata.type = FillType.RadialGradient →
            rasterGradientShape P G s shape bbox fdata opacity
              = _rasterRadialGradientRect P G.fillRadial s bbox fill))
        ∧ (shape.fastTrack = false → ∀ rle, shape.rle = some rle → rle.invalid = false →
          (fdata.type = FillType.LinearGradient →
            rasterGradientShape P G s shape bbox fdata opacity
              = _rasterLinearGradientRle P G.fillLinear s rle fill)
          ∧ (fdata.type = FillType.RadialGradient →
            rasterGradientShape P G s shape bbox fdata opacity
              = _rasterRadialGradientRle P G.fillRadial s rle fill))
        ∧ (shape.fastTrack = false →
          (shape.rle = none ∨ ∃ rle, shape.rle = some rle ∧ rle.invalid = true) →
          rasterGradientShape P G s shape bbox fdata opacity = (false, s))
        ∧ (fdata.type ≠ FillType.LinearGradient → fdata.type ≠ FillType.RadialGradient →
          rasterGradientShape P G s shape bbox fdata opacity = (false, s))) := by
  refine ⟨fun h => ?_, fun fill color hf hs => ⟨fun ha => ?_, fun ha => ?_⟩,
    fun fill hf hs => ⟨fun hft => ⟨fun hl => ?_, fun hr => ?_⟩,
      fun hft rle hrle hv => ⟨fun hl => ?_, fun hr => ?_⟩, fun hft hrle => ?_,
      fun hl hr => ?_⟩⟩
  · unfold rasterGradientShape
    rw [h]
  · unfold rasterGradientShape
    rw [hf]
    simp only [hs]
    rw [if_pos ha]
  · unfold rasterGradientShape
    rw [hf]
    simp only [hs]
    rw [if_neg (by omega)]
  · unfold rasterGradientShape
    rw [hf]
    simp only [hs, hft, hl, if_true]
  · unfold rasterGradientShape
    rw [hf]
    simp only [hs, hft, hr, if_true]
    simp
  · unfold rasterGradientShape
    rw [hf]
    simp only [hs, hft, hrle, hv, hl]
    simp
  · unfold rasterGradientShape
    rw [hf]
    simp only [hs, hft, hrle, hv, hr]
    simp
  · unfold rasterGradientShape
    rw [hf]
    rcases hrle with h | ⟨rle, h, hi⟩
    · simp only [hs, hft, h]
      simp
    · simp only [hs, hft, h, hi]
      simp
  · unfold rasterGradientShape
    rw [hf]
    simp only [hs, hl, hr, if_false]
    cases shape.fastTrack with
    | true => simp
    | false =>
      cases shape.rle with
      | none => simp
      | some rle => simp

/-- C28 on the 16x16 surface: no fill gives false; a solid fill of alpha 0 gives true and the
surface back; a fastTrack shape with a linear gradient is the linear rect kernel; a shape with
a one-span Rle and a radial gradient is the radial Rle kernel. -/
theorem rasterGradientShape_dispatch_witness :
    rasterGradientShape scalarCommon (flatFillOps 0xff0000ff) surface16
        ⟨none, none, none, true⟩ ⟨⟨0, 0⟩, ⟨4, 4⟩⟩ ⟨FillType.LinearGradient⟩ 255
      = (false, surface16)
    ∧ rasterGradientShape scalarCommon
        ⟨fun _ _ => some ⟨10, 20, 30, 0⟩, flatFill 0, flatFill 0⟩ surface16 rectShape
        ⟨⟨0, 0⟩, ⟨4, 4⟩⟩ ⟨FillType.LinearGradient⟩ 255 = (true, surface16)
    ∧ rasterGradientShape scalarCommon (flatFillOps 0xff0000ff) surface16 rectShape
        ⟨⟨0, 0⟩, ⟨4, 4⟩⟩ ⟨FillType.LinearGradient⟩ 255
      = _rasterLinearGradientRect scalarCommon (flatFill 0xff0000ff) surface16
          ⟨⟨0, 0⟩, ⟨4, 4⟩⟩ ⟨false⟩
    ∧ rasterGradientShape scalarCommon (flatFillOps 0xff0000ff) surface16 spanShape
        ⟨⟨0, 0⟩, ⟨4, 4⟩⟩ ⟨FillType.RadialGradient⟩ 255
      = _rasterRadialGradientRle scalarCommon (flatFill 0xff0000ff) surface16
          ⟨[⟨0, 0, 4, 255⟩]⟩ ⟨false⟩ :=
  ⟨(rasterGradientShape_dispatch scalarCommon (flatFillOps 0xff0000ff) surface16
      ⟨none, none, none, true⟩ ⟨⟨0, 0⟩, ⟨4, 4⟩⟩ ⟨FillType.LinearGradient⟩ 255).1 rfl,
   ((rasterGradientShape_dispatch scalarCommon
      ⟨fun _ _ => some ⟨10, 20, 30, 0⟩, flatFill 0, flatFill 0⟩ surface16 rectShape
      ⟨⟨0, 0⟩, ⟨4, 4⟩⟩ ⟨FillType.LinearGradient⟩ 255).2.1 ⟨false⟩ ⟨10, 20, 30, 0⟩ rfl rfl).2
      (by decide),
   (((rasterGradientShape_dispatch scalarCommon (flatFillOps 0xff0000ff) surface16 rectShape
      ⟨⟨0, 0⟩, ⟨4, 4⟩⟩ ⟨FillType.LinearGradient⟩ 255).2.2 ⟨false⟩ rfl rfl).1 rfl).1 rfl,
   ((((rasterGradientShape_dispatch scalarCommon (flatFillOps 0xff0000ff) surface16 spanShape
      ⟨⟨0, 0⟩, ⟨4, 4⟩⟩ ⟨FillType.RadialGradient⟩ 255).2.2 ⟨false⟩ rfl rfl).2.1 rfl)
      ⟨[⟨0, 0, 4, 255⟩]⟩ rfl rfl).2 rfl⟩

/-! ## The direct masked kernels against the specification -/

/-- The direct operators do not read their third argument and return a byte. -/
theorem direct_op_third (method : MaskMethod) (op : SwMask) (s d x y : Nat) (hs : s ≤ 255)
    (hd : d ≤ 255)
    (hm : method = .Subtract ∨ method = .Intersect ∨ method = .Darken)
    (hop : _getMaskOp method = some op) : op s d x = op s d y ∧ op s d x ≤ 255 := by
  rcases hm with h | h | h <;> subst h <;> simp only [_getMaskOp, Option.some.injEq] at hop <;>
    subst hop
  · refine ⟨rfl, ?_⟩
    unfold _opMaskSubtract MULTIPLY
    omega
  · refine ⟨rfl, ?_⟩
    unfold _opMaskIntersect MULTIPLY
    omega
  · refine ⟨rfl, ?_⟩
    unfold _opMaskDarken
    split <;> omega

/-- C29: for each direct method (Subtract, Intersect, Darken), every alpha `a ≤ 255` and every
mask byte `d ≤ 255`, the value the code computes, `maskOp(a, d, 0)`, is the value the
specification prescribes, `maskOp(a, d, 255 - a)`, and is a byte; and `_rasterDirectMaskedRect`
is the kernel of the specification, which writes `dst = tmp + MULTIPLY(dst, 255 - tmp)` with
`tmp = maskOp(a, mask, 255 - a)`. -/
theorem rasterDirectMaskedRect_spec (s : SwSurface) (bbox : RenderRegion) (method : MaskMethod)
    (op : SwMask) (a : Nat)
    (hm : method = .Subtract ∨ method = .Intersect ∨ method = .Darken)
    (hop : _getMaskOp method = some op) (ha : a ≤ 255) :
    (∀ d, d ≤ 255 → op a d 0 = op a d (255 - a) ∧ op a d 0 ≤ 255)
    ∧ _rasterDirectMaskedRect s bbox op a = specDirectMaskedRect s bbox op a := by
  refine ⟨fun d hd => direct_op_third method op a d 0 (255 - a) ha hd hm hop, ?_⟩
  unfold _rasterDirectMaskedRect specDirectMaskedRect
  cases s.compositor with
  | none => rfl
  | some cmp =>
    simp only
    congr 2
    apply forLoop_congr
    intro y _ m
    apply forLoop_congr
    intro x _ m
    obtain ⟨e, hle⟩ := direct_op_third method op a
      (cmp.image.buf.read8 (u32 (bbox.min.y * cmp.image.stride + bbox.min.x)
        + y * cmp.image.stride + x)) 0 (255 - a) ha (read8_le _ _) hm hop
    rw [← e, not8_eq _ hle]

/-- C29 on the 8-bit 4x4 surface under the Subtract compositor, alpha 200 and the region
(0,0)-(2,2). -/
theorem rasterDirectMaskedRect_spec_witness :
    (∀ d, d ≤ 255 →
      _opMaskSubtract 200 d 0 = _opMaskSubtract 200 d (255 - 200) ∧ _opMaskSubtract 200 d 0 ≤ 255)
    ∧ _rasterDirectMaskedRect (maskedSurface4 .Subtract) ⟨⟨0, 0⟩, ⟨2, 2⟩⟩ _opMaskSubtract 200
      = specDirectMaskedRect (maskedSurface4 .Subtract) ⟨⟨0, 0⟩, ⟨2, 2⟩⟩ _opMaskSubtract 200 :=
  rasterDirectMaskedRect_spec (maskedSurface4 .Subtract) ⟨⟨0, 0⟩, ⟨2, 2⟩⟩ .Subtract
    _opMaskSubtract 200 (Or.inl rfl) rfl (by decide)

/-! ## The fast path of full coverage -/

theorem and_ff00ff00 (c : Nat) :
    c &&& 0xff00ff00 = (c / 16777216 % 256) * 16777216 + (c / 256 % 256) * 256 := by
  have m : (0xff00ff00 : Nat) = 0xff000000 ||| 0xff00 := by decide
  rw [m, Nat.and_or_distrib_left, and_ff000000, and_ff00]
  have h := @Nat.mul_add_lt_is_or 24 (c / 256 % 256 * 256) (by omega) (c / 16777216 % 256)
  have e : c / 16777216 % 256 * 16777216 = 2 ^ 24 * (c / 16777216 % 256) := by omega
  rw [e, ← h]

/-- A 32-bit word is the base-256 number of its four bytes. -/
theorem word_eq_bytes (c : Nat) (hc : c < 4294967296) :
    c = A c * 16777216 + C1 c * 65536 + C2 c * 256 + C3 c := by
  rw [A_eq, C1_eq, C2_eq, C3]
  omega

/-- The channels of `ALPHA_BLEND(c, a)`: each byte `v` of `c` becomes `v * (a + 1) / 256`. -/
theorem ALPHA_BLEND_eq (c a : Nat) (ha : a ≤ 255) :
    ALPHA_BLEND c a
      = (A c * (a + 1) / 256) * 16777216 + (C1 c * (a + 1) / 256) * 65536
        + (C2 c * (a + 1) / 256) * 256 + C3 c * (a + 1) / 256 := by
  have bA : A c * (a + 1) ≤ 255 * 256 := Nat.mul_le_mul (A_le c) (by omega)
  have b1 : C1 c * (a + 1) ≤ 255 * 256 := Nat.mul_le_mul (by rw [C1_eq]; omega) (by omega)
  have b2 : C2 c * (a + 1) ≤ 255 * 256 := Nat.mul_le_mul (by rw [C2_eq]; omega) (by omega)
  have b3 : C3 c * (a + 1) ≤ 255 * 256 := Nat.mul_le_mul (by unfold C3; omega) (by omega)
  have ea : (a + 1) % 4294967296 = a + 1 := by omega
  have eh : ((c >>> 8) &&& 0x00ff00ff) * (a + 1) = A c * (a + 1) * 65536 + C2 c * (a + 1) := by
    rw [and_00ff00ff, shr8, A_eq, C2_eq]
    have e1 : c / 256 / 65536 = c / 16777216 := by omega
    rw [e1]; ring
  have el : (c &&& 0x00ff00ff) * (a + 1) = C1 c * (a + 1) * 65536 + C3 c * (a + 1) := by
    rw [and_00ff00ff, C1_eq, C3]; ring
  unfold ALPHA_BLEND
  simp only [ea]
  rw [eh, el, and_ff00ff00, shr8, and_00ff00ff]
  generalize A c * (a + 1) = pA at *
  generalize C1 c * (a + 1) = p1 at *
  generalize C2 c * (a + 1) = p2 at *
  generalize C3 c * (a + 1) = p3 at *
  have m1 : (pA * 65536 + p2) % 4294967296 = pA * 65536 + p2 := by omega
  have m2 : (p1 * 65536 + p3) % 4294967296 = p1 * 65536 + p3 := by omega
  rw [m1, m2]
  have d1 : (pA * 65536 + p2) / 16777216 = pA / 256 := by omega
  have d2 : (pA * 65536 + p2) / 256 = pA * 256 + p2 / 256 := by omega
  have d3 : (p1 * 65536 + p3) / 256 = p1 * 256 + p3 / 256 := by omega
  rw [d1, d2, d3]
  have d4 : (p1 * 256 + p3 / 256) / 65536 = p1 / 256 := by omega
  rw [d4]
  omega

theorem ALPHA_BLEND_255 (c : Nat) (hc : c < 4294967296) : ALPHA_BLEND c 255 = c := by
  rw [ALPHA_BLEND_eq c 255 (by omega)]
  have h := word_eq_bytes c hc
  have eA : A c * (255 + 1) / 256 = A c := by omega
  have e1 : C1 c * (255 + 1) / 256 = C1 c := by omega
  have e2 : C2 c * (255 + 1) / 256 = C2 c := by omega
  have e3 : C3 c * (255 + 1) / 256 = C3 c := by omega
  rw [eA, e1, e2, e3]
  exact h.symm

theorem coverage_src (base coverage : Nat) (hb : base ≤ 255) :
    (if coverage = 255 then base else MULTIPLY base coverage) = MULTIPLY base coverage := by
  by_cases h : coverage = 255
  · rw [if_pos h, h, MULTIPLY_255_right base hb]
  · rw [if_neg h]

theorem coverage_src32 (color coverage : Nat) (hc : color < 4294967296) :
    (if coverage = 255 then color else ALPHA_BLEND color coverage)
      = ALPHA_BLEND color coverage := by
  by_cases h : coverage = 255
  · rw [if_pos h, h, ALPHA_BLEND_255 color hc]
  · rw [if_neg h]

/-- C30: the fast path of full coverage is a pure optimisation. For every byte `x`,
`MULTIPLY(x, 255) = x`; for every 32-bit colour `w`, `ALPHA_BLEND(w, 255) = w`; so the span
source `(coverage == 255) ? base : MULTIPLY(base, coverage)` is `MULTIPLY(base, coverage)` for
every coverage. The masked Rle kernels are the kernels without the fast path, and so is the
matted Rle kernel under the modelled `ALPHA_BLEND`, for a 32-bit joined colour. -/
theorem coverage_fast_path (P : SwCommon) (s : SwSurface) (rle : SwRle) (bbox : RenderRegion)
    (op : SwMask) (c : RenderColor) (ha : c.a ≤ 255) :
    (∀ x, x ≤ 255 → MULTIPLY x 255 = x)
    ∧ (∀ w, w < 4294967296 → ALPHA_BLEND w 255 = w)
    ∧ (∀ base coverage, base ≤ 255 →
        (if coverage = 255 then base else MULTIPLY base coverage) = MULTIPLY base coverage)
    ∧ _rasterCompositeMaskedRle s rle bbox op c.a = plainCompositeMaskedRle s rle bbox op c.a
    ∧ _rasterDirectMaskedRle s rle bbox op c.a = plainDirectMaskedRle s rle bbox op c.a
    ∧ (P.ALPHA_BLEND = ALPHA_BLEND → s.join c.r c.g c.b c.a < 4294967296 →
        _rasterMattedRle P s rle bbox c = plainMattedRle P s rle bbox c) := by
  have key : ∀ cov, (if cov = 255 then c.a else MULTIPLY c.a cov) = MULTIPLY c.a cov :=
    fun cov => coverage_src c.a cov ha
  refine ⟨MULTIPLY_255_right, ALPHA_BLEND_255, fun b cov hb => coverage_src b cov hb, ?_, ?_, ?_⟩
  · unfold _rasterCompositeMaskedRle plainCompositeMaskedRle
    simp only [key]
  · unfold _rasterDirectMaskedRle plainDirectMaskedRle
    simp only [key]
  · intro hP hj
    have key32 : ∀ cov, (if cov = 255 then s.join c.r c.g c.b c.a
        else P.ALPHA_BLEND (s.join c.r c.g c.b c.a) cov)
        = P.ALPHA_BLEND (s.join c.r c.g c.b c.a) cov := by
      intro cov
      rw [hP]
      exact coverage_src32 _ cov hj
    unfold _rasterMattedRle plainMattedRle
    simp only [key, key32]

/-- C30 at concrete values, and on the 8-bit 4x4 surface under the Add compositor with a span
of full coverage and one of coverage 128. -/
theorem coverage_fast_path_witness :
    MULTIPLY 200 255 = 200
    ∧ ALPHA_BLEND 0x80402010 255 = 0x80402010
    ∧ (if (255 : Nat) = 255 then 200 else MULTIPLY 200 255) = MULTIPLY 200 255
    ∧ _rasterCompositeMaskedRle (maskedSurface4 .Add) ⟨[⟨0, 0, 2, 255⟩, ⟨0, 1, 2, 128⟩]⟩
        ⟨⟨0, 0⟩, ⟨4, 4⟩⟩ _opMaskAdd 200
      = plainCompositeMaskedRle (maskedSurface4 .Add) ⟨[⟨0, 0, 2, 255⟩, ⟨0, 1, 2, 128⟩]⟩
        ⟨⟨0, 0⟩, ⟨4, 4⟩⟩ _opMaskAdd 200
    ∧ _rasterDirectMaskedRle (maskedSurface4 .Subtract) ⟨[⟨0, 0, 2, 255⟩, ⟨0, 1, 2, 128⟩]⟩
        ⟨⟨0, 0⟩, ⟨4, 4⟩⟩ _opMaskSubtract 200
      = plainDirectMaskedRle (maskedSurface4 .Subtract) ⟨[⟨0, 0, 2, 255⟩, ⟨0, 1, 2, 128⟩]⟩
        ⟨⟨0, 0⟩, ⟨4, 4⟩⟩ _opMaskSubtract 200 :=
  have h1 := coverage_fast_path scalarCommon (maskedSurface4 .Add)
    ⟨[⟨0, 0, 2, 255⟩, ⟨0, 1, 2, 128⟩]⟩ ⟨⟨0, 0⟩, ⟨4, 4⟩⟩ _opMaskAdd ⟨0, 0, 0, 200⟩ (by decide)
  have h2 := coverage_fast_path scalarCommon (maskedSurface4 .Subtract)
    ⟨[⟨0, 0, 2, 255⟩, ⟨0, 1, 2, 128⟩]⟩ ⟨⟨0, 0⟩, ⟨4, 4⟩⟩ _opMaskSubtract ⟨0, 0, 0, 200⟩
    (by decide)
  ⟨h1.1 200 (by decide), h1.2.1 0x80402010 (by decide), h1.2.2.1 200 255 (by decide),
    h1.2.2.2.1, h2.2.2.2.2.1⟩

/-! ## The samplers -/

theorem rat_floor_eq (q : Rat) (z : Int) (h1 : (z : Rat) ≤ q) (h2 : q < z + 1) :
    Rat.floor q = z := by
  show ⌊q⌋ = z
  rw [Int.floor_eq_iff]
  exact ⟨h1, h2⟩

theorem truncI_of_nonneg (q : Rat) (z : Int) (h0 : 0 ≤ q) (h1 : (z : Rat) ≤ q)
    (h2 : q < z + 1) : truncI q = z := by
  unfold truncI
  rw [if_pos h0]
  exact rat_floor_eq q z h1 h2

theorem interpUpScaler_quad :
    _interpUpScaler scalarCommon quadImage 2 2 2 (1 / 2) (1 / 2) 0 0 0 = 0xFF3F3F3E := by
  have t0 : truncI (1 / 2) = 0 := truncI_of_nonneg _ 0 (by norm_num) (by norm_num) (by norm_num)
  have t1 : truncI (((1 : Rat) / 2 - ((0 : Nat) : Rat)) * 255) = 127 :=
    truncI_of_nonneg _ 127 (by norm_num) (by norm_num) (by norm_num)
  have hp : (1 : Rat) / 2 > 0 := by norm_num
  unfold _interpUpScaler
  simp only [t0, Int.toNat_zero, t1, if_pos hp]
  decide

/-- C26 as stated fails: the blue bytes of the four source pixels sum to 255, mean 63.75, and
the sampled pixel has the blue byte 62, which is neither 63 nor 64; its red and green bytes
are 63. -/
theorem interpUpScaler_midpoint_not_mean :
    C3 (quadImage.read32 0) + C3 (quadImage.read32 1) + C3 (quadImage.read32 2)
        + C3 (quadImage.read32 3) = 255
    ∧ C3 (_interpUpScaler scalarCommon quadImage 2 2 2 (1 / 2) (1 / 2) 0 0 0) = 62
    ∧ C1 (_interpUpScaler scalarCommon quadImage 2 2 2 (1 / 2) (1 / 2) 0 0 0) = 63
    ∧ (62 : Nat) ≠ 255 / 4 ∧ (62 : Nat) ≠ (255 + 2) / 4 := by
  rw [interpUpScaler_quad]
  decide

/-- C26 (amended): `_interpUpScaler` on the 2x2 source `{0xFF000000, 0xFFFF0000, 0xFF00FF00,
0xFF0000FF}` sampled at `sx = sy = 1/2` returns `0xFF3F3F3E`. Its alpha byte 255 is the mean of
the four alpha bytes; its colour bytes 63, 63 and 62 lie at most 2 below the mean 255/4 of the
four source bytes of the channel and are not all equal. -/
theorem interpUpScaler_midpoint :
    _interpUpScaler scalarCommon quadImage 2 2 2 (1 / 2) (1 / 2) 0 0 0 = 0xFF3F3F3E
    ∧ (A (quadImage.read32 0) + A (quadImage.read32 1) + A (quadImage.read32 2)
          + A (quadImage.read32 3)
        = 4 * A (_interpUpScaler scalarCommon quadImage 2 2 2 (1 / 2) (1 / 2) 0 0 0))
    ∧ (C1 (quadImage.read32 0) + C1 (quadImage.read32 1) + C1 (quadImage.read32 2)
          + C1 (quadImage.read32 3) = 255
        ∧ C1 (_interpUpScaler scalarCommon quadImage 2 2 2 (1 / 2) (1 / 2) 0 0 0) = 63)
    ∧ (C2 (quadImage.read32 0) + C2 (quadImage.read32 1) + C2 (quadImage.read32 2)
          + C2 (quadImage.read32 3) = 255
        ∧ C2 (_interpUpScaler scalarCommon quadImage 2 2 2 (1 / 2) (1 / 2) 0 0 0) = 63)
    ∧ (C3 (quadImage.read32 0) + C3 (quadImage.read32 1) + C3 (quadImage.read32 2)
          + C3 (quadImage.read32 3) = 255
        ∧ C3 (_interpUpScaler scalarCommon quadImage 2 2 2 (1 / 2) (1 / 2) 0 0 0) = 62)
    ∧ (255 - 8 ≤ 4 * 62 ∧ 4 * 63 ≤ 255) := by
  rw [interpUpScaler_quad]
  decide

/-- The accumulation of four sums over a counted loop. -/
theorem forLoop_sums (n : Nat) (f0 f1 f2 f3 : Nat → Nat) (c : Nat × Nat × Nat × Nat) :
    forLoop n (fun i (c : Nat × Nat × Nat × Nat) =>
        (c.1 + f0 i, c.2.1 + f1 i, c.2.2.1 + f2 i, c.2.2.2 + f3 i)) c
      = (c.1 + ∑ i in Finset.range n, f0 i, c.2.1 + ∑ i in Finset.range n, f1 i,
          c.2.2.1 + ∑ i in Finset.range n, f2 i, c.2.2.2 + ∑ i in Finset.range n, f3 i) := by
  induction n with
  | zero => simp [forLoop]
  | succ k ih =>
    simp only [forLoop, ih, Finset.sum_range_succ]
    simp only [Nat.add_assoc]

theorem interpDownScaler_eq (img : Mem) (stride w h : Nat) (sx sy : Rat) (miny maxy n : Int)
    (hinc : 0 < downInc n) (hn : downRows miny maxy n * downCols w sx n ≠ 0) :
    _interpDownScaler img stride w h sx sy miny maxy n
      = some (JOIN
          ((∑ j in Finset.range (downRows miny maxy n), ∑ i in Finset.range (downCols w sx n),
              A (img.read32 (downSample stride sx miny n j i)))
            / (downRows miny maxy n * downCols w sx n))
          ((∑ j in Finset.range (downRows miny maxy n), ∑ i in Finset.range (downCols w sx n),
              C1 (img.read32 (downSample stride sx miny n j i)))
            / (downRows miny maxy n * downCols w sx n))
          ((∑ j in Finset.range (downRows miny maxy n), ∑ i in Finset.range (downCols w sx n),
              C2 (img.read32 (downSample stride sx miny n j i)))
            / (downRows miny maxy n * downCols w sx n))
          ((∑ j in Finset.range (downRows miny maxy n), ∑ i in Finset.range (downCols w sx n),
              C3 (img.read32 (downSample stride sx miny n j i)))
            / (downRows miny maxy n * downCols w sx n))) := by
  have hinc2 : ¬ (i32 (Int.tdiv n 2 + 1) ≤ 0) := by
    unfold downInc at hinc; omega
  unfold _interpDownScaler
  simp only [if_neg hinc2]
  have inner : ∀ (j : Nat) (c : Nat × Nat × Nat × Nat),
      forLoop (downCols w sx n) (fun i (c : Nat × Nat × Nat × Nat) =>
          (c.1 + A (img.read32 (downSample stride sx miny n j i)),
            c.2.1 + C1 (img.read32 (downSample stride sx miny n j i)),
            c.2.2.1 + C2 (img.read32 (downSample stride sx miny n j i)),
            c.2.2.2 + C3 (img.read32 (downSample stride sx miny n j i)))) c
        = (c.1 + ∑ i in Finset.range (downCols w sx n),
              A (img.read32 (downSample stride sx miny n j i)),
            c.2.1 + ∑ i in Finset.range (downCols w sx n),
              C1 (img.read32 (downSample stride sx miny n j i)),
            c.2.2.1 + ∑ i in Finset.range (downCols w sx n),
              C2 (img.read32 (downSample stride sx miny n j i)),
            c.2.2.2 + ∑ i in Finset.range (downCols w sx n),
              C3 (img.read32 (downSample stride sx miny n j i))) :=
    fun j c => forLoop_sums _ _ _ _ _ c
  have outer := forLoop_sums (downRows miny maxy n)
    (fun j => ∑ i in Finset.range (downCols w sx n),
      A (img.read32 (downSample stride sx miny n j i)))
    (fun j => ∑ i in Finset.range (downCols w sx n),
      C1 (img.read32 (downSample stride sx miny n j i)))
    (fun j => ∑ i in Finset.range (downCols w sx n),
      C2 (img.read32 (downSample stride sx miny n j i)))
    (fun j => ∑ i in Finset.range (downCols w sx n),
      C3 (img.read32 (downSample stride sx miny n j i))) (0, 0, 0, 0)
  simp only [← inner] at outer
  simp only [Nat.zero_add] at outer
  change (if downRows miny maxy n * downCols w sx n = 0 then none else some (JOIN _ _ _ _)) = _
  rw [if_neg hn]
  unfold downSample downMinx downInc at outer
  unfold downRows downCols downMinx downMaxx downInc at outer
  rw [outer]
  rfl

theorem sum2_bounds (ny nx : Nat) (f : Nat → Nat → Nat) (lo hi : Nat)
    (h : ∀ j i, j < ny → i < nx → lo ≤ f j i ∧ f j i ≤ hi) :
    ny * nx * lo ≤ ∑ j in Finset.range ny, ∑ i in Finset.range nx, f j i
    ∧ ∑ j in Finset.range ny, ∑ i in Finset.range nx, f j i ≤ ny * nx * hi := by
  constructor
  · calc ny * nx * lo = ∑ _j in Finset.range ny, ∑ _i in Finset.range nx, lo := by
          simp [Finset.sum_const, Nat.mul_assoc]
      _ ≤ _ := Finset.sum_le_sum fun j hj => Finset.sum_le_sum fun i hi =>
          (h j i (Finset.mem_range.mp hj) (Finset.mem_range.mp hi)).1
  · calc ∑ j in Finset.range ny, ∑ i in Finset.range nx, f j i
        ≤ ∑ _j in Finset.range ny, ∑ _i in Finset.range nx, hi :=
          Finset.sum_le_sum fun j hj => Finset.sum_le_sum fun i hi =>
            (h j i (Finset.mem_range.mp hj) (Finset.mem_range.mp hi)).2
      _ = ny * nx * hi := by simp [Finset.sum_const, Nat.mul_assoc]

/-- The mean of values between `lo` and `hi`, rounded down, lies between `lo` and `hi`. -/
theorem mean_bounds (ny nx : Nat) (f : Nat → Nat → Nat) (lo hi : Nat) (hn : 0 < ny * nx)
    (h : ∀ j i, j < ny → i < nx → lo ≤ f j i ∧ f j i ≤ hi) :
    lo ≤ (∑ j in Finset.range ny, ∑ i in Finset.range nx, f j i) / (ny * nx)
    ∧ (∑ j in Finset.range ny, ∑ i in Finset.range nx, f j i) / (ny * nx) ≤ hi := by
  obtain ⟨h1, h2⟩ := sum2_bounds ny nx f lo hi h
  constructor
  · rw [Nat.le_div_iff_mul_le hn, Nat.mul_comm]
    exact h1
  · exact Nat.div_le_of_le_mul h2

theorem C1_le (c : Nat) : C1 c ≤ 255 := by
  rw [C1_eq]; omega

theorem C2_le (c : Nat) : C2 c ≤ 255 := by
  rw [C2_eq]; omega

theorem C3_le (c : Nat) : C3 c ≤ 255 := by
  unfold C3; omega

theorem read32_lt (m : Mem) (i : Nat) : m.read32 i < 4294967296 := by
  unfold Mem.read32
  exact deref32_lt _

/-- C25: when the step of `_interpDownScaler` is positive and its window holds at least one
sample, the function returns a 32-bit pixel. If every sampled pixel is the pixel `c`, the
result is `c`. Each byte of the result lies between every lower bound and every upper bound of
that byte over the sampled pixels, so it is the rounded-down mean of that byte and the packed
bytes do not carry into each other. -/
theorem interpDownScaler_mean (img : Mem) (stride w h : Nat) (sx sy : Rat) (miny maxy n : Int)
    (hinc : 0 < downInc n) (hn : 0 < downRows miny maxy n * downCols w sx n) :
    ∃ r, _interpDownScaler img stride w h sx sy miny maxy n = some r
      ∧ r < 4294967296
      ∧ (∀ c, (∀ j i, j < downRows miny maxy n → i < downCols w sx n →
            img.read32 (downSample stride sx miny n j i) = c) → r = c)
      ∧ (∀ lo hi, (∀ j i, j < downRows miny maxy n → i < downCols w sx n →
            lo ≤ A (img.read32 (downSample stride sx miny n j i))
            ∧ A (img.read32 (downSample stride sx miny n j i)) ≤ hi) → lo ≤ A r ∧ A r ≤ hi)
      ∧ (∀ lo hi, (∀ j i, j < downRows miny maxy n → i < downCols w sx n →
            lo ≤ C1 (img.read32 (downSample stride sx miny n j i))
            ∧ C1 (img.read32 (downSample stride sx miny n j i)) ≤ hi) → lo ≤ C1 r ∧ C1 r ≤ hi)
      ∧ (∀ lo hi, (∀ j i, j < downRows miny maxy n → i < downCols w sx n →
            lo ≤ C2 (img.read32 (downSample stride sx miny n j i))
            ∧ C2 (img.read32 (downSample stride sx miny n j i)) ≤ hi) → lo ≤ C2 r ∧ C2 r ≤ hi)
      ∧ (∀ lo hi, (∀ j i, j < downRows miny maxy n → i < downCols w sx n →
            lo ≤ C3 (img.read32 (downSample stride sx miny n j i))
            ∧ C3 (img.read32 (downSample stride sx miny n j i)) ≤ hi) →
          lo ≤ C3 r ∧ C3 r ≤ hi) := by
  have hA := mean_bounds (downRows miny maxy n) (downCols w sx n)
    (fun j i => A (img.read32 (downSample stride sx miny n j i)))
  have h1 := mean_bounds (downRows miny maxy n) (downCols w sx n)
    (fun j i => C1 (img.read32 (downSample stride sx miny n j i)))
  have h2 := mean_bounds (downRows miny maxy n) (downCols w sx n)
    (fun j i => C2 (img.read32 (downSample stride sx miny n j i)))
  have h3 := mean_bounds (downRows miny maxy n) (downCols w sx n)
    (fun j i => C3 (img.read32 (downSample stride sx miny n j i)))
  have bA := (hA 0 255 hn (fun j i _ _ => ⟨Nat.zero_le _, A_le _⟩)).2
  have b1 := (h1 0 255 hn (fun j i _ _ => ⟨Nat.zero_le _, C1_le _⟩)).2
  have b2 := (h2 0 255 hn (fun j i _ _ => ⟨Nat.zero_le _, C2_le _⟩)).2
  have b3 := (h3 0 255 hn (fun j i _ _ => ⟨Nat.zero_le _, C3_le _⟩)).2
  have hb := JOIN_bytes _ _ _ _ bA b1 b2 b3
  have hlt : ∀ a b c d, JOIN a b c d < 4294967296 := by
    intro a b c d
    unfold JOIN
    omega
  refine ⟨_, interpDownScaler_eq img stride w h sx sy miny maxy n hinc (by omega), hlt _ _ _ _,
    ?_, ?_, ?_, ?_, ?_⟩
  · intro c hc
    have hc0 : c < 4294967296 := by
      have hr : 0 < downRows miny maxy n := Nat.pos_of_mul_pos_right hn
      have hcl : 0 < downCols w sx n := Nat.pos_of_mul_pos_left hn
      rw [← hc 0 0 hr hcl]
      exact read32_lt _ _
    have eA := hA (A c) (A c) hn (fun j i hj hi => by simp only [hc j i hj hi]; exact ⟨le_rfl, le_rfl⟩)
    have e1 := h1 (C1 c) (C1 c) hn (fun j i hj hi => by simp only [hc j i hj hi]; exact ⟨le_rfl, le_rfl⟩)
    have e2 := h2 (C2 c) (C2 c) hn (fun j i hj hi => by simp only [hc j i hj hi]; exact ⟨le_rfl, le_rfl⟩)
    have e3 := h3 (C3 c) (C3 c) hn (fun j i hj hi => by simp only [hc j i hj hi]; exact ⟨le_rfl, le_rfl⟩)
    rw [word_eq_bytes _ (hlt _ _ _ _), word_eq_bytes c hc0, hb.1, hb.2.1, hb.2.2.1, hb.2.2.2]
    have fA := Nat.le_antisymm eA.2 eA.1
    have f1 := Nat.le_antisymm e1.2 e1.1
    have f2 := Nat.le_antisymm e2.2 e2.1
    have f3 := Nat.le_antisymm e3.2 e3.1
    simp only at fA f1 f2 f3
    rw [fA, f1, f2, f3]
  · intro lo hi hl
    rw [hb.1]
    exact hA lo hi hn hl
  · intro lo hi hl
    rw [hb.2.1]
    exact h1 lo hi hn hl
  · intro lo hi hl
    rw [hb.2.2.1]
    exact h2 lo hi hn hl
  · intro lo hi hl
    rw [hb.2.2.2]
    exact h3 lo hi hn hl

theorem grayImage_read32 (k : Nat) (hk : k < 16) : grayImage.read32 k = 0xFF808080 := by
  have h := read32_fill (fun _ => 0) 0 0xFF808080 16 k
  simp only [Nat.zero_add] at h
  unfold grayImage
  rw [h, if_pos ⟨Nat.zero_le _, hk⟩]

/-- C25 on the 4x4 image of `0xFF808080` with `n = 2`, sampled at (3/2, 3/2) over the rows
0..3: the window holds four samples and the result is `0xFF808080`. -/
theorem interpDownScaler_mean_witness :
    _interpDownScaler grayImage 4 4 4 (3 / 2) (3 / 2) 0 4 2 = some 0xFF808080 := by
  have t : truncI (3 / 2) = 1 := truncI_of_nonneg _ 1 (by norm_num) (by norm_num) (by norm_num)
  have hinc : downInc 2 = 2 := by decide
  have hminx : downMinx (3 / 2) 2 = 0 := by
    unfold downMinx
    rw [t]
    decide
  have hmaxx : downMaxx 4 (3 / 2) 2 = 3 := by
    unfold downMaxx
    rw [t]
    decide
  have hrows : downRows 0 4 2 = 2 := by
    unfold downRows
    rw [hinc]
    decide
  have hcols : downCols 4 (3 / 2) 2 = 2 := by
    unfold downCols
    rw [hinc, hminx, hmaxx]
    decide
  have hs : ∀ j i, downSample 4 (3 / 2) 0 2 j i = 8 * j + 2 * i := by
    intro j i
    unfold downSample
    rw [hinc, hminx]
    have e : u32 ((4 : Nat) * (2 : Int)) = 8 := by decide
    have e0 : u32 ((0 : Int) * (4 : Nat)) = 0 := by decide
    rw [e, e0]
    omega
  obtain ⟨r, hr, _, hc, _⟩ := interpDownScaler_mean grayImage 4 4 4 (3 / 2) (3 / 2) 0 4 2
    (by rw [hinc]; decide) (by rw [hrows, hcols]; decide)
  rw [hr, hc 0xFF808080]
  intro j i hj hi
  rw [hrows] at hj
  rw [hcols] at hi
  rw [hs]
  exact grayImage_read32 _ (by omega)

/-! ## Clearing a region -/

theorem clears_write32 (i : Nat) : Clears (fun k => k / 4 = i) (fun m => m.write32 i 0) := by
  intro m k
  constructor
  · intro h
    simp only [Mem.write32, if_pos h, Nat.zero_shiftRight, Nat.zero_mod]
  · intro h
    simp only [Mem.write32, if_neg h]

theorem clears_write8 (i : Nat) : Clears (fun k => k = i) (fun m => m.write8 i 0) := by
  intro m k
  constructor
  · intro h
    simp only [Mem.write8, if_pos h, Nat.zero_mod]
  · intro h
    simp only [Mem.write8, if_neg h]

theorem clears_congr (S T : Nat → Prop) (f : Mem → Mem) (h : ∀ k, S k ↔ T k)
    (hf : Clears S f) : Clears T f := by
  intro m k
  exact ⟨fun hk => (hf m k).1 ((h k).mpr hk), fun hk => (hf m k).2 (fun hs => hk ((h k).mp hs))⟩

/-- A loop of functions that clear clears the union of what they clear. -/
theorem clears_forLoop (n : Nat) (S : Nat → Nat → Prop) (body : Nat → Mem → Mem)
    (h : ∀ i, i < n → Clears (S i) (body i)) :
    Clears (fun k => ∃ i, i < n ∧ S i k) (fun m => forLoop n body m) := by
  induction n with
  | zero =>
    intro m k
    constructor
    · rintro ⟨i, hi, _⟩
      omega
    · intro _
      rfl
  | succ n ih =>
    have ih2 := ih (fun i hi => h i (Nat.lt_succ_of_lt hi))
    intro m k
    simp only [forLoop]
    by_cases hk : S n k
    · constructor
      · intro _
        exact (h n (Nat.lt_succ_self n) _ k).1 hk
      · intro hn
        exact absurd ⟨n, Nat.lt_succ_self n, hk⟩ hn
    · rw [(h n (Nat.lt_succ_self n) _ k).2 hk]
      constructor
      · rintro ⟨i, hi, hs⟩
        have hi2 : i < n := by
          rcases Nat.lt_succ_iff_lt_or_eq.mp hi with h1 | h1
          · exact h1
          · subst h1
            exact absurd hs hk
        exact (ih2 m k).1 ⟨i, hi2, hs⟩
      · intro hn
        exact (ih2 m k).2 (fun ⟨i, hi, hs⟩ => hn ⟨i, Nat.lt_succ_of_lt hi, hs⟩)

/-- Clearing twice is clearing once. -/
theorem clears_idem (S : Nat → Prop) (f : Mem → Mem) (hf : Clears S f) (m : Mem) :
    f (f m) = f m := by
  funext k
  by_cases hk : S k
  · rw [(hf (f m) k).1 hk, (hf m k).1 hk]
  · rw [(hf (f m) k).2 hk]

theorem read32_congr (m1 m2 : Mem) (c : Nat) (h : ∀ t, t < 4 → m1 (4 * c + t) = m2 (4 * c + t)) :
    m1.read32 c = m2.read32 c := by
  simp only [Mem.read32, Mem.ptr, deref32, h 0 (by omega), h 1 (by omega), h 2 (by omega),
    h 3 (by omega)]

theorem read8_congr (m1 m2 : Mem) (c : Nat) (h : m1 c = m2 c) : m1.read8 c = m2.read8 c := by
  simp only [Mem.read8, Mem.ptr, deref8, Nat.add_zero, h]

/-- Reading a 32-bit cell after clearing the cells of `P`. -/
theorem clears_read32 (P : Nat → Prop) (f : Mem → Mem) (hf : Clears (fun k => P (k / 4)) f)
    (m : Mem) (c : Nat) :
    (P c → (f m).read32 c = 0) ∧ (¬ P c → (f m).read32 c = m.read32 c) := by
  have e : ∀ t, t < 4 → (4 * c + t) / 4 = c := fun t ht => by omega
  constructor
  · intro hc
    have : (f m).read32 c = Mem.read32 (fun _ => 0) c :=
      read32_congr _ _ c (fun t ht => (hf m (4 * c + t)).1 (by simp only [e t ht]; exact hc))
    rw [this]
    simp [Mem.read32, Mem.ptr, deref32]
  · intro hc
    exact read32_congr _ _ c (fun t ht => (hf m (4 * c + t)).2 (by simp only [e t ht]; exact hc))

/-- Reading an 8-bit cell after clearing the cells of `P`. -/
theorem clears_read8 (P : Nat → Prop) (f : Mem → Mem) (hf : Clears P f) (m : Mem) (c : Nat) :
    (P c → (f m).read8 c = 0) ∧ (¬ P c → (f m).read8 c = m.read8 c) := by
  constructor
  · intro hc
    have : (f m).read8 c = Mem.read8 (fun _ => 0) c := read8_congr _ _ c ((hf m c).1 hc)
    rw [this]
    simp [Mem.read8, Mem.ptr, deref8]
  · intro hc
    exact read8_congr _ _ c ((hf m c).2 hc)

theorem clears_pixel32 (off : Nat) (len : Int) :
    Clears (fun k => ∃ i, i < len.toNat ∧ k / 4 = off + i)
      (fun m => rasterPixel32 m 0 0 off len) := by
  have h := clears_forLoop len.toNat (fun i k => k / 4 = 0 + off + i)
    (fun i m => m.write32 (0 + off + i) 0) (fun i _ => clears_write32 (0 + off + i))
  exact clears_congr _ _ _ (fun k => by simp only [Nat.zero_add]) h

theorem clears_grayscale8 (off : Nat) (len : Int) :
    Clears (fun k => ∃ i, i < len.toNat ∧ k = off + i)
      (fun m => rasterGrayscale8 m 0 0 off len) := by
  have h := clears_forLoop len.toNat (fun i k => k = 0 + off + i)
    (fun i m => m.write8 (0 + off + i) 0) (fun i _ => clears_write8 (0 + off + i))
  exact clears_congr _ _ _ (fun k => by simp only [Nat.zero_add]) h

theorem row_offset (stride x y h j : Nat) (hj : j < h)
    (hfit : stride * (y + h) + x < 4294967296) :
    u32 ((stride : Int) * y + x + stride * j) = stride * (y + j) + x := by
  have h1 : stride * (y + j) ≤ stride * (y + h) := Nat.mul_le_mul_left _ (by omega)
  have e : ((stride : Int) * y + x + stride * j) = ((stride * (y + j) + x : Nat) : Int) := by
    push_cast
    ring
  rw [e, u32_natCast _ (by omega)]

theorem clears_rows32 (stride x y w h : Nat) (hw : w < 2147483648)
    (hfit : stride * (y + h) + x < 4294967296) :
    Clears (fun k => (fun c => ∃ j, j < h ∧ ∃ i, i < w ∧ c = stride * (y + j) + x + i) (k / 4))
      (fun m => forLoop h (fun i m =>
        rasterPixel32 m 0 0 (u32 ((stride : Int) * y + x + stride * i)) (i32 w)) m) := by
  have h0 := clears_forLoop h
    (fun j k => ∃ i, i < (i32 (w : Int)).toNat ∧ k / 4 = u32 ((stride : Int) * y + x + stride * j) + i)
    (fun i m => rasterPixel32 m 0 0 (u32 ((stride : Int) * y + x + stride * i)) (i32 w))
    (fun j _ => clears_pixel32 _ _)
  refine clears_congr _ _ _ (fun k => ?_) h0
  rw [i32_natCast w hw, Int.toNat_natCast]
  constructor
  · rintro ⟨j, hj, i, hi, e⟩
    rw [row_offset stride x y h j hj hfit] at e
    exact ⟨j, hj, i, hi, e⟩
  · rintro ⟨j, hj, i, hi, e⟩
    refine ⟨j, hj, i, hi, ?_⟩
    rw [row_offset stride x y h j hj hfit]
    exact e

theorem clears_rows8 (stride x y w h : Nat) (hw : w < 2147483648)
    (hfit : stride * (y + h) + x < 4294967296) :
    Clears (fun c => ∃ j, j < h ∧ ∃ i, i < w ∧ c = stride * (y + j) + x + i)
      (fun m => forLoop h (fun i m =>
        rasterGrayscale8 m 0 0 (u32 ((stride : Int) * y + x + stride * i)) (i32 w)) m) := by
  have h0 := clears_forLoop h
    (fun j k => ∃ i, i < (i32 (w : Int)).toNat ∧ k = u32 ((stride : Int) * y + x + stride * j) + i)
    (fun i m => rasterGrayscale8 m 0 0 (u32 ((stride : Int) * y + x + stride * i)) (i32 w))
    (fun j _ => clears_grayscale8 _ _)
  refine clears_congr _ _ _ (fun k => ?_) h0
  rw [i32_natCast w hw, Int.toNat_natCast]
  constructor
  · rintro ⟨j, hj, i, hi, e⟩
    rw [row_offset stride x y h j hj hfit] at e
    exact ⟨j, hj, i, hi, e⟩
  · rintro ⟨j, hj, i, hi, e⟩
    refine ⟨j, hj, i, hi, ?_⟩
    rw [row_offset stride x y h j hj hfit]
    exact e

theorem rasterClear_partial32 (s : SwSurface) (x y w h : Nat) (hb : s.nullBuf = false)
    (h1 : s.stride ≠ 0) (h2 : s.w ≠ 0) (h3 : s.h ≠ 0) (hws : w ≠ s.stride)
    (h4 : s.channelSize = 4) :
    rasterClear (some s) x y w h
      = (true, some { s with buf := forLoop h (fun i m =>
          rasterPixel32 m 0 0 (u32 ((s.stride : Int) * y + x + s.stride * i)) (i32 w)) s.buf }) := by
  unfold rasterClear
  simp [hb, h1, h2, h3, hws, h4]

theorem rasterClear_partial8 (s : SwSurface) (x y w h : Nat) (hb : s.nullBuf = false)
    (h1 : s.stride ≠ 0) (h2 : s.w ≠ 0) (h3 : s.h ≠ 0) (hws : w ≠ s.stride)
    (h4 : s.channelSize = 1) :
    rasterClear (some s) x y w h
      = (true, some { s with buf := forLoop h (fun i m =>
          rasterGrayscale8 m 0 0 (u32 ((s.stride : Int) * y + x + s.stride * i)) (i32 w)) s.buf }) := by
  unfold rasterClear
  simp [hb, h1, h2, h3, hws, h4]

/-- C22: `rasterClear` returns false and writes nothing for a null surface, a null buffer, or
a surface whose stride, width or height is 0. On a valid surface of 4-byte or 1-byte cells,
with `w` other than the stride, `w` below 2^31 and offsets that fit 32 bits, it returns true,
sets every cell `stride * (y + j) + x + i` with `i < w`, `j < h` to zero, keeps every other
cell, changes nothing but the buffer, and applied again to its result gives the same
result. -/
theorem rasterClear_spec (s : SwSurface) (x y w h : Nat) :
    rasterClear none x y w h = (false, none)
    ∧ ((s.nullBuf = true ∨ s.stride = 0 ∨ s.w = 0 ∨ s.h = 0) →
        rasterClear (some s) x y w h = (false, some s))
    ∧ (s.nullBuf = false → s.stride ≠ 0 → s.w ≠ 0 → s.h ≠ 0 → w ≠ s.stride →
        w < 2147483648 → s.stride * (y + h) + x < 4294967296 →
        (s.channelSize = 4 →
          ∃ buf, rasterClear (some s) x y w h = (true, some { s with buf := buf })
            ∧ (∀ i j, i < w → j < h → buf.read32 (s.stride * (y + j) + x + i) = 0)
            ∧ (∀ c, (¬ ∃ j, j < h ∧ ∃ i, i < w ∧ c = s.stride * (y + j) + x + i) →
                buf.read32 c = s.buf.read32 c)
            ∧ rasterClear (some { s with buf := buf }) x y w h
                = (true, some { s with buf := buf }))
        ∧ (s.channelSize = 1 →
          ∃ buf, rasterClear (some s) x y w h = (true, some { s with buf := buf })
            ∧ (∀ i j, i < w → j < h → buf.read8 (s.stride * (y + j) + x + i) = 0)
            ∧ (∀ c, (¬ ∃ j, j < h ∧ ∃ i, i < w ∧ c = s.stride * (y + j) + x + i) →
                buf.read8 c = s.buf.read8 c)
            ∧ rasterClear (some { s with buf := buf }) x y w h
                = (true, some { s with buf := buf }))) := by
  refine ⟨rfl, fun hz => ?_, fun hb h1 h2 h3 hws hw hfit => ⟨fun h4 => ?_, fun h4 => ?_⟩⟩
  · unfold rasterClear
    simp only [if_pos hz]
  · have hc := clears_rows32 s.stride x y w h hw hfit
    have hr := clears_read32
      (fun c => ∃ j, j < h ∧ ∃ i, i < w ∧ c = s.stride * (y + j) + x + i) _ hc
    have e1 := rasterClear_partial32 s x y w h hb h1 h2 h3 hws h4
    have e2 := rasterClear_partial32
      { s with buf := forLoop h (fun i m =>
          rasterPixel32 m 0 0 (u32 ((s.stride : Int) * y + x + s.stride * i)) (i32 w)) s.buf }
      x y w h hb h1 h2 h3 hws h4
    have e3 := clears_idem _ _ hc s.buf
    simp only at e2 e3
    rw [e3] at e2
    exact ⟨_, e1, fun i j hi hj => (hr s.buf _).1 ⟨j, hj, i, hi, rfl⟩,
      fun c hn => (hr s.buf c).2 hn, e2⟩
  · have hc := clears_rows8 s.stride x y w h hw hfit
    have hr := clears_read8 _ _ hc
    have e1 := rasterClear_partial8 s x y w h hb h1 h2 h3 hws h4
    have e2 := rasterClear_partial8
      { s with buf := forLoop h (fun i m =>
          rasterGrayscale8 m 0 0 (u32 ((s.stride : Int) * y + x + s.stride * i)) (i32 w)) s.buf }
      x y w h hb h1 h2 h3 hws h4
    have e3 := clears_idem _ _ hc s.buf
    simp only at e2 e3
    rw [e3] at e2
    exact ⟨_, e1, fun i j hi hj => (hr s.buf _).1 ⟨j, hj, i, hi, rfl⟩,
      fun c hn => (hr s.buf c).2 hn, e2⟩

/-- C22 on the 16x16 surface whose pixels are `0xABABABAB`, for the region at (2,3) of width 4
and height 5: the call returns true, cell (2,3) is zero, cell (1,3) keeps its pixel, and a
second call changes nothing; a null surface and a surface of stride 0 give false. -/
theorem rasterClear_spec_witness :
    rasterClear none 2 3 4 5 = (false, none)
    ∧ rasterClear (some { inkSurface16 with stride := 0 }) 2 3 4 5
        = (false, some { inkSurface16 with stride := 0 })
    ∧ ∃ buf, rasterClear (some inkSurface16) 2 3 4 5 = (true, some { inkSurface16 with buf := buf })
        ∧ buf.read32 (16 * 3 + 2) = 0
        ∧ buf.read32 (16 * 3 + 1) = 0xABABABAB
        ∧ rasterClear (some { inkSurface16 with buf := buf }) 2 3 4 5
            = (true, some { inkSurface16 with buf := buf }) := by
  refine ⟨(rasterClear_spec inkSurface16 2 3 4 5).1,
    (rasterClear_spec { inkSurface16 with stride := 0 } 2 3 4 5).2.1 (Or.inr (Or.inl rfl)), ?_⟩
  obtain ⟨buf, e, hz, hk, hi⟩ := ((rasterClear_spec inkSurface16 2 3 4 5).2.2 rfl (by decide)
    (by decide) (by decide) (by decide) (by decide) (by decide)).1 rfl
  refine ⟨buf, e, hz 0 0 (by decide) (by decide), ?_, hi⟩
  have h1 := hk (16 * 3 + 1) (by
    rintro ⟨j, _, i, _, e⟩
    have e2 : inkSurface16.stride = 16 := rfl
    rw [e2] at e
    omega)
  rw [h1]
  decide

/-! ## Rewriting the cells of a region -/

theorem maps_congr (rd : Mem → Nat → Nat) (S T : Nat → Prop) (F : Nat → Nat → Nat)
    (f : Mem → Mem) (h : ∀ c, S c ↔ T c) (hf : Maps rd S F f) : Maps rd T F f := by
  intro m c
  exact ⟨fun hc => (hf m c).1 ((h c).mpr hc), fun hc => (hf m c).2 (fun hs => hc ((h c).mp hs))⟩

/-- A loop of functions that rewrite pairwise disjoint sets of cells rewrites their union. -/
theorem maps_forLoop (rd : Mem → Nat → Nat) (n : Nat) (S : Nat → Nat → Prop)
    (F : Nat → Nat → Nat) (body : Nat → Mem → Mem)
    (h : ∀ i, i < n → Maps rd (S i) F (body i))
    (hd : ∀ i j c, i < n → j < n → S i c → S j c → i = j) :
    Maps rd (fun c => ∃ i, i < n ∧ S i c) F (fun m => forLoop n body m) := by
  induction n with
  | zero =>
    intro m c
    constructor
    · rintro ⟨i, hi, _⟩
      omega
    · intro _
      rfl
  | succ n ih =>
    have ih2 := ih (fun i hi => h i (Nat.lt_succ_of_lt hi))
      (fun i j c hi hj => hd i j c (Nat.lt_succ_of_lt hi) (Nat.lt_succ_of_lt hj))
    intro m c
    simp only [forLoop]
    by_cases hc : S n c
    · have hprev : ¬ ∃ i, i < n ∧ S i c := by
        rintro ⟨i, hi, hs⟩
        have := hd i n c (Nat.lt_succ_of_lt hi) (Nat.lt_succ_self n) hs hc
        omega
      constructor
      · intro _
        rw [(h n (Nat.lt_succ_self n) _ c).1 hc, (ih2 m c).2 hprev]
      · intro hn
        exact absurd ⟨n, Nat.lt_succ_self n, hc⟩ hn
    · rw [(h n (Nat.lt_succ_self n) _ c).2 hc]
      constructor
      · rintro ⟨i, hi, hs⟩
        have hi2 : i < n := by
          rcases Nat.lt_succ_iff_lt_or_eq.mp hi with h1 | h1
          · exact h1
          · subst h1
            exact absurd hs hc
        exact (ih2 m c).1 ⟨i, hi2, hs⟩
      · intro hn
        exact (ih2 m c).2 (fun ⟨i, hi, hs⟩ => hn ⟨i, Nat.lt_succ_of_lt hi, hs⟩)

theorem maps_write32 (i : Nat) (g : Nat → Nat) :
    Maps Mem.read32 (fun c => c = i) (fun _ v => g v % 4294967296)
      (fun m => m.write32 i (g (m.read32 i))) := by
  intro m c
  constructor
  · intro hc
    subst hc
    exact read32_write32_same m c _
  · intro hc
    exact read32_write32_ne m i c _ hc

theorem maps_write8 (i : Nat) (g : Nat → Nat) :
    Maps Mem.read8 (fun c => c = i) (fun _ v => g v % 256)
      (fun m => m.write8 i (g (m.read8 i))) := by
  intro m c
  constructor
  · intro hc
    subst hc
    exact read8_write8_same m c _
  · intro hc
    exact read8_write8_ne m i c _ hc

/-- Two cells `y * S + x` with `x < S` that coincide are the same cell. -/
theorem cell_unique (S x y x2 y2 : Nat) (hx : x < S) (hx2 : x2 < S)
    (e : y * S + x = y2 * S + x2) : y = y2 ∧ x = x2 := by
  have h1 : (y * S + x) / S = y := by
    rw [Nat.mul_comm, Nat.mul_add_div (by omega), Nat.div_eq_of_lt hx, Nat.add_zero]
  have h2 : (y2 * S + x2) / S = y2 := by
    rw [Nat.mul_comm, Nat.mul_add_div (by omega), Nat.div_eq_of_lt hx2, Nat.add_zero]
  have hy : y = y2 := by rw [← h1, ← h2, e]
  subst hy
  exact ⟨rfl, by omega⟩

/-- A nest of two loops that rewrites the cell `base + y * S + x` in pass `(y, x)`, with the
row width `w` at most the stride `S`, rewrites the cells of the `h` rows. -/
theorem maps_rows32 (h w S base : Nat) (g : Nat → Nat) (hw : w ≤ S) :
    Maps Mem.read32 (fun c => ∃ y, y < h ∧ ∃ x, x < w ∧ c = base + y * S + x)
      (fun _ v => g v % 4294967296)
      (fun m => forLoop h (fun y m => forLoop w (fun x m =>
        m.write32 (base + y * S + x) (g (m.read32 (base + y * S + x)))) m) m) := by
  apply maps_forLoop Mem.read32 h (fun y c => ∃ x, x < w ∧ c = base + y * S + x)
  · intro y _
    apply maps_forLoop Mem.read32 w (fun x c => c = base + y * S + x)
    · intro x _
      exact maps_write32 _ g
    · intro x x2 c _ _ e1 e2
      omega
  · rintro y y2 c _ _ ⟨x, hx, e1⟩ ⟨x2, hx2, e2⟩
    have e : y * S + x = y2 * S + x2 := by omega
    exact (cell_unique S x y x2 y2 (by omega) (by omega) e).1

theorem maps_rows8 (h w S base : Nat) (g : Nat → Nat) (hw : w ≤ S) :
    Maps Mem.read8 (fun c => ∃ y, y < h ∧ ∃ x, x < w ∧ c = base + y * S + x)
      (fun _ v => g v % 256)
      (fun m => forLoop h (fun y m => forLoop w (fun x m =>
        m.write8 (base + y * S + x) (g (m.read8 (base + y * S + x)))) m) m) := by
  apply maps_forLoop Mem.read8 h (fun y c => ∃ x, x < w ∧ c = base + y * S + x)
  · intro y _
    apply maps_forLoop Mem.read8 w (fun x c => c = base + y * S + x)
    · intro x _
      exact maps_write8 _ g
    · intro x x2 c _ _ e1 e2
      omega
  · rintro y y2 c _ _ ⟨x, hx, e1⟩ ⟨x2, hx2, e2⟩
    have e : y * S + x = y2 * S + x2 := by omega
    exact (cell_unique S x y x2 y2 (by omega) (by omega) e).1

/-- The bytes of `swapRB c`: the second and the fourth byte of `c` change places. -/
theorem swapRB_eq (c : Nat) :
    swapRB c = A c * 16777216 + C3 c * 65536 + C2 c * 256 + C1 c := by
  unfold swapRB
  rw [and_ff000000, and_ff0000, and_ff00, and_ff, shr16, Nat.shiftLeft_eq, A_eq, C1_eq, C2_eq,
    C3]
  have e : c / 65536 % 256 * 65536 / 65536 = c / 65536 % 256 := by omega
  rw [e]
  omega

theorem swapRB_bytes (c : Nat) :
    swapRB c < 4294967296 ∧ A (swapRB c) = A c ∧ C1 (swapRB c) = C3 c
    ∧ C2 (swapRB c) = C2 c ∧ C3 (swapRB c) = C1 c := by
  have hA := A_le c
  have h1 := C1_le c
  have h2 := C2_le c
  have h3 := C3_le c
  rw [swapRB_eq]
  generalize A c = a at *
  generalize C1 c = c1 at *
  generalize C2 c = c2 at *
  generalize C3 c = c3 at *
  rw [A_eq, C1_eq, C2_eq, C3]
  omega

theorem swapRB_swapRB (c : Nat) (hc : c < 4294967296) : swapRB (swapRB c) = c := by
  obtain ⟨_, bA, b1, b2, b3⟩ := swapRB_bytes c
  rw [swapRB_eq (swapRB c), bA, b1, b2, b3]
  exact (word_eq_bytes c hc).symm

theorem cRasterABGRtoARGB_maps (s : SwSurface) (hw : s.w ≤ s.stride) :
    (cRasterABGRtoARGB s).1 = true
    ∧ (cRasterABGRtoARGB s).2 = { s with buf := (cRasterABGRtoARGB s).2.buf }
    ∧ (∀ c, (∃ y, y < s.h ∧ ∃ x, x < s.w ∧ c = y * s.stride + x) →
        (cRasterABGRtoARGB s).2.buf.read32 c = swapRB (s.buf.read32 c))
    ∧ (∀ c, (¬ ∃ y, y < s.h ∧ ∃ x, x < s.w ∧ c = y * s.stride + x) →
        (cRasterABGRtoARGB s).2.buf.read32 c = s.buf.read32 c) := by
  have hm := maps_rows32 s.h s.w s.stride 0 swapRB hw
  simp only [Nat.zero_add] at hm
  refine ⟨rfl, rfl, fun c hc => ?_, fun c hc => ?_⟩
  · have := (hm s.buf c).1 hc
    simp only at this
    rw [Nat.mod_eq_of_lt (swapRB_bytes _).1] at this
    exact this
  · exact (hm s.buf c).2 hc

theorem rasterConvertCS_swap (s : SwSurface) (to' : ColorSpace)
    (hsw : ((s.cs = .ABGR8888 ∨ s.cs = .ABGR8888S) ∧ (to' = .ARGB8888 ∨ to' = .ARGB8888S))
      ∨ ((s.cs = .ARGB8888 ∨ s.cs = .ARGB8888S) ∧ (to' = .ABGR8888 ∨ to' = .ABGR8888S))) :
    rasterConvertCS s to' = cRasterABGRtoARGB { s with cs := to' } := by
  unfold rasterConvertCS cRasterARGBtoABGR
  rcases hsw with ⟨h1 | h1, h2 | h2⟩ | ⟨h1 | h1, h2 | h2⟩ <;> simp [h1, h2]

/-- C21: `rasterConvertCS` returns true and changes nothing when `surface.cs = to`. From
ABGR8888 or ABGR8888S to ARGB8888 or ARGB8888S, or the reverse, on a surface whose width is at
most its stride, it returns true, sets `cs = to`, exchanges the R and B bytes (bits 16..23 and
0..7) of every pixel `(x, y)` with `x < w`, `y < h`, keeps the other two bytes, and keeps every
cell outside the `w` × `h` pixels. For every other pair it returns false and leaves the surface
as it was. Converting ABGR8888 to ARGB8888 and back restores `cs` and every cell. -/
theorem rasterConvertCS_spec (s : SwSurface) (to' : ColorSpace) :
    (s.cs = to' → rasterConvertCS s to' = (true, s))
    ∧ ((((s.cs = .ABGR8888 ∨ s.cs = .ABGR8888S) ∧ (to' = .ARGB8888 ∨ to' = .ARGB8888S))
        ∨ ((s.cs = .ARGB8888 ∨ s.cs = .ARGB8888S) ∧ (to' = .ABGR8888 ∨ to' = .ABGR8888S))) →
      s.w ≤ s.stride →
      (rasterConvertCS s to').1 = true
      ∧ (rasterConvertCS s to').2
          = { s with cs := to', buf := (rasterConvertCS s to').2.buf }
      ∧ (∀ x y, x < s.w → y < s.h →
          A ((rasterConvertCS s to').2.buf.read32 (y * s.stride + x))
              = A (s.buf.read32 (y * s.stride + x))
          ∧ C1 ((rasterConvertCS s to').2.buf.read32 (y * s.stride + x))
              = C3 (s.buf.read32 (y * s.stride + x))
          ∧ C2 ((rasterConvertCS s to').2.buf.read32 (y * s.stride + x))
              = C2 (s.buf.read32 (y * s.stride + x))
          ∧ C3 ((rasterConvertCS s to').2.buf.read32 (y * s.stride + x))
              = C1 (s.buf.read32 (y * s.stride + x)))
      ∧ (∀ c, (¬ ∃ y, y < s.h ∧ ∃ x, x < s.w ∧ c = y * s.stride + x) →
          (rasterConvertCS s to').2.buf.read32 c = s.buf.read32 c))
    ∧ (s.cs ≠ to' →
      ¬ (((s.cs = .ABGR8888 ∨ s.cs = .ABGR8888S) ∧ (to' = .ARGB8888 ∨ to' = .ARGB8888S))
        ∨ ((s.cs = .ARGB8888 ∨ s.cs = .ARGB8888S) ∧ (to' = .ABGR8888 ∨ to' = .ABGR8888S))) →
      rasterConvertCS s to' = (false, s))
    ∧ (s.cs = .ABGR8888 → s.w ≤ s.stride →
      (rasterConvertCS (rasterConvertCS s .ARGB8888).2 .ABGR8888).1 = true
      ∧ (rasterConvertCS (rasterConvertCS s .ARGB8888).2 .ABGR8888).2.cs = .ABGR8888
      ∧ ∀ c, (rasterConvertCS (rasterConvertCS s .ARGB8888).2 .ABGR8888).2.buf.read32 c
          = s.buf.read32 c) := by
  refine ⟨fun h => ?_, fun hsw hw => ?_, fun hne hn => ?_, fun hcs hw => ?_⟩
  · unfold rasterConvertCS
    rw [if_pos h]
  · rw [rasterConvertCS_swap s to' hsw]
    obtain ⟨r1, r2, r3, r4⟩ := cRasterABGRtoARGB_maps { s with cs := to' } hw
    refine ⟨r1, r2, fun x y hx hy => ?_, fun c hc => r4 c hc⟩
    have e := r3 (y * s.stride + x) ⟨y, hy, x, hx, rfl⟩
    rw [e]
    obtain ⟨_, bA, b1, b2, b3⟩ := swapRB_bytes (s.buf.read32 (y * s.stride + x))
    exact ⟨bA, b1, b2, b3⟩
  · unfold rasterConvertCS
    rw [if_neg hne]
    have n1 : ¬ ((s.cs = .ABGR8888 ∨ s.cs = .ABGR8888S)
        ∧ (to' = .ARGB8888 ∨ to' = .ARGB8888S)) := fun h => hn (Or.inl h)
    have n2 : ¬ ((s.cs = .ARGB8888 ∨ s.cs = .ARGB8888S)
        ∧ (to' = .ABGR8888 ∨ to' = .ABGR8888S)) := fun h => hn (Or.inr h)
    simp only [if_neg n1, if_neg n2]
  · have e1 := rasterConvertCS_swap s .ARGB8888 (Or.inl ⟨Or.inl hcs, Or.inl rfl⟩)
    have e2 := rasterConvertCS_swap (cRasterABGRtoARGB { s with cs := .ARGB8888 }).2 .ABGR8888
      (Or.inr ⟨Or.inl rfl, Or.inl rfl⟩)
    rw [e1, e2]
    obtain ⟨_, _, r3, r4⟩ := cRasterABGRtoARGB_maps { s with cs := .ARGB8888 } hw
    obtain ⟨_, _, q3, q4⟩ := cRasterABGRtoARGB_maps
      { (cRasterABGRtoARGB { s with cs := .ARGB8888 }).2 with cs := .ABGR8888 } hw
    refine ⟨rfl, rfl, fun c => ?_⟩
    by_cases hc : ∃ y, y < s.h ∧ ∃ x, x < s.w ∧ c = y * s.stride + x
    · rw [q3 c hc]
      have := r3 c hc
      simp only at this
      rw [this]
      exact swapRB_swapRB _ (read32_lt _ _)
    · rw [q4 c hc]
      exact r4 c hc

/-- C21 on the 16x16 ABGR surface whose pixels are `0x11223344`: the same colour space gives
true and the surface back; the conversion to ARGB8888 exchanges the bytes `0x22` and `0x44` of
pixel (1,2); the conversion to Grayscale8 gives false; the conversion to ARGB8888 and back
restores the colour space and pixel (1,2). -/
theorem rasterConvertCS_spec_witness :
    rasterConvertCS pixelSurface16 .ABGR8888 = (true, pixelSurface16)
    ∧ (rasterConvertCS pixelSurface16 .ARGB8888).1 = true
    ∧ (C1 ((rasterConvertCS pixelSurface16 .ARGB8888).2.buf.read32 (2 * 16 + 1)) = 0x44
      ∧ C3 ((rasterConvertCS pixelSurface16 .ARGB8888).2.buf.read32 (2 * 16 + 1)) = 0x22)
    ∧ rasterConvertCS pixelSurface16 .Grayscale8 = (false, pixelSurface16)
    ∧ (rasterConvertCS (rasterConvertCS pixelSurface16 .ARGB8888).2 .ABGR8888).2.cs = .ABGR8888
    ∧ (rasterConvertCS (rasterConvertCS pixelSurface16 .ARGB8888).2 .ABGR8888).2.buf.read32
        (2 * 16 + 1) = 0x11223344 := by
  have h := rasterConvertCS_spec pixelSurface16
  have h2 := (h .ARGB8888).2.1 (Or.inl ⟨Or.inl rfl, Or.inl rfl⟩) (by decide)
  have h3 := h2.2.2.1 1 2 (by decide) (by decide)
  have h4 := (h .ABGR8888).2.2.2 rfl (by decide)
  have e : pixelSurface16.buf.read32 (2 * pixelSurface16.stride + 1) = 0x11223344 := by decide
  rw [e] at h3
  refine ⟨(h .ABGR8888).1 rfl, h2.1, ⟨h3.2.1.trans (by decide), h3.2.2.2.trans (by decide)⟩,
    (h .Grayscale8).2.2.1 (by decide) (by decide), h4.2.1, (h4.2.2 _).trans ?_⟩
  decide

/-! ## Mask Add then composite -/

theorem maps_congrF (rd : Mem → Nat → Nat) (S : Nat → Prop) (F G : Nat → Nat → Nat)
    (f : Mem → Mem) (h : ∀ c v, S c → F c v = G c v) (hf : Maps rd S F f) : Maps rd S G f := by
  intro m c
  exact ⟨fun hc => ((hf m c).1 hc).trans (h c _ hc), (hf m c).2⟩

/-- The row and the column of the cell `base + y * S + x` with `x < S`. -/
theorem cell_div_mod (S base x y : Nat) (hx : x < S) :
    (base + y * S + x - base) / S = y ∧ (base + y * S + x - base) % S = x := by
  have e : base + y * S + x - base = x + S * y := by
    rw [Nat.mul_comm]; omega
  rw [e, Nat.add_mul_div_left _ _ (by omega), Nat.add_mul_mod_self_left, Nat.div_eq_of_lt hx,
    Nat.mod_eq_of_lt hx]
  omega

/-- A nest of two loops that stores `g y x v` over the content `v` of the 8-bit cell
`base + y * S + x` in pass `(y, x)`, with the row width `w` at most the stride `S`. -/
theorem maps_cells8 (h w S base : Nat) (g : Nat → Nat → Nat → Nat) (hw : w ≤ S) :
    Maps Mem.read8 (fun c => ∃ y, y < h ∧ ∃ x, x < w ∧ c = base + y * S + x)
      (fun c v => g ((c - base) / S) ((c - base) % S) v % 256)
      (fun m => forLoop h (fun y m => forLoop w (fun x m =>
        m.write8 (base + y * S + x) (g y x (m.read8 (base + y * S + x)))) m) m) := by
  apply maps_forLoop Mem.read8 h (fun y c => ∃ x, x < w ∧ c = base + y * S + x)
  · intro y _
    apply maps_forLoop Mem.read8 w (fun x c => c = base + y * S + x)
    · intro x hx
      refine maps_congrF _ _ _ _ _ (fun c v hc => ?_) (maps_write8 _ (g y x))
      simp only at hc
      obtain ⟨e1, e2⟩ := cell_div_mod S base x y (by omega)
      rw [hc, e1, e2]
    · intro x x2 c _ _ e1 e2
      omega
  · rintro y y2 c _ _ ⟨x, hx, e1⟩ ⟨x2, hx2, e2⟩
    have e : y * S + x = y2 * S + x2 := by omega
    exact (cell_unique S x y x2 y2 (by omega) (by omega) e).1

theorem region_h (x0 y0 x1 y1 : Nat) (h : y0 ≤ y1) (h2 : y1 < 4294967296) :
    RenderRegion.h ⟨⟨x0, y0⟩, ⟨x1, y1⟩⟩ = y1 - y0 := by
  show u32 ((y1 : Int) - y0) = y1 - y0
  unfold u32
  omega

theorem region_w (x0 y0 x1 y1 : Nat) (h : x0 ≤ x1) (h2 : x1 < 4294967296) :
    RenderRegion.w ⟨⟨x0, y0⟩, ⟨x1, y1⟩⟩ = x1 - x0 := by
  show u32 ((x1 : Int) - x0) = x1 - x0
  unfold u32
  omega

theorem u32_cell (S x y : Nat) (h : y * S + x < 4294967296) :
    u32 ((y : Int) * S + x) = y * S + x := by
  have e : ((y : Int) * S + x) = ((y * S + x : Nat) : Int) := by push_cast; ring
  rw [e, u32_natCast _ h]

/-- The explicit form of `_rasterMaskedRect` under a composite method on an 8-bit surface, for
regions of natural coordinates whose cell offsets fit 31 bits and an image without offset. -/
theorem maskedRect_composite_eq (s : SwSurface) (cmp : SwCompositor) (c : RenderColor)
    (op : SwMask) (x0 y0 x1 y1 X0 Y0 X1 Y1 : Nat)
    (h1 : s.channelSize = 1) (hc : s.compositor = some cmp)
    (hop : _getMaskOp cmp.method = some op) (hd : _direct cmp.method = false)
    (hox : cmp.image.ox = 0) (hoy : cmp.image.oy = 0)
    (hB : cmp.bbox = ⟨⟨X0, Y0⟩, ⟨X1, Y1⟩⟩)
    (hx : x0 ≤ x1) (hy : y0 ≤ y1) (hX : X0 ≤ X1) (hY : Y0 ≤ Y1)
    (hx1 : x1 < 4294967296) (hy1 : y1 < 4294967296)
    (hfit : Y0 * s.stride + X0 < 4294967296)
    (hcfit : y0 * cmp.image.stride + x0 < 4294967296)
    (hsfit : Y0 * cmp.image.stride < 4294967296) :
    _rasterMaskedRect s ⟨⟨x0, y0⟩, ⟨x1, y1⟩⟩ c
      = (true, { s with
          buf := forLoop (Y1 - Y0) (fun y m => forLoop (X1 - X0) (fun x m =>
              m.write8 (Y0 * s.stride + X0 + y * s.stride + x)
                ((fun y x v =>
                  (forLoop (y1 - y0) (fun y m => forLoop (x1 - x0) (fun x m =>
                      m.write8 (y0 * cmp.image.stride + x0 + y * cmp.image.stride + x)
                        (op c.a (m.read8 (y0 * cmp.image.stride + x0 + y * cmp.image.stride + x))
                          (255 - c.a))) m) cmp.image.buf).read8
                    (Y0 * cmp.image.stride + X0 + y * cmp.image.stride + x)
                  + MULTIPLY v (not8
                    ((forLoop (y1 - y0) (fun y m => forLoop (x1 - x0) (fun x m =>
                      m.write8 (y0 * cmp.image.stride + x0 + y * cmp.image.stride + x)
                        (op c.a (m.read8 (y0 * cmp.image.stride + x0 + y * cmp.image.stride + x))
                          (255 - c.a))) m) cmp.image.buf).read8
                    (Y0 * cmp.image.stride + X0 + y * cmp.image.stride + x)))) y x
                  (m.read8 (Y0 * s.stride + X0 + y * s.stride + x)))) m) s.buf
          compositor := some { cmp with image := { cmp.image with
            buf := forLoop (y1 - y0) (fun y m => forLoop (x1 - x0) (fun x m =>
              m.write8 (y0 * cmp.image.stride + x0 + y * cmp.image.stride + x)
                (op c.a (m.read8 (y0 * cmp.image.stride + x0 + y * cmp.image.stride + x))
                  (255 - c.a))) m) cmp.image.buf } } }) := by
  have hne : ¬ (s.channelSize ≠ 1) := by simp [h1]
  unfold _rasterMaskedRect
  rw [if_neg hne]
  simp only [hc, hop, hd, Bool.false_eq_true, if_false]
  unfold _rasterCompositeMaskedRect
  simp only [hc]
  unfold _compositeMaskImage
  simp only [hB, hox, hoy, region_h x0 y0 x1 y1 hy hy1, region_w x0 y0 x1 y1 hx hx1,
    u32_cell _ _ _ hcfit, u32_cell _ _ _ hfit, add_zero]
  have eH : ((Y1 : Int) - Y0).toNat = Y1 - Y0 := by omega
  have eW : ((X1 : Int) - X0).toNat = X1 - X0 := by omega
  have eS : u32 ((Y0 : Int) * cmp.image.stride) = Y0 * cmp.image.stride := by
    have e : ((Y0 : Int) * cmp.image.stride) = ((Y0 * cmp.image.stride : Nat) : Int) := by
      push_cast; ring
    rw [e, u32_natCast _ hsfit]
  have eSrc : ∀ y x : Nat, ((Y0 * cmp.image.stride : Nat) + (X0 : Int) + (y : Int) * cmp.image.stride
      + (x : Int)).toNat = Y0 * cmp.image.stride + X0 + y * cmp.image.stride + x := by
    intro y x
    have e : ((Y0 * cmp.image.stride : Nat) + (X0 : Int) + (y : Int) * cmp.image.stride + (x : Int))
        = ((Y0 * cmp.image.stride + X0 + y * cmp.image.stride + x : Nat) : Int) := by
      push_cast; ring
    rw [e, Int.toNat_natCast]
  simp only [eH, eW, eS, eSrc]

/-- A cell `(x, y)` with `x < S` is one of the cells `base + yy * S + xx` of the block of rows
`y0 … y1 - 1` and columns `x0 … x1 - 1` exactly when it lies in the block. -/
theorem cell_in_block (S x0 y0 x1 y1 x y : Nat) (hx : x < S) (hx1 : x1 ≤ S) :
    (∃ yy, yy < y1 - y0 ∧ ∃ xx, xx < x1 - x0 ∧ y * S + x = y0 * S + x0 + yy * S + xx)
      ↔ ((x0 ≤ x ∧ x < x1) ∧ (y0 ≤ y ∧ y < y1)) := by
  constructor
  · rintro ⟨yy, hyy, xx, hxx, e⟩
    have e2 : y * S + x = (y0 + yy) * S + (x0 + xx) := by
      rw [Nat.add_mul]; omega
    obtain ⟨ey, ex⟩ := cell_unique S x y (x0 + xx) (y0 + yy) hx (by omega) e2
    omega
  · rintro ⟨⟨h1, h2⟩, h3, h4⟩
    obtain ⟨yy, rfl⟩ := Nat.exists_eq_add_of_le h3
    obtain ⟨xx, rfl⟩ := Nat.exists_eq_add_of_le h1
    refine ⟨yy, by omega, xx, by omega, ?_⟩
    rw [Nat.add_mul]
    omega

theorem opMaskAdd_zero (a x : Nat) (ha : a ≤ 255) : _opMaskAdd a 0 x % 256 = a := by
  unfold _opMaskAdd
  rw [MULTIPLY_zero_left]
  omega

/-- C23: on an 8-bit surface whose cells are zero, under the Add compositor with a mask that
is zero and has no offset, for a region inside the compositor box (itself inside the rows of
the surface and of the mask): `_rasterMaskedRect` with colour alpha `a` returns true; after it
every mask cell of the region holds `a` and every other mask cell 0; every surface cell of the
compositor box holds `a` inside the region and 0 outside it. -/
theorem maskedRect_add (s : SwSurface) (cmp : SwCompositor) (c : RenderColor)
    (x0 y0 x1 y1 X0 Y0 X1 Y1 : Nat)
    (h1 : s.channelSize = 1) (hc : s.compositor = some cmp) (hm : cmp.method = .Add)
    (hox : cmp.image.ox = 0) (hoy : cmp.image.oy = 0)
    (hB : cmp.bbox = ⟨⟨X0, Y0⟩, ⟨X1, Y1⟩⟩)
    (hmask : ∀ i, cmp.image.buf.read8 i = 0) (hdst : ∀ i, s.buf.read8 i = 0)
    (ha : c.a ≤ 255)
    (hx : X0 ≤ x0 ∧ x0 ≤ x1 ∧ x1 ≤ X1) (hy : Y0 ≤ y0 ∧ y0 ≤ y1 ∧ y1 ≤ Y1)
    (hs : X1 ≤ s.stride) (hcs : X1 ≤ cmp.image.stride) (hY1 : Y1 < 2147483648)
    (hfit : Y1 * s.stride + X1 < 4294967296)
    (hcfit : Y1 * cmp.image.stride + X1 < 4294967296) :
    (_rasterMaskedRect s ⟨⟨x0, y0⟩, ⟨x1, y1⟩⟩ c).1 = true
    ∧ (∃ mask, (_rasterMaskedRect s ⟨⟨x0, y0⟩, ⟨x1, y1⟩⟩ c).2.compositor
          = some { cmp with image := { cmp.image with buf := mask } }
        ∧ ∀ x y, x < cmp.image.stride →
          mask.read8 (y * cmp.image.stride + x)
            = if (x0 ≤ x ∧ x < x1) ∧ (y0 ≤ y ∧ y < y1) then c.a else 0)
    ∧ (∀ x y, X0 ≤ x → x < X1 → Y0 ≤ y → y < Y1 →
        (_rasterMaskedRect s ⟨⟨x0, y0⟩, ⟨x1, y1⟩⟩ c).2.buf.read8 (y * s.stride + x)
          = if (x0 ≤ x ∧ x < x1) ∧ (y0 ≤ y ∧ y < y1) then c.a else 0) := by
  have hop : _getMaskOp cmp.method = some _opMaskAdd := by rw [hm]; rfl
  have hd : _direct cmp.method = false := by rw [hm]; rfl
  have m1 : Y0 * s.stride ≤ Y1 * s.stride := Nat.mul_le_mul_right _ (by omega)
  have m2 : Y0 * cmp.image.stride ≤ Y1 * cmp.image.stride := Nat.mul_le_mul_right _ (by omega)
  have m3 : y0 * cmp.image.stride ≤ Y1 * cmp.image.stride := Nat.mul_le_mul_right _ (by omega)
  rw [maskedRect_composite_eq s cmp c _opMaskAdd x0 y0 x1 y1 X0 Y0 X1 Y1 h1 hc hop hd hox hoy hB
    hx.2.1 hy.2.1 (by omega) (by omega) (by omega) (by omega) (by omega) (by omega) (by omega)]
  -- the mask after the region loops
  have hM := maps_rows8 (y1 - y0) (x1 - x0) cmp.image.stride (y0 * cmp.image.stride + x0)
    (fun v => _opMaskAdd c.a v (255 - c.a)) (by omega)
  have mask_read : ∀ x y, x < cmp.image.stride →
      (forLoop (y1 - y0) (fun y m => forLoop (x1 - x0) (fun x m =>
          m.write8 (y0 * cmp.image.stride + x0 + y * cmp.image.stride + x)
            (_opMaskAdd c.a (m.read8 (y0 * cmp.image.stride + x0 + y * cmp.image.stride + x))
              (255 - c.a))) m) cmp.image.buf).read8 (y * cmp.image.stride + x)
        = if (x0 ≤ x ∧ x < x1) ∧ (y0 ≤ y ∧ y < y1) then c.a else 0 := by
    intro x y hxs
    have hb := cell_in_block cmp.image.stride x0 y0 x1 y1 x y hxs (by omega)
    by_cases hin : (x0 ≤ x ∧ x < x1) ∧ (y0 ≤ y ∧ y < y1)
    · rw [if_pos hin]
      have := (hM cmp.image.buf (y * cmp.image.stride + x)).1 (hb.mpr hin)
      simp only at this
      rw [this, hmask, opMaskAdd_zero c.a _ ha]
    · rw [if_neg hin]
      have := (hM cmp.image.buf (y * cmp.image.stride + x)).2 (fun h => hin (hb.mp h))
      simp only at this
      rw [this, hmask]
  refine ⟨rfl, ⟨_, rfl, mask_read⟩, ?_⟩
  intro x y hX0 hX1 hY0 hY1
  simp only
  have hD := maps_cells8 (Y1 - Y0) (X1 - X0) s.stride (Y0 * s.stride + X0)
    (fun y x v =>
      (forLoop (y1 - y0) (fun y m => forLoop (x1 - x0) (fun x m =>
          m.write8 (y0 * cmp.image.stride + x0 + y * cmp.image.stride + x)
            (_opMaskAdd c.a (m.read8 (y0 * cmp.image.stride + x0 + y * cmp.image.stride + x))
              (255 - c.a))) m) cmp.image.buf).read8
        (Y0 * cmp.image.stride + X0 + y * cmp.image.stride + x)
      + MULTIPLY v (not8
        ((forLoop (y1 - y0) (fun y m => forLoop (x1 - x0) (fun x m =>
          m.write8 (y0 * cmp.image.stride + x0 + y * cmp.image.stride + x)
            (_opMaskAdd c.a (m.read8 (y0 * cmp.image.stride + x0 + y * cmp.image.stride + x))
              (255 - c.a))) m) cmp.image.buf).read8
        (Y0 * cmp.image.stride + X0 + y * cmp.image.stride + x)))) (by omega)
  obtain ⟨yy, rfl⟩ := Nat.exists_eq_add_of_le hY0
  obtain ⟨xx, rfl⟩ := Nat.exists_eq_add_of_le hX0
  have ec : (Y0 + yy) * s.stride + (X0 + xx) = Y0 * s.stride + X0 + yy * s.stride + xx := by
    rw [Nat.add_mul]; omega
  have ecs : Y0 * cmp.image.stride + X0 + yy * cmp.image.stride + xx
      = (Y0 + yy) * cmp.image.stride + (X0 + xx) := by
    rw [Nat.add_mul]; omega
  have hcell := (hD s.buf (Y0 * s.stride + X0 + yy * s.stride + xx)).1
    ⟨yy, by omega, xx, by omega, rfl⟩
  obtain ⟨d1, d2⟩ := cell_div_mod s.stride (Y0 * s.stride + X0) xx yy (by omega)
  simp only [d1, d2] at hcell
  rw [ec, hcell, hdst, MULTIPLY_zero_left, Nat.add_zero, ecs,
    mask_read (X0 + xx) (Y0 + yy) (by omega)]
  split <;> omega

/-- C23 on the cleared 8-bit 4x4 surface with a cleared mask, the region (1,1)-(3,3) and the
colour alpha 200: the call returns true, cell (1,1) of the surface holds 200 and cell (0,0)
holds 0. -/
theorem maskedRect_add_witness :
    (_rasterMaskedRect clearedMaskedSurface4 ⟨⟨1, 1⟩, ⟨3, 3⟩⟩ ⟨0, 0, 0, 200⟩).1 = true
    ∧ (_rasterMaskedRect clearedMaskedSurface4 ⟨⟨1, 1⟩, ⟨3, 3⟩⟩ ⟨0, 0, 0, 200⟩).2.buf.read8
        (1 * 4 + 1) = 200
    ∧ (_rasterMaskedRect clearedMaskedSurface4 ⟨⟨1, 1⟩, ⟨3, 3⟩⟩ ⟨0, 0, 0, 200⟩).2.buf.read8
        (0 * 4 + 0) = 0 := by
  have h := maskedRect_add clearedMaskedSurface4
    { method := .Add, image := maskImage4, bbox := ⟨⟨0, 0⟩, ⟨4, 4⟩⟩ } ⟨0, 0, 0, 200⟩
    1 1 3 3 0 0 4 4 rfl rfl rfl rfl rfl rfl (fun _ => rfl) (fun _ => rfl)
    (by decide) (by decide) (by decide) (by decide) (by decide) (by decide) (by decide)
    (by decide)
  exact ⟨h.1, (h.2.2 1 1 (by decide) (by decide) (by decide) (by decide)).trans (by decide),
    (h.2.2 0 0 (by decide) (by decide) (by decide) (by decide)).trans (by decide)⟩

/-! ## The block-tiled transpose -/

/-- A loop of functions that store, in the cells they touch, values that depend on the cell
alone, stores those values in the union of the cells. -/
theorem paints_forLoop (rd : Mem → Nat → Nat) (n : Nat) (S : Nat → Nat → Prop)
    (V : Nat → Nat) (body : Nat → Mem → Mem)
    (h : ∀ i, i < n → Maps rd (S i) (fun c _ => V c) (body i)) :
    Maps rd (fun c => ∃ i, i < n ∧ S i c) (fun c _ => V c) (fun m => forLoop n body m) := by
  induction n with
  | zero =>
    intro m c
    constructor
    · rintro ⟨i, hi, _⟩
      omega
    · intro _
      rfl
  | succ n ih =>
    have ih2 := ih (fun i hi => h i (Nat.lt_succ_of_lt hi))
    intro m c
    simp only [forLoop]
    by_cases hc : S n c
    · constructor
      · intro _
        exact (h n (Nat.lt_succ_self n) _ c).1 hc
      · intro hn
        exact absurd ⟨n, Nat.lt_succ_self n, hc⟩ hn
    · rw [(h n (Nat.lt_succ_self n) _ c).2 hc]
      constructor
      · rintro ⟨i, hi, hs⟩
        have hi2 : i < n := by
          rcases Nat.lt_succ_iff_lt_or_eq.mp hi with h1 | h1
          · exact h1
          · subst h1
            exact absurd hs hc
        exact (ih2 m c).1 ⟨i, hi2, hs⟩
      · intro hn
        exact (ih2 m c).2 (fun ⟨i, hi, hs⟩ => hn ⟨i, Nat.lt_succ_of_lt hi, hs⟩)

/-- The inner loop of `rasterXYFlip`: the walking pointers in closed form. -/
theorem xyflip_inner (src : Mem) (stride : Int) (n : Nat) (m : Mem) (p q : Int) :
    forLoop n (fun _ (st : Mem × Int × Int) =>
        (st.1.write32 st.2.2.toNat (src.read32 st.2.1.toNat), st.2.1 + stride, st.2.2 + 1))
      (m, p, q)
      = (forLoop n (fun yy m => m.write32 (q + yy).toNat (src.read32 (p + yy * stride).toNat)) m,
          p + n * stride, q + n) := by
  induction n with
  | zero => simp [forLoop]
  | succ k ih =>
    simp only [forLoop, ih]
    refine Prod.ext rfl (Prod.ext ?_ ?_)
    · simp only; push_cast; ring
    · simp only; push_cast; ring

/-- The loop over the columns of a block of `rasterXYFlip`, for a block of `b` rows. -/
theorem xyflip_cols (src : Mem) (stride : Int) (b n : Nat) (m : Mem) (p q : Int) :
    forLoop n (fun _ (st : Mem × Int × Int) =>
        ((forLoop b (fun _ (st : Mem × Int × Int) =>
            (st.1.write32 st.2.2.toNat (src.read32 st.2.1.toNat), st.2.1 + stride, st.2.2 + 1))
          st).1,
          (forLoop b (fun _ (st : Mem × Int × Int) =>
            (st.1.write32 st.2.2.toNat (src.read32 st.2.1.toNat), st.2.1 + stride, st.2.2 + 1))
          st).2.1 + (1 - (b : Int) * stride),
          (forLoop b (fun _ (st : Mem × Int × Int) =>
            (st.1.write32 st.2.2.toNat (src.read32 st.2.1.toNat), st.2.1 + stride, st.2.2 + 1))
          st).2.2 + (stride - (b : Int))))
      (m, p, q)
      = (forLoop n (fun xx m => forLoop b (fun yy m =>
            m.write32 (q + xx * stride + yy).toNat (src.read32 (p + xx + yy * stride).toNat)) m) m,
          p + n, q + n * stride) := by
  induction n with
  | zero => simp [forLoop]
  | succ k ih =>
    simp only [forLoop, ih, xyflip_inner]
    refine Prod.ext rfl (Prod.ext ?_ ?_)
    · simp only; push_cast; ring
    · simp only; push_cast; ring

theorem steps_block (N : Nat) : steps 0 (N : Int) 8 = (N + 7) / 8 := by
  unfold steps
  omega

/-- For buffers and a region of natural offsets, `rasterXYFlip` is a nest of four loops over
natural numbers: blocks of columns, blocks of rows, columns and rows of a block. -/
theorem xyflip_eq_tiled (src dst : Mem) (S W H s0 d0 : Nat) (bbox : RenderRegion)
    (flipped : Bool)
    (hs : (if flipped then bbox.min.x * (S : Int) + bbox.min.y
        else bbox.min.y * (S : Int) + bbox.min.x) = s0)
    (hd : (if flipped then bbox.min.y * (S : Int) + bbox.min.x
        else bbox.min.x * (S : Int) + bbox.min.y) = d0) :
    rasterXYFlip src dst S W H bbox flipped
      = forLoop ((W + 7) / 8) (fun i m =>
          forLoop ((H + 7) / 8) (fun j m =>
            forLoop (min W (8 * i + 8) - 8 * i) (fun xx m =>
              forLoop (min H (8 * j + 8) - 8 * j) (fun yy m =>
                m.write32 (d0 + (8 * i + xx) * S + (8 * j + yy))
                  (src.read32 (s0 + (8 * j + yy) * S + (8 * i + xx)))) m) m) m) dst := by
  unfold rasterXYFlip
  simp only [hs, hd, steps_block]
  apply forLoop_congr
  intro i hi m
  apply forLoop_congr
  intro j hj m
  have hbx : Min.min (W : Int) ((i : Int) * 8 + 8) - (i : Int) * 8
      = ((min W (8 * i + 8) - 8 * i : Nat) : Int) := by omega
  have hby : Min.min (H : Int) ((j : Int) * 8 + 8) - (j : Int) * 8
      = ((min H (8 * j + 8) - 8 * j : Nat) : Int) := by omega
  rw [hbx, hby]
  simp only [Int.toNat_natCast]
  rw [xyflip_cols]
  simp only
  apply forLoop_congr
  intro xx _ m
  apply forLoop_congr
  intro yy _ m
  have e1 : ((d0 : Int) + (i : Int) * 8 * S + (j : Int) * 8 + (xx : Int) * S + (yy : Int))
      = ((d0 + (8 * i + xx) * S + (8 * j + yy) : Nat) : Int) := by push_cast; ring
  have e2 : ((s0 : Int) + (i : Int) * 8 + (j : Int) * 8 * S + (xx : Int) + (yy : Int) * S)
      = ((s0 + (8 * j + yy) * S + (8 * i + xx) : Nat) : Int) := by push_cast; ring
  rw [e1, e2, Int.toNat_natCast, Int.toNat_natCast]

/-- The four loops of the tiled transpose store `src[s0 + Y * S + X]` in every cell
`d0 + X * S + Y` with `X < W`, `Y < H`, and keep every other cell, when the rows of the target
do not overlap (`H ≤ S`). -/
theorem xyflip_tiled_maps (src : Mem) (S W H s0 d0 : Nat) (hH : H ≤ S) :
    Maps Mem.read32 (fun c => ∃ X, X < W ∧ ∃ Y, Y < H ∧ c = d0 + X * S + Y)
      (fun c _ => src.read32 (s0 + ((c - d0) % S) * S + (c - d0) / S))
      (fun m => forLoop ((W + 7) / 8) (fun i m =>
          forLoop ((H + 7) / 8) (fun j m =>
            forLoop (min W (8 * i + 8) - 8 * i) (fun xx m =>
              forLoop (min H (8 * j + 8) - 8 * j) (fun yy m =>
                m.write32 (d0 + (8 * i + xx) * S + (8 * j + yy))
                  (src.read32 (s0 + (8 * j + yy) * S + (8 * i + xx)))) m) m) m) m) := by
  have h4 := paints_forLoop Mem.read32 ((W + 7) / 8)
    (fun i c => ∃ j, j < (H + 7) / 8 ∧ ∃ xx, xx < min W (8 * i + 8) - 8 * i
      ∧ ∃ yy, yy < min H (8 * j + 8) - 8 * j ∧ c = d0 + (8 * i + xx) * S + (8 * j + yy))
    (fun c => src.read32 (s0 + ((c - d0) % S) * S + (c - d0) / S))
    (fun i m =>
      forLoop ((H + 7) / 8) (fun j m =>
        forLoop (min W (8 * i + 8) - 8 * i) (fun xx m =>
          forLoop (min H (8 * j + 8) - 8 * j) (fun yy m =>
            m.write32 (d0 + (8 * i + xx) * S + (8 * j + yy))
              (src.read32 (s0 + (8 * j + yy) * S + (8 * i + xx)))) m) m) m)
    (fun i _ => paints_forLoop Mem.read32 ((H + 7) / 8)
      (fun j c => ∃ xx, xx < min W (8 * i + 8) - 8 * i
        ∧ ∃ yy, yy < min H (8 * j + 8) - 8 * j ∧ c = d0 + (8 * i + xx) * S + (8 * j + yy)) _ _
      (fun j _ => paints_forLoop Mem.read32 (min W (8 * i + 8) - 8 * i)
        (fun xx c => ∃ yy, yy < min H (8 * j + 8) - 8 * j
          ∧ c = d0 + (8 * i + xx) * S + (8 * j + yy)) _ _
        (fun xx _ => paints_forLoop Mem.read32 (min H (8 * j + 8) - 8 * j)
          (fun yy c => c = d0 + (8 * i + xx) * S + (8 * j + yy)) _ _
          (fun yy hyy => by
            refine maps_congrF _ _ _ _ _ (fun c v hc => ?_)
              (maps_write32 _ (fun _ => src.read32 (s0 + (8 * j + yy) * S + (8 * i + xx))))
            obtain ⟨e1, e2⟩ := cell_div_mod S d0 (8 * j + yy) (8 * i + xx) (by omega)
            have hc2 : c = d0 + (8 * i + xx) * S + (8 * j + yy) := hc
            show src.read32 (s0 + (8 * j + yy) * S + (8 * i + xx)) % 4294967296
              = src.read32 (s0 + ((c - d0) % S) * S + (c - d0) / S)
            rw [hc2, e1, e2, Nat.mod_eq_of_lt (read32_lt _ _)]))))
  refine maps_congr _ _ _ _ _ (fun c => ?_) h4
  constructor
  · rintro ⟨i, hi, j, hj, xx, hxx, yy, hyy, e⟩
    exact ⟨8 * i + xx, by omega, 8 * j + yy, by omega, e⟩
  · rintro ⟨X, hX, Y, hY, e⟩
    refine ⟨X / 8, by omega, Y / 8, by omega, X % 8, by omega, Y % 8, by omega, ?_⟩
    rw [Nat.div_add_mod, Nat.div_add_mod]
    exact e

/-- For buffers and a region of natural offsets, `naiveXYFlip` is a nest of two loops over
natural numbers. -/
theorem naive_eq_nat (src dst : Mem) (S W H mx my : Nat) (bmax : Point) (flipped : Bool) :
    naiveXYFlip src dst S W H ⟨⟨mx, my⟩, bmax⟩ flipped
      = forLoop W (fun i m => forLoop H (fun j m =>
          m.write32 ((if flipped then my * S + mx else mx * S + my) + i * S + j)
            (src.read32 ((if flipped then mx * S + my else my * S + mx) + j * S + i))) m) dst := by
  unfold naiveXYFlip
  simp only [Int.toNat_natCast]
  apply forLoop_congr
  intro i _ m
  apply forLoop_congr
  intro j _ m
  have a1 : (((my : Int) + i) * S + mx + j) = ((my * S + mx + i * S + j : Nat) : Int) := by
    push_cast; ring
  have a2 : (((mx : Int) + j) * S + my + i) = ((mx * S + my + j * S + i : Nat) : Int) := by
    push_cast; ring
  have a3 : (((mx : Int) + i) * S + my + j) = ((mx * S + my + i * S + j : Nat) : Int) := by
    push_cast; ring
  have a4 : (((my : Int) + j) * S + mx + i) = ((my * S + mx + j * S + i : Nat) : Int) := by
    push_cast; ring
  cases flipped with
  | true => simp only [if_true, a1, a2, Int.toNat_natCast]
  | false => simp only [Bool.false_eq_true, if_false, a3, a4, Int.toNat_natCast]

theorem naive_maps (src : Mem) (S W H s0 d0 : Nat) (hH : H ≤ S) :
    Maps Mem.read32 (fun c => ∃ X, X < W ∧ ∃ Y, Y < H ∧ c = d0 + X * S + Y)
      (fun c _ => src.read32 (s0 + ((c - d0) % S) * S + (c - d0) / S))
      (fun m => forLoop W (fun i m => forLoop H (fun j m =>
          m.write32 (d0 + i * S + j) (src.read32 (s0 + j * S + i))) m) m) :=
  paints_forLoop Mem.read32 W (fun X c => ∃ Y, Y < H ∧ c = d0 + X * S + Y) _ _
    (fun X _ => paints_forLoop Mem.read32 H (fun Y c => c = d0 + X * S + Y) _ _
      (fun Y hY => by
        refine maps_congrF _ _ _ _ _ (fun c v hc => ?_)
          (maps_write32 _ (fun _ => src.read32 (s0 + Y * S + X)))
        obtain ⟨e1, e2⟩ := cell_div_mod S d0 Y X (by omega)
        have hc2 : c = d0 + X * S + Y := hc
        show src.read32 (s0 + Y * S + X) % 4294967296
          = src.read32 (s0 + ((c - d0) % S) * S + (c - d0) / S)
        rw [hc2, e1, e2, Nat.mod_eq_of_lt (read32_lt _ _)]))

theorem xyflip_nat (src dst : Mem) (S W H mx my : Nat) (bmax : Point) (flipped : Bool) :
    rasterXYFlip src dst S W H ⟨⟨mx, my⟩, bmax⟩ flipped
      = forLoop ((W + 7) / 8) (fun i m =>
          forLoop ((H + 7) / 8) (fun j m =>
            forLoop (min W (8 * i + 8) - 8 * i) (fun xx m =>
              forLoop (min H (8 * j + 8) - 8 * j) (fun yy m =>
                m.write32 ((if flipped then my * S + mx else mx * S + my)
                    + (8 * i + xx) * S + (8 * j + yy))
                  (src.read32 ((if flipped then mx * S + my else my * S + mx)
                    + (8 * j + yy) * S + (8 * i + xx)))) m) m) m) dst := by
  apply xyflip_eq_tiled
  · cases flipped <;> simp
  · cases flipped <;> simp

/-- C27: for distinct source and target buffers, a region whose corner `min` and the sizes
`stride`, `w`, `h` are not negative, and target rows that do not overlap (`h ≤ stride`):
`rasterXYFlip` with `flipped = false` leaves `src[(min.y + j) * stride + min.x + i]` in
`dst[(min.x + i) * stride + min.y + j]` for every `i < w`, `j < h`; with `flipped = true` it
leaves `src[(min.x + j) * stride + min.y + i]` in `dst[(min.y + i) * stride + min.x + j]`;
every other cell of `dst` is unchanged; and the block-tiled loop gives the buffer of the
cell-by-cell transpose, whatever `w` and `h` are. -/
theorem rasterXYFlip_transpose (src dst : Mem) (stride w h : Int) (bbox : RenderRegion)
    (flipped : Bool) (hs : 0 ≤ stride) (hw : 0 ≤ w) (hh : 0 ≤ h) (hx : 0 ≤ bbox.min.x)
    (hy : 0 ≤ bbox.min.y) (hhs : h ≤ stride) :
    (flipped = false → ∀ i j : Nat, (i : Int) < w → (j : Int) < h →
      (rasterXYFlip src dst stride w h bbox flipped).read32
          ((bbox.min.x + i) * stride + bbox.min.y + j).toNat
        = src.read32 ((bbox.min.y + j) * stride + bbox.min.x + i).toNat)
    ∧ (flipped = true → ∀ i j : Nat, (i : Int) < w → (j : Int) < h →
      (rasterXYFlip src dst stride w h bbox flipped).read32
          ((bbox.min.y + i) * stride + bbox.min.x + j).toNat
        = src.read32 ((bbox.min.x + j) * stride + bbox.min.y + i).toNat)
    ∧ (∀ c : Nat,
      (¬ ∃ i j : Nat, (i : Int) < w ∧ (j : Int) < h
        ∧ c = (if flipped then (bbox.min.y + i) * stride + bbox.min.x + j
            else (bbox.min.x + i) * stride + bbox.min.y + j).toNat) →
      (rasterXYFlip src dst stride w h bbox flipped).read32 c = dst.read32 c)
    ∧ (∀ c : Nat, (rasterXYFlip src dst stride w h bbox flipped).read32 c
        = (naiveXYFlip src dst stride w h bbox flipped).read32 c) := by
  obtain ⟨⟨mx, my⟩, bmax⟩ := bbox
  simp only at hx hy
  lift stride to ℕ using hs with S
  lift w to ℕ using hw with W
  lift h to ℕ using hh with H
  lift mx to ℕ using hx
  lift my to ℕ using hy
  have hH : H ≤ S := by exact_mod_cast hhs
  rw [xyflip_nat, naive_eq_nat]
  have hT := xyflip_tiled_maps src S W H (if flipped then mx * S + my else my * S + mx)
    (if flipped then my * S + mx else mx * S + my) hH
  have hN := naive_maps src S W H (if flipped then mx * S + my else my * S + mx)
    (if flipped then my * S + mx else mx * S + my) hH
  have a1 : ∀ i j : Nat, (((my : Int) + i) * S + mx + j).toNat = my * S + mx + i * S + j := by
    intro i j
    have e : (((my : Int) + i) * S + mx + j) = ((my * S + mx + i * S + j : Nat) : Int) := by
      push_cast; ring
    rw [e, Int.toNat_natCast]
  have a3 : ∀ i j : Nat, (((mx : Int) + i) * S + my + j).toNat = mx * S + my + i * S + j := by
    intro i j
    have e : (((mx : Int) + i) * S + my + j) = ((mx * S + my + i * S + j : Nat) : Int) := by
      push_cast; ring
    rw [e, Int.toNat_natCast]
  refine ⟨fun hf i j hi hj => ?_, fun hf i j hi hj => ?_, fun c hc => ?_, fun c => ?_⟩
  · subst hf
    simp only [Bool.false_eq_true, if_false] at hT ⊢
    have hi2 : i < W := by exact_mod_cast hi
    have hj2 : j < H := by exact_mod_cast hj
    rw [a3, a1]
    have := (hT dst (mx * S + my + i * S + j)).1 ⟨i, hi2, j, hj2, rfl⟩
    obtain ⟨e1, e2⟩ := cell_div_mod S (mx * S + my) j i (by omega)
    simp only [e1, e2] at this
    exact this
  · subst hf
    simp only [if_true] at hT ⊢
    have hi2 : i < W := by exact_mod_cast hi
    have hj2 : j < H := by exact_mod_cast hj
    rw [a1, a3]
    have := (hT dst (my * S + mx + i * S + j)).1 ⟨i, hi2, j, hj2, rfl⟩
    obtain ⟨e1, e2⟩ := cell_div_mod S (my * S + mx) j i (by omega)
    simp only [e1, e2] at this
    exact this
  · refine (hT dst c).2 ?_
    rintro ⟨X, hX, Y, hY, e⟩
    refine hc ⟨X, Y, by exact_mod_cast hX, by exact_mod_cast hY, ?_⟩
    cases flipped with
    | true =>
      simp only [if_true] at e ⊢
      rw [a1]; exact e
    | false =>
      simp only [Bool.false_eq_true, if_false] at e ⊢
      rw [a3]; exact e
  · by_cases hc : ∃ X, X < W ∧ ∃ Y, Y < H
        ∧ c = (if flipped then my * S + mx else mx * S + my) + X * S + Y
    · rw [(hT dst c).1 hc, (hN dst c).1 hc]
    · rw [(hT dst c).2 hc, (hN dst c).2 hc]

/-- C27 at a 10 × 9 region from (1,2) of a stride of 16, sizes that are no multiples of the
block: the target cell 165 of the pixel `i = 9`, `j = 3` holds the source cell 90, and the
tiled loop agrees with the cell-by-cell transpose there. -/
theorem rasterXYFlip_transpose_witness :
    (rasterXYFlip rampImage (fun _ => 0) 16 10 9 ⟨⟨1, 2⟩, ⟨11, 11⟩⟩ false).read32 165
      = rampImage.read32 90 ∧ rampImage.read32 90 = 0x706F6E6D
    ∧ (rasterXYFlip rampImage (fun _ => 0) 16 10 9 ⟨⟨1, 2⟩, ⟨11, 11⟩⟩ false).read32 165
      = (naiveXYFlip rampImage (fun _ => 0) 16 10 9 ⟨⟨1, 2⟩, ⟨11, 11⟩⟩ false).read32 165 := by
  have h := rasterXYFlip_transpose rampImage (fun _ => 0) 16 10 9 ⟨⟨1, 2⟩, ⟨11, 11⟩⟩ false
    (by decide) (by decide) (by decide) (by decide) (by decide) (by decide)
  exact ⟨h.1 rfl 9 3 (by decide) (by decide), by decide, h.2.2.2 165⟩

/-! ## Samples out of range in the scaled image kernels -/

/-- The test of the two range macros is the specification's: for a coordinate `v` whose
conversion `(uint32_t)(v + 0.5f)` is defined, `v ≤ -0.5 ∨ (uint32_t)(v + 0.5) ≥ n` holds exactly
when `v` is out of range. -/
theorem range_test_iff (v : Rat) (n : Nat) (hfit : v + 1 / 2 < 4294967296) :
    (v ≤ -(1 / 2) ∨ u32 (truncI (v + 1 / 2)) ≥ n) ↔ outOfRange v n := by
  unfold outOfRange
  by_cases h : v ≤ -(1 / 2)
  · exact ⟨fun _ => Or.inl h, fun _ => Or.inl h⟩
  · have h0 : 0 ≤ v + 1 / 2 := by linarith [not_le.mp h]
    have e : truncI (v + 1 / 2) = ⌊v + 1 / 2⌋ := by
      unfold truncI
      rw [if_pos h0]
      rfl
    have f0 : 0 ≤ ⌊v + 1 / 2⌋ := Int.floor_nonneg.mpr h0
    have f1 : ⌊v + 1 / 2⌋ < 4294967296 := by
      rw [Int.floor_lt]
      exact_mod_cast hfit
    have eu : u32 (truncI (v + 1 / 2)) = ⌊v + 1 / 2⌋.toNat := by
      rw [e]
      unfold u32
      rw [Int.emod_eq_of_lt f0 f1]
    rw [eu]
    simp only [h, false_or, ge_iff_le]
    constructor
    · intro hn
      have : (n : Int) ≤ ⌊v + 1 / 2⌋ := by omega
      have := Int.le_floor.mp this
      have e2 : ((n : Int) : Rat) = (n : Rat) := by norm_cast
      rw [e2] at this
      linarith
    · intro hn
      have : (n : Int) ≤ ⌊v + 1 / 2⌋ := by
        rw [Int.le_floor]
        have e2 : ((n : Int) : Rat) = (n : Rat) := by norm_cast
        rw [e2]
        linarith
      omega

theorem range_X_none_iff (itransform : Matrix) (image : SwImage) (x : Int)
    (hfit : scaledSx itransform x + 1 / 2 < 4294967296) :
    SCALED_IMAGE_RANGE_X itransform image x = none
      ↔ outOfRange (scaledSx itransform x) image.w := by
  rw [← range_test_iff _ _ hfit]
  unfold SCALED_IMAGE_RANGE_X scaledSx
  simp only
  split <;> simp_all

theorem range_Y_none_iff (itransform : Matrix) (image : SwImage) (down : Bool) (n : Nat)
    (y : Int) (hfit : scaledSy itransform y + 1 / 2 < 4294967296) :
    SCALED_IMAGE_RANGE_Y itransform image down n y = none
      ↔ outOfRange (scaledSy itransform y) image.h := by
  rw [← range_test_iff _ _ hfit]
  unfold SCALED_IMAGE_RANGE_Y scaledSy
  simp only
  split
  · simp_all
  · split <;> simp_all

/-- A property of the buffer kept by every pass that returns is kept by the loop. -/
theorem bindLoop_keeps (Q : Mem → Prop) (n : Nat) (f : Nat → Mem → Option Mem)
    (h : ∀ j, j < n → ∀ m m', Q m → f j m = some m' → Q m') (m0 : Mem) (h0 : Q m0) :
    ∀ m', forLoop n (fun j (om : Option Mem) => om.bind (f j)) (some m0) = some m' → Q m' := by
  induction n with
  | zero =>
    intro m' e
    simp only [forLoop, Option.some.injEq] at e
    exact e ▸ h0
  | succ k ih =>
    intro m' e
    simp only [forLoop] at e
    cases hk : forLoop k (fun j (om : Option Mem) => om.bind (f j)) (some m0) with
    | none => rw [hk] at e; simp at e
    | some m =>
      rw [hk] at e
      exact h k (Nat.lt_succ_self k) m m'
        (ih (fun j hj => h j (Nat.lt_succ_of_lt hj)) m hk) e

/-- A loop whose every pass returns, returns. -/
theorem bindLoop_some (n : Nat) (f : Nat → Mem → Option Mem)
    (h : ∀ j, j < n → ∀ m, ∃ m', f j m = some m') (m0 : Mem) :
    ∃ m', forLoop n (fun j (om : Option Mem) => om.bind (f j)) (some m0) = some m' := by
  induction n with
  | zero => exact ⟨m0, rfl⟩
  | succ k ih =>
    obtain ⟨m, hm⟩ := ih (fun j hj => h j (Nat.lt_succ_of_lt hj))
    obtain ⟨m', hm'⟩ := h k (Nat.lt_succ_self k) m
    exact ⟨m', by simp only [forLoop, hm, Option.some_bind, hm']⟩

/-- The walk over spans: a property kept by every span that returns is kept by the walk. -/
theorem bindFold_keeps {α : Type} (Q : Mem → Prop) (l : List α) (f : α → Mem → Option Mem)
    (h : ∀ a, a ∈ l → ∀ m m', Q m → f a m = some m' → Q m') :
    ∀ (om : Option Mem), (∀ m, om = some m → Q m) →
      ∀ m', l.foldl (fun (om : Option Mem) a => om.bind (f a)) om = some m' → Q m' := by
  induction l with
  | nil =>
    intro om h0 m' e
    exact h0 m' e
  | cons a t ih =>
    intro om h0 m' e
    simp only [List.foldl] at e
    refine ih (fun b hb => h b (List.mem_cons_of_mem a hb)) (om.bind (f a)) ?_ m' e
    intro m hm
    cases om with
    | none => simp at hm
    | some m1 => exact h a (List.mem_cons_self a t) m1 m (h0 m1 rfl) hm

theorem bindFold_some {α : Type} (l : List α) (f : α → Mem → Option Mem)
    (h : ∀ a, a ∈ l → ∀ m, ∃ m', f a m = some m') :
    ∀ m0, ∃ m', l.foldl (fun (om : Option Mem) a => om.bind (f a)) (some m0) = some m' := by
  induction l with
  | nil => exact fun m0 => ⟨m0, rfl⟩
  | cons a t ih =>
    intro m0
    obtain ⟨m1, h1⟩ := h a (List.mem_cons_self a t) m0
    obtain ⟨m', hm'⟩ := ih (fun b hb => h b (List.mem_cons_of_mem a hb)) m1
    exact ⟨m', by simp only [List.foldl, Option.some_bind, h1, hm']⟩

/-- Two cells of a block of rows of at most `S` columns coincide only when row and column
do. -/
theorem block_cell_ne (base S W j k i' i : Nat) (hW : W ≤ S) (hi' : i' < W) (hi : i < W)
    (h : ¬ (j = k ∧ i' = i)) : base + k * S + i ≠ base + j * S + i' := by
  intro e
  have e2 : k * S + i = j * S + i' := by omega
  obtain ⟨h1, h2⟩ := cell_unique S i k i' j (by omega) (by omega) e2
  exact h ⟨h1.symm, h2.symm⟩

/-- The kernel `_rasterScaledImage` on a 32-bit surface keeps the cell of a pixel of the region
that one of the two range macros leaves by `continue`. -/
theorem scaledImage_keeps32 (P : SwCommon) (s : SwSurface) (image : SwImage)
    (itransform : Matrix) (bbox : RenderRegion) (opacity : Nat) (i k : Nat)
    (h4 : s.channelSize = 4) (hi : (i : Int) < bbox.max.x - bbox.min.x)
    (hW : bbox.max.x - bbox.min.x ≤ s.stride)
    (hskip : SCALED_IMAGE_RANGE_Y itransform image (decide (image.scale < DOWN_SCALE_TOLERANCE))
        (_sampleSize image.scale) (bbox.min.y + k) = none
      ∨ SCALED_IMAGE_RANGE_X itransform image (bbox.min.x + i) = none)
    (r : Bool × SwSurface) (e : _rasterScaledImage P s image itransform bbox opacity = some r) :
    r.1 = true
      ∧ r.2.buf.read32 (u32 (bbox.min.y * s.stride + bbox.min.x) + k * s.stride + i)
        = s.buf.read32 (u32 (bbox.min.y * s.stride + bbox.min.x) + k * s.stride + i) := by
  unfold _rasterScaledImage at e
  simp only [h4, if_true] at e
  rw [Option.map_eq_some'] at e
  obtain ⟨m', hm', rfl⟩ := e
  refine ⟨rfl, ?_⟩
  simp only
  refine bindLoop_keeps
    (fun m => m.read32 (u32 (bbox.min.y * s.stride + bbox.min.x) + k * s.stride + i)
      = s.buf.read32 (u32 (bbox.min.y * s.stride + bbox.min.x) + k * s.stride + i))
    _ _ ?_ s.buf rfl m' hm'
  intro j _ m m1 hQ hf
  simp only at hf
  split at hf
  · rw [Option.some.injEq] at hf
    exact hf ▸ hQ
  · rename_i sy miny maxy hy
    refine bindLoop_keeps
      (fun m => m.read32 (u32 (bbox.min.y * s.stride + bbox.min.x) + k * s.stride + i)
        = s.buf.read32 (u32 (bbox.min.y * s.stride + bbox.min.x) + k * s.stride + i))
      _ _ ?_ m hQ m1 hf
    intro i' hi' m2 m3 hQ2 hg
    simp only at hg
    split at hg
    · rw [Option.some.injEq] at hg
      exact hg ▸ hQ2
    · rename_i sx hx
      rw [Option.map_eq_some'] at hg
      obtain ⟨src, _, rfl⟩ := hg
      show Mem.read32 (Mem.write32 _ _ _) _ = _
      rw [read32_write32_ne _ _ _ _ ?_]
      · exact hQ2
      · refine block_cell_ne _ s.stride (bbox.max.x - bbox.min.x).toNat j k i' i (by omega)
          hi' (by omega) ?_
        rintro ⟨rfl, rfl⟩
        rcases hskip with h | h
        · rw [h] at hy; cases hy
        · rw [h] at hx; cases hx

/-- The kernel `_rasterScaledImage` on an 8-bit surface keeps the cell of a pixel of the region
that one of the two range macros leaves by `continue`. -/
theorem scaledImage_keeps8 (P : SwCommon) (s : SwSurface) (image : SwImage)
    (itransform : Matrix) (bbox : RenderRegion) (opacity : Nat) (i k : Nat)
    (h1 : s.channelSize = 1) (hi : (i : Int) < bbox.max.x - bbox.min.x)
    (hW : bbox.max.x - bbox.min.x ≤ s.stride)
    (hskip : SCALED_IMAGE_RANGE_Y itransform image (decide (image.scale < DOWN_SCALE_TOLERANCE))
        (_sampleSize image.scale) (bbox.min.y + k) = none
      ∨ SCALED_IMAGE_RANGE_X itransform image (bbox.min.x + i) = none)
    (r : Bool × SwSurface) (e : _rasterScaledImage P s image itransform bbox opacity = some r) :
    r.1 = true
      ∧ r.2.buf.read8 (u32 (bbox.min.y * s.stride + bbox.min.x) + k * s.stride + i)
        = s.buf.read8 (u32 (bbox.min.y * s.stride + bbox.min.x) + k * s.stride + i) := by
  unfold _rasterScaledImage at e
  simp only at e
  rw [if_neg (by omega), if_pos h1, Option.map_eq_some'] at e
  obtain ⟨m', hm', rfl⟩ := e
  refine ⟨rfl, ?_⟩
  simp only
  refine bindLoop_keeps
    (fun m => m.read8 (u32 (bbox.min.y * s.stride + bbox.min.x) + k * s.stride + i)
      = s.buf.read8 (u32 (bbox.min.y * s.stride + bbox.min.x) + k * s.stride + i))
    _ _ ?_ s.buf rfl m' hm'
  intro j _ m m1 hQ hf
  simp only at hf
  split at hf
  · rw [Option.some.injEq] at hf
    exact hf ▸ hQ
  · rename_i sy miny maxy hy
    refine bindLoop_keeps
      (fun m => m.read8 (u32 (bbox.min.y * s.stride + bbox.min.x) + k * s.stride + i)
        = s.buf.read8 (u32 (bbox.min.y * s.stride + bbox.min.x) + k * s.stride + i))
      _ _ ?_ m hQ m1 hf
    intro i' hi' m2 m3 hQ2 hg
    simp only at hg
    split at hg
    · rw [Option.some.injEq] at hg
      exact hg ▸ hQ2
    · rename_i sx hx
      rw [Option.map_eq_some'] at hg
      obtain ⟨src, _, rfl⟩ := hg
      show Mem.read8 (Mem.write8 _ _ _) _ = _
      rw [read8_write8_ne _ _ _ _ ?_]
      · exact hQ2
      · refine block_cell_ne _ s.stride (bbox.max.x - bbox.min.x).toNat j k i' i (by omega)
          hi' (by omega) ?_
        rintro ⟨rfl, rfl⟩
        rcases hskip with h | h
        · rw [h] at hy; cases hy
        · rw [h] at hx; cases hx

/-- The kernel `_rasterScaledBlendingImage` keeps the cell of a pixel of the region that one of
the two range macros leaves by `continue`. -/
theorem scaledBlendingImage_keeps (P : SwCommon) (s : SwSurface) (image : SwImage)
    (itransform : Matrix) (bbox : RenderRegion) (opacity : Nat) (i k : Nat)
    (hi : (i : Int) < bbox.max.x - bbox.min.x)
    (hW : bbox.max.x - bbox.min.x ≤ s.stride)
    (hskip : SCALED_IMAGE_RANGE_Y itransform image (decide (image.scale < DOWN_SCALE_TOLERANCE))
        (_sampleSize image.scale) (bbox.min.y + k) = none
      ∨ SCALED_IMAGE_RANGE_X itransform image (bbox.min.x + i) = none)
    (r : Bool × SwSurface)
    (e : _rasterScaledBlendingImage P s image itransform bbox opacity = some r) :
    r.2.buf.read32 (u32 (bbox.min.y * s.stride + bbox.min.x) + k * s.stride + i)
        = s.buf.read32 (u32 (bbox.min.y * s.stride + bbox.min.x) + k * s.stride + i) := by
  unfold _rasterScaledBlendingImage at e
  split at e
  · rw [Option.some.injEq] at e
    rw [← e]
  · split at e
    · rw [Option.some.injEq] at e
      rw [← e]
    · rename_i blender hb
      simp only at e
      rw [Option.map_eq_some'] at e
      obtain ⟨m', hm', rfl⟩ := e
      simp only
      refine bindLoop_keeps
        (fun m => m.read32 (u32 (bbox.min.y * s.stride + bbox.min.x) + k * s.stride + i)
          = s.buf.read32 (u32 (bbox.min.y * s.stride + bbox.min.x) + k * s.stride + i))
        _ _ ?_ s.buf rfl m' hm'
      intro j _ m m1 hQ hf
      simp only at hf
      split at hf
      · rw [Option.some.injEq] at hf
        exact hf ▸ hQ
      · rename_i sy miny maxy hy
        refine bindLoop_keeps
          (fun m => m.read32 (u32 (bbox.min.y * s.stride + bbox.min.x) + k * s.stride + i)
            = s.buf.read32 (u32 (bbox.min.y * s.stride + bbox.min.x) + k * s.stride + i))
          _ _ ?_ m hQ m1 hf
        intro i' hi' m2 m3 hQ2 hg
        simp only at hg
        split at hg
        · rw [Option.some.injEq] at hg
          exact hg ▸ hQ2
        · rename_i sx hx
          rw [Option.map_eq_some'] at hg
          obtain ⟨src, _, rfl⟩ := hg
          show Mem.read32 (Mem.write32 _ _ _) _ = _
          rw [read32_write32_ne _ _ _ _ ?_]
          · exact hQ2
          · refine block_cell_ne _ s.stride (bbox.max.x - bbox.min.x).toNat j k i' i (by omega)
              hi' (by omega) ?_
            rintro ⟨rfl, rfl⟩
            rcases hskip with h | h
            · rw [h] at hy; cases hy
            · rw [h] at hx; cases hx

/-- A cell of a span that lies within a row of `S` cells is the cell of the pixel `(x, y)`
only at that pixel. -/
theorem span_cell_ne (S x y sx sy i' : Nat) (hx : x < S) (hs : sx + i' < S)
    (h : ¬ (sy = y ∧ sx + i' = x)) : y * S + x ≠ sy * S + sx + i' := by
  intro e
  have e2 : y * S + x = sy * S + (sx + i') := by omega
  obtain ⟨h1, h2⟩ := cell_unique S x y (sx + i') sy hx hs e2
  exact h ⟨h1.symm, h2.symm⟩

theorem u32_column (a b : Nat) (h : a + b < 4294967296) :
    ((u32 ((a : Int) + b) : Nat) : Int) = ((a + b : Nat) : Int) := by
  have e : ((a : Int) + b) = ((a + b : Nat) : Int) := by push_cast; ring
  rw [e, u32_natCast _ h]

/-- The kernel `_rasterScaledRleImage` keeps the cell of a pixel that one of the two range
macros leaves by `continue`, when every span lies within its row of the surface. -/
theorem scaledRleImage_keeps (P : SwCommon) (s : SwSurface) (image : SwImage)
    (itransform : Matrix) (bbox : RenderRegion) (opacity : Nat) (rle : SwRle) (x y : Nat)
    (hr : image.rle = some rle) (hx : x < s.stride) (hS : s.stride ≤ 4294967296)
    (hspans : ∀ sp, sp ∈ rle.spans →
      sp.x + sp.len ≤ s.stride ∧ sp.y * s.stride + sp.x < 4294967296)
    (hskip : SCALED_IMAGE_RANGE_Y itransform image (decide (image.scale < DOWN_SCALE_TOLERANCE))
        (_sampleSize image.scale) y = none
      ∨ SCALED_IMAGE_RANGE_X itransform image x = none)
    (r : Bool × SwSurface)
    (e : _rasterScaledRleImage P s image itransform bbox opacity = some r) :
    r.1 = true ∧ r.2.buf.read32 (y * s.stride + x) = s.buf.read32 (y * s.stride + x) := by
  unfold _rasterScaledRleImage at e
  rw [hr] at e
  simp only at e
  rw [Option.map_eq_some'] at e
  obtain ⟨m', hm', rfl⟩ := e
  refine ⟨rfl, ?_⟩
  simp only
  refine bindFold_keeps
    (fun m => m.read32 (y * s.stride + x) = s.buf.read32 (y * s.stride + x))
    _ _ ?_ (some s.buf) (fun m hm => by rw [Option.some.injEq] at hm; rw [← hm]) m' hm'
  intro sp hsp m m1 hQ hf
  obtain ⟨hlen, hfit⟩ := hspans sp hsp
  simp only at hf
  split at hf
  · rw [Option.some.injEq] at hf
    exact hf ▸ hQ
  · rename_i sy miny maxy hy
    refine bindLoop_keeps
      (fun m => m.read32 (y * s.stride + x) = s.buf.read32 (y * s.stride + x))
      _ _ ?_ m hQ m1 hf
    intro i' hi' m2 m3 hQ2 hg
    simp only at hg
    split at hg
    · rw [Option.some.injEq] at hg
      exact hg ▸ hQ2
    · rename_i sx hx2
      rw [Option.map_eq_some'] at hg
      obtain ⟨src, _, rfl⟩ := hg
      show Mem.read32 (Mem.write32 _ _ _) _ = _
      rw [read32_write32_ne _ _ _ _ ?_]
      · exact hQ2
      · rw [u32_cell _ _ _ hfit]
        refine span_cell_ne s.stride x y sp.x sp.y i' hx (by omega) ?_
        rintro ⟨rfl, rfl⟩
        rw [u32_column _ _ (by omega)] at hx2
        rcases hskip with h | h
        · rw [h] at hy; cases hy
        · rw [h] at hx2; cases hx2

/-- The kernel `_rasterScaledBlendingRleImage` keeps the cell of a pixel that one of the two
range macros leaves by `continue`, when every span lies within its row of the surface. -/
theorem scaledBlendingRleImage_keeps (P : SwCommon) (s : SwSurface) (image : SwImage)
    (itransform : Matrix) (bbox : RenderRegion) (opacity : Nat) (x y : Nat)
    (hx : x < s.stride) (hS : s.stride ≤ 4294967296)
    (hspans : ∀ rle, image.rle = some rle → ∀ sp, sp ∈ rle.spans →
      sp.x + sp.len ≤ s.stride ∧ sp.y * s.stride + sp.x < 4294967296)
    (hskip : SCALED_IMAGE_RANGE_Y itransform image (decide (image.scale < DOWN_SCALE_TOLERANCE))
        (_sampleSize image.scale) y = none
      ∨ SCALED_IMAGE_RANGE_X itransform image x = none)
    (r : Bool × SwSurface)
    (e : _rasterScaledBlendingRleImage P s image itransform bbox opacity = some r) :
    r.2.buf.read32 (y * s.stride + x) = s.buf.read32 (y * s.stride + x) := by
  unfold _rasterScaledBlendingRleImage at e
  split at e
  · rename_i blender rle hb hr
    simp only at e
    rw [Option.map_eq_some'] at e
    obtain ⟨m', hm', rfl⟩ := e
    simp only
    refine bindFold_keeps
      (fun m => m.read32 (y * s.stride + x) = s.buf.read32 (y * s.stride + x))
      _ _ ?_ (some s.buf) (fun m hm => by rw [Option.some.injEq] at hm; rw [← hm]) m' hm'
    intro sp hsp m m1 hQ hf
    obtain ⟨hlen, hfit⟩ := hspans rle hr sp hsp
    simp only at hf
    split at hf
    · rw [Option.some.injEq] at hf
      exact hf ▸ hQ
    · rename_i sy miny maxy hy
      refine bindLoop_keeps
        (fun m => m.read32 (y * s.stride + x) = s.buf.read32 (y * s.stride + x))
        _ _ ?_ m hQ m1 hf
      intro i' hi' m2 m3 hQ2 hg
      simp only at hg
      split at hg
      · rw [Option.some.injEq] at hg
        exact hg ▸ hQ2
      · rename_i sx hx2
        rw [Option.map_eq_some'] at hg
        obtain ⟨src, _, rfl⟩ := hg
        have hne : y * s.stride + x ≠ u32 ((sp.y : Int) * s.stride + sp.x) + i' := by
          rw [u32_cell _ _ _ hfit]
          refine span_cell_ne s.stride x y sp.x sp.y i' hx (by omega) ?_
          rintro ⟨rfl, rfl⟩
          rw [u32_column _ _ (by omega)] at hx2
          rcases hskip with h | h
          · rw [h] at hy; cases hy
          · rw [h] at hx2; cases hx2
        split
        · show Mem.read32 (Mem.write32 _ _ _) _ = _
          rw [read32_write32_ne _ _ _ _ hne]
          exact hQ2
        · show Mem.read32 (Mem.write32 _ _ _) _ = _
          rw [read32_write32_ne _ _ _ _ hne]
          exact hQ2
  · rw [Option.some.injEq] at e
    rw [← e]

/-- The kernel `_rasterScaledMattedRleImage` keeps the cell of a pixel that one of the two
range macros leaves by `continue`, when every span lies within its row of the surface. -/
theorem scaledMattedRleImage_keeps (P : SwCommon) (s : SwSurface) (image : SwImage)
    (itransform : Matrix) (bbox : RenderRegion) (opacity : Nat) (x y : Nat)
    (hx : x < s.stride) (hS : s.stride ≤ 4294967296)
    (hspans : ∀ rle, image.rle = some rle → ∀ sp, sp ∈ rle.spans →
      sp.x + sp.len ≤ s.stride ∧ sp.y * s.stride + sp.x < 4294967296)
    (hskip : SCALED_IMAGE_RANGE_Y itransform image (decide (image.scale < DOWN_SCALE_TOLERANCE))
        (_sampleSize image.scale) y = none
      ∨ SCALED_IMAGE_RANGE_X itransform image x = none)
    (r : Bool × SwSurface)
    (e : _rasterScaledMattedRleImage P s image itransform bbox opacity = some r) :
    r.2.buf.read32 (y * s.stride + x) = s.buf.read32 (y * s.stride + x) := by
  unfold _rasterScaledMattedRleImage at e
  split at e
  · rename_i cmp rle hc hr
    simp only at e
    rw [Option.map_eq_some'] at e
    obtain ⟨m', hm', rfl⟩ := e
    simp only
    refine bindFold_keeps
      (fun m => m.read32 (y * s.stride + x) = s.buf.read32 (y * s.stride + x))
      _ _ ?_ (some s.buf) (fun m hm => by rw [Option.some.injEq] at hm; rw [← hm]) m' hm'
    intro sp hsp m m1 hQ hf
    obtain ⟨hlen, hfit⟩ := hspans rle hr sp hsp
    simp only at hf
    split at hf
    · rw [Option.some.injEq] at hf
      exact hf ▸ hQ
    · rename_i sy miny maxy hy
      refine bindLoop_keeps
        (fun m => m.read32 (y * s.stride + x) = s.buf.read32 (y * s.stride + x))
        _ _ ?_ m hQ m1 hf
      intro i' hi' m2 m3 hQ2 hg
      simp only at hg
      split at hg
      · rw [Option.some.injEq] at hg
        exact hg ▸ hQ2
      · rename_i sx hx2
        rw [Option.map_eq_some'] at hg
        obtain ⟨src, _, rfl⟩ := hg
        show Mem.read32 (Mem.write32 _ _ _) _ = _
        rw [read32_write32_ne _ _ _ _ ?_]
        · exact hQ2
        · rw [u32_cell _ _ _ hfit]
          refine span_cell_ne s.stride x y sp.x sp.y i' hx (by omega) ?_
          rintro ⟨rfl, rfl⟩
          rw [u32_column _ _ (by omega)] at hx2
          rcases hskip with h | h
          · rw [h] at hy; cases hy
          · rw [h] at hx2; cases hx2
  · rw [Option.some.injEq] at e
    rw [← e]

/-- One row of a scaled kernel run with the up-scaler returns. -/
theorem scaledRow_some (P : SwCommon) (image : SwImage) (n : Nat) (Rx : Nat → Option Rat)
    (sy : Rat) (miny maxy N : Int) (wr : Nat → Mem → Nat → Mem) (m0 : Mem) :
    ∃ m', forLoop n (fun i (om : Option Mem) =>
        om.bind fun m =>
          match Rx i with
          | none => some m
          | some sx =>
            (scaleMethod P false image.buf image.stride image.w image.h sx sy miny maxy N).map
              fun src => wr i m src)
      (some m0) = some m' := by
  refine bindLoop_some n _ ?_ m0
  intro j _ m
  beta_reduce
  split
  · exact ⟨m, rfl⟩
  · exact ⟨_, rfl⟩

/-- With the up-scaler as the method (`image.scale` not below the tolerance)
`_rasterScaledImage` returns. -/
theorem scaledImage_returns (P : SwCommon) (s : SwSurface) (image : SwImage)
    (itransform : Matrix) (bbox : RenderRegion) (opacity : Nat)
    (hup : ¬ image.scale < DOWN_SCALE_TOLERANCE) :
    ∃ r, _rasterScaledImage P s image itransform bbox opacity = some r := by
  unfold _rasterScaledImage
  simp only [hup, decide_False]
  split
  · obtain ⟨m', hm'⟩ := bindLoop_some (bbox.max.y - bbox.min.y).toNat
      (fun k m =>
        match SCALED_IMAGE_RANGE_Y itransform image false (_sampleSize image.scale)
          (bbox.min.y + k) with
        | none => some m
        | some (sy, miny, maxy) =>
          forLoop (bbox.max.x - bbox.min.x).toNat (fun i (om : Option Mem) =>
            om.bind fun m =>
              match SCALED_IMAGE_RANGE_X itransform image (bbox.min.x + i) with
              | none => some m
              | some sx =>
                (scaleMethod P false image.buf image.stride image.w image.h sx sy miny maxy
                  (i32 (_sampleSize image.scale))).map fun src =>
                  let dst := u32 (bbox.min.y * s.stride + bbox.min.x) + k * s.stride + i
                  let src := if opacity < 255 then P.ALPHA_BLEND src opacity else src
                  m.write32 dst (src + P.ALPHA_BLEND (m.read32 dst) (IA src)))
            (some m))
      (fun j _ m => by
        beta_reduce
        split
        · exact ⟨m, rfl⟩
        · exact scaledRow_some P image _ _ _ _ _ _ _ m) s.buf
    exact ⟨_, by rw [hm']; rfl⟩
  · split
    · obtain ⟨m', hm'⟩ := bindLoop_some (bbox.max.y - bbox.min.y).toNat
        (fun k m =>
          match SCALED_IMAGE_RANGE_Y itransform image false (_sampleSize image.scale)
            (bbox.min.y + k) with
          | none => some m
          | some (sy, miny, maxy) =>
            forLoop (bbox.max.x - bbox.min.x).toNat (fun i (om : Option Mem) =>
              om.bind fun m =>
                match SCALED_IMAGE_RANGE_X itransform image (bbox.min.x + i) with
                | none => some m
                | some sx =>
                  (scaleMethod P false image.buf image.stride image.w image.h sx sy miny maxy
                    (i32 (_sampleSize image.scale))).map fun src =>
                    m.write8 (u32 (bbox.min.y * s.stride + bbox.min.x) + k * s.stride + i)
                      (MULTIPLY (A src) opacity))
              (some m))
        (fun j _ m => by
          beta_reduce
          split
          · exact ⟨m, rfl⟩
          · exact scaledRow_some P image _ _ _ _ _ _ _ m) s.buf
      exact ⟨_, by rw [hm']; rfl⟩
    · exact ⟨_, rfl⟩

theorem map_some_of_some {α β : Type} (g : α → β) (o : Option α) (h : ∃ a, o = some a) :
    ∃ b, o.map g = some b := by
  obtain ⟨a, rfl⟩ := h
  exact ⟨g a, rfl⟩

/-- With the up-scaler as the method `_rasterScaledBlendingImage` returns. -/
theorem scaledBlendingImage_returns (P : SwCommon) (s : SwSurface) (image : SwImage)
    (itransform : Matrix) (bbox : RenderRegion) (opacity : Nat)
    (hup : ¬ image.scale < DOWN_SCALE_TOLERANCE) :
    ∃ r, _rasterScaledBlendingImage P s image itransform bbox opacity = some r := by
  unfold _rasterScaledBlendingImage
  simp only [hup, decide_False]
  split
  · exact ⟨_, rfl⟩
  · split
    · exact ⟨_, rfl⟩
    · apply map_some_of_some
      apply bindLoop_some
      intro j _ m
      beta_reduce
      split
      · exact ⟨m, rfl⟩
      · apply bindLoop_some
        intro i _ m2
        beta_reduce
        split
        · exact ⟨m2, rfl⟩
        · exact ⟨_, rfl⟩

/-- With the up-scaler as the method `_rasterScaledRleImage` returns. -/
theorem scaledRleImage_returns (P : SwCommon) (s : SwSurface) (image : SwImage)
    (itransform : Matrix) (bbox : RenderRegion) (opacity : Nat)
    (hup : ¬ image.scale < DOWN_SCALE_TOLERANCE) :
    ∃ r, _rasterScaledRleImage P s image itransform bbox opacity = some r := by
  unfold _rasterScaledRleImage
  simp only [hup, decide_False]
  split
  · exact ⟨_, rfl⟩
  · apply map_some_of_some
    apply bindFold_some
    intro sp _ m
    beta_reduce
    split
    · exact ⟨m, rfl⟩
    · apply bindLoop_some
      intro i _ m2
      beta_reduce
      split
      · exact ⟨m2, rfl⟩
      · exact ⟨_, rfl⟩

/-- With the up-scaler as the method `_rasterScaledBlendingRleImage` returns. -/
theorem scaledBlendingRleImage_returns (P : SwCommon) (s : SwSurface) (image : SwImage)
    (itransform : Matrix) (bbox : RenderRegion) (opacity : Nat)
    (hup : ¬ image.scale < DOWN_SCALE_TOLERANCE) :
    ∃ r, _rasterScaledBlendingRleImage P s image itransform bbox opacity = some r := by
  unfold _rasterScaledBlendingRleImage
  simp only [hup, decide_False]
  split
  · apply map_some_of_some
    apply bindFold_some
    intro sp _ m
    beta_reduce
    split
    · exact ⟨m, rfl⟩
    · apply bindLoop_some
      intro i _ m2
      beta_reduce
      split
      · exact ⟨m2, rfl⟩
      · exact ⟨_, rfl⟩
  · exact ⟨_, rfl⟩

/-- With the up-scaler as the method `_rasterScaledMattedRleImage` returns. -/
theorem scaledMattedRleImage_returns (P : SwCommon) (s : SwSurface) (image : SwImage)
    (itransform : Matrix) (bbox : RenderRegion) (opacity : Nat)
    (hup : ¬ image.scale < DOWN_SCALE_TOLERANCE) :
    ∃ r, _rasterScaledMattedRleImage P s image itransform bbox opacity = some r := by
  unfold _rasterScaledMattedRleImage
  simp only [hup, decide_False]
  split
  · apply map_some_of_some
    apply bindFold_some
    intro sp _ m
    beta_reduce
    split
    · exact ⟨m, rfl⟩
    · apply bindLoop_some
      intro i _ m2
      beta_reduce
      split
      · exact ⟨m2, rfl⟩
      · exact ⟨_, rfl⟩
  · exact ⟨_, rfl⟩

/-- The matted kernel on a region of two rows of which the first is left by `continue` and the
second is not: the samples of the second row are stored in the cells of the first, the row
pointers not having moved. -/
theorem scaledMatted_two_rows (P : SwCommon) (s : SwSurface) (image : SwImage)
    (itransform : Matrix) (bbox : RenderRegion) (opacity : Nat) (cmp : SwCompositor)
    (t : Rat × Int × Int) (h1 : s.channelSize ≠ 1) (hc : s.compositor = some cmp)
    (hH : bbox.max.y - bbox.min.y = 2)
    (hy0 : SCALED_IMAGE_RANGE_Y itransform image (decide (image.scale < DOWN_SCALE_TOLERANCE))
      (_sampleSize image.scale) bbox.min.y = none)
    (hy1 : SCALED_IMAGE_RANGE_Y itransform image (decide (image.scale < DOWN_SCALE_TOLERANCE))
      (_sampleSize image.scale) (bbox.min.y + 1) = some t) :
    _rasterScaledMattedImage P s image itransform bbox opacity
      = (forLoop (bbox.max.x - bbox.min.x).toNat (fun i (om : Option Mem) =>
          om.bind fun m =>
            match SCALED_IMAGE_RANGE_X itransform image (bbox.min.x + i) with
            | none => some m
            | some sx =>
              (scaleMethod P (decide (image.scale < DOWN_SCALE_TOLERANCE)) image.buf
                image.stride image.w image.h sx t.1 t.2.1 t.2.2
                (i32 (_sampleSize image.scale))).map fun src =>
                let dst := u32 (bbox.min.y * s.stride + bbox.min.x) + i
                let c := cmp.image.buf.ptr
                  (u32 ((bbox.min.y * cmp.image.stride + bbox.min.x) * cmp.image.channelSize)
                    + i * cmp.image.channelSize)
                let tmp := P.ALPHA_BLEND src
                  (if opacity = 255 then s.alpha cmp.method c
                    else MULTIPLY opacity (s.alpha cmp.method c))
                m.write32 dst (tmp + P.ALPHA_BLEND (m.read32 dst) (IA tmp)))
          (some s.buf)).map fun m => (true, { s with buf := m }) := by
  obtain ⟨sy, miny, maxy⟩ := t
  unfold _rasterScaledMattedImage
  rw [if_neg h1, hc]
  simp only [hH]
  have e2 : (2 : Int).toNat = 2 := rfl
  rw [e2]
  simp only [forLoop, Nat.cast_zero, add_zero, Nat.cast_one, hy0, hy1, Option.some_bind,
    Nat.zero_mul, Nat.add_zero, Option.map_map]
  rfl

theorem range_X_some (itransform : Matrix) (image : SwImage) (x : Int)
    (hfit : scaledSx itransform x + 1 / 2 < 4294967296)
    (hin : ¬ outOfRange (scaledSx itransform x) image.w) :
    SCALED_IMAGE_RANGE_X itransform image x = some (scaledSx itransform x) := by
  rw [← range_test_iff _ _ hfit] at hin
  unfold SCALED_IMAGE_RANGE_X
  unfold scaledSx at hin
  simp only
  rw [if_neg hin]
  rfl

theorem range_Y_some (itransform : Matrix) (image : SwImage) (n : Nat) (y : Int)
    (hfit : scaledSy itransform y + 1 / 2 < 4294967296)
    (hin : ¬ outOfRange (scaledSy itransform y) image.h) :
    SCALED_IMAGE_RANGE_Y itransform image false n y = some (scaledSy itransform y, 0, 0) := by
  rw [← range_test_iff _ _ hfit] at hin
  unfold SCALED_IMAGE_RANGE_Y
  unfold scaledSy at hin
  simp only
  rw [if_neg hin]
  rfl

theorem sourceImage4_up : decide (sourceImage4.scale < DOWN_SCALE_TOLERANCE) = false := by
  have : ¬ sourceImage4.scale < DOWN_SCALE_TOLERANCE := by
    unfold sourceImage4 DOWN_SCALE_TOLERANCE
    norm_num
  simp [this]

theorem rowShift_sy0 : scaledSy rowShiftMatrix 0 = -(149 / 100) := by
  unfold scaledSy rowShiftMatrix
  norm_num

theorem rowShift_sy1 : scaledSy rowShiftMatrix (0 + 1) = -(49 / 100) := by
  unfold scaledSy rowShiftMatrix
  norm_num

theorem rowShift_sx0 : scaledSx rowShiftMatrix 0 = -(49 / 100) := by
  unfold scaledSx rowShiftMatrix
  norm_num

theorem rowShift_row0 (n : Nat) :
    SCALED_IMAGE_RANGE_Y rowShiftMatrix sourceImage4
      (decide (sourceImage4.scale < DOWN_SCALE_TOLERANCE)) n 0 = none := by
  rw [range_Y_none_iff _ _ _ _ _ (by rw [rowShift_sy0]; norm_num), rowShift_sy0]
  left
  norm_num

theorem rowShift_row1 (n : Nat) :
    SCALED_IMAGE_RANGE_Y rowShiftMatrix sourceImage4
      (decide (sourceImage4.scale < DOWN_SCALE_TOLERANCE)) n (0 + 1)
      = some (-(49 / 100), 0, 0) := by
  rw [sourceImage4_up, range_Y_some _ _ _ _ (by rw [rowShift_sy1]; norm_num)
    (by rw [rowShift_sy1]; unfold outOfRange sourceImage4; norm_num), rowShift_sy1]

theorem rowShift_col0 :
    SCALED_IMAGE_RANGE_X rowShiftMatrix sourceImage4 0 = some (-(49 / 100)) := by
  rw [range_X_some _ _ _ (by rw [rowShift_sx0]; norm_num)
    (by rw [rowShift_sx0]; unfold outOfRange sourceImage4; norm_num), rowShift_sx0]

theorem interpUpScaler_corner (n : Int) :
    _interpUpScaler scalarCommon sourceImage4.buf 4 4 4 (-(49 / 100)) (-(49 / 100)) 0 0 n
      = 0x80808080 := by
  have t0 : truncI (-(49 / 100)) = 0 := by
    unfold truncI
    rw [if_neg (by norm_num)]
    have : Rat.floor (- -(49 / 100 : Rat)) = 0 :=
      rat_floor_eq _ 0 (by norm_num) (by norm_num)
    rw [this]
    rfl
  have hp : ¬ (-(49 / 100 : Rat)) > 0 := by norm_num
  unfold _interpUpScaler
  simp only [t0, Int.toNat_zero, if_neg hp]
  decide

/-- The matted kernel on the failing input: the sample of row 1 is stored in cell 0, the cell
of the pixel (0,0) of the skipped row. -/
theorem scaledMatted_rowShift :
    _rasterScaledMattedImage scalarCommon mattedSurface4 sourceImage4 rowShiftMatrix
        ⟨⟨0, 0⟩, ⟨1, 2⟩⟩ 255
      = some (true, { mattedSurface4 with buf := mattedSurface4.buf.write32 0 0x80808080 }) := by
  rw [scaledMatted_two_rows scalarCommon mattedSurface4 sourceImage4 rowShiftMatrix
    ⟨⟨0, 0⟩, ⟨1, 2⟩⟩ 255
    { method := .Alpha, image := { maskImage4 with buf := fun _ => 0xFF },
      bbox := ⟨⟨0, 0⟩, ⟨4, 4⟩⟩ }
    (-(49 / 100), 0, 0) (by decide) rfl (by decide) (rowShift_row0 _) (rowShift_row1 _)]
  have e1 : ((1 : Int) - 0).toNat = 1 := rfl
  simp only [e1, forLoop, Nat.cast_zero, add_zero, rowShift_col0, Option.some_bind,
    sourceImage4_up, scaleMethod]
  have := interpUpScaler_corner (i32 (_sampleSize sourceImage4.scale))
  simp only [sourceImage4] at this ⊢
  simp only [Bool.false_eq_true, if_false, this, Option.map_some']
  congr 3

/-- The kernel `_rasterScaledImage` on the same input stores the sample of row 1 in cell 4, the
cell of the pixel (0,1). -/
theorem scaledImage_rowShift :
    _rasterScaledImage scalarCommon mattedSurface4 sourceImage4 rowShiftMatrix
        ⟨⟨0, 0⟩, ⟨1, 2⟩⟩ 255
      = some (true, { mattedSurface4 with buf := mattedSurface4.buf.write32 4 0x80808080 }) := by
  unfold _rasterScaledImage
  have h4 : mattedSurface4.channelSize = 4 := rfl
  have e1 : ((1 : Int) - 0).toNat = 1 := rfl
  have e2 : ((2 : Int) - 0).toNat = 2 := rfl
  have r0 := rowShift_row0 (_sampleSize sourceImage4.scale)
  have r1 := rowShift_row1 (_sampleSize sourceImage4.scale)
  rw [sourceImage4_up] at r0 r1
  simp only [h4, if_true, e1, e2, forLoop, Nat.cast_zero, add_zero, Nat.cast_one,
    sourceImage4_up, r0, r1, rowShift_col0, Option.some_bind, scaleMethod]
  have := interpUpScaler_corner (i32 (_sampleSize sourceImage4.scale))
  simp only [sourceImage4] at this ⊢
  simp only [Bool.false_eq_true, if_false, this, Option.map_some']
  congr 3

/-- The cell of the pixel `(mx + i, my + k)` reached from the first cell of a region. -/
theorem region_cell (S mx my i k : Nat) (h : my * S + mx < 4294967296) :
    u32 ((my : Int) * S + mx) + k * S + i = (my + k) * S + (mx + i) := by
  rw [u32_cell _ _ _ h, Nat.add_mul]
  omega

/-- C24: let the pixel `(x, y)`, with `x < stride`, have a sample coordinate out of range in the
specification's words (`sx ≤ -0.5`, `sx ≥ image.w - 0.5`, `sy ≤ -0.5` or `sy ≥ image.h - 0.5`,
over the exact rationals `sx = x·e11 + e13 - 0.49`, `sy = y·e22 + e23 - 0.49`, both below 2³²).
Then one of the two range macros leaves the pass. For a region of the first quadrant that holds
the pixel and does not pass the stride, `_rasterScaledImage` (32-bit and 8-bit) answers true
and keeps the pixel's cell, and `_rasterScaledBlendingImage` keeps it; for an Rle whose spans
lie within their rows the three Rle kernels keep it; with the up-scaler as the method the five
kernels return. The remaining kernel, `_rasterScaledMattedImage`, differs: on a region of two
rows of which the first is left by `continue` and the second is not, it stores the samples of
the second row in the cells of the first, so that the cells of skipped pixels are written. -/
theorem scaledImage_skip (P : SwCommon) (s : SwSurface) (image : SwImage) (itransform : Matrix)
    (bbox : RenderRegion) (opacity : Nat) (x y : Nat)
    (hx : x < s.stride) (hS : s.stride ≤ 4294967296)
    (hfx : scaledSx itransform x + 1 / 2 < 4294967296)
    (hfy : scaledSy itransform y + 1 / 2 < 4294967296)
    (hout : outOfRange (scaledSx itransform x) image.w
      ∨ outOfRange (scaledSy itransform y) image.h) :
    (SCALED_IMAGE_RANGE_Y itransform image (decide (image.scale < DOWN_SCALE_TOLERANCE))
        (_sampleSize image.scale) y = none
      ∨ SCALED_IMAGE_RANGE_X itransform image x = none)
    ∧ (0 ≤ bbox.min.x → 0 ≤ bbox.min.y → bbox.min.x ≤ x → x < bbox.max.x → bbox.min.y ≤ y →
        bbox.max.x ≤ s.stride → bbox.min.y * s.stride + bbox.min.x < 4294967296 →
        (∀ r, _rasterScaledImage P s image itransform bbox opacity = some r →
          r.1 = true
          ∧ (s.channelSize = 4 →
              r.2.buf.read32 (y * s.stride + x) = s.buf.read32 (y * s.stride + x))
          ∧ (s.channelSize = 1 →
              r.2.buf.read8 (y * s.stride + x) = s.buf.read8 (y * s.stride + x)))
        ∧ (∀ r, _rasterScaledBlendingImage P s image itransform bbox opacity = some r →
            r.2.buf.read32 (y * s.stride + x) = s.buf.read32 (y * s.stride + x)))
    ∧ ((∀ rle, image.rle = some rle → ∀ sp, sp ∈ rle.spans →
          sp.x + sp.len ≤ s.stride ∧ sp.y * s.stride + sp.x < 4294967296) →
        (∀ r, _rasterScaledRleImage P s image itransform bbox opacity = some r →
          r.2.buf.read32 (y * s.stride + x) = s.buf.read32 (y * s.stride + x))
        ∧ (∀ r, _rasterScaledBlendingRleImage P s image itransform bbox opacity = some r →
          r.2.buf.read32 (y * s.stride + x) = s.buf.read32 (y * s.stride + x))
        ∧ (∀ r, _rasterScaledMattedRleImage P s image itransform bbox opacity = some r →
          r.2.buf.read32 (y * s.stride + x) = s.buf.read32 (y * s.stride + x)))
    ∧ (¬ image.scale < DOWN_SCALE_TOLERANCE →
        (∃ r, _rasterScaledImage P s image itransform bbox opacity = some r)
        ∧ (∃ r, _rasterScaledBlendingImage P s image itransform bbox opacity = some r)
        ∧ (∃ r, _rasterScaledRleImage P s image itransform bbox opacity = some r)
        ∧ (∃ r, _rasterScaledBlendingRleImage P s image itransform bbox opacity = some r)
        ∧ (∃ r, _rasterScaledMattedRleImage P s image itransform bbox opacity = some r))
    ∧ (∀ (cmp : SwCompositor) (t : Rat × Int × Int), s.channelSize ≠ 1 →
        s.compositor = some cmp → bbox.max.y - bbox.min.y = 2 →
        SCALED_IMAGE_RANGE_Y itransform image (decide (image.scale < DOWN_SCALE_TOLERANCE))
          (_sampleSize image.scale) bbox.min.y = none →
        SCALED_IMAGE_RANGE_Y itransform image (decide (image.scale < DOWN_SCALE_TOLERANCE))
          (_sampleSize image.scale) (bbox.min.y + 1) = some t →
        _rasterScaledMattedImage P s image itransform bbox opacity
          = (forLoop (bbox.max.x - bbox.min.x).toNat (fun i (om : Option Mem) =>
              om.bind fun m =>
                match SCALED_IMAGE_RANGE_X itransform image (bbox.min.x + i) with
                | none => some m
                | some sx =>
                  (scaleMethod P (decide (image.scale < DOWN_SCALE_TOLERANCE)) image.buf
                    image.stride image.w image.h sx t.1 t.2.1 t.2.2
                    (i32 (_sampleSize image.scale))).map fun src =>
                    let dst := u32 (bbox.min.y * s.stride + bbox.min.x) + i
                    let c := cmp.image.buf.ptr
                      (u32 ((bbox.min.y * cmp.image.stride + bbox.min.x) * cmp.image.channelSize)
                        + i * cmp.image.channelSize)
                    let tmp := P.ALPHA_BLEND src
                      (if opacity = 255 then s.alpha cmp.method c
                        else MULTIPLY opacity (s.alpha cmp.method c))
                    m.write32 dst (tmp + P.ALPHA_BLEND (m.read32 dst) (IA tmp)))
              (some s.buf)).map fun m => (true, { s with buf := m })) := by
  have hskip : SCALED_IMAGE_RANGE_Y itransform image
        (decide (image.scale < DOWN_SCALE_TOLERANCE)) (_sampleSize image.scale) y = none
      ∨ SCALED_IMAGE_RANGE_X itransform image x = none := by
    rcases hout with h | h
    · exact Or.inr ((range_X_none_iff _ _ _ hfx).mpr h)
    · exact Or.inl ((range_Y_none_iff _ _ _ _ _ hfy).mpr h)
  refine ⟨hskip, ?_, ?_, ?_, ?_⟩
  · intro h0x h0y hx0 hx1 hy0 hxs hfit
    obtain ⟨⟨mx, my⟩, ⟨Mx, My⟩⟩ := bbox
    simp only at h0x h0y hx0 hx1 hy0 hxs hfit ⊢
    lift mx to ℕ using h0x
    lift my to ℕ using h0y
    have hx0n : mx ≤ x := by exact_mod_cast hx0
    have hy0n : my ≤ y := by exact_mod_cast hy0
    have hfitn : my * s.stride + mx < 4294967296 := by exact_mod_cast hfit
    have ex : ((mx : Int) + ((x - mx : Nat) : Int)) = x := by omega
    have ey : ((my : Int) + ((y - my : Nat) : Int)) = y := by omega
    have hcell := region_cell s.stride mx my (x - mx) (y - my) hfitn
    have hcell2 : (my + (y - my)) * s.stride + (mx + (x - mx)) = y * s.stride + x := by
      rw [Nat.add_sub_cancel' hy0n, Nat.add_sub_cancel' hx0n]
    rw [hcell2] at hcell
    have hskip2 : SCALED_IMAGE_RANGE_Y itransform image
          (decide (image.scale < DOWN_SCALE_TOLERANCE)) (_sampleSize image.scale)
          ((⟨⟨mx, my⟩, ⟨Mx, My⟩⟩ : RenderRegion).min.y + ((y - my : Nat) : Int)) = none
        ∨ SCALED_IMAGE_RANGE_X itransform image
          ((⟨⟨mx, my⟩, ⟨Mx, My⟩⟩ : RenderRegion).min.x + ((x - mx : Nat) : Int)) = none := by
      simp only [ex, ey]
      exact hskip
    have hi : (((x - mx : Nat) : Int)) < (⟨⟨mx, my⟩, ⟨Mx, My⟩⟩ : RenderRegion).max.x
        - (⟨⟨mx, my⟩, ⟨Mx, My⟩⟩ : RenderRegion).min.x := by
      simp only
      omega
    have hW : (⟨⟨mx, my⟩, ⟨Mx, My⟩⟩ : RenderRegion).max.x
        - (⟨⟨mx, my⟩, ⟨Mx, My⟩⟩ : RenderRegion).min.x ≤ s.stride := by
      simp only
      omega
    refine ⟨fun r e => ⟨?_, fun h4 => ?_, fun h1 => ?_⟩, fun r e => ?_⟩
    · by_cases h4 : s.channelSize = 4
      · exact (scaledImage_keeps32 P s image itransform _ opacity _ _ h4 hi hW hskip2 r e).1
      · by_cases h1 : s.channelSize = 1
        · exact (scaledImage_keeps8 P s image itransform _ opacity _ _ h1 hi hW hskip2 r e).1
        · unfold _rasterScaledImage at e
          simp only [h4, h1, if_false, Option.some.injEq] at e
          rw [← e]
    · have := (scaledImage_keeps32 P s image itransform _ opacity _ _ h4 hi hW hskip2 r e).2
      simp only at this
      rw [hcell] at this
      exact this
    · have := (scaledImage_keeps8 P s image itransform _ opacity _ _ h1 hi hW hskip2 r e).2
      simp only at this
      rw [hcell] at this
      exact this
    · have := scaledBlendingImage_keeps P s image itransform _ opacity _ _ hi hW hskip2 r e
      simp only at this
      rw [hcell] at this
      exact this
  · intro hspans
    refine ⟨fun r e => ?_, fun r e => ?_, fun r e => ?_⟩
    · unfold _rasterScaledRleImage at e
      cases hr : image.rle with
      | none =>
        rw [hr] at e
        simp only [Option.some.injEq] at e
        rw [← e]
      | some rle =>
        have e2 : _rasterScaledRleImage P s image itransform bbox opacity = some r := by
          unfold _rasterScaledRleImage
          exact e
        exact (scaledRleImage_keeps P s image itransform bbox opacity rle x y hr hx hS
          (hspans rle hr) hskip r e2).2
    · exact scaledBlendingRleImage_keeps P s image itransform bbox opacity x y hx hS hspans
        hskip r e
    · exact scaledMattedRleImage_keeps P s image itransform bbox opacity x y hx hS hspans
        hskip r e
  · intro hup
    exact ⟨scaledImage_returns P s image itransform bbox opacity hup,
      scaledBlendingImage_returns P s image itransform bbox opacity hup,
      scaledRleImage_returns P s image itransform bbox opacity hup,
      scaledBlendingRleImage_returns P s image itransform bbox opacity hup,
      scaledMattedRleImage_returns P s image itransform bbox opacity hup⟩
  · intro cmp t h1 hc hH hy0 hy1
    exact scaledMatted_two_rows P s image itransform bbox opacity cmp t h1 hc hH hy0 hy1

/-- C24 at the 4x4 matted surface cleared to 0, the 4x4 source of pixels 0x80808080, the
inverse transform of a shift by one row and the region (0,0)-(1,2): the pixel (0,0) has
`sy = -1.49` and is skipped. `_rasterScaledImage` keeps its cell 0 and stores the sample of
row 1 in cell 4; `_rasterScaledMattedImage` stores it in cell 0 and leaves cell 4. -/
theorem scaledImage_skip_witness :
    outOfRange (scaledSy rowShiftMatrix 0) sourceImage4.h
    ∧ mattedSurface4.buf.read32 0 = 0
    ∧ (∃ r, _rasterScaledImage scalarCommon mattedSurface4 sourceImage4 rowShiftMatrix
          ⟨⟨0, 0⟩, ⟨1, 2⟩⟩ 255 = some r
        ∧ r.1 = true ∧ r.2.buf.read32 0 = 0 ∧ r.2.buf.read32 4 = 0x80808080)
    ∧ (∃ r, _rasterScaledMattedImage scalarCommon mattedSurface4 sourceImage4 rowShiftMatrix
          ⟨⟨0, 0⟩, ⟨1, 2⟩⟩ 255 = some r
        ∧ r.1 = true ∧ r.2.buf.read32 0 = 0x80808080 ∧ r.2.buf.read32 4 = 0) := by
  have hout : outOfRange (scaledSy rowShiftMatrix 0) sourceImage4.h := by
    rw [rowShift_sy0]
    left
    norm_num
  have h := scaledImage_skip scalarCommon mattedSurface4 sourceImage4 rowShiftMatrix
    ⟨⟨0, 0⟩, ⟨1, 2⟩⟩ 255 0 0 (by decide) (by decide)
    (by rw [Nat.cast_zero, rowShift_sx0]; norm_num)
    (by rw [Nat.cast_zero, rowShift_sy0]; norm_num)
    (Or.inr (by rw [Nat.cast_zero]; exact hout))
  have hk := (h.2.1 (by decide) (by decide) (by decide) (by decide) (by decide) (by decide)
    (by decide)).1 _ scaledImage_rowShift
  have h0 : mattedSurface4.buf.read32 0 = 0 := by decide
  refine ⟨hout, h0, ⟨_, scaledImage_rowShift, hk.1, ?_, ?_⟩, ⟨_, scaledMatted_rowShift, rfl, ?_, ?_⟩⟩
  · have := hk.2.1 rfl
    simp only [Nat.zero_mul, Nat.add_zero] at this
    rw [this, h0]
  · exact read32_write32_same _ _ _
  · exact read32_write32_same _ _ _
  · show Mem.read32 (Mem.write32 _ _ _) _ = _
    rw [read32_write32_ne _ _ _ _ (by decide)]
    decide

/-! ## Premultiplication on entry -/

/-- A byte scaled by an alpha byte does not exceed the alpha: `MULTIPLY(c, a) ≤ a`. -/
theorem MULTIPLY_le_alpha (c a : Nat) (hc : c ≤ 255) : MULTIPLY c a ≤ a := by
  rw [MULTIPLY_eq]
  have hp : c * a ≤ 255 * a := Nat.mul_le_mul_right _ hc
  have h1 : (c * a + 255) / 256 ≤ a := by omega
  exact Nat.le_trans (Nat.mod_le _ _) h1

/-- C33: `rasterShape` and `rasterStroke` premultiply the colour before they dispatch. For a
colour of byte channels: when `c.a < 255` the colour they leave and hand to the kernel has
`r`, `g`, `b` replaced by `MULTIPLY(channel, c.a)`; when `c.a = 255` it is the colour given;
the alpha is the one given; every colour channel is then at most `c.a`; and the kernel
(`_rasterRect` for a fastTrack shape, else `_rasterRle` on the shape's Rle; `_rasterRle` on
the stroke Rle for a stroke) is called with that colour. -/
theorem rasterShape_premultiply (P : SwCommon) (s : SwSurface) (shape : SwShape)
    (bbox : RenderRegion) (c : RenderColor)
    (hr : c.r ≤ 255) (hg : c.g ≤ 255) (hb : c.b ≤ 255) (ha : c.a ≤ 255) :
    ((c.a < 255 → (rasterShape P s shape bbox c).2
          = ⟨MULTIPLY c.r c.a, MULTIPLY c.g c.a, MULTIPLY c.b c.a, c.a⟩)
      ∧ (c.a = 255 → (rasterShape P s shape bbox c).2 = c)
      ∧ (rasterShape P s shape bbox c).2.a = c.a
      ∧ (rasterShape P s shape bbox c).2.r ≤ c.a
      ∧ (rasterShape P s shape bbox c).2.g ≤ c.a
      ∧ (rasterShape P s shape bbox c).2.b ≤ c.a
      ∧ (rasterShape P s shape bbox c).1
          = if shape.fastTrack then _rasterRect P s bbox (rasterShape P s shape bbox c).2
            else _rasterRle P s shape.rle bbox (rasterShape P s shape bbox c).2)
    ∧ ((c.a < 255 → (rasterStroke P s shape bbox c).2
          = ⟨MULTIPLY c.r c.a, MULTIPLY c.g c.a, MULTIPLY c.b c.a, c.a⟩)
      ∧ (c.a = 255 → (rasterStroke P s shape bbox c).2 = c)
      ∧ (rasterStroke P s shape bbox c).2.a = c.a
      ∧ (rasterStroke P s shape bbox c).2.r ≤ c.a
      ∧ (rasterStroke P s shape bbox c).2.g ≤ c.a
      ∧ (rasterStroke P s shape bbox c).2.b ≤ c.a
      ∧ (rasterStroke P s shape bbox c).1
          = _rasterRle P s shape.strokeRle bbox (rasterStroke P s shape bbox c).2) := by
  have h1 := MULTIPLY_le_alpha c.r c.a hr
  have h2 := MULTIPLY_le_alpha c.g c.a hg
  have h3 := MULTIPLY_le_alpha c.b c.a hb
  by_cases hlt : c.a < 255
  · have hne : c.a ≠ 255 := by omega
    have eS : (rasterShape P s shape bbox c).2
        = ⟨MULTIPLY c.r c.a, MULTIPLY c.g c.a, MULTIPLY c.b c.a, c.a⟩ := by
      unfold rasterShape
      simp only [hlt, if_true]
      split <;> rfl
    have eK : (rasterStroke P s shape bbox c).2
        = ⟨MULTIPLY c.r c.a, MULTIPLY c.g c.a, MULTIPLY c.b c.a, c.a⟩ := by
      unfold rasterStroke
      simp only [hlt, if_true]
    refine ⟨⟨fun _ => eS, fun h => absurd h hne, ?_, ?_, ?_, ?_, ?_⟩,
      ⟨fun _ => eK, fun h => absurd h hne, ?_, ?_, ?_, ?_, ?_⟩⟩
    · rw [eS]
    · rw [eS]; exact h1
    · rw [eS]; exact h2
    · rw [eS]; exact h3
    · cases hf : shape.fastTrack <;> simp [rasterShape, hf]
    · rw [eK]
    · rw [eK]; exact h1
    · rw [eK]; exact h2
    · rw [eK]; exact h3
    · rfl
  · have he : c.a = 255 := by omega
    have eS : (rasterShape P s shape bbox c).2 = c := by
      unfold rasterShape
      simp only [hlt, if_false]
      split <;> rfl
    have eK : (rasterStroke P s shape bbox c).2 = c := by
      unfold rasterStroke
      simp only [hlt, if_false]
    refine ⟨⟨fun h => absurd h hlt, fun _ => eS, ?_, ?_, ?_, ?_, ?_⟩,
      ⟨fun h => absurd h hlt, fun _ => eK, ?_, ?_, ?_, ?_, ?_⟩⟩
    · rw [eS]
    · rw [eS]; omega
    · rw [eS]; omega
    · rw [eS]; omega
    · cases hf : shape.fastTrack <;> simp [rasterShape, hf]
    · rw [eK]
    · rw [eK]; omega
    · rw [eK]; omega
    · rw [eK]; omega
    · rfl

/-- C33 at the colour (255, 128, 0) of alpha 128 on the 16x16 surface: the colour left is
(128, 64, 0) of alpha 128. -/
theorem rasterShape_premultiply_witness :
    (rasterShape scalarCommon surface16 rectShape ⟨⟨2, 2⟩, ⟨10, 10⟩⟩ ⟨255, 128, 0, 128⟩).2
        = ⟨128, 64, 0, 128⟩
    ∧ (rasterStroke scalarCommon surface16 rectShape ⟨⟨2, 2⟩, ⟨10, 10⟩⟩ ⟨255, 128, 0, 128⟩).2
        = ⟨128, 64, 0, 128⟩ :=
  ⟨((rasterShape_premultiply scalarCommon surface16 rectShape ⟨⟨2, 2⟩, ⟨10, 10⟩⟩
      ⟨255, 128, 0, 128⟩ (by decide) (by decide) (by decide) (by decide)).1.1
        (by decide)).trans (by decide),
   ((rasterShape_premultiply scalarCommon surface16 rectShape ⟨⟨2, 2⟩, ⟨10, 10⟩⟩
      ⟨255, 128, 0, 128⟩ (by decide) (by decide) (by decide) (by decide)).2.1
        (by decide)).trans (by decide)⟩

/-! ## The composite step and the operators under the kernels' arguments -/

/-- The product of a byte with the complement of a byte, rounded up to a multiple of 256,
stays within the complement: `MULTIPLY(d, 255 - s) ≤ 255 - s`. -/
theorem MULTIPLY_compl_le (s d : Nat) (hd : d ≤ 255) :
    MULTIPLY d (255 - s) ≤ 255 - s := by
  rw [MULTIPLY_eq]
  have hp : d * (255 - s) ≤ 255 * (255 - s) := Nat.mul_le_mul_right _ hd
  omega

/-- The composite of a byte over another covers the other: `d ≤ s + MULTIPLY(d, 255 - s)`. -/
theorem MULTIPLY_compl_ge (s d : Nat) (hs : s ≤ 255) (hd : d ≤ 255) :
    d ≤ s + MULTIPLY d (255 - s) := by
  rw [MULTIPLY_eq]
  have hp : d * (255 - s) ≤ 255 * (255 - s) := Nat.mul_le_mul_right _ hd
  have hq : d * s ≤ 255 * s := Nat.mul_le_mul_right _ hd
  have e : d * (255 - s) + d * s = d * 255 := by
    rw [← Nat.mul_add, Nat.sub_add_cancel hs]
  have hf : (d * (255 - s) + 255) / 256 ≤ 255 := by omega
  have hge : d - s ≤ (d * (255 - s) + 255) / 256 := by
    rw [Nat.le_div_iff_mul_le (by norm_num)]
    omega
  rw [Nat.mod_eq_of_lt (by omega)]
  omega

/-- The composite step of `_compositeMaskImage` on two bytes. -/
theorem composite_step (src dst : Nat) (hs : src ≤ 255) (hd : dst ≤ 255) :
    src + MULTIPLY dst (not8 src) ≤ 255
    ∧ src ≤ src + MULTIPLY dst (not8 src)
    ∧ dst ≤ src + MULTIPLY dst (not8 src)
    ∧ (src = 0 → src + MULTIPLY dst (not8 src) = dst)
    ∧ (src = 255 → src + MULTIPLY dst (not8 src) = 255) := by
  rw [not8_eq src hs]
  have h1 := MULTIPLY_compl_le src dst hd
  have h2 := MULTIPLY_compl_ge src dst hs hd
  refine ⟨by omega, by omega, h2, ?_, ?_⟩
  · intro h0
    subst h0
    rw [Nat.sub_zero, MULTIPLY_255_right dst hd]
    omega
  · intro h0
    subst h0
    omega

/-- C34: the step `dst' = src + MULTIPLY(dst, ~src)` of `_compositeMaskImage` on bytes `src`,
`dst` is at most 255, at least `src` and at least `dst`, is `dst` for `src = 0` and 255 for
`src = 255`; and in a region not wider than the stride `_compositeMaskImage` leaves in every
cell of the region exactly that sum of the mask byte and the byte the cell held, which the
store into the `uint8_t` cell does not truncate. -/
theorem compositeMaskImage_step (s : SwSurface) (image : SwImage) (bbox : RenderRegion) :
    (∀ src dst, src ≤ 255 → dst ≤ 255 →
        src + MULTIPLY dst (not8 src) ≤ 255
        ∧ src ≤ src + MULTIPLY dst (not8 src)
        ∧ dst ≤ src + MULTIPLY dst (not8 src)
        ∧ (src = 0 → src + MULTIPLY dst (not8 src) = dst)
        ∧ (src = 255 → src + MULTIPLY dst (not8 src) = 255))
    ∧ ((bbox.max.x - bbox.min.x).toNat ≤ s.stride →
        ∀ y x, y < (bbox.max.y - bbox.min.y).toNat → x < (bbox.max.x - bbox.min.x).toNat →
          (_compositeMaskImage s image bbox).2.buf.read8
              (u32 (bbox.min.y * s.stride + bbox.min.x) + y * s.stride + x)
            = image.buf.read8 ((u32 ((bbox.min.y + image.oy) * image.stride)
                  + (bbox.min.x + image.ox) + y * image.stride + x : Int).toNat)
              + MULTIPLY
                  (s.buf.read8 (u32 (bbox.min.y * s.stride + bbox.min.x) + y * s.stride + x))
                  (not8 (image.buf.read8 ((u32 ((bbox.min.y + image.oy) * image.stride)
                    + (bbox.min.x + image.ox) + y * image.stride + x : Int).toNat)))) := by
  refine ⟨fun src dst hs hd => composite_step src dst hs hd, ?_⟩
  intro hW y x hy hx
  have hM := maps_cells8 (bbox.max.y - bbox.min.y).toNat (bbox.max.x - bbox.min.x).toNat
    s.stride (u32 (bbox.min.y * s.stride + bbox.min.x))
    (fun y x v => image.buf.read8 ((u32 ((bbox.min.y + image.oy) * image.stride)
        + (bbox.min.x + image.ox) + y * image.stride + x : Int).toNat)
      + MULTIPLY v (not8 (image.buf.read8 ((u32 ((bbox.min.y + image.oy) * image.stride)
        + (bbox.min.x + image.ox) + y * image.stride + x : Int).toNat)))) hW
  have h := (hM s.buf (u32 (bbox.min.y * s.stride + bbox.min.x) + y * s.stride + x)).1
    ⟨y, hy, x, hx, rfl⟩
  obtain ⟨e1, e2⟩ := cell_div_mod s.stride (u32 (bbox.min.y * s.stride + bbox.min.x)) x y
    (by omega)
  simp only [e1, e2] at h
  have hb := (composite_step _ _ (read8_le image.buf ((u32 ((bbox.min.y + image.oy)
      * image.stride) + (bbox.min.x + image.ox) + y * image.stride + x : Int).toNat))
    (read8_le s.buf (u32 (bbox.min.y * s.stride + bbox.min.x) + y * s.stride + x))).1
  rw [Nat.mod_eq_of_lt (by omega)] at h
  exact h

/-- C34 on the 4x4 surface whose cells hold 50 under a mask whose cells hold 100: the step
gives 100 + MULTIPLY(50, 155) = 131, and cell 0 holds it after `_compositeMaskImage`. -/
theorem compositeMaskImage_step_witness :
    (100 + MULTIPLY 50 (not8 100) = 131 ∧ 131 ≤ 255)
    ∧ (_compositeMaskImage (maskedSurface4 .Add) { maskImage4 with buf := fun _ => 100 }
        ⟨⟨0, 0⟩, ⟨4, 4⟩⟩).2.buf.read8 0 = 131 := by
  have h := compositeMaskImage_step (maskedSurface4 .Add)
    { maskImage4 with buf := fun _ => 100 } ⟨⟨0, 0⟩, ⟨4, 4⟩⟩
  refine ⟨⟨by decide, by decide⟩, ?_⟩
  have h2 := h.2 (by decide) 0 0 (by decide) (by decide)
  exact h2.trans (by decide)

/-- The two products of `_opMaskDifference` under the kernels' argument sum to at most
255 · 255. -/
theorem difference_products (s d : Nat) (hs : s ≤ 255) (hd : d ≤ 255) :
    s * (255 - d) + d * (255 - s) ≤ 65025 := by
  have e1 : s * (255 - d) + (255 - s) * (255 - d) = 255 * (255 - d) := by
    rw [← Nat.add_mul, Nat.add_sub_cancel' hs]
  have e2 : d * (255 - s) + d * s = d * 255 := by
    rw [← Nat.mul_add, Nat.sub_add_cancel hs]
  omega

theorem difference_sum_le (s d : Nat) (hs : s ≤ 255) (hd : d ≤ 255) :
    MULTIPLY s (255 - d) + MULTIPLY d (255 - s) ≤ 255 := by
  have h := difference_products s d hs hd
  rw [MULTIPLY_eq, MULTIPLY_eq]
  have h1 : (s * (255 - d) + 255) / 256 + (d * (255 - s) + 255) / 256 ≤ 255 := by omega
  have h2 : (s * (255 - d) + 255) / 256 % 256 ≤ (s * (255 - d) + 255) / 256 :=
    Nat.mod_le _ _
  have h3 : (d * (255 - s) + 255) / 256 % 256 ≤ (d * (255 - s) + 255) / 256 :=
    Nat.mod_le _ _
  omega

/-- The operators `_opMaskAdd` and `_opMaskDifference` under the kernels' third argument
`255 - s`. -/
theorem opMask_sums (s d : Nat) (hs : s ≤ 255) (hd : d ≤ 255) :
    (s + MULTIPLY d (255 - s) ≤ 255
      ∧ _opMaskAdd s d (255 - s) = s + MULTIPLY d (255 - s)
      ∧ s ≤ _opMaskAdd s d (255 - s) ∧ d ≤ _opMaskAdd s d (255 - s))
    ∧ (MULTIPLY s (255 - d) + MULTIPLY d (255 - s) ≤ 255
      ∧ _opMaskDifference s d (255 - s) = MULTIPLY s (255 - d) + MULTIPLY d (255 - s)
      ∧ _opMaskDifference s d (255 - s) = _opMaskDifference d s (255 - d)) := by
  have h1 := MULTIPLY_compl_le s d hd
  have h2 := MULTIPLY_compl_ge s d hs hd
  have h3 := difference_sum_le s d hs hd
  have eA : _opMaskAdd s d (255 - s) = s + MULTIPLY d (255 - s) := by
    unfold _opMaskAdd
    exact Nat.mod_eq_of_lt (by omega)
  have eD : _opMaskDifference s d (255 - s) = MULTIPLY s (255 - d) + MULTIPLY d (255 - s) := by
    unfold _opMaskDifference
    exact Nat.mod_eq_of_lt (by omega)
  refine ⟨⟨by omega, eA, by omega, by omega⟩, h3, eD, ?_⟩
  unfold _opMaskDifference
  rw [Nat.add_comm]

/-- The mask after `_rasterCompositeMaskedRect`: in a region not wider than the mask's stride
every cell of the region holds `maskOp(a, cell, 255 - a)` converted to a byte. -/
theorem compositeMaskedRect_mask (s : SwSurface) (cmp : SwCompositor) (bbox : RenderRegion)
    (op : SwMask) (a : Nat) (hc : s.compositor = some cmp) (hw : bbox.w ≤ cmp.image.stride) :
    ∃ mask, (_rasterCompositeMaskedRect s bbox op a).2.compositor
        = some { cmp with image := { cmp.image with buf := mask } }
      ∧ ∀ y x, y < bbox.h → x < bbox.w →
        mask.read8 (u32 (bbox.min.y * cmp.image.stride + bbox.min.x) + y * cmp.image.stride + x)
          = op a (cmp.image.buf.read8
              (u32 (bbox.min.y * cmp.image.stride + bbox.min.x) + y * cmp.image.stride + x))
              (255 - a) % 256 := by
  refine ⟨forLoop bbox.h (fun y m => forLoop bbox.w (fun x m =>
      m.write8 (u32 (bbox.min.y * cmp.image.stride + bbox.min.x) + y * cmp.image.stride + x)
        (op a (m.read8 (u32 (bbox.min.y * cmp.image.stride + bbox.min.x)
          + y * cmp.image.stride + x)) (255 - a))) m) cmp.image.buf, ?_, ?_⟩
  · unfold _rasterCompositeMaskedRect
    rw [hc]
    simp only
    rw [(compositeMaskImage_fields _ _ _).2]
  · intro y x hy hx
    have hM := maps_cells8 bbox.h bbox.w cmp.image.stride
      (u32 (bbox.min.y * cmp.image.stride + bbox.min.x)) (fun _ _ v => op a v (255 - a)) hw
    exact (hM cmp.image.buf _).1 ⟨y, hy, x, hx, rfl⟩

/-- C35: for bytes `s`, `d` the sum `s + MULTIPLY(d, 255 - s)` of `_opMaskAdd(s, d, 255 - s)`
and the sum `MULTIPLY(s, 255 - d) + MULTIPLY(d, 255 - s)` of `_opMaskDifference(s, d, 255 - s)`
are at most 255, so the conversion to `uint8_t` truncates nothing; the Add value is at least
`s` and at least `d`, and the Difference value is the same with `s` and `d` exchanged. The
composite rect kernel calls the operator with exactly these arguments: in a region not wider
than the mask's stride, under colour alpha `a` every mask cell of the region holds
`a + MULTIPLY(cell, 255 - a)` after `_rasterCompositeMaskedRect` with `_opMaskAdd`, and
`MULTIPLY(a, 255 - cell) + MULTIPLY(cell, 255 - a)` with `_opMaskDifference`. -/
theorem opMask_no_overflow (s : SwSurface) (cmp : SwCompositor) (bbox : RenderRegion) (a : Nat)
    (hc : s.compositor = some cmp) (hw : bbox.w ≤ cmp.image.stride) (ha : a ≤ 255) :
    (∀ s d, s ≤ 255 → d ≤ 255 →
      (s + MULTIPLY d (255 - s) ≤ 255
        ∧ _opMaskAdd s d (255 - s) = s + MULTIPLY d (255 - s)
        ∧ s ≤ _opMaskAdd s d (255 - s) ∧ d ≤ _opMaskAdd s d (255 - s))
      ∧ (MULTIPLY s (255 - d) + MULTIPLY d (255 - s) ≤ 255
        ∧ _opMaskDifference s d (255 - s) = MULTIPLY s (255 - d) + MULTIPLY d (255 - s)
        ∧ _opMaskDifference s d (255 - s) = _opMaskDifference d s (255 - d)))
    ∧ (∃ mask, (_rasterCompositeMaskedRect s bbox _opMaskAdd a).2.compositor
          = some { cmp with image := { cmp.image with buf := mask } }
        ∧ ∀ y x, y < bbox.h → x < bbox.w →
          mask.read8
              (u32 (bbox.min.y * cmp.image.stride + bbox.min.x) + y * cmp.image.stride + x)
            = a + MULTIPLY (cmp.image.buf.read8
                (u32 (bbox.min.y * cmp.image.stride + bbox.min.x) + y * cmp.image.stride + x))
                (255 - a))
    ∧ (∃ mask, (_rasterCompositeMaskedRect s bbox _opMaskDifference a).2.compositor
          = some { cmp with image := { cmp.image with buf := mask } }
        ∧ ∀ y x, y < bbox.h → x < bbox.w →
          mask.read8
              (u32 (bbox.min.y * cmp.image.stride + bbox.min.x) + y * cmp.image.stride + x)
            = MULTIPLY a (255 - cmp.image.buf.read8
                (u32 (bbox.min.y * cmp.image.stride + bbox.min.x) + y * cmp.image.stride + x))
              + MULTIPLY (cmp.image.buf.read8
                (u32 (bbox.min.y * cmp.image.stride + bbox.min.x) + y * cmp.image.stride + x))
                (255 - a)) := by
  refine ⟨fun s d hs hd => opMask_sums s d hs hd, ?_, ?_⟩
  · obtain ⟨mask, h1, h2⟩ := compositeMaskedRect_mask s cmp bbox _opMaskAdd a hc hw
    refine ⟨mask, h1, fun y x hy hx => ?_⟩
    rw [h2 y x hy hx]
    have hs := (opMask_sums a (cmp.image.buf.read8
      (u32 (bbox.min.y * cmp.image.stride + bbox.min.x) + y * cmp.image.stride + x)) ha
      (read8_le _ _)).1
    rw [hs.2.1]
    exact Nat.mod_eq_of_lt (by omega)
  · obtain ⟨mask, h1, h2⟩ := compositeMaskedRect_mask s cmp bbox _opMaskDifference a hc hw
    refine ⟨mask, h1, fun y x hy hx => ?_⟩
    rw [h2 y x hy hx]
    have hs := (opMask_sums a (cmp.image.buf.read8
      (u32 (bbox.min.y * cmp.image.stride + bbox.min.x) + y * cmp.image.stride + x)) ha
      (read8_le _ _)).2
    rw [hs.2.1]
    exact Nat.mod_eq_of_lt (by omega)

/-- C35 at `s = 200`, `d = 100` (the 4x4 surface whose mask cells hold 100, colour alpha 200):
Add gives 200 + 22 = 222 and Difference gives 122 + 22 = 144, both without truncation. -/
theorem opMask_no_overflow_witness :
    ((200 + MULTIPLY 100 (255 - 200) ≤ 255
        ∧ _opMaskAdd 200 100 (255 - 200) = 200 + MULTIPLY 100 (255 - 200)
        ∧ 200 ≤ _opMaskAdd 200 100 (255 - 200) ∧ 100 ≤ _opMaskAdd 200 100 (255 - 200))
      ∧ (MULTIPLY 200 (255 - 100) + MULTIPLY 100 (255 - 200) ≤ 255
        ∧ _opMaskDifference 200 100 (255 - 200)
            = MULTIPLY 200 (255 - 100) + MULTIPLY 100 (255 - 200)
        ∧ _opMaskDifference 200 100 (255 - 200) = _opMaskDifference 100 200 (255 - 100)))
    ∧ _opMaskAdd 200 100 (255 - 200) = 222 ∧ _opMaskDifference 200 100 (255 - 200) = 144 :=
  ⟨(opMask_no_overflow (maskedSurface4 .Add)
      { method := .Add, image := { maskImage4 with buf := fun _ => 100 },
        bbox := ⟨⟨0, 0⟩, ⟨4, 4⟩⟩ }
      ⟨⟨0, 0⟩, ⟨2, 2⟩⟩ 200 rfl (by decide) (by decide)).1 200 100 (by decide) (by decide),
   by decide, by decide⟩

/-! ## The full clear -/

theorem rasterClear_full32 (s : SwSurface) (x y w h : Nat) (hb : s.nullBuf = false)
    (h1 : s.stride ≠ 0) (h2 : s.w ≠ 0) (h3 : s.h ≠ 0) (hws : w = s.stride)
    (h4 : s.channelSize = 4) :
    rasterClear (some s) x y w h
      = (true, some { s with
          buf := rasterPixel32 s.buf 0 0 (u32 ((s.stride : Int) * y)) (i32 ((w : Int) * h)) }) := by
  unfold rasterClear
  simp [hb, h1, h2, h3, hws, h4]

theorem rasterClear_full8 (s : SwSurface) (x y w h : Nat) (hb : s.nullBuf = false)
    (h1 : s.stride ≠ 0) (h2 : s.w ≠ 0) (h3 : s.h ≠ 0) (hws : w = s.stride)
    (h4 : s.channelSize = 1) :
    rasterClear (some s) x y w h
      = (true, some { s with
          buf := rasterGrayscale8 s.buf 0 0 (u32 ((s.stride : Int) * y))
            (i32 ((w : Int) * h)) }) := by
  unfold rasterClear
  simp [hb, h1, h2, h3, hws, h4]

/-- The run of `n` cells from `off` on, as the set of the loop indices. -/
theorem run_iff (off n c : Nat) : (∃ i, i < n ∧ c = off + i) ↔ (off ≤ c ∧ c < off + n) := by
  constructor
  · rintro ⟨i, hi, rfl⟩
    omega
  · intro h
    exact ⟨c - off, by omega, by omega⟩

/-- C39: on a valid surface, with `w = surface.stride` (and `w * h` below 2³¹, `stride * y`
below 2³²), `rasterClear` does not read `x`: the result is the same for every `x`. It returns
true, the cells `stride * y … stride * y + w * h - 1` (the rows `y … y + h - 1` in full) read
zero and every other cell is kept, on a 32-bit and on an 8-bit surface. For `x > 0` and
`h > 0` this is not the requested region: the first cell of row `y` is cleared and is no cell
`stride * (y + j) + x + i` of the request, and the last requested cell,
`stride * (y + h) + x - 1`, is not among the cleared ones. -/
theorem rasterClear_full (s : SwSurface) (x y w h : Nat)
    (hb : s.nullBuf = false) (h1 : s.stride ≠ 0) (h2 : s.w ≠ 0) (h3 : s.h ≠ 0)
    (hws : w = s.stride) (hlen : w * h < 2147483648)
    (hfit : s.stride * y < 4294967296) :
    (∀ x', rasterClear (some s) x' y w h = rasterClear (some s) x y w h)
    ∧ (s.channelSize = 4 →
        ∃ buf, rasterClear (some s) x y w h = (true, some { s with buf := buf })
          ∧ (∀ c, s.stride * y ≤ c → c < s.stride * y + w * h → buf.read32 c = 0)
          ∧ (∀ c, ¬ (s.stride * y ≤ c ∧ c < s.stride * y + w * h) →
              buf.read32 c = s.buf.read32 c))
    ∧ (s.channelSize = 1 →
        ∃ buf, rasterClear (some s) x y w h = (true, some { s with buf := buf })
          ∧ (∀ c, s.stride * y ≤ c → c < s.stride * y + w * h → buf.read8 c = 0)
          ∧ (∀ c, ¬ (s.stride * y ≤ c ∧ c < s.stride * y + w * h) →
              buf.read8 c = s.buf.read8 c))
    ∧ (0 < x → 0 < h →
        (s.stride * y < s.stride * y + w * h
          ∧ ¬ ∃ j, j < h ∧ ∃ i, i < w ∧ s.stride * y = s.stride * (y + j) + x + i)
        ∧ (¬ (s.stride * (y + h) + x - 1 < s.stride * y + w * h)
          ∧ ∃ j, j < h ∧ ∃ i, i < w
              ∧ s.stride * (y + h) + x - 1 = s.stride * (y + j) + x + i)) := by
  have eoff : u32 ((s.stride : Int) * y) = s.stride * y := by
    have e : ((s.stride : Int) * y) = ((s.stride * y : Nat) : Int) := by push_cast; ring
    rw [e, u32_natCast _ hfit]
  have elen : (i32 ((w : Int) * h)).toNat = w * h := by
    have e : ((w : Int) * h) = ((w * h : Nat) : Int) := by push_cast; ring
    rw [e, i32_natCast _ hlen, Int.toNat_natCast]
  refine ⟨fun x' => ?_, fun h4 => ?_, fun h4 => ?_, fun hx hh => ?_⟩
  · unfold rasterClear
    simp only [hws, if_true]
  · have hc := clears_pixel32 (u32 ((s.stride : Int) * y)) (i32 ((w : Int) * h))
    rw [eoff, elen] at hc
    have hr := clears_read32 (fun c => ∃ i, i < w * h ∧ c = s.stride * y + i) _ hc s.buf
    refine ⟨_, rasterClear_full32 s x y w h hb h1 h2 h3 hws h4, fun c hc1 hc2 => ?_,
      fun c hn => ?_⟩
    · rw [eoff]
      exact (hr c).1 ((run_iff _ _ _).mpr ⟨hc1, hc2⟩)
    · rw [eoff]
      exact (hr c).2 (fun hex => hn ((run_iff _ _ _).mp hex))
  · have hc := clears_grayscale8 (u32 ((s.stride : Int) * y)) (i32 ((w : Int) * h))
    rw [eoff, elen] at hc
    have hr := clears_read8 (fun c => ∃ i, i < w * h ∧ c = s.stride * y + i) _ hc s.buf
    refine ⟨_, rasterClear_full8 s x y w h hb h1 h2 h3 hws h4, fun c hc1 hc2 => ?_,
      fun c hn => ?_⟩
    · rw [eoff]
      exact (hr c).1 ((run_iff _ _ _).mpr ⟨hc1, hc2⟩)
    · rw [eoff]
      exact (hr c).2 (fun hex => hn ((run_iff _ _ _).mp hex))
  · have hw0 : 0 < w := by omega
    have hwh : 0 < w * h := Nat.mul_pos hw0 hh
    have e1 : s.stride * (y + h) = s.stride * y + w * h := by
      rw [Nat.mul_add, hws]
    refine ⟨⟨by omega, ?_⟩, by omega, h - 1, by omega, w - 1, by omega, ?_⟩
    · rintro ⟨j, _, i, _, e⟩
      have : s.stride * y ≤ s.stride * (y + j) := Nat.mul_le_mul_left _ (by omega)
      omega
    · have e2 : s.stride * (y + (h - 1)) + s.stride = s.stride * (y + h) := by
        have e3 : y + h = (y + (h - 1)) + 1 := by omega
        rw [e3, Nat.mul_add (s.stride) (y + (h - 1)) 1, Nat.mul_one]
      omega

/-- C39 on the 16x16 surface whose pixels are `0xABABABAB`, for `x = 3`, `y = 2`, `w = 16`,
`h = 2`: the result is that of `x = 0`; cell 32, the first of row 2 and left of the request,
reads zero, and cell 66, the last cell of the request, keeps its pixel. -/
theorem rasterClear_full_witness :
    rasterClear (some inkSurface16) 0 2 16 2 = rasterClear (some inkSurface16) 3 2 16 2
    ∧ ∃ buf, rasterClear (some inkSurface16) 3 2 16 2
          = (true, some { inkSurface16 with buf := buf })
        ∧ buf.read32 32 = 0 ∧ buf.read32 66 = 0xABABABAB := by
  have h := rasterClear_full inkSurface16 3 2 16 2 rfl (by decide) (by decide) (by decide)
    rfl (by decide) (by decide)
  obtain ⟨buf, e, hz, hk⟩ := h.2.1 rfl
  exact ⟨h.1 0, buf, e, hz 32 (by decide) (by decide),
    (hk 66 (by decide)).trans (by decide)⟩

/-! ## The region clamp of the WebGPU compositor -/

/-- The clamp of one coordinate against a bound `W`. -/
theorem clamp_facts (W x y : Int) :
    0 ≤ Max.max 0 (Min.min W x)
    ∧ (0 ≤ W → Max.max 0 (Min.min W x) ≤ W)
    ∧ (0 ≤ x → x ≤ W → Max.max 0 (Min.min W x) = x)
    ∧ Max.max 0 (Min.min W (Max.max 0 (Min.min W x))) = Max.max 0 (Min.min W x)
    ∧ (x ≤ y → Max.max 0 (Min.min W x) ≤ Max.max 0 (Min.min W y)) := by
  refine ⟨by omega, fun _ => by omega, fun _ _ => by omega, by omega, fun _ => by omega⟩

/-- C40: `WgCompositor::shrinkRenderRegion` returns coordinates that are not negative; for a
target whose `width` and `height` are below 2³¹ (so that the conversion to `int32_t` keeps
them) each of `min.x`, `max.x` is clamped to `[0, width]` and each of `min.y`, `max.y` to
`[0, height]`, and a region already inside the target is returned as it is; the function is
idempotent and keeps `min ≤ max` in each component. -/
theorem shrinkRenderRegion_spec (self : WgCompositor) (rect : RenderRegion) :
    (0 ≤ (self.shrinkRenderRegion rect).min.x ∧ 0 ≤ (self.shrinkRenderRegion rect).min.y
      ∧ 0 ≤ (self.shrinkRenderRegion rect).max.x ∧ 0 ≤ (self.shrinkRenderRegion rect).max.y)
    ∧ (self.width < 2147483648 → self.height < 2147483648 →
        self.shrinkRenderRegion rect
          = ⟨⟨Max.max 0 (Min.min (self.width : Int) rect.min.x),
              Max.max 0 (Min.min (self.height : Int) rect.min.y)⟩,
             ⟨Max.max 0 (Min.min (self.width : Int) rect.max.x),
              Max.max 0 (Min.min (self.height : Int) rect.max.y)⟩⟩
        ∧ (self.shrinkRenderRegion rect).min.x ≤ self.width
        ∧ (self.shrinkRenderRegion rect).max.x ≤ self.width
        ∧ (self.shrinkRenderRegion rect).min.y ≤ self.height
        ∧ (self.shrinkRenderRegion rect).max.y ≤ self.height
        ∧ (0 ≤ rect.min.x → rect.min.x ≤ self.width → 0 ≤ rect.max.x →
            rect.max.x ≤ self.width → 0 ≤ rect.min.y → rect.min.y ≤ self.height →
            0 ≤ rect.max.y → rect.max.y ≤ self.height →
            self.shrinkRenderRegion rect = rect))
    ∧ self.shrinkRenderRegion (self.shrinkRenderRegion rect) = self.shrinkRenderRegion rect
    ∧ (rect.min.x ≤ rect.max.x →
        (self.shrinkRenderRegion rect).min.x ≤ (self.shrinkRenderRegion rect).max.x)
    ∧ (rect.min.y ≤ rect.max.y →
        (self.shrinkRenderRegion rect).min.y ≤ (self.shrinkRenderRegion rect).max.y) := by
  obtain ⟨⟨x0, y0⟩, ⟨x1, y1⟩⟩ := rect
  unfold WgCompositor.shrinkRenderRegion
  simp only
  refine ⟨⟨(clamp_facts _ x0 x0).1, (clamp_facts _ y0 y0).1, (clamp_facts _ x1 x1).1,
    (clamp_facts _ y1 y1).1⟩, ?_, ?_, fun h => (clamp_facts _ x0 x1).2.2.2.2 h,
    fun h => (clamp_facts _ y0 y1).2.2.2.2 h⟩
  · intro hw hh
    rw [i32_natCast _ hw, i32_natCast _ hh]
    refine ⟨rfl, (clamp_facts _ x0 x0).2.1 (by omega), (clamp_facts _ x1 x1).2.1 (by omega),
      (clamp_facts _ y0 y0).2.1 (by omega), (clamp_facts _ y1 y1).2.1 (by omega), ?_⟩
    intro a1 a2 a3 a4 a5 a6 a7 a8
    rw [(clamp_facts _ x0 x0).2.2.1 a1 a2, (clamp_facts _ x1 x1).2.2.1 a3 a4,
      (clamp_facts _ y0 y0).2.2.1 a5 a6, (clamp_facts _ y1 y1).2.2.1 a7 a8]
  · rw [(clamp_facts _ x0 x0).2.2.2.1, (clamp_facts _ x1 x1).2.2.2.1,
      (clamp_facts _ y0 y0).2.2.2.1, (clamp_facts _ y1 y1).2.2.2.1]

/-- C40 on a 800 × 600 target: the region (-5, 10)-(900, 700) becomes (0, 10)-(800, 600), and
the region (10, 20)-(30, 40), inside the target, is returned as it is. -/
theorem shrinkRenderRegion_spec_witness :
    WgCompositor.shrinkRenderRegion ⟨800, 600⟩ ⟨⟨-5, 10⟩, ⟨900, 700⟩⟩
        = ⟨⟨0, 10⟩, ⟨800, 600⟩⟩
    ∧ WgCompositor.shrinkRenderRegion ⟨800, 600⟩ ⟨⟨10, 20⟩, ⟨30, 40⟩⟩ = ⟨⟨10, 20⟩, ⟨30, 40⟩⟩ :=
  ⟨((shrinkRenderRegion_spec ⟨800, 600⟩ ⟨⟨-5, 10⟩, ⟨900, 700⟩⟩).2.1 (by decide)
      (by decide)).1.trans (by decide),
   ((shrinkRenderRegion_spec ⟨800, 600⟩ ⟨⟨10, 20⟩, ⟨30, 40⟩⟩).2.1 (by decide)
      (by decide)).2.2.2.2.2 (by decide) (by decide) (by decide) (by decide) (by decide)
      (by decide) (by decide) (by decide)⟩

/-! ## A span of half coverage -/

theorem C3_le2 (c : Nat) : C3 c ≤ 255 := by
  unfold C3
  omega

/-- The span colour of `_rasterSolidRle` for white at coverage 128 composed over `d`: each byte
is `128 + v / 2` for the byte `v` of `d`. -/
theorem half_blend (d : Nat) :
    ALPHA_BLEND 0xFFFFFFFF 128 + ALPHA_BLEND d 127
      = (128 + A d / 2) * 16777216 + (128 + C1 d / 2) * 65536 + (128 + C2 d / 2) * 256
        + (128 + C3 d / 2) := by
  have e1 : ALPHA_BLEND 0xFFFFFFFF 128 = 0x80808080 := by decide
  rw [e1, ALPHA_BLEND_eq d 127 (by omega)]
  omega

/-- The interpolation of white over `d` along 128: each byte is `(255 + v) / 2` for the byte
`v` of `d`. -/
theorem interp_white_half (d : Nat) (hd : d < 4294967296) :
    INTERPOLATE 0xFFFFFFFF d 128
      = ((255 + A d) / 2) * 16777216 + ((255 + C1 d) / 2) * 65536 + ((255 + C2 d) / 2) * 256
        + (255 + C3 d) / 2 := by
  have hw := word_eq_bytes d hd
  have h3 := A_le d
  have h2 : C1 d ≤ 255 := C1_le d
  have h1 : C2 d ≤ 255 := C2_le d
  have h0 : C3 d ≤ 255 := C3_le2 d
  have m1 : (d >>> 8) &&& 0xff00ff = A d * 65536 + C2 d := by
    rw [and_00ff00ff, shr8, A_eq, C2_eq]
    omega
  have m2 : d &&& 0xff00ff = C1 d * 65536 + C3 d := by
    rw [and_00ff00ff, C1_eq]
    rfl
  have m3 : d &&& 0xff00ff00 = A d * 16777216 + C2 d * 256 := by
    rw [and_ff00ff00, A_eq, C2_eq]
  have w1 : ((0xFFFFFFFF : Nat) >>> 8) &&& 0xff00ff = 0xff00ff := by decide
  have w2 : (0xFFFFFFFF : Nat) &&& 0xff00ff = 0xff00ff := by decide
  unfold INTERPOLATE
  simp only [m1, m2, m3, w1, w2]
  generalize A d = a3 at *
  generalize C1 d = a2 at *
  generalize C2 d = a1 at *
  generalize C3 d = a0 at *
  have s1 : u32 (((0xff00ff : Nat) : Int) - ((a3 * 65536 + a1 : Nat) : Int))
      = (255 - a3) * 65536 + (255 - a1) := by
    unfold u32
    omega
  have s2 : u32 ((((255 - a3) * 65536 + (255 - a1) : Nat) : Int) * ((128 : Nat) : Int))
      = (255 - a3) * 8388608 + (255 - a1) * 128 := by
    unfold u32
    omega
  have s3 : u32 ((((255 - a3) * 8388608 + (255 - a1) * 128 : Nat) : Int)
      + ((a3 * 16777216 + a1 * 256 : Nat) : Int))
      = (255 + a3) * 8388608 + (255 + a1) * 128 := by
    unfold u32
    omega
  have t1 : u32 (((0xff00ff : Nat) : Int) - ((a2 * 65536 + a0 : Nat) : Int))
      = (255 - a2) * 65536 + (255 - a0) := by
    unfold u32
    omega
  have t2 : u32 ((((255 - a2) * 65536 + (255 - a0) : Nat) : Int) * ((128 : Nat) : Int))
      = (255 - a2) * 8388608 + (255 - a0) * 128 := by
    unfold u32
    omega
  have t3 : u32 (((((255 - a2) * 8388608 + (255 - a0) * 128) >>> 8 : Nat) : Int)
      + ((a2 * 65536 + a0 : Nat) : Int))
      = (255 + a2) * 32768 + (255 - a0) / 2 + a0 := by
    rw [shr8]
    unfold u32
    omega
  rw [s1, s2, s3, t1, t2, t3, and_ff00ff00, and_00ff00ff]
  clear s1 s2 s3 t1 t2 t3 m1 m2 m3 w1 w2 hw hd
  have q1 : ((255 + a3) * 8388608 + (255 + a1) * 128) / 16777216 = (255 + a3) / 2 := by omega
  have q2 : ((255 + a3) * 8388608 + (255 + a1) * 128) / 256
      = (255 + a3) * 32768 + (255 + a1) / 2 := by omega
  have q3 : ((255 + a3) * 32768 + (255 + a1) / 2) % 256 = (255 + a1) / 2 := by omega
  have q4 : ((255 + a2) * 32768 + (255 - a0) / 2 + a0) / 65536 = (255 + a2) / 2 := by omega
  have q5 : ((255 + a2) * 32768 + (255 - a0) / 2 + a0) % 256 = (255 + a0) / 2 := by omega
  rw [q1, q2, q3, q4, q5]
  omega

/-- The four bytes of a word given by its bytes. -/
theorem channels_of_sum (x3 x2 x1 x0 : Nat) (h3 : x3 ≤ 255) (h2 : x2 ≤ 255) (h1 : x1 ≤ 255)
    (h0 : x0 ≤ 255) :
    A (x3 * 16777216 + x2 * 65536 + x1 * 256 + x0) = x3
    ∧ C1 (x3 * 16777216 + x2 * 65536 + x1 * 256 + x0) = x2
    ∧ C2 (x3 * 16777216 + x2 * 65536 + x1 * 256 + x0) = x1
    ∧ C3 (x3 * 16777216 + x2 * 65536 + x1 * 256 + x0) = x0 := by
  have b := bytes4 x3 x2 x1 x0 h3 h2 h1 h0
  refine ⟨?_, ?_, ?_, b.1⟩
  · rw [A_eq]; exact b.2.2.2
  · rw [C1_eq]; exact b.2.2.1
  · rw [C2_eq]; exact b.2.1

/-- The bytes of the two pixels: `128 + v / 2` in the span colour composed over `d`, and
`(255 + v) / 2` in the interpolation, for the byte `v` of `d`. -/
theorem half_channels (d : Nat) (hd : d < 4294967296) :
    (A (ALPHA_BLEND 0xFFFFFFFF 128 + ALPHA_BLEND d 127) = 128 + A d / 2
      ∧ C1 (ALPHA_BLEND 0xFFFFFFFF 128 + ALPHA_BLEND d 127) = 128 + C1 d / 2
      ∧ C2 (ALPHA_BLEND 0xFFFFFFFF 128 + ALPHA_BLEND d 127) = 128 + C2 d / 2
      ∧ C3 (ALPHA_BLEND 0xFFFFFFFF 128 + ALPHA_BLEND d 127) = 128 + C3 d / 2)
    ∧ (A (INTERPOLATE 0xFFFFFFFF d 128) = (255 + A d) / 2
      ∧ C1 (INTERPOLATE 0xFFFFFFFF d 128) = (255 + C1 d) / 2
      ∧ C2 (INTERPOLATE 0xFFFFFFFF d 128) = (255 + C2 d) / 2
      ∧ C3 (INTERPOLATE 0xFFFFFFFF d 128) = (255 + C3 d) / 2) := by
  have h3 := A_le d
  have h2 : C1 d ≤ 255 := C1_le d
  have h1 : C2 d ≤ 255 := C2_le d
  have h0 : C3 d ≤ 255 := C3_le2 d
  rw [half_blend d, interp_white_half d hd]
  exact ⟨channels_of_sum _ _ _ _ (by omega) (by omega) (by omega) (by omega),
    channels_of_sum _ _ _ _ (by omega) (by omega) (by omega) (by omega)⟩

theorem half_blend_lt (d : Nat) : ALPHA_BLEND 0xFFFFFFFF 128 + ALPHA_BLEND d 127 < 4294967296 := by
  have h3 := A_le d
  have h2 : C1 d ≤ 255 := C1_le d
  have h1 : C2 d ≤ 255 := C2_le d
  have h0 : C3 d ≤ 255 := C3_le2 d
  rw [half_blend d]
  omega

theorem white_join (s : SwSurface) (hj : s.join = _abgrJoin ∨ s.join = _argbJoin) :
    s.join 255 255 255 255 = 0xFFFFFFFF := by
  rcases hj with h | h <;> rw [h] <;> decide

/-- The solid Rle kernel on the one span `{x = 0, y = 0, len = 4, coverage = 128}` inside the
region, on a 32-bit surface: the four cells of the span are rewritten in turn. -/
theorem solidRle_half_span (P : SwCommon) (s : SwSurface) (bbox : RenderRegion)
    (c : RenderColor) (h4 : s.channelSize = 4)
    (hx0 : bbox.min.x ≤ 0) (hx1 : 4 ≤ bbox.max.x) (hy0 : bbox.min.y ≤ 0)
    (hy1 : 0 < bbox.max.y) :
    _rasterSolidRle P s ⟨[⟨0, 0, 4, 128⟩]⟩ bbox c
      = (true, { s with buf := forLoop 4 (fun i m =>
          m.write32 (0 + i) ((fun v => P.ALPHA_BLEND (s.join c.r c.g c.b 255) 128
            + P.ALPHA_BLEND v 127) (m.read32 (0 + i)))) s.buf }) := by
  have e1 : Max.max ((0 : Nat) : Int) bbox.min.x = 0 := by omega
  have e2 : Min.min (((0 : Nat) : Int) + ((4 : Nat) : Int)) bbox.max.x = 4 := by omega
  have e3 : ¬ (((0 : Nat) : Int) < bbox.min.y) := by omega
  have e4 : ((0 : Nat) : Int) < bbox.max.y := by omega
  unfold _rasterSolidRle
  simp only [h4, if_true, SwRle.fetch, SwSpan.fetch, List.dropWhile, List.takeWhile, e1, e2,
    e3, e4, decide_True, decide_False, List.foldl]
  simp [u32]

/-- C31: on a 32-bit surface with no compositor and no blender, set up for ABGR or ARGB, with
`ALPHA_BLEND` the scalar rule, `_rasterRle` on the one span `{x = 0, y = 0, len = 4,
coverage = 128}` (inside the region) with the colour (255, 255, 255, 255) returns true and
leaves in each of the four cells `ALPHA_BLEND(white, 128) + ALPHA_BLEND(dst_before, 127)`;
every byte of that pixel is the corresponding byte of `INTERPOLATE(white, dst_before, 128)` or
one more, for every content `dst_before` of the cell; the cells from 4 on are unchanged. -/
theorem rasterRle_half_coverage (P : SwCommon) (s : SwSurface) (bbox : RenderRegion)
    (h4 : s.channelSize = 4) (hc : s.compositor = none) (hb : s.blender = none)
    (hj : s.join = _abgrJoin ∨ s.join = _argbJoin) (hP : P.ALPHA_BLEND = ALPHA_BLEND)
    (hx0 : bbox.min.x ≤ 0) (hx1 : 4 ≤ bbox.max.x) (hy0 : bbox.min.y ≤ 0)
    (hy1 : 0 < bbox.max.y) :
    (_rasterRle P s (some ⟨[⟨0, 0, 4, 128⟩]⟩) bbox ⟨255, 255, 255, 255⟩).1 = true
    ∧ (∀ i, i < 4 →
        (_rasterRle P s (some ⟨[⟨0, 0, 4, 128⟩]⟩) bbox ⟨255, 255, 255, 255⟩).2.buf.read32 i
          = ALPHA_BLEND 0xFFFFFFFF 128 + ALPHA_BLEND (s.buf.read32 i) 127
        ∧ (A (INTERPOLATE 0xFFFFFFFF (s.buf.read32 i) 128)
            ≤ A (ALPHA_BLEND 0xFFFFFFFF 128 + ALPHA_BLEND (s.buf.read32 i) 127)
          ∧ A (ALPHA_BLEND 0xFFFFFFFF 128 + ALPHA_BLEND (s.buf.read32 i) 127)
            ≤ A (INTERPOLATE 0xFFFFFFFF (s.buf.read32 i) 128) + 1)
        ∧ (C1 (INTERPOLATE 0xFFFFFFFF (s.buf.read32 i) 128)
            ≤ C1 (ALPHA_BLEND 0xFFFFFFFF 128 + ALPHA_BLEND (s.buf.read32 i) 127)
          ∧ C1 (ALPHA_BLEND 0xFFFFFFFF 128 + ALPHA_BLEND (s.buf.read32 i) 127)
            ≤ C1 (INTERPOLATE 0xFFFFFFFF (s.buf.read32 i) 128) + 1)
        ∧ (C2 (INTERPOLATE 0xFFFFFFFF (s.buf.read32 i) 128)
            ≤ C2 (ALPHA_BLEND 0xFFFFFFFF 128 + ALPHA_BLEND (s.buf.read32 i) 127)
          ∧ C2 (ALPHA_BLEND 0xFFFFFFFF 128 + ALPHA_BLEND (s.buf.read32 i) 127)
            ≤ C2 (INTERPOLATE 0xFFFFFFFF (s.buf.read32 i) 128) + 1)
        ∧ (C3 (INTERPOLATE 0xFFFFFFFF (s.buf.read32 i) 128)
            ≤ C3 (ALPHA_BLEND 0xFFFFFFFF 128 + ALPHA_BLEND (s.buf.read32 i) 127)
          ∧ C3 (ALPHA_BLEND 0xFFFFFFFF 128 + ALPHA_BLEND (s.buf.read32 i) 127)
            ≤ C3 (INTERPOLATE 0xFFFFFFFF (s.buf.read32 i) 128) + 1))
    ∧ (∀ c, 4 ≤ c →
        (_rasterRle P s (some ⟨[⟨0, 0, 4, 128⟩]⟩) bbox ⟨255, 255, 255, 255⟩).2.buf.read32 c
          = s.buf.read32 c) := by
  have hk : _rasterRle P s (some ⟨[⟨0, 0, 4, 128⟩]⟩) bbox ⟨255, 255, 255, 255⟩
      = _rasterSolidRle P s ⟨[⟨0, 0, 4, 128⟩]⟩ bbox ⟨255, 255, 255, 255⟩ := by
    unfold _rasterRle
    simp [compositing_of_none s hc, blending_of_none s hb, SwRle.invalid]
  rw [hk, solidRle_half_span P s bbox _ h4 hx0 hx1 hy0 hy1]
  have hM := maps_forLoop Mem.read32 4 (fun i c => c = 0 + i)
    (fun _ v => (P.ALPHA_BLEND (s.join 255 255 255 255) 128 + P.ALPHA_BLEND v 127)
      % 4294967296)
    (fun i m => m.write32 (0 + i)
      ((fun v => P.ALPHA_BLEND (s.join 255 255 255 255) 128 + P.ALPHA_BLEND v 127)
        (m.read32 (0 + i))))
    (fun i _ => maps_write32 (0 + i) _) (fun i j c _ _ e1 e2 => by omega)
  refine ⟨rfl, fun i hi => ?_, fun c hc4 => ?_⟩
  · have hd := read32_lt s.buf i
    have hch := half_channels (s.buf.read32 i) hd
    refine ⟨?_, by omega, by omega, by omega, by omega⟩
    have h := (hM s.buf i).1 ⟨i, hi, by omega⟩
    simp only [hP, white_join s hj, Nat.mod_eq_of_lt (half_blend_lt (s.buf.read32 i))] at h ⊢
    exact h
  · exact (hM s.buf c).2 (by rintro ⟨i, hi, e⟩; omega)

/-- C31 on the 16x16 ABGR surface whose pixels are `0xABABABAB`: cell 0 of the span receives
`0xD5D5D5D5` (each byte 128 + 171 / 2 = 213), which here is `INTERPOLATE(white, dst, 128)`
itself, and cell 4, right of the span, keeps its pixel. -/
theorem rasterRle_half_coverage_witness :
    (_rasterRle scalarCommon inkSurface16 (some ⟨[⟨0, 0, 4, 128⟩]⟩) ⟨⟨0, 0⟩, ⟨16, 16⟩⟩
        ⟨255, 255, 255, 255⟩).2.buf.read32 0 = 0xD5D5D5D5
    ∧ INTERPOLATE 0xFFFFFFFF 0xABABABAB 128 = 0xD5D5D5D5
    ∧ (_rasterRle scalarCommon inkSurface16 (some ⟨[⟨0, 0, 4, 128⟩]⟩) ⟨⟨0, 0⟩, ⟨16, 16⟩⟩
        ⟨255, 255, 255, 255⟩).2.buf.read32 4 = 0xABABABAB := by
  have h := rasterRle_half_coverage scalarCommon inkSurface16 ⟨⟨0, 0⟩, ⟨16, 16⟩⟩ rfl rfl rfl
    (Or.inl rfl) rfl (by decide) (by decide) (by decide) (by decide)
  have e0 : inkSurface16.buf.read32 0 = 0xABABABAB := by decide
  have e4 : inkSurface16.buf.read32 4 = 0xABABABAB := by decide
  refine ⟨?_, by decide, (h.2.2 4 (by decide)).trans e4⟩
  rw [(h.2.1 0 (by decide)).1, e0]
  decide

/-! ## The matted rect -/

/-- The two positions against the specification's row position, for a region of natural
coordinates whose offsets fit 32 bits: the kernels step by the surface stride where the row
position steps by the compositor stride. -/
theorem gradientCmp_offsets (s : SwSurface) (cmp : SwCompositor) (x0 y0 : Nat)
    (bmax : Point) (y : Nat)
    (hfit : ((y0 + y) * cmp.image.stride + x0) * cmp.image.channelSize < 4294967296)
    (hfit1 : (y0 + y) * cmp.image.stride + x0 < 4294967296)
    (hs : s.stride * cmp.image.channelSize < 4294967296) :
    compositeGradientCmp s cmp ⟨⟨x0, y0⟩, bmax⟩ y + y * cmp.image.stride
        = compositorRowCmp cmp ⟨⟨x0, y0⟩, bmax⟩ y 1 + y * s.stride
    ∧ mattedGradientCmp s cmp ⟨⟨x0, y0⟩, bmax⟩ y + y * cmp.image.stride * cmp.image.channelSize
        = compositorRowCmp cmp ⟨⟨x0, y0⟩, bmax⟩ y cmp.image.channelSize
          + y * s.stride * cmp.image.channelSize := by
  have a1 : y0 * cmp.image.stride + x0 ≤ (y0 + y) * cmp.image.stride + x0 := by
    rw [Nat.add_mul]; omega
  have a2 : (y0 * cmp.image.stride + x0) * cmp.image.channelSize
      ≤ ((y0 + y) * cmp.image.stride + x0) * cmp.image.channelSize :=
    Nat.mul_le_mul_right _ a1
  have e1 : u32 ((y0 : Int) * cmp.image.stride + x0) = y0 * cmp.image.stride + x0 :=
    u32_cell _ _ _ (by omega)
  have e2 : u32 ((((y0 : Int) + y) * cmp.image.stride + x0) * ((1 : Nat) : Int))
      = (y0 + y) * cmp.image.stride + x0 := by
    have e : ((((y0 : Int) + y) * cmp.image.stride + x0) * ((1 : Nat) : Int))
        = (((y0 + y) * cmp.image.stride + x0 : Nat) : Int) := by push_cast; ring
    rw [e, u32_natCast _ hfit1]
  have e3 : u32 (((y0 : Int) * cmp.image.stride + x0) * cmp.image.channelSize)
      = (y0 * cmp.image.stride + x0) * cmp.image.channelSize := by
    have e : (((y0 : Int) * cmp.image.stride + x0) * cmp.image.channelSize)
        = (((y0 * cmp.image.stride + x0) * cmp.image.channelSize : Nat) : Int) := by
      push_cast; ring
    rw [e, u32_natCast _ (by omega)]
  have e4 : u32 ((((y0 : Int) + y) * cmp.image.stride + x0) * cmp.image.channelSize)
      = ((y0 + y) * cmp.image.stride + x0) * cmp.image.channelSize := by
    have e : ((((y0 : Int) + y) * cmp.image.stride + x0) * cmp.image.channelSize)
        = ((((y0 + y) * cmp.image.stride + x0) * cmp.image.channelSize : Nat) : Int) := by
      push_cast; ring
    rw [e, u32_natCast _ hfit]
  have e5 : u32 ((s.stride : Int) * cmp.image.channelSize)
      = s.stride * cmp.image.channelSize := by
    have e : ((s.stride : Int) * cmp.image.channelSize)
        = ((s.stride * cmp.image.channelSize : Nat) : Int) := by push_cast; ring
    rw [e, u32_natCast _ hs]
  unfold compositeGradientCmp mattedGradientCmp compositorRowCmp
  simp only
  rw [e1, e2, e3, e4, e5]
  constructor
  · rw [Nat.add_mul]
    omega
  · have r1 : ((y0 + y) * cmp.image.stride + x0) * cmp.image.channelSize
        = (y0 * cmp.image.stride + x0) * cmp.image.channelSize
          + y * cmp.image.stride * cmp.image.channelSize := by ring
    have r2 : y * (s.stride * cmp.image.channelSize) = y * s.stride * cmp.image.channelSize := by
      ring
    rw [r1, r2]
    omega

/-- C38: the position in the compositor buffer that the two gradient rect kernels hand to the
fill evaluator for row `y` of the region is `cbuffer` advanced `y` times by the stride of the
surface (`compositeGradientCmp`, `mattedGradientCmp`), not the position of compositor row
`bbox.min.y + y`. For a region of natural coordinates whose offsets fit 32 bits the two differ
by `y` times the difference of the two strides: they agree when the strides are equal, and for
`y > 0` and different strides they differ (for the matted kernel when `csize > 0`). -/
theorem gradientRect_cmp_position (fillMethod : FillMethod) (s : SwSurface)
    (cmp : SwCompositor) (x0 y0 : Nat) (bmax : Point) (fill : SwFill) (maskOp : SwMask)
    (y : Nat) (hc : s.compositor = some cmp)
    (hfit : ((y0 + y) * cmp.image.stride + x0) * cmp.image.channelSize < 4294967296)
    (hfit1 : (y0 + y) * cmp.image.stride + x0 < 4294967296)
    (hs : s.stride * cmp.image.channelSize < 4294967296) :
    _rasterCompositeGradientMaskedRect fillMethod s ⟨⟨x0, y0⟩, bmax⟩ fill maskOp
        = _compositeMaskImage
            { s with compositor := some { cmp with image := { cmp.image with
                buf := forLoop (RenderRegion.h ⟨⟨x0, y0⟩, bmax⟩) (fun y m =>
                  fillMethod.mask fill m (compositeGradientCmp s cmp ⟨⟨x0, y0⟩, bmax⟩ y)
                    (u32 ((y0 : Int) + y)) (u32 (x0 : Int)) (RenderRegion.w ⟨⟨x0, y0⟩, bmax⟩)
                    maskOp 255) cmp.image.buf } } }
            { cmp.image with
                buf := forLoop (RenderRegion.h ⟨⟨x0, y0⟩, bmax⟩) (fun y m =>
                  fillMethod.mask fill m (compositeGradientCmp s cmp ⟨⟨x0, y0⟩, bmax⟩ y)
                    (u32 ((y0 : Int) + y)) (u32 (x0 : Int)) (RenderRegion.w ⟨⟨x0, y0⟩, bmax⟩)
                    maskOp 255) cmp.image.buf }
            cmp.bbox
    ∧ (_rasterGradientMattedRect fillMethod s ⟨⟨x0, y0⟩, bmax⟩ fill).2.buf
        = (forLoop (RenderRegion.h ⟨⟨x0, y0⟩, bmax⟩) (fun y (m : Mem × Mem) =>
            fillMethod.matte fill m.1
              ((u32 ((y0 : Int) * s.stride) : Int) + (x0 : Int) + y * s.stride).toNat
              (u32 ((y0 : Int) + y)) (u32 (x0 : Int)) (RenderRegion.w ⟨⟨x0, y0⟩, bmax⟩) m.2
              (mattedGradientCmp s cmp ⟨⟨x0, y0⟩, bmax⟩ y) (s.alpha cmp.method)
              cmp.image.channelSize 255)
          (s.buf, cmp.image.buf)).1
    ∧ (compositeGradientCmp s cmp ⟨⟨x0, y0⟩, bmax⟩ y + y * cmp.image.stride
          = compositorRowCmp cmp ⟨⟨x0, y0⟩, bmax⟩ y 1 + y * s.stride
      ∧ mattedGradientCmp s cmp ⟨⟨x0, y0⟩, bmax⟩ y
            + y * cmp.image.stride * cmp.image.channelSize
          = compositorRowCmp cmp ⟨⟨x0, y0⟩, bmax⟩ y cmp.image.channelSize
            + y * s.stride * cmp.image.channelSize)
    ∧ (s.stride = cmp.image.stride →
        compositeGradientCmp s cmp ⟨⟨x0, y0⟩, bmax⟩ y
            = compositorRowCmp cmp ⟨⟨x0, y0⟩, bmax⟩ y 1
        ∧ mattedGradientCmp s cmp ⟨⟨x0, y0⟩, bmax⟩ y
            = compositorRowCmp cmp ⟨⟨x0, y0⟩, bmax⟩ y cmp.image.channelSize)
    ∧ (0 < y → s.stride ≠ cmp.image.stride →
        compositeGradientCmp s cmp ⟨⟨x0, y0⟩, bmax⟩ y
            ≠ compositorRowCmp cmp ⟨⟨x0, y0⟩, bmax⟩ y 1
        ∧ (0 < cmp.image.channelSize →
            mattedGradientCmp s cmp ⟨⟨x0, y0⟩, bmax⟩ y
              ≠ compositorRowCmp cmp ⟨⟨x0, y0⟩, bmax⟩ y cmp.image.channelSize)) := by
  have hb := gradientCmp_offsets s cmp x0 y0 bmax y hfit hfit1 hs
  refine ⟨?_, ?_, hb, fun he => ?_, fun hy hne => ⟨fun e => ?_, fun hcs e => ?_⟩⟩
  · unfold _rasterCompositeGradientMaskedRect
    rw [hc]
    rfl
  · unfold _rasterGradientMattedRect
    rw [hc]
    rfl
  · have h1 := hb.1
    have h2 := hb.2
    rw [he] at h1 h2
    exact ⟨Nat.add_right_cancel h1, Nat.add_right_cancel h2⟩
  · have h1 := hb.1
    rw [e] at h1
    have h2 : y * cmp.image.stride = y * s.stride := Nat.add_left_cancel h1
    exact hne (Nat.eq_of_mul_eq_mul_left hy h2).symm
  · have h1 := hb.2
    rw [e] at h1
    have h2 : y * cmp.image.stride * cmp.image.channelSize
        = y * s.stride * cmp.image.channelSize := Nat.add_left_cancel h1
    have h3 : y * cmp.image.stride = y * s.stride := Nat.eq_of_mul_eq_mul_right hcs h2
    exact hne (Nat.eq_of_mul_eq_mul_left hy h3).symm

/-- C38 on 4x4 surfaces of stride 4 whose compositor image has stride 8, region (0,0)-(2,2):
for row 1 the kernels hand the position 4 where compositor row 1 starts at 8. With an opaque
flat fill under Add the mask cell 4 (row 0, column 4) is written and cell 8 (row 1, column 0)
is not; under an Alpha matte whose row 1 is opaque the pixel (0,1) stays 0, the matte being
read in row 0. -/
theorem gradientRect_cmp_position_witness :
    compositeGradientCmp wideMaskedSurface4
        { method := .Add, image := wideMaskImage, bbox := ⟨⟨0, 0⟩, ⟨4, 4⟩⟩ }
        ⟨⟨0, 0⟩, ⟨2, 2⟩⟩ 1
      ≠ compositorRowCmp { method := .Add, image := wideMaskImage, bbox := ⟨⟨0, 0⟩, ⟨4, 4⟩⟩ }
        ⟨⟨0, 0⟩, ⟨2, 2⟩⟩ 1 1
    ∧ compositeGradientCmp wideMaskedSurface4
        { method := .Add, image := wideMaskImage, bbox := ⟨⟨0, 0⟩, ⟨4, 4⟩⟩ }
        ⟨⟨0, 0⟩, ⟨2, 2⟩⟩ 1 = 4
    ∧ compositorRowCmp { method := .Add, image := wideMaskImage, bbox := ⟨⟨0, 0⟩, ⟨4, 4⟩⟩ }
        ⟨⟨0, 0⟩, ⟨2, 2⟩⟩ 1 1 = 8
    ∧ ((_rasterCompositeGradientMaskedRect (flatFill 0xFF000000) wideMaskedSurface4
        ⟨⟨0, 0⟩, ⟨2, 2⟩⟩ ⟨false⟩ _opMaskAdd).2.compositor.map fun c =>
          (c.image.buf.read8 0, c.image.buf.read8 4, c.image.buf.read8 8))
        = some (255, 255, 0)
    ∧ (_rasterGradientMattedRect (flatFill 0xFF0000FF) wideMattedSurface4
        ⟨⟨0, 0⟩, ⟨2, 2⟩⟩ ⟨false⟩).2.buf.read32 4 = 0 := by
  have h := gradientRect_cmp_position (flatFill 0xFF000000) wideMaskedSurface4
    { method := .Add, image := wideMaskImage, bbox := ⟨⟨0, 0⟩, ⟨4, 4⟩⟩ } 0 0 ⟨2, 2⟩ ⟨false⟩
    _opMaskAdd 1 rfl (by decide) (by decide) (by decide)
  have h1 := (h.2.2.2.2 (by decide) (by decide)).1
  exact ⟨h1, by decide, by decide, by decide, by decide⟩

/-! ## The cells the up-scaler reads -/

/-- The index of a coordinate in range is below the side. -/
theorem upIndex_lt (w : Nat) (sx : Rat) (h0 : -(1 / 2) < sx) (h1 : sx < (w : Rat) - 1 / 2) :
    upIndex sx < w := by
  unfold upIndex truncI
  by_cases hs : 0 ≤ sx
  · rw [if_pos hs]
    have hf : Rat.floor sx < (w : Int) := by
      show ⌊sx⌋ < (w : Int)
      rw [Int.floor_lt]
      have e : (((w : Int)) : Rat) = (w : Rat) := by norm_cast
      rw [e]
      linarith
    have hf0 : 0 ≤ Rat.floor sx := by
      show 0 ≤ ⌊sx⌋
      exact Int.floor_nonneg.mpr hs
    omega
  · rw [if_neg hs]
    have hz : Rat.floor (-sx) = 0 := rat_floor_eq _ 0 (by push_cast; linarith)
      (by push_cast; linarith)
    rw [hz]
    have hw : (0 : Rat) < w := by linarith
    have : 0 < w := by exact_mod_cast hw
    simpa using this

/-- The neighbour index is the minimum of `rx + 1` and `w - 1`. -/
theorem upIndex2_eq (w : Nat) (sx : Rat) (hw : 1 ≤ w) (hw32 : w < 4294967296) :
    upIndex2 w sx = Min.min (upIndex sx + 1) (w - 1) := by
  unfold upIndex2
  have e : u32 ((w : Int) - 1) = w - 1 := by
    unfold u32
    omega
  rw [e]
  split <;> omega

theorem index_lt (w h x y : Nat) (hx : x < w) (hy : y < h) : x + y * w < w * h := by
  have h1 : (y + 1) * w ≤ h * w := Nat.mul_le_mul_right _ hy
  have h2 : (y + 1) * w = y * w + w := by rw [Nat.add_mul, Nat.one_mul]
  have h3 : h * w = w * h := Nat.mul_comm _ _
  omega

/-- C37: `_interpUpScaler` reads the four cells `rx + ry * w`, `rx2 + ry * w`, `rx + ry2 * w`,
`rx2 + ry2 * w` of the image buffer, with `rx = (size_t)sx`, `ry = (size_t)sy` and the
neighbours `rx2`, `ry2`, and does not use `stride`. For sides `w, h ≥ 1` (below 2³²) and
`-0.5 < sx < w - 0.5`, `-0.5 < sy < h - 0.5`: `rx < w`, `ry < h`, `rx2 = min(rx + 1, w - 1)`,
`ry2 = min(ry + 1, h - 1)`, and the four indices are below `w * h`. The cell `rx + ry * w` is
the cell `ry * stride + rx` of the pixel `(rx, ry)` exactly when `ry = 0` or `stride = w`. -/
theorem interpUpScaler_indices (P : SwCommon) (img : Mem) (stride w h : Nat) (sx sy : Rat)
    (miny maxy n : Int) (hw : 1 ≤ w) (hh : 1 ≤ h) (hw32 : w < 4294967296)
    (hh32 : h < 4294967296) (hx0 : -(1 / 2) < sx) (hx1 : sx < (w : Rat) - 1 / 2)
    (hy0 : -(1 / 2) < sy) (hy1 : sy < (h : Rat) - 1 / 2) :
    _interpUpScaler P img stride w h sx sy miny maxy n
        = P.INTERPOLATE
            (P.INTERPOLATE (img.read32 (upIndex2 w sx + upIndex2 h sy * w))
              (img.read32 (upIndex sx + upIndex2 h sy * w))
              (if sx > 0 then u8 (truncI ((sx - upIndex sx) * 255)) else 0))
            (P.INTERPOLATE (img.read32 (upIndex2 w sx + upIndex sy * w))
              (img.read32 (upIndex sx + upIndex sy * w))
              (if sx > 0 then u8 (truncI ((sx - upIndex sx) * 255)) else 0))
            (if sy > 0 then u8 (truncI ((sy - upIndex sy) * 255)) else 0)
    ∧ (∀ stride2, _interpUpScaler P img stride2 w h sx sy miny maxy n
        = _interpUpScaler P img stride w h sx sy miny maxy n)
    ∧ (upIndex sx < w ∧ upIndex sy < h
      ∧ upIndex2 w sx = Min.min (upIndex sx + 1) (w - 1)
      ∧ upIndex2 h sy = Min.min (upIndex sy + 1) (h - 1))
    ∧ (upIndex sx + upIndex sy * w < w * h
      ∧ upIndex2 w sx + upIndex sy * w < w * h
      ∧ upIndex sx + upIndex2 h sy * w < w * h
      ∧ upIndex2 w sx + upIndex2 h sy * w < w * h)
    ∧ (upIndex sx + upIndex sy * w = upIndex sy * stride + upIndex sx
        ↔ (upIndex sy = 0 ∨ stride = w)) := by
  have hrx := upIndex_lt w sx hx0 hx1
  have hry := upIndex_lt h sy hy0 hy1
  have hrx2 := upIndex2_eq w sx hw hw32
  have hry2 := upIndex2_eq h sy hh hh32
  have hx2 : upIndex2 w sx < w := by rw [hrx2]; omega
  have hy2 : upIndex2 h sy < h := by rw [hry2]; omega
  refine ⟨rfl, fun _ => rfl, ⟨hrx, hry, hrx2, hry2⟩,
    ⟨index_lt w h _ _ hrx hry, index_lt w h _ _ hx2 hry, index_lt w h _ _ hrx hy2,
      index_lt w h _ _ hx2 hy2⟩, ?_⟩
  constructor
  · intro e
    by_cases h0 : upIndex sy = 0
    · exact Or.inl h0
    · right
      have e2 : upIndex sy * w = upIndex sy * stride := by omega
      exact (Nat.eq_of_mul_eq_mul_left (by omega) e2).symm
  · rintro (h0 | h0)
    · rw [h0]; omega
    · rw [h0]; omega

/-- C37 on the 2x2 image sampled at `sx = sy = 1/2`, handed a stride of 5: the indices are
0 and 1 in each direction, the four cells read are 0, 1, 2, 3, below 4, and the value is that
for the stride 2. -/
theorem interpUpScaler_indices_witness :
    (upIndex (1 / 2) = 0 ∧ upIndex2 2 (1 / 2) = 1)
    ∧ (upIndex (1 / 2) + upIndex (1 / 2) * 2 < 2 * 2
      ∧ upIndex2 2 (1 / 2) + upIndex (1 / 2) * 2 < 2 * 2
      ∧ upIndex (1 / 2) + upIndex2 2 (1 / 2) * 2 < 2 * 2
      ∧ upIndex2 2 (1 / 2) + upIndex2 2 (1 / 2) * 2 < 2 * 2)
    ∧ _interpUpScaler scalarCommon quadImage 5 2 2 (1 / 2) (1 / 2) 0 0 0
        = _interpUpScaler scalarCommon quadImage 2 2 2 (1 / 2) (1 / 2) 0 0 0 := by
  have h := interpUpScaler_indices scalarCommon quadImage 2 2 2 (1 / 2) (1 / 2) 0 0 0
    (by decide) (by decide) (by decide) (by decide) (by norm_num) (by norm_num)
    (by norm_num) (by norm_num)
  have t0 : truncI (1 / 2) = 0 := truncI_of_nonneg _ 0 (by norm_num) (by norm_num) (by norm_num)
  have e0 : upIndex (1 / 2) = 0 := by
    unfold upIndex
    rw [t0]
    rfl
  have e1 : upIndex2 2 (1 / 2) = 1 := by
    rw [h.2.2.1.2.2.1, e0]
    decide
  exact ⟨⟨e0, e1⟩, h.2.2.2.1, h.2.1 5⟩

/-! ## The window of the down-scaler under the range guards -/

/-- The passes of a counted loop with a positive step: pass `j` runs exactly when
`lo + j * inc < hi`. -/
theorem steps_iff (lo hi inc : Int) (hinc : 0 < inc) (j : Nat) :
    j < steps lo hi inc ↔ lo + j * inc < hi := by
  unfold steps
  have e : ((j : Int) + 1) * inc = j * inc + inc := by ring
  constructor
  · intro h
    have h1 : ((j : Int) + 1) ≤ (hi - lo + inc - 1) / inc := by omega
    have h2 := (Int.le_ediv_iff_mul_le hinc).mp h1
    rw [e] at h2
    omega
  · intro h
    have h2 : ((j : Int) + 1) * inc ≤ hi - lo + inc - 1 := by
      rw [e]
      omega
    have h1 := (Int.le_ediv_iff_mul_le hinc).mpr h2
    omega

theorem steps_pos (lo hi inc : Int) (hinc : 0 < inc) (h : lo < hi) : 0 < steps lo hi inc := by
  rw [steps_iff lo hi inc hinc 0]
  simpa using h

/-- The rounding `nearbyint` of a value within half a unit of the integers `lo … hi`. -/
theorem nearbyint_bounds (q : Rat) (lo hi : Int) (h0 : (lo : Rat) - 1 / 2 < q)
    (h1 : q < (hi : Rat) + 1 / 2) : lo ≤ nearbyint q ∧ nearbyint q ≤ hi := by
  have f0 : ((Rat.floor q : Int) : Rat) ≤ q := by
    show ((⌊q⌋ : Int) : Rat) ≤ q
    exact Int.floor_le q
  have f1 : q < ((Rat.floor q : Int) : Rat) + 1 := by
    show q < ((⌊q⌋ : Int) : Rat) + 1
    exact Int.lt_floor_add_one q
  unfold nearbyint
  simp only
  generalize Rat.floor q = f at *
  by_cases c1 : q - (f : Rat) < 1 / 2
  · rw [if_pos c1]
    have a1 : (lo : Rat) < (f : Rat) + 1 := by linarith
    have a2 : (f : Rat) < (hi : Rat) + 1 := by linarith
    have b1 : lo < f + 1 := by exact_mod_cast a1
    have b2 : f < hi + 1 := by exact_mod_cast a2
    omega
  · rw [if_neg c1]
    have a2 : (f : Rat) < (hi : Rat) := by linarith
    have b2 : f < hi := by exact_mod_cast a2
    by_cases c2 : 1 / 2 < q - (f : Rat)
    · rw [if_pos c2]
      have a1 : (lo : Rat) < (f : Rat) + 2 := by linarith
      have b1 : lo < f + 2 := by exact_mod_cast a1
      omega
    · rw [if_neg c2]
      have a1 : (lo : Rat) < (f : Rat) + 1 := by linarith
      have b1 : lo < f + 1 := by exact_mod_cast a1
      split <;> omega

/-- The truncation of a coordinate within the range guard of a side of `w` cells. -/
theorem truncI_range (w : Nat) (sx : Rat) (h0 : -(1 / 2) < sx) (h1 : sx < (w : Rat) - 1 / 2) :
    0 ≤ truncI sx ∧ truncI sx < w := by
  unfold truncI
  by_cases hs : 0 ≤ sx
  · rw [if_pos hs]
    have hf : Rat.floor sx < (w : Int) := by
      show ⌊sx⌋ < (w : Int)
      rw [Int.floor_lt]
      have e : (((w : Int)) : Rat) = (w : Rat) := by norm_cast
      rw [e]
      linarith
    have hf0 : 0 ≤ Rat.floor sx := by
      show 0 ≤ ⌊sx⌋
      exact Int.floor_nonneg.mpr hs
    exact ⟨hf0, hf⟩
  · rw [if_neg hs]
    have hz : Rat.floor (-sx) = 0 := rat_floor_eq _ 0 (by push_cast; linarith)
      (by push_cast; linarith)
    rw [hz]
    have hw : (0 : Rat) < w := by linarith
    have : 0 < w := by exact_mod_cast hw
    omega

/-- The macro `SCALED_IMAGE_RANGE_Y` for the down-scaler on a row in range: it hands on `sy`
and the rows `rangeMiny`, `rangeMaxy`. -/
theorem range_Y_some_down (itransform : Matrix) (image : SwImage) (n : Nat) (y : Int)
    (hfit : scaledSy itransform y + 1 / 2 < 4294967296)
    (hin : ¬ outOfRange (scaledSy itransform y) image.h) :
    SCALED_IMAGE_RANGE_Y itransform image true n y
      = some (scaledSy itransform y, rangeMiny (scaledSy itransform y) n,
          rangeMaxy image.h (scaledSy itransform y) n) := by
  rw [← range_test_iff _ _ hfit] at hin
  unfold SCALED_IMAGE_RANGE_Y
  unfold scaledSy at hin
  simp only
  rw [if_neg hin]
  rfl

theorem tdiv_two (N : Nat) : Int.tdiv (N : Int) 2 = ((N / 2 : Nat) : Int) := by
  rw [Int.tdiv_eq_ediv (by omega) (by omega)]
  omega

/-- The step, the rows and the columns of the window under the guards, as plain integers. -/
theorem window_facts (w h N : Nat) (sx sy : Rat) (hN : 1 ≤ N)
    (hNw : N + w < 2147483648) (hNh : N + h < 2147483648)
    (hx0 : -(1 / 2) < sx) (hx1 : sx < (w : Rat) - 1 / 2)
    (hy0 : -(1 / 2) < sy) (hy1 : sy < (h : Rat) - 1 / 2) :
    downInc (i32 N) = ((N / 2 + 1 : Nat) : Int)
    ∧ (0 ≤ rangeMiny sy N ∧ rangeMiny sy N < rangeMaxy h sy N ∧ rangeMaxy h sy N ≤ h)
    ∧ (0 ≤ downMinx sx (i32 N) ∧ downMinx sx (i32 N) < downMaxx w sx (i32 N)
      ∧ downMaxx w sx (i32 N) ≤ w) := by
  have eN : i32 (N : Int) = N := i32_natCast N (by omega)
  have ew : i32 (w : Int) = w := i32_natCast w (by omega)
  have eh : i32 (h : Int) = h := i32_natCast h (by omega)
  have ht := truncI_range w sx hx0 hx1
  have hn := nearbyint_bounds sy 0 ((h : Int) - 1) (by push_cast; linarith)
    (by push_cast; linarith)
  refine ⟨?_, ?_, ?_⟩
  · unfold downInc
    rw [eN, tdiv_two]
    unfold i32
    omega
  · unfold rangeMiny rangeMaxy
    rw [eN, eh]
    generalize nearbyint sy = my at hn ⊢
    have e1 : i32 my = my := by unfold i32; omega
    rw [e1]
    have e2 : i32 (my - N) = my - N := by unfold i32; omega
    have e3 : i32 (my + N) = my + N := by unfold i32; omega
    rw [e2, e3]
    split <;> split <;> omega
  · unfold downMinx downMaxx
    rw [eN, ew]
    generalize truncI sx = t at ht ⊢
    have e2 : i32 (t - N) = t - N := by unfold i32; omega
    have e3 : i32 (t + N) = t + N := by unfold i32; omega
    rw [e2, e3]
    split <;> split <;> omega

/-- Under the range guards, pass `i` of the column loop within pass `j` of the row loop of
`_interpDownScaler` reads the cell of the pixel in column `minx + i * inc` and row
`miny + j * inc`, and that pixel lies inside the image. -/
theorem downSample_pixel (stride w h N : Nat) (sx sy : Rat)
    (hN : 1 ≤ N) (hNw : N + w < 2147483648) (hNh : N + h < 2147483648)
    (hs1 : h * stride < 4294967296) (hs2 : (N / 2 + 1) * stride < 4294967296)
    (hx0 : -(1 / 2) < sx) (hx1 : sx < (w : Rat) - 1 / 2)
    (hy0 : -(1 / 2) < sy) (hy1 : sy < (h : Rat) - 1 / 2) (j i : Nat)
    (hj : j < downRows (rangeMiny sy N) (rangeMaxy h sy N) (i32 N))
    (hi : i < downCols w sx (i32 N)) :
    (downMinx sx (i32 N) + i * downInc (i32 N)).toNat < w
    ∧ (rangeMiny sy N + j * downInc (i32 N)).toNat < h
    ∧ downSample stride sx (rangeMiny sy N) (i32 N) j i
        = (rangeMiny sy N + j * downInc (i32 N)).toNat * stride
          + (downMinx sx (i32 N) + i * downInc (i32 N)).toNat := by
  obtain ⟨hinc, ⟨hy_0, hy_1, hy_2⟩, ⟨hx_0, hx_1, hx_2⟩⟩ :=
    window_facts w h N sx sy hN hNw hNh hx0 hx1 hy0 hy1
  have hpos : 0 < downInc (i32 N) := by rw [hinc]; omega
  have hj2 := (steps_iff _ _ _ hpos j).mp hj
  have hi2 := (steps_iff _ _ _ hpos i).mp hi
  unfold downSample
  rw [hinc] at hj2 hi2 ⊢
  generalize rangeMiny sy N = miny at *
  generalize rangeMaxy h sy N = maxy at *
  generalize downMinx sx (i32 N) = minx at *
  generalize downMaxx w sx (i32 N) = maxx at *
  generalize N / 2 + 1 = k at hj2 hi2 hs2 ⊢
  lift miny to ℕ using hy_0 with m
  lift minx to ℕ using hx_0 with a
  have hjn : m + j * k < h := by
    have : ((m + j * k : Nat) : Int) < h := by
      push_cast
      linarith
    exact_mod_cast this
  have hin : a + i * k < w := by
    have : ((a + i * k : Nat) : Int) < w := by
      push_cast
      linarith
    exact_mod_cast this
  have hm : m < h := lt_of_le_of_lt (Nat.le_add_right _ _) hjn
  have f1 : m * stride < 4294967296 :=
    lt_of_le_of_lt (Nat.mul_le_mul_right _ (Nat.le_of_lt hm)) hs1
  have f2 : stride * k < 4294967296 := by
    rw [Nat.mul_comm]
    exact hs2
  have e1 : u32 ((m : Int) * (stride : Int)) = m * stride := by
    have e : ((m : Int) * (stride : Int)) = ((m * stride : Nat) : Int) := by push_cast; ring
    rw [e, u32_natCast _ f1]
  have e2 : u32 ((stride : Int) * (k : Int)) = stride * k := by
    have e : ((stride : Int) * (k : Int)) = ((stride * k : Nat) : Int) := by push_cast; ring
    rw [e, u32_natCast _ f2]
  have ex : ((a : Int) + (i : Int) * (k : Int)) = ((a + i * k : Nat) : Int) := by push_cast; ring
  have ey : ((m : Int) + (j : Int) * (k : Int)) = ((m + j * k : Nat) : Int) := by push_cast; ring
  have e3 : ((a : Int) + ((m * stride : Nat) : Int)
      + (j : Int) * ((stride * k : Nat) : Int)
      + (i : Int) * (k : Int))
      = (((m + j * k) * stride + (a + i * k) : Nat) : Int) := by
    push_cast
    ring
  rw [e1, e2, ex, ey, e3]
  simp only [Int.toNat_natCast]
  exact ⟨hin, hjn, trivial⟩

/-- C36: let `sx`, `sy` pass the range guards of a `w × h` image (`-0.5 < sx < w - 0.5`,
`-0.5 < sy < h - 0.5`), let the sample size `N` be at least 1 (with `N + w`, `N + h` below 2³¹
and the row offsets below 2³²), and let `miny`, `maxy` be the rows the macro
`SCALED_IMAGE_RANGE_Y` computes. Then `_interpDownScaler` returns the pixel whose channels are
the sums, over its `downRows` row passes and `downCols` column passes, of the channels of the
cells `downSample` it reads, divided by the count `n = downRows * downCols` of the cells
visited; the step is positive and there is at least one row pass and one column pass, so the
divisor is not zero; the cell read in pass `(j, i)` is the cell `y * stride + x` of the pixel
`x = minx + i * inc`, `y = miny + j * inc`, which has `x < w` and `y < h`; and the result is the
same for every image buffer that holds the same values in the cells of the pixels with `x < w`
and `y < h`, so no other cell is read. The macro hands on these rows for every row in range,
and `_sampleSize` is at least 1. -/
theorem interpDownScaler_window (img : Mem) (stride w h N : Nat) (sx sy : Rat)
    (hN : 1 ≤ N) (hNw : N + w < 2147483648) (hNh : N + h < 2147483648)
    (hs1 : h * stride < 4294967296) (hs2 : (N / 2 + 1) * stride < 4294967296)
    (hx0 : -(1 / 2) < sx) (hx1 : sx < (w : Rat) - 1 / 2)
    (hy0 : -(1 / 2) < sy) (hy1 : sy < (h : Rat) - 1 / 2) :
    _interpDownScaler img stride w h sx sy (rangeMiny sy N) (rangeMaxy h sy N) (i32 N)
      = some (JOIN
          ((∑ j in Finset.range (downRows (rangeMiny sy N) (rangeMaxy h sy N) (i32 N)),
              ∑ i in Finset.range (downCols w sx (i32 N)),
                A (img.read32 (downSample stride sx (rangeMiny sy N) (i32 N) j i)))
            / (downRows (rangeMiny sy N) (rangeMaxy h sy N) (i32 N) * downCols w sx (i32 N)))
          ((∑ j in Finset.range (downRows (rangeMiny sy N) (rangeMaxy h sy N) (i32 N)),
              ∑ i in Finset.range (downCols w sx (i32 N)),
                C1 (img.read32 (downSample stride sx (rangeMiny sy N) (i32 N) j i)))
            / (downRows (rangeMiny sy N) (rangeMaxy h sy N) (i32 N) * downCols w sx (i32 N)))
          ((∑ j in Finset.range (downRows (rangeMiny sy N) (rangeMaxy h sy N) (i32 N)),
              ∑ i in Finset.range (downCols w sx (i32 N)),
                C2 (img.read32 (downSample stride sx (rangeMiny sy N) (i32 N) j i)))
            / (downRows (rangeMiny sy N) (rangeMaxy h sy N) (i32 N) * downCols w sx (i32 N)))
          ((∑ j in Finset.range (downRows (rangeMiny sy N) (rangeMaxy h sy N) (i32 N)),
              ∑ i in Finset.range (downCols w sx (i32 N)),
                C3 (img.read32 (downSample stride sx (rangeMiny sy N) (i32 N) j i)))
            / (downRows (rangeMiny sy N) (rangeMaxy h sy N) (i32 N) * downCols w sx (i32 N))))
    ∧ (0 < downInc (i32 N)
      ∧ 0 < downRows (rangeMiny sy N) (rangeMaxy h sy N) (i32 N)
      ∧ 0 < downCols w sx (i32 N)
      ∧ downRows (rangeMiny sy N) (rangeMaxy h sy N) (i32 N) * downCols w sx (i32 N) ≠ 0)
    ∧ (∀ j i, j < downRows (rangeMiny sy N) (rangeMaxy h sy N) (i32 N) →
        i < downCols w sx (i32 N) →
        (downMinx sx (i32 N) + i * downInc (i32 N)).toNat < w
        ∧ (rangeMiny sy N + j * downInc (i32 N)).toNat < h
        ∧ downSample stride sx (rangeMiny sy N) (i32 N) j i
            = (rangeMiny sy N + j * downInc (i32 N)).toNat * stride
              + (downMinx sx (i32 N) + i * downInc (i32 N)).toNat)
    ∧ (∀ img2 : Mem,
        (∀ x y, x < w → y < h → img2.read32 (y * stride + x) = img.read32 (y * stride + x)) →
        _interpDownScaler img2 stride w h sx sy (rangeMiny sy N) (rangeMaxy h sy N) (i32 N)
          = _interpDownScaler img stride w h sx sy (rangeMiny sy N) (rangeMaxy h sy N) (i32 N))
    ∧ (∀ (itransform : Matrix) (image : SwImage) (y : Int),
        scaledSy itransform y + 1 / 2 < 4294967296 →
        ¬ outOfRange (scaledSy itransform y) image.h →
        SCALED_IMAGE_RANGE_Y itransform image true N y
          = some (scaledSy itransform y, rangeMiny (scaledSy itransform y) N,
              rangeMaxy image.h (scaledSy itransform y) N))
    ∧ (∀ scale, 1 ≤ _sampleSize scale) := by
  obtain ⟨hinc, ⟨_, hy_1, _⟩, ⟨_, hx_1, _⟩⟩ :=
    window_facts w h N sx sy hN hNw hNh hx0 hx1 hy0 hy1
  have hpos : 0 < downInc (i32 N) := by rw [hinc]; omega
  have hrows : 0 < downRows (rangeMiny sy N) (rangeMaxy h sy N) (i32 N) :=
    steps_pos _ _ _ hpos hy_1
  have hcols : 0 < downCols w sx (i32 N) := steps_pos _ _ _ hpos hx_1
  have hn : downRows (rangeMiny sy N) (rangeMaxy h sy N) (i32 N) * downCols w sx (i32 N) ≠ 0 :=
    Nat.pos_iff_ne_zero.mp (Nat.mul_pos hrows hcols)
  have hpix := downSample_pixel stride w h N sx sy hN hNw hNh hs1 hs2 hx0 hx1 hy0 hy1
  refine ⟨interpDownScaler_eq img stride w h sx sy _ _ _ hpos hn, ⟨hpos, hrows, hcols, hn⟩,
    hpix, ?_, ?_, ?_⟩
  · intro img2 hagree
    have key : ∀ j ∈ Finset.range (downRows (rangeMiny sy N) (rangeMaxy h sy N) (i32 N)),
        ∀ i ∈ Finset.range (downCols w sx (i32 N)),
          img2.read32 (downSample stride sx (rangeMiny sy N) (i32 N) j i)
            = img.read32 (downSample stride sx (rangeMiny sy N) (i32 N) j i) := by
      intro j hj i hi
      obtain ⟨hx, hy, e⟩ := hpix j i (Finset.mem_range.mp hj) (Finset.mem_range.mp hi)
      rw [e]
      exact hagree _ _ hx hy
    have sums : ∀ f : Nat → Nat,
        (∑ j in Finset.range (downRows (rangeMiny sy N) (rangeMaxy h sy N) (i32 N)),
          ∑ i in Finset.range (downCols w sx (i32 N)),
            f (img2.read32 (downSample stride sx (rangeMiny sy N) (i32 N) j i)))
        = ∑ j in Finset.range (downRows (rangeMiny sy N) (rangeMaxy h sy N) (i32 N)),
          ∑ i in Finset.range (downCols w sx (i32 N)),
            f (img.read32 (downSample stride sx (rangeMiny sy N) (i32 N) j i)) :=
      fun f => Finset.sum_congr rfl (fun j hj => Finset.sum_congr rfl (fun i hi => by
        rw [key j hj i hi]))
    rw [interpDownScaler_eq img2 stride w h sx sy _ _ _ hpos hn,
      interpDownScaler_eq img stride w h sx sy _ _ _ hpos hn,
      sums A, sums C1, sums C2, sums C3]
  · intro itransform image y hfit hin
    exact range_Y_some_down itransform image N y hfit hin
  · intro scale
    unfold _sampleSize
    simp only
    split <;> omega

/-- C36 on the 4x4 gray image (stride 4) sampled at `sx = sy = 3/2` with the sample size 2:
the step is positive, there is at least one row pass and one column pass, the function
returns a pixel, every cell read is the cell of a pixel with `x < 4` and `y < 4`, and the
result is the same for every buffer that agrees with the image on those 16 cells. -/
theorem interpDownScaler_window_witness :
    (0 < downInc (i32 ((2 : Nat) : Int))
      ∧ 0 < downRows (rangeMiny (3 / 2) 2) (rangeMaxy 4 (3 / 2) 2) (i32 ((2 : Nat) : Int))
      ∧ 0 < downCols 4 (3 / 2) (i32 ((2 : Nat) : Int))
      ∧ downRows (rangeMiny (3 / 2) 2) (rangeMaxy 4 (3 / 2) 2) (i32 ((2 : Nat) : Int))
          * downCols 4 (3 / 2) (i32 ((2 : Nat) : Int)) ≠ 0)
    ∧ (∃ r, _interpDownScaler grayImage 4 4 4 (3 / 2) (3 / 2) (rangeMiny (3 / 2) 2)
        (rangeMaxy 4 (3 / 2) 2) (i32 ((2 : Nat) : Int)) = some r)
    ∧ (∀ j i, j < downRows (rangeMiny (3 / 2) 2) (rangeMaxy 4 (3 / 2) 2) (i32 ((2 : Nat) : Int)) →
        i < downCols 4 (3 / 2) (i32 ((2 : Nat) : Int)) →
        (downMinx (3 / 2) (i32 ((2 : Nat) : Int))
            + i * downInc (i32 ((2 : Nat) : Int))).toNat < 4
        ∧ (rangeMiny (3 / 2) 2 + j * downInc (i32 ((2 : Nat) : Int))).toNat < 4
        ∧ downSample 4 (3 / 2) (rangeMiny (3 / 2) 2) (i32 ((2 : Nat) : Int)) j i
            = (rangeMiny (3 / 2) 2 + j * downInc (i32 ((2 : Nat) : Int))).toNat * 4
              + (downMinx (3 / 2) (i32 ((2 : Nat) : Int))
                  + i * downInc (i32 ((2 : Nat) : Int))).toNat)
    ∧ (∀ img2 : Mem,
        (∀ x y, x < 4 → y < 4 →
          img2.read32 (y * 4 + x) = grayImage.read32 (y * 4 + x)) →
        _interpDownScaler img2 4 4 4 (3 / 2) (3 / 2) (rangeMiny (3 / 2) 2)
            (rangeMaxy 4 (3 / 2) 2) (i32 ((2 : Nat) : Int))
          = _interpDownScaler grayImage 4 4 4 (3 / 2) (3 / 2) (rangeMiny (3 / 2) 2)
            (rangeMaxy 4 (3 / 2) 2) (i32 ((2 : Nat) : Int))) :=
  have t := interpDownScaler_window grayImage 4 4 4 2 (3 / 2) (3 / 2) (by decide) (by decide)
    (by decide) (by decide) (by decide) (by norm_num) (by norm_num) (by norm_num) (by norm_num)
  ⟨t.2.1, ⟨_, t.1⟩, t.2.2.1, t.2.2.2.1⟩

end SwRaster
